import Mathlib

/-!
Verification of the pack micro-kernel and of the common transform extensions.

Shallow embedding of

* `runtime/src/iree/builtins/ukernel/pack.c`
* `compiler/src/iree/compiler/Codegen/Common/TransformExtensions/CommonExtensions.cpp`

The first part of the file holds the definitions (the embedding of the code and the
vocabulary the statements need), the second part the lemmas and theorems.
-/

namespace Spec2Proof

/-! ## Part I. Definitions -/

/-! ### pack.c -/

/-- Byte addressed memory: one flat address space, every cell holds one `char`.
Pointers are addresses; two buffers may overlap. -/
abbrev Memory := Int → Nat

/-- Status codes returned by the micro-kernel (those that pack.c uses). -/
inductive iree_ukernel_status_t where
  | ok
  | bad_type
  | bad_flags
  | unsupported_huge_or_negative_dimension
deriving DecidableEq, Repr

/-- Element type tag. The three enumerators named in pack.c, and `other` for any
other value the C enum object may hold. -/
inductive iree_ukernel_pack_type_t where
  | f32f32
  | i8i8
  | i32i32
  | other (tag : Nat)
deriving DecidableEq, Repr

/-- Modelled from the spec: pack.h is not among the sources; the two transpose
flags are two independent (distinct, single bit) flags of the `flags` word.
This is the inner-pair swap. -/
def IREE_UKERNEL_FLAG_PACK_TRANSPOSE_INNER : Nat := 1

/-- Modelled from the spec: pack.h is not among the sources; the two transpose
flags are two independent (distinct, single bit) flags of the `flags` word.
This is the outer-pair swap. -/
def IREE_UKERNEL_FLAG_PACK_TRANSPOSE_OUTER : Nat := 2

/-- The fields of `iree_ukernel_pack_params_t` that pack.c reads. `flags` is a
`uint32_t` (a natural number below `2 ^ 32`), the sizes and strides are values of
`iree_ukernel_ssize_t` (a signed 64-bit integer; every result of the arithmetic on
them is reduced by `ssize_wrap`), the three pointers are byte addresses of 64 bits
(every result of the address arithmetic is reduced by `ptr_wrap`). -/
structure iree_ukernel_pack_params_t where
  type : iree_ukernel_pack_type_t
  flags : Nat
  in_buffer : Int
  out_buffer : Int
  in_stride0 : Int
  out_stride0 : Int
  in_size0 : Int
  in_size1 : Int
  out_size0 : Int
  out_size1 : Int
  out_size2 : Int
  out_size3 : Int
  padding_value : Int

/-- The C expression `~allflags` on `uint32_t`. -/
def uint32_not (x : Nat) : Nat := 2 ^ 32 - 1 - x % 2 ^ 32

/-- Embedding of `iree_ukernel_pack_validate` (pack.c, lines 9-30). -/
def iree_ukernel_pack_validate (params : iree_ukernel_pack_params_t) :
    iree_ukernel_status_t :=
  let allflags : Nat := IREE_UKERNEL_FLAG_PACK_TRANSPOSE_INNER |||
                        IREE_UKERNEL_FLAG_PACK_TRANSPOSE_OUTER
  if params.flags &&& uint32_not allflags ≠ 0 then
    iree_ukernel_status_t.bad_flags
  else
    match params.type with
    | iree_ukernel_pack_type_t.other _ => iree_ukernel_status_t.bad_type
    | iree_ukernel_pack_type_t.f32f32
    | iree_ukernel_pack_type_t.i8i8
    | iree_ukernel_pack_type_t.i32i32 =>
      if params.in_stride0 < 0 ∨ params.out_stride0 < 0 ∨
          params.in_size0 < 0 ∨ params.in_size1 < 0 ∨ params.out_size0 < 0 ∨
          params.out_size1 < 0 ∨ params.out_size2 < 0 ∨ params.out_size3 < 0 then
        iree_ukernel_status_t.unsupported_huge_or_negative_dimension
      else
        iree_ukernel_status_t.ok

/-- Embedding of `iree_ukernel_ssize_swap`: the two cells after the swap. -/
def iree_ukernel_ssize_swap (a b : Int) : Int × Int := (b, a)

/-- Iterations `0, 1, ..., k - 1` of a loop body, in that order. -/
def forLoopAux {σ : Type} (body : Int → σ → σ) : Nat → σ → σ
  | 0, s => s
  | k + 1, s => body (k : Int) (forLoopAux body k s)

/-- The C loop `for (iree_ukernel_ssize_t i = 0; i < n; ++i) body(i)` as a state
transformer; it runs no iteration when `n ≤ 0`. -/
def forLoop {σ : Type} (n : Int) (body : Int → σ → σ) (s : σ) : σ :=
  forLoopAux body n.toNat s

/-- The type `iree_ukernel_ssize_t` is declared in a header that is not among the
sources; it is the signed 64-bit integer type. This is the value that an object of
that type holds for the mathematical result `x` of an operation: the representative
of `x` modulo `2 ^ 64` in `[-2 ^ 63, 2 ^ 63)` (two's complement wrap-around, what
the compiled code computes; the C standard leaves signed overflow undefined).
Reduction modulo `2 ^ 64` commutes with sums and products, so the reduction of a
whole expression is the value obtained by reducing after each operation. -/
def ssize_wrap (x : Int) : Int := (x + 2 ^ 63) % 2 ^ 64 - 2 ^ 63

/-- The address that a 64-bit pointer holds for the mathematical result `a` of an
address computation: `a` modulo `2 ^ 64`, in `[0, 2 ^ 64)`. -/
def ptr_wrap (a : Int) : Int := a % 2 ^ 64

/-- Embedding of `iree_ukernel_memcpy` (pack.c, lines 39-42): a forward byte by
byte copy, `dst[i] = src[i]`, each byte read from the current memory. -/
def iree_ukernel_memcpy (dst src size : Int) (mem : Memory) : Memory :=
  forLoop size
    (fun i m => Function.update m (ptr_wrap (dst + i)) (m (ptr_wrap (src + i)))) mem

/-- The body of the innermost loop of `iree_ukernel_pack` (pack.c, lines 72-85). -/
def pack_loop_body (params : iree_ukernel_pack_params_t) (elem_size : Int)
    (lsize2 lsize3 out_stride_l0 out_stride_l1 out_stride_l2 out_stride_l3 : Int)
    (l0 l2 l1 l3 : Int) (mem : Memory) : Memory :=
  let out_offset :=
    ssize_wrap (l0 * out_stride_l0 + l2 * out_stride_l2 + l1 * out_stride_l1 +
      l3 * out_stride_l3)
  let i0 := ssize_wrap (l0 * lsize2 + l2)
  let i1 := ssize_wrap (l1 * lsize3 + l3)
  let out_ptr := ptr_wrap (params.out_buffer + ssize_wrap (out_offset * elem_size))
  if i0 ≥ params.in_size0 ∨ i1 ≥ params.in_size1 then
    iree_ukernel_memcpy out_ptr params.padding_value elem_size mem
  else
    let in_offset := ssize_wrap (i1 + i0 * params.in_stride0)
    let in_ptr := ptr_wrap (params.in_buffer + ssize_wrap (in_offset * elem_size))
    iree_ukernel_memcpy out_ptr in_ptr elem_size mem

/-- The four nested loops of `iree_ukernel_pack` (pack.c, lines 68-89), in the
order of the source: `l0`, `l2`, `l1`, `l3`. -/
def pack_loop_nest (params : iree_ukernel_pack_params_t) (elem_size : Int)
    (lsize0 lsize1 lsize2 lsize3 : Int)
    (out_stride_l0 out_stride_l1 out_stride_l2 out_stride_l3 : Int)
    (mem : Memory) : Memory :=
  forLoop lsize0 (fun l0 =>
    forLoop lsize2 (fun l2 =>
      forLoop lsize1 (fun l1 =>
        forLoop lsize3 (fun l3 =>
          pack_loop_body params elem_size lsize2 lsize3
            out_stride_l0 out_stride_l1 out_stride_l2 out_stride_l3
            l0 l2 l1 l3)))) mem

/-- Embedding of `iree_ukernel_pack` (pack.c, lines 44-91). It returns the status
and the memory after the call. `iree_ukernel_pack_elem_size` comes from a header
that is not among the sources; it is the parameter `elem_size_of`.
`IREE_UKERNEL_RETURN_IF_ERROR` returns the status at once when it is not `ok`. -/
def iree_ukernel_pack (elem_size_of : iree_ukernel_pack_type_t → Int)
    (params : iree_ukernel_pack_params_t) (mem : Memory) :
    iree_ukernel_status_t × Memory :=
  match iree_ukernel_pack_validate params with
  | iree_ukernel_status_t.ok =>
    if params.out_size0 = 0 ∨ params.out_size1 = 0 ∨
        params.out_size2 = 0 ∨ params.out_size3 = 0 then
      (iree_ukernel_status_t.ok, mem)
    else
      let elem_size := elem_size_of params.type
      let lsize0 := params.out_size0
      let lsize1 := params.out_size1
      let lsize2 := params.out_size2
      let lsize3 := params.out_size3
      let out_stride_l0 := params.out_stride0
      let out_stride_l1 := ssize_wrap (params.out_size3 * params.out_size2)
      let out_stride_l2 := params.out_size3
      let out_stride_l3 : Int := 1
      let outer := params.flags &&& IREE_UKERNEL_FLAG_PACK_TRANSPOSE_OUTER ≠ 0
      let s01 := if outer then iree_ukernel_ssize_swap lsize0 lsize1 else (lsize0, lsize1)
      let t01 := if outer then iree_ukernel_ssize_swap out_stride_l0 out_stride_l1
                 else (out_stride_l0, out_stride_l1)
      let inner := params.flags &&& IREE_UKERNEL_FLAG_PACK_TRANSPOSE_INNER ≠ 0
      let s23 := if inner then iree_ukernel_ssize_swap lsize2 lsize3 else (lsize2, lsize3)
      let t23 := if inner then iree_ukernel_ssize_swap out_stride_l2 out_stride_l3
                 else (out_stride_l2, out_stride_l3)
      (iree_ukernel_status_t.ok,
        pack_loop_nest params elem_size s01.1 s01.2 s23.1 s23.2
          t01.1 t01.2 t23.1 t23.2 mem)
  | status => (status, mem)

/-- The copy of `iree_ukernel_memcpy` in exact integer arithmetic, without
wrap-around. It is what `iree_ukernel_memcpy` does when no address leaves
`[0, 2 ^ 64)` (`iree_ukernel_memcpy_eq_exact`); the proofs go through it. -/
def iree_ukernel_memcpy_exact (dst src size : Int) (mem : Memory) : Memory :=
  forLoop size (fun i m => Function.update m (dst + i) (m (src + i))) mem

/-- The loop body of `pack_loop_body` in exact integer arithmetic, without
wrap-around. It is what `pack_loop_body` does when nothing overflows
(`pack_loop_body_eq_exact`); the proofs go through it. -/
def pack_loop_body_exact (params : iree_ukernel_pack_params_t) (elem_size : Int)
    (lsize2 lsize3 out_stride_l0 out_stride_l1 out_stride_l2 out_stride_l3 : Int)
    (l0 l2 l1 l3 : Int) (mem : Memory) : Memory :=
  let out_offset :=
    l0 * out_stride_l0 + l2 * out_stride_l2 + l1 * out_stride_l1 +
    l3 * out_stride_l3
  let i0 := l0 * lsize2 + l2
  let i1 := l1 * lsize3 + l3
  let out_ptr := params.out_buffer + out_offset * elem_size
  if i0 ≥ params.in_size0 ∨ i1 ≥ params.in_size1 then
    iree_ukernel_memcpy_exact out_ptr params.padding_value elem_size mem
  else
    let in_offset := i1 + i0 * params.in_stride0
    let in_ptr := params.in_buffer + in_offset * elem_size
    iree_ukernel_memcpy_exact out_ptr in_ptr elem_size mem

/-- The loop nest of `pack_loop_nest` in exact integer arithmetic, without
wrap-around (`pack_loop_nest_eq_exact`); the proofs go through it. -/
def pack_loop_nest_exact (params : iree_ukernel_pack_params_t) (elem_size : Int)
    (lsize0 lsize1 lsize2 lsize3 : Int)
    (out_stride_l0 out_stride_l1 out_stride_l2 out_stride_l3 : Int)
    (mem : Memory) : Memory :=
  forLoop lsize0 (fun l0 =>
    forLoop lsize2 (fun l2 =>
      forLoop lsize1 (fun l1 =>
        forLoop lsize3 (fun l3 =>
          pack_loop_body_exact params elem_size lsize2 lsize3
            out_stride_l0 out_stride_l1 out_stride_l2 out_stride_l3
            l0 l2 l1 l3)))) mem

/-- Memory `m` agrees with `mem0` at every address outside the set `W`. -/
def AgreesOutside (W : Int → Prop) (mem0 m : Memory) : Prop :=
  ∀ a, ¬ W a → m a = mem0 a

/-- Bytes of the output buffer: byte `k` of the element at the physical position
`(d0, d1, d2, d3)`, whose offset is
`d0 * out_stride0 + d1 * out_size2 * out_size3 + d2 * out_size3 + d3`. -/
def OutBufferAddr (p : iree_ukernel_pack_params_t) (es : Int) (a : Int) : Prop :=
  ∃ d0 d1 d2 d3 k : Int, 0 ≤ d0 ∧ d0 < p.out_size0 ∧ 0 ≤ d1 ∧ d1 < p.out_size1 ∧
    0 ≤ d2 ∧ d2 < p.out_size2 ∧ 0 ≤ d3 ∧ d3 < p.out_size3 ∧ 0 ≤ k ∧ k < es ∧
    a = p.out_buffer +
      (d0 * p.out_stride0 + d1 * p.out_size2 * p.out_size3 + d2 * p.out_size3 + d3) * es + k

/-- Bytes of the input buffer: byte `k` of the source element `(i0, i1)`, whose
offset is `i0 * in_stride0 + i1`. -/
def InBufferAddr (p : iree_ukernel_pack_params_t) (es : Int) (a : Int) : Prop :=
  ∃ i0 i1 k : Int, 0 ≤ i0 ∧ i0 < p.in_size0 ∧ 0 ≤ i1 ∧ i1 < p.in_size1 ∧
    0 ≤ k ∧ k < es ∧ a = p.in_buffer + (i0 * p.in_stride0 + i1) * es + k

/-- Bytes of the padding value. -/
def PaddingAddr (p : iree_ukernel_pack_params_t) (es : Int) (a : Int) : Prop :=
  ∃ k : Int, 0 ≤ k ∧ k < es ∧ a = p.padding_value + k

/-- The output buffer is disjoint from the input buffer and from the padding value. -/
def BuffersDisjoint (p : iree_ukernel_pack_params_t) (es : Int) : Prop :=
  ∀ a, OutBufferAddr p es a → ¬ InBufferAddr p es a ∧ ¬ PaddingAddr p es a

/-- The contract of the pack kernel, following the words of its specification: the
value that byte `k` of the destination element at the physical position
`(d0, d1, d2, d3)` must hold, read in the memory `mem` before the call. The logical
tile indices are `(l0, l1) = (d1, d0)` if TRANSPOSE_OUTER is set and `(d0, d1)`
otherwise, `(l2, l3) = (d3, d2)` if TRANSPOSE_INNER is set and `(d2, d3)` otherwise;
the source element is `(i0, i1) = (l0 * L2 + l2, l1 * L3 + l3)` with
`(L2, L3) = (out_size3, out_size2)` if TRANSPOSE_INNER is set and
`(out_size2, out_size3)` otherwise; outside the source extents the value is the
padding value. -/
def pack_contract_value (p : iree_ukernel_pack_params_t) (es : Int) (mem : Memory)
    (d0 d1 d2 d3 k : Int) : Nat :=
  let outer := p.flags &&& IREE_UKERNEL_FLAG_PACK_TRANSPOSE_OUTER ≠ 0
  let inner := p.flags &&& IREE_UKERNEL_FLAG_PACK_TRANSPOSE_INNER ≠ 0
  let l0 := if outer then d1 else d0
  let l1 := if outer then d0 else d1
  let l2 := if inner then d3 else d2
  let l3 := if inner then d2 else d3
  let L2 := if inner then p.out_size3 else p.out_size2
  let L3 := if inner then p.out_size2 else p.out_size3
  let i0 := l0 * L2 + l2
  let i1 := l1 * L3 + l3
  if i0 ≥ p.in_size0 ∨ i1 ≥ p.in_size1 then
    mem (p.padding_value + k)
  else
    mem (p.in_buffer + (i0 * p.in_stride0 + i1) * es + k)

/-- Example parameters: a 2x3 source of one byte elements at address 0 (row stride 3)
packed without transposition into 2x3 tiles of 1x1 at address 100, padding byte
at address 50. -/
def pack_example_params : iree_ukernel_pack_params_t :=
  { type := iree_ukernel_pack_type_t.i8i8, flags := 0,
    in_buffer := 0, out_buffer := 100, in_stride0 := 3, out_stride0 := 3,
    in_size0 := 2, in_size1 := 3, out_size0 := 2, out_size1 := 3,
    out_size2 := 1, out_size3 := 1, padding_value := 50 }

/-- Example memory: cell `a` holds `a + 7` for `0 ≤ a`, and `0` below. -/
def pack_example_mem : Memory := fun a => if 0 ≤ a then a.toNat + 7 else 0

/-- Example element sizes in bytes. -/
def pack_example_elem_size : iree_ukernel_pack_type_t → Int
  | iree_ukernel_pack_type_t.f32f32 => 4
  | iree_ukernel_pack_type_t.i8i8 => 1
  | iree_ukernel_pack_type_t.i32i32 => 4
  | iree_ukernel_pack_type_t.other _ => 0

/-- Example parameters with overlapping buffers: the transposition (TRANSPOSE_OUTER)
of a 2x3 source of one byte elements into 3x2 tiles of 1x1, in place: the output
buffer is the input buffer. -/
def pack_inplace_params : iree_ukernel_pack_params_t :=
  { type := iree_ukernel_pack_type_t.i8i8, flags := 2,
    in_buffer := 0, out_buffer := 0, in_stride0 := 3, out_stride0 := 2,
    in_size0 := 2, in_size1 := 3, out_size0 := 3, out_size1 := 2,
    out_size2 := 1, out_size3 := 1, padding_value := 50 }

/-- Example parameters with both transpose flags set: a 2x3 source of one byte
elements at address 0 (row stride 3), an output of sizes (2, 1, 1, 2) at address 100
with outer stride 2, padding byte at address 50. -/
def pack_transposed_params : iree_ukernel_pack_params_t :=
  { type := iree_ukernel_pack_type_t.i8i8, flags := 3,
    in_buffer := 0, out_buffer := 100, in_stride0 := 3, out_stride0 := 2,
    in_size0 := 2, in_size1 := 3, out_size0 := 2, out_size1 := 1,
    out_size2 := 1, out_size3 := 2, padding_value := 50 }

/-- The flags word has no bit outside TRANSPOSE_INNER and TRANSPOSE_OUTER. -/
def PackFlagsValid (p : iree_ukernel_pack_params_t) : Prop :=
  ∀ i : Nat, p.flags.testBit i = true →
    (IREE_UKERNEL_FLAG_PACK_TRANSPOSE_INNER ||| IREE_UKERNEL_FLAG_PACK_TRANSPOSE_OUTER).testBit i
      = true

/-- The type is one of f32f32, i8i8, i32i32. -/
def PackTypeValid (p : iree_ukernel_pack_params_t) : Prop :=
  p.type = iree_ukernel_pack_type_t.f32f32 ∨ p.type = iree_ukernel_pack_type_t.i8i8 ∨
    p.type = iree_ukernel_pack_type_t.i32i32

/-- None of the strides and sizes is negative. -/
def PackDimsValid (p : iree_ukernel_pack_params_t) : Prop :=
  0 ≤ p.in_stride0 ∧ 0 ≤ p.out_stride0 ∧ 0 ≤ p.in_size0 ∧ 0 ≤ p.in_size1 ∧
    0 ≤ p.out_size0 ∧ 0 ≤ p.out_size1 ∧ 0 ≤ p.out_size2 ∧ 0 ≤ p.out_size3

/-- The extent of the output buffer in elements: one more than the largest offset
`d0 * out_stride0 + d1 * out_size2 * out_size3 + d2 * out_size3 + d3` of a
destination element (when no size is 0 and
`out_stride0 ≥ out_size1 * out_size2 * out_size3`). -/
def pack_out_extent (p : iree_ukernel_pack_params_t) : Int :=
  (p.out_size0 - 1) * p.out_stride0 + p.out_size1 * p.out_size2 * p.out_size3

/-- The extent of the input buffer in elements: one more than the largest offset
`i0 * in_stride0 + i1` of a source element (when no size is 0). -/
def pack_in_extent (p : iree_ukernel_pack_params_t) : Int :=
  (p.in_size0 - 1) * p.in_stride0 + p.in_size1

/-- No offset of the kernel overflows `iree_ukernel_ssize_t`: both extents in
elements are below `2 ^ 63`. -/
def PackOffsetsFit (p : iree_ukernel_pack_params_t) : Prop :=
  pack_out_extent p < 2 ^ 63 ∧ pack_in_extent p < 2 ^ 63

/-- No offset and no address of the kernel overflows, for elements of `es` bytes:
the extents of the output and of the input buffer in bytes are below `2 ^ 63`, and
the output buffer, the input buffer and the padding value lie inside the address
space `[0, 2 ^ 64)`. -/
def PackNoOverflow (p : iree_ukernel_pack_params_t) (es : Int) : Prop :=
  pack_out_extent p * es < 2 ^ 63 ∧ pack_in_extent p * es < 2 ^ 63 ∧
  0 ≤ p.out_buffer ∧ p.out_buffer + pack_out_extent p * es ≤ 2 ^ 64 ∧
  0 ≤ p.in_buffer ∧ p.in_buffer + pack_in_extent p * es ≤ 2 ^ 64 ∧
  0 ≤ p.padding_value ∧ p.padding_value + es ≤ 2 ^ 64

/-- Example parameters with an overflow: two elements of four bytes (a 2x1 source at
address 0, row stride 1) packed without transposition into 2x1 tiles of 1x1 at
address 100 with the outer stride `2 ^ 62`, padding value at address 50. They pass
validation; the byte offset `1 * 2 ^ 62 * 4` of the second destination element is
`2 ^ 64`. -/
def pack_overflow_params : iree_ukernel_pack_params_t :=
  { type := iree_ukernel_pack_type_t.i32i32, flags := 0,
    in_buffer := 0, out_buffer := 100, in_stride0 := 1, out_stride0 := 2 ^ 62,
    in_size0 := 2, in_size1 := 1, out_size0 := 2, out_size1 := 1,
    out_size2 := 1, out_size3 := 1, padding_value := 50 }

/-- Example parameters with overflowing offsets: a 3x1 source with the row stride
`2 ^ 62` and an output of sizes (5, 1, 1, 1) with the outer stride `2 ^ 62`, both
flags clear. They pass validation. -/
def pack_huge_stride_params : iree_ukernel_pack_params_t :=
  { type := iree_ukernel_pack_type_t.i8i8, flags := 0,
    in_buffer := 0, out_buffer := 100, in_stride0 := 2 ^ 62, out_stride0 := 2 ^ 62,
    in_size0 := 3, in_size1 := 1, out_size0 := 5, out_size1 := 1,
    out_size2 := 1, out_size3 := 1, padding_value := 50 }

/-! ### CommonExtensions.cpp: dead allocations -/

/-- The kinds of payload operations that `allUsesAreStores` and
`eraseDeadAllocAndStores` tell apart; `Other` is any other operation (a load, a
call, ...). -/
inductive OpKind where
  | AllocOp
  | DeallocOp
  | TransferWriteOp
  | StoreOp
  | SubViewOp
  | Other
deriving DecidableEq, Repr

/-- A payload operation as these two functions see it: its identity, its kind and
`users`, the owners of the uses of its result in the order of `op->getUses()` (an
owner that uses the result twice is listed twice). The use-def chains below an
operation are finite and acyclic (single assignment), so they form a tree. -/
inductive Operation where
  | mk (id : Nat) (kind : OpKind) (users : List Operation)

/-- Identity of the operation. -/
def Operation.id : Operation → Nat
  | Operation.mk i _ _ => i

/-- Kind of the operation. -/
def Operation.kind : Operation → OpKind
  | Operation.mk _ k _ => k

/-- Owners of the uses of the result of the operation. -/
def Operation.users : Operation → List Operation
  | Operation.mk _ _ us => us

/-- The test `isa<memref::DeallocOp, vector::TransferWriteOp, memref::StoreOp>`. -/
def isaDeallocTransferWriteStore (k : OpKind) : Bool :=
  match k with
  | OpKind.DeallocOp => true
  | OpKind.TransferWriteOp => true
  | OpKind.StoreOp => true
  | _ => false

mutual
/-- Embedding of `allUsesAreStores` (CommonExtensions.cpp, lines 76-90). The second
argument is the caller's vector `uses`; the result is the returned flag and the
vector after the call. -/
def allUsesAreStores : Operation → List Operation → Bool × List Operation
  | Operation.mk _ _ users, uses =>
    match allUsesAreStoresLoop users [] with
    | none => (false, uses)
    | some opUses => (true, uses ++ opUses)
/-- The loop over `op->getUses()` of `allUsesAreStores`, with the local vector
`opUses`; `none` is the early `return false`. -/
def allUsesAreStoresLoop : List Operation → List Operation → Option (List Operation)
  | [], opUses => some opUses
  | useOp :: rest, opUses =>
    if isaDeallocTransferWriteStore useOp.kind then
      allUsesAreStoresLoop rest (opUses ++ [useOp])
    else if useOp.kind = OpKind.SubViewOp then
      match allUsesAreStores useOp opUses with
      | (true, opUses') => allUsesAreStoresLoop rest (opUses' ++ [useOp])
      | (false, _) => none
    else
      none
end

/-- The callback of the walk in `eraseDeadAllocAndStores`, run on one operation of
the walk: only `memref::AllocOp` operations are looked at. -/
def eraseDeadAllocAndStoresVisit (opToErase : List Operation) (op : Operation) :
    List Operation :=
  if op.kind = OpKind.AllocOp then
    match allUsesAreStores op opToErase with
    | (true, opToErase') => opToErase' ++ [op]
    | (false, opToErase') => opToErase'
  else
    opToErase

/-- Embedding of `eraseDeadAllocAndStores` (CommonExtensions.cpp, lines 94-104).
`walk` lists the operations nested in `parentOp` in the order of the walk; the result
is the vector `opToErase`, that is the operations erased, in the order in which
`rewriter.eraseOp` is called on them. -/
def eraseDeadAllocAndStores (walk : List Operation) : List Operation :=
  walk.foldl eraseDeadAllocAndStoresVisit []

/-- A user that `allUsesAreStores` accepts, in the words of the specification: a
store, a transfer-write, a deallocation, or a subview whose own users recursively
satisfy the same condition. -/
inductive WriteOnlyUser : Operation → Prop where
  | write (u : Operation) :
      (u.kind = OpKind.StoreOp ∨ u.kind = OpKind.TransferWriteOp ∨
        u.kind = OpKind.DeallocOp) → WriteOnlyUser u
  | subview (u : Operation) : u.kind = OpKind.SubViewOp →
      (∀ v, v ∈ u.users → WriteOnlyUser v) → WriteOnlyUser u

/-- The transitive users of an operation through subviews: its users, and the users
of every subview among its transitive users. -/
inductive TransitiveUser (root : Operation) : Operation → Prop where
  | direct (u : Operation) : u ∈ root.users → TransitiveUser root u
  | through (s u : Operation) : TransitiveUser root s → s.kind = OpKind.SubViewOp →
      u ∈ s.users → TransitiveUser root u

/-- Example: an allocation with a store, a subview that is stored to, and a
deallocation. -/
def dead_alloc_example : Operation :=
  Operation.mk 0 OpKind.AllocOp
    [Operation.mk 1 OpKind.StoreOp [],
     Operation.mk 2 OpKind.SubViewOp [Operation.mk 3 OpKind.TransferWriteOp []],
     Operation.mk 4 OpKind.DeallocOp []]

/-- Example: the same allocation with one additional read after an accepted
subview. -/
def live_alloc_example : Operation :=
  Operation.mk 0 OpKind.AllocOp
    [Operation.mk 1 OpKind.StoreOp [],
     Operation.mk 2 OpKind.SubViewOp [Operation.mk 3 OpKind.TransferWriteOp []],
     Operation.mk 5 OpKind.Other []]

/-- The operations reachable from the list `us` of users: the members of `us` and
the transitive users of the subviews among them. -/
def BelowUsers (us : List Operation) (o : Operation) : Prop :=
  o ∈ us ∨ ∃ s, s ∈ us ∧ s.kind = OpKind.SubViewOp ∧ TransitiveUser s o

/-! ### CommonExtensions.cpp: operand limit of the elementwise fusion -/

/-- An SSA value, by identity. -/
abbrev Value := Nat

/-- A payload operation as `addOperands` sees it: a `linalg::LinalgOp`, with its
destination-passing-style input operands and init operands, or any other operation
with its operands; and its results. -/
inductive PayloadOp where
  | linalgOp (dpsInputOperands dpsInitOperands results : List Value)
  | otherOp (operands results : List Value)
deriving DecidableEq, Repr

/-- The results of the operation. -/
def PayloadOp.results : PayloadOp → List Value
  | PayloadOp.linalgOp _ _ rs => rs
  | PayloadOp.otherOp _ rs => rs

/-- An `OpOperand`: the value it holds (`get()`), the operation defining that value
(`get().getDefiningOp()`, none for a block argument) and its owner
(`getOwner()`). -/
structure OpOperand where
  value : Value
  definingOp : Option PayloadOp
  owner : PayloadOp
deriving DecidableEq, Repr

/-- Embedding of `SetVector::insert`: the vector of a `SetVector<Value>` after inserting one
value; a value already present is not inserted again. -/
def SetVector.insert (s : List Value) (v : Value) : List Value :=
  if v ∈ s then s else s ++ [v]

/-- Embedding of `SetVector::insert(begin, end)`: the values of a range inserted in order. -/
def SetVector.insertRange (s : List Value) (vs : List Value) : List Value :=
  vs.foldl SetVector.insert s

/-- Embedding of `SetVector::remove`: the vector without the value. -/
def SetVector.remove (s : List Value) (v : Value) : List Value :=
  s.erase v

/-- Embedding of `addOperands` (CommonExtensions.cpp, lines 136-147): the operand
set after the call. -/
def addOperands (op : Option PayloadOp) (operandSet : List Value) : List Value :=
  match op with
  | none => operandSet
  | some (PayloadOp.linalgOp inputOperands _ _) =>
    SetVector.insertRange operandSet inputOperands
  | some (PayloadOp.otherOp operands _) =>
    SetVector.insertRange operandSet operands

/-- Embedding of `setFusedOpOperandLimit<limit>` (CommonExtensions.cpp, lines
149-162). The test `getNumResults() != 1` and the later `getResult(0)` are the one
match on the list of results. -/
def setFusedOpOperandLimit (limit : Nat) (fusedOperand : OpOperand) : Bool :=
  match fusedOperand.definingOp with
  | none => false
  | some producer =>
    let consumer := fusedOperand.owner
    let fusedOpOperands : List Value := []
    match producer.results with
    | [result0] =>
      let fusedOpOperands := addOperands (some consumer) fusedOpOperands
      let fusedOpOperands := SetVector.remove fusedOpOperands result0
      let fusedOpOperands := addOperands (some producer) fusedOpOperands
      decide (fusedOpOperands.length ≤ limit)
    | _ => false

/-- The input operands of an operation: the destination-passing-style inputs of a
linalg operation (an elementwise operation is one); for any other operation, all its
operands. -/
def PayloadOp.inputOperands : PayloadOp → List Value
  | PayloadOp.linalgOp inputOperands _ _ => inputOperands
  | PayloadOp.otherOp operands _ => operands

/-- The set of distinct input operands after fusion, in the words of the
specification: (input operands of the consumer, minus the result `r` of the
producer) union (input operands of the producer). -/
def fusedInputOperands (consumer producer : PayloadOp) (r : Value) : Finset Value :=
  (consumer.inputOperands.toFinset \ {r}) ∪ producer.inputOperands.toFinset

/-- Example: an elementwise producer with two inputs and one result. -/
def fusion_producer_example : PayloadOp := PayloadOp.linalgOp [10, 11] [12] [20]

/-- Example: an elementwise consumer of the result of the producer, twice, and of
one more value. -/
def fusion_consumer_example : PayloadOp := PayloadOp.linalgOp [20, 30, 20] [31] [40]

/-- Example: the operand of the consumer that holds the result of the producer. -/
def fusion_operand_example : OpOperand :=
  { value := 20, definingOp := some fusion_producer_example,
    owner := fusion_consumer_example }

/-- Example: an elementwise consumer with four inputs besides the result of the
producer. -/
def fusion_operand_over_limit : OpOperand :=
  { value := 20, definingOp := some fusion_producer_example,
    owner := PayloadOp.linalgOp [20, 30, 32, 33] [31] [40] }

/-- Example: an elementwise producer with one input and two results, and the operand
of a consumer that holds its first result. -/
def fusion_operand_two_results : OpOperand :=
  { value := 20, definingOp := some (PayloadOp.linalgOp [10] [11, 12] [20, 21]),
    owner := PayloadOp.linalgOp [20, 30] [31] [40] }

/-! ### CommonExtensions.cpp: lowering of a parallel loop to workgroups -/

/-- Modelled from the spec: the enumeration `gpu::Blocks` is declared outside the
sources; the design has three hardware block axes, x, y and z. -/
inductive Blocks where
  | DimX
  | DimY
  | DimZ
deriving DecidableEq, Repr

/-- Modelled from the spec: the ordinal of an axis (`static_cast<int64_t>` of the
enumerator): x = 0, y = 1, z = 2. -/
def Blocks.ordinal : Blocks → Int
  | Blocks.DimX => 0
  | Blocks.DimY => 1
  | Blocks.DimZ => 2

/-- A device mapping attribute of a parallel loop: a block axis
(`gpu::GPUBlockMappingAttr`), a thread axis, or any other attribute. -/
inductive Attribute where
  | GPUBlockMappingAttr (block : Blocks)
  | GPUThreadMappingAttr (thread : Nat)
  | other (tag : Nat)
deriving DecidableEq, Repr

/-- The test `llvm::isa<gpu::GPUBlockMappingAttr>`. -/
def Attribute.isaGPUBlockMappingAttr : Attribute → Bool
  | Attribute.GPUBlockMappingAttr _ => true
  | _ => false

/-- The expression `static_cast<int64_t>(llvm::cast<gpu::GPUBlockMappingAttr>(a).getBlock())`.
The cast is only run on block mapping attributes (step 0 refuses every other
mapping); on another attribute the value 0 stands for the failed assertion. -/
def Attribute.getBlock : Attribute → Int
  | Attribute.GPUBlockMappingAttr b => b.ordinal
  | _ => 0

/-- The fields of `scf::ForallOp` that steps 0 to 2 of `rewriteForallToWorkgroup`
read: the number of results, the mapping attribute if present, and the upper bounds
(`getUpperBound`), one per induction variable, values of an arbitrary type `α`. The
function reads neither the lower bounds nor the steps of the loop and does not test
`isNormalized()`; the upper bound of a dimension is its trip count when the loop is
normalized (`ForallDim`). -/
structure ForallOp (α : Type) where
  numResults : Nat
  mapping : Option (List Attribute)
  upperBound : List α

/-- The rank of the loop, `forallOp.getRank()`: its number of induction variables. -/
def ForallOp.getRank {α : Type} (forallOp : ForallOp α) : Nat :=
  forallOp.upperBound.length

/-- The errors emitted by step 0 of `rewriteForallToWorkgroup`. -/
inductive ForallToWorkgroupError where
  | onlyBufferized
  | rankAbove3
  | mappingMustBePresent
  | mappingMustBeBlock
deriving DecidableEq, Repr

/-- Step 1 of `rewriteForallToWorkgroup` (CommonExtensions.cpp, lines 505-517): the
loop over `{bX, bY, bZ}` that appends each axis missing from `blockMapping`, with
the value `one` as its number of blocks. -/
def completeBlockMapping {α : Type} (one : α) (blockMapping : List Attribute)
    (numBlocks : List α) : List Attribute × List α :=
  [Attribute.GPUBlockMappingAttr Blocks.DimX, Attribute.GPUBlockMappingAttr Blocks.DimY,
    Attribute.GPUBlockMappingAttr Blocks.DimZ].foldl
    (fun (st : List Attribute × List α) attr =>
      if attr ∈ st.1 then st else (st.1 ++ [attr], st.2 ++ [one]))
    (blockMapping, numBlocks)

/-- The comparator of step 2 (CommonExtensions.cpp, lines 519-524). -/
def blockComparator (a b : Attribute) : Bool :=
  decide (a.getBlock < b.getBlock)

/-- The helper `getValuesSortedByKey` of MLIR (StaticValueUtils): the values
reordered by sorting their indices with `compare` on the matching keys; the values
unchanged when there is no key. The helper asserts that there are as many keys as
values; an index without a key would take the attribute `other 0`. -/
def getValuesSortedByKey {α : Type} (keys : List Attribute) (values : List α)
    (compare : Attribute → Attribute → Bool) : List α :=
  if keys.isEmpty then values
  else
    let indices := List.range values.length
    let key := fun i => keys.getD i (Attribute.other 0)
    let sorted := indices.insertionSort (fun i j => compare (key i) (key j) = true)
    sorted.filterMap (fun i => values.get? i)

/-- What steps 1 and 2 of `rewriteForallToWorkgroup` compute. -/
structure WorkgroupGrid (α : Type) where
  blockMapping : List Attribute
  numBlocks : List α
  gridDimValues : List α

/-- Embedding of steps 0 to 2 of `rewriteForallToWorkgroup` (CommonExtensions.cpp,
lines 476-526): the verifications, the completion of the mapping and the grid sizes
sorted by axis. `one` is the value of the constant index 1 that step 1 creates. -/
def rewriteForallToWorkgroupGrid {α : Type} (one : α) (forallOp : ForallOp α) :
    Except ForallToWorkgroupError (WorkgroupGrid α) :=
  if forallOp.numResults > 0 then
    Except.error ForallToWorkgroupError.onlyBufferized
  else if forallOp.getRank > 3 then
    Except.error ForallToWorkgroupError.rankAbove3
  else
    match forallOp.mapping with
    | none => Except.error ForallToWorkgroupError.mappingMustBePresent
    | some mapping =>
      if mapping.any (fun map => !map.isaGPUBlockMappingAttr) then
        Except.error ForallToWorkgroupError.mappingMustBeBlock
      else
        let completed := completeBlockMapping one mapping forallOp.upperBound
        let gridDimValues :=
          getValuesSortedByKey completed.1 completed.2 blockComparator
        Except.ok { blockMapping := completed.1, numBlocks := completed.2,
                    gridDimValues := gridDimValues }

/-- Example: a loop of rank 2 mapped to the axes (x, y) with trip counts (4, 7). -/
def forall_example : ForallOp Nat :=
  { numResults := 0,
    mapping := some [Attribute.GPUBlockMappingAttr Blocks.DimX,
      Attribute.GPUBlockMappingAttr Blocks.DimY],
    upperBound := [4, 7] }

/-- The bounds of one dimension of an `scf.forall` (an operation of MLIR, declared
outside the sources): the induction variable takes the values `lowerBound`,
`lowerBound + step`, ... below `upperBound`; the step is positive. -/
structure ForallDim where
  lowerBound : Int
  upperBound : Int
  step : Int
deriving DecidableEq, Repr

/-- The trip count of a dimension: the number of values that its induction variable
takes, the quotient of `upperBound - lowerBound` by `step` rounded up, and 0 when
the range is empty. -/
def ForallDim.tripCount (d : ForallDim) : Int :=
  if d.upperBound ≤ d.lowerBound then 0
  else (d.upperBound - d.lowerBound + d.step - 1) / d.step

/-- The test of `scf::ForallOp::isNormalized()` on one dimension: the lower bound is
0 and the step is 1. -/
def ForallDim.isNormalized (d : ForallDim) : Bool :=
  decide (d.lowerBound = 0) && decide (d.step = 1)

/-- Example: the same loop with one result (a loop on tensors). -/
def forall_with_result_example : ForallOp Nat :=
  { numResults := 1,
    mapping := some [Attribute.GPUBlockMappingAttr Blocks.DimX,
      Attribute.GPUBlockMappingAttr Blocks.DimY],
    upperBound := [4, 7] }

/-- Example: the dimension of the loop `scf.forall (%i) = (2) to (6) step (2)`, which
is not normalized; its induction variable takes the two values 2 and 4. -/
def forall_strided_dim : ForallDim := { lowerBound := 2, upperBound := 6, step := 2 }

/-- Example: the loop `scf.forall (%i) = (2) to (6) step (2)` without results, mapped
to the axis x; `getUpperBound` gives the upper bound 6 of `forall_strided_dim`. -/
def forall_strided_example : ForallOp Nat :=
  { numResults := 0,
    mapping := some [Attribute.GPUBlockMappingAttr Blocks.DimX],
    upperBound := [6] }

/-! ### CommonExtensions.cpp: folding a fill into a pad -/

/-- A ranked tensor type, by its shape: each dimension is static (`some n`) or
dynamic (`none`, `ShapedType::kDynamic`). -/
abbrev RankedTensorType := List (Option Nat)

/-- The result of a rewrite pattern. -/
inductive LogicalResult where
  | success
  | failure
deriving DecidableEq, Repr

/-- An `OpFoldResult`: an attribute (here the value of a constant) or an SSA value. -/
inductive OpFoldResult where
  | attr (a : Int)
  | value (v : Value)
deriving DecidableEq, Repr

/-- The fields of a `tensor::PadOp` that the pattern reads: its result, its source,
the static low and high padding, `getConstantPaddingValue()` (the value yielded by
the body when it is a constant or a value defined outside of the body, none
otherwise) and `getResultType()`. -/
structure PadOp where
  result : Value
  source : Value
  low : List Nat
  high : List Nat
  constantPaddingValue : Option Value
  resultType : RankedTensorType
deriving DecidableEq, Repr

/-- The payload operations of the tensor programs that `FoldFillIntoPad` rewrites;
each has one result. `other` is any other operation. -/
inductive TensorOp where
  | constant (result : Value) (attr : Int)
  | empty (result : Value) (type : RankedTensorType) (dynamicSizes : List Value)
  | fill (result : Value) (input : Value) (output : Value)
  | extractSlice (result : Value) (source : Value) (offsets sizes strides : List Nat)
  | pad (padOp : PadOp)
  | dim (result : Value) (source : Value) (index : Nat)
  | other (result : Value) (operands : List Value)
deriving DecidableEq, Repr

/-- The result of an operation. -/
def TensorOp.result : TensorOp → Value
  | TensorOp.constant r _ => r
  | TensorOp.empty r _ _ => r
  | TensorOp.fill r _ _ => r
  | TensorOp.extractSlice r _ _ _ _ => r
  | TensorOp.pad p => p.result
  | TensorOp.dim r _ _ => r
  | TensorOp.other r _ => r

/-- The operands of an operation. -/
def TensorOp.operands : TensorOp → List Value
  | TensorOp.constant _ _ => []
  | TensorOp.empty _ _ ds => ds
  | TensorOp.fill _ i o => [i, o]
  | TensorOp.extractSlice _ s _ _ _ => [s]
  | TensorOp.pad p => p.source :: p.constantPaddingValue.toList
  | TensorOp.dim _ s _ => [s]
  | TensorOp.other _ os => os

/-- One use of `old` replaced by `new`. -/
def replaceValue (old new v : Value) : Value := if v = old then new else v

/-- The operation after `replaceUsesOfWith(old, new)`: every operand that is `old`
becomes `new`. -/
def TensorOp.replaceUsesOfWith (old new : Value) : TensorOp → TensorOp
  | TensorOp.constant r a => TensorOp.constant r a
  | TensorOp.empty r t ds => TensorOp.empty r t (ds.map (replaceValue old new))
  | TensorOp.fill r i o => TensorOp.fill r (replaceValue old new i) (replaceValue old new o)
  | TensorOp.extractSlice r s a b c =>
    TensorOp.extractSlice r (replaceValue old new s) a b c
  | TensorOp.pad p =>
    TensorOp.pad { p with source := replaceValue old new p.source,
                          constantPaddingValue :=
                            p.constantPaddingValue.map (replaceValue old new) }
  | TensorOp.dim r s i => TensorOp.dim r (replaceValue old new s) i
  | TensorOp.other r os => TensorOp.other r (os.map (replaceValue old new))

/-- The call `Value::getDefiningOp()` in a payload given as the list of its operations: the
operation whose result is the value, none for a block argument. -/
def getDefiningOp (ir : List TensorOp) (v : Value) : Option TensorOp :=
  ir.find? (fun op => op.result == v)

/-- The call `getAsOpFoldResult(Value)`: the attribute when the value is defined by a
constant, the value itself otherwise. -/
def getAsOpFoldResult (ir : List TensorOp) (v : Value) : OpFoldResult :=
  match getDefiningOp ir v with
  | some (TensorOp.constant _ a) => OpFoldResult.attr a
  | _ => OpFoldResult.value v

/-- The loop of `FoldFillIntoPad::matchAndRewrite` (CommonExtensions.cpp, lines
189-192) that follows the sources of slice extractions, from `currentOp`; it returns
the last `currentOp` (none for a block argument). The outer `none` is a run that
needs more than `fuel` iterations. -/
def skipExtractSlices (ir : List TensorOp) : Nat → Option TensorOp → Option (Option TensorOp)
  | 0, _ => none
  | fuel + 1, currentOp =>
    match currentOp with
    | some (TensorOp.extractSlice _ source _ _ _) =>
      skipExtractSlices ir fuel (getDefiningOp ir source)
    | currentOp => some currentOp

/-- A value that occurs nowhere in the payload: above every result and operand. -/
def freshValue (ir : List TensorOp) : Value :=
  (ir.map (fun op => (op.result :: op.operands).foldl max 0)).foldl max 0 + 1

/-- The indices of the dynamic dimensions of a type. -/
def dynamicDimIndices (type : RankedTensorType) : List Nat :=
  (type.enum.filter (fun p => p.2.isNone)).map (fun p => p.1)

/-- The helper `linalg::createDynamicDimensions` of MLIR: one `tensor.dim` of the ranked tensor
for each dynamic dimension of its type; the results of the created operations are
`fresh`, `fresh + 1`, ... -/
def createDynamicDimensions (fresh : Value) (rankedTensor : Value)
    (type : RankedTensorType) : List TensorOp :=
  (dynamicDimIndices type).enum.map (fun p => TensorOp.dim (fresh + p.1) rankedTensor p.2)

/-- Operations created at the insertion point of the pattern, that is just before
the operation with result `before`. -/
def insertBefore (ir : List TensorOp) (before : Value) (newOps : List TensorOp) :
    List TensorOp :=
  ir.takeWhile (fun op => op.result != before) ++ newOps ++
    ir.dropWhile (fun op => op.result != before)

/-- The call `RewriterBase::replaceOp` for an operation with one result: every use of the
result, anywhere in the payload, becomes a use of `newValue`, and the operation is
erased. -/
def replaceOp (ir : List TensorOp) (old : Value) (newValue : Value) : List TensorOp :=
  (ir.filter (fun op => op.result != old)).map (TensorOp.replaceUsesOfWith old newValue)

/-- The result of the `linalg.fill` that `FoldFillIntoPad` creates in the payload
`ir` for a pad of result type `resultType`: it comes after the results of the
`tensor.dim` operations and of the `tensor.empty`. -/
def foldFillIntoPadResult (ir : List TensorOp) (resultType : RankedTensorType) : Value :=
  freshValue ir + (dynamicDimIndices resultType).length + 1

/-- Embedding of `FoldFillIntoPad::matchAndRewrite` (CommonExtensions.cpp, lines
184-216) on the payload `ir`: the result of the pattern and the payload after it. A
match failure returns before any call to the rewriter. The outer `none` is a run
whose loop needs more than `fuel` iterations. -/
def FoldFillIntoPad.matchAndRewrite (fuel : Nat) (ir : List TensorOp) (padOp : PadOp) :
    Option (LogicalResult × List TensorOp) :=
  match skipExtractSlices ir fuel (getDefiningOp ir padOp.source) with
  | none => none
  | some (some (TensorOp.fill _ fillInput _)) =>
    match padOp.constantPaddingValue with
    | none => some (LogicalResult.failure, ir)
    | some padValue =>
      if getAsOpFoldResult ir padValue ≠ getAsOpFoldResult ir fillInput then
        some (LogicalResult.failure, ir)
      else
        let resultType := padOp.resultType
        let fresh := freshValue ir
        let dims := createDynamicDimensions fresh padOp.result resultType
        let emptyOp := TensorOp.empty (fresh + dims.length) resultType
          (dims.map TensorOp.result)
        let fillOp := TensorOp.fill (fresh + dims.length + 1) padValue emptyOp.result
        let ir := insertBefore ir padOp.result (dims ++ [emptyOp, fillOp])
        some (LogicalResult.success, replaceOp ir padOp.result fillOp.result)
  | some _ => some (LogicalResult.failure, ir)

/-- A tensor value: its shape and its elements; only the elements at the valid
indices of the shape are meaningful. -/
structure Tensor where
  shape : List Nat
  elem : List Nat → Int

/-- A run-time value: a scalar or a tensor. -/
inductive RtValue where
  | scalar (x : Int)
  | tensor (t : Tensor)

/-- The valid indices of a shape. -/
def ValidIndex (shape idx : List Nat) : Prop :=
  List.Forall₂ (fun i n => i < n) idx shape

/-- The shape of a type once its dynamic dimensions are given, in order; none when
the number of sizes is not the number of dynamic dimensions. -/
def resolveShape : RankedTensorType → List Nat → Option (List Nat)
  | [], [] => some []
  | [], _ :: _ => none
  | some n :: rest, dyn => (resolveShape rest dyn).map (fun s => n :: s)
  | none :: rest, d :: dyn => (resolveShape rest dyn).map (fun s => d :: s)
  | none :: _, [] => none

/-- The scalar index held by a run-time value, if it is a non negative scalar. -/
def RtValue.asIndex : Option RtValue → Option Nat
  | some (RtValue.scalar x) => if 0 ≤ x then some x.toNat else none
  | _ => none

/-- The sizes, when every one of them has a value. -/
def allSizes : List (Option Nat) → Option (List Nat)
  | [] => some []
  | none :: _ => none
  | some n :: rest => (allSizes rest).map (fun s => n :: s)

/-- A slice lies within the bounds of a tensor of shape `shape`. -/
def sliceInBounds (shape offsets sizes strides : List Nat) : Bool :=
  shape.length == offsets.length && shape.length == sizes.length &&
  shape.length == strides.length &&
  (List.zipWith (fun (p : Nat × Nat) (q : Nat × Nat) =>
      decide (q.1 = 0 ∨ p.2 + (q.1 - 1) * q.2 < p.1))
    (shape.zip offsets) (sizes.zip strides)).all id

/-- The index of the source read by the element `idx` of a slice. -/
def sliceIndex (offsets strides idx : List Nat) : List Nat :=
  List.zipWith (fun (o : Nat) (p : Nat × Nat) => o + p.1 * p.2) offsets (idx.zip strides)

/-- The element `idx` of a padded tensor lies inside the source. -/
def insideSource (low shape idx : List Nat) : Bool :=
  (List.zipWith (fun (i : Nat) (p : Nat × Nat) => decide (p.1 ≤ i ∧ i < p.1 + p.2))
    idx (low.zip shape)).all id

/-- Evaluation of the value `v` of a tensor program (the semantics of the MLIR
operations, on which the specification relies): `args` gives the block arguments
and the results of the operations that are not modelled, `undef` the unspecified
elements of an empty tensor. The operands of an operation are evaluated first; the
result is none when `fuel` nested operations are not enough (always, on a cyclic
use-def chain), when an operand has no value or not the expected kind, or when a
slice is out of bounds. -/
def evalValue (args : Value → Option RtValue) (undef : Int) (ir : List TensorOp) :
    Nat → Value → Option RtValue
  | 0, _ => none
  | fuel + 1, v =>
    match getDefiningOp ir v with
    | none => args v
    | some (TensorOp.other _ _) => args v
    | some (TensorOp.constant _ a) => some (RtValue.scalar a)
    | some (TensorOp.empty _ type dynamicSizes) =>
      match allSizes (dynamicSizes.map
          (fun d => RtValue.asIndex (evalValue args undef ir fuel d))) with
      | none => none
      | some sizes =>
        (resolveShape type sizes).map
          (fun shape => RtValue.tensor { shape := shape, elem := fun _ => undef })
    | some (TensorOp.fill _ input output) =>
      match evalValue args undef ir fuel input, evalValue args undef ir fuel output with
      | some (RtValue.scalar c), some (RtValue.tensor t) =>
        some (RtValue.tensor { shape := t.shape, elem := fun _ => c })
      | _, _ => none
    | some (TensorOp.extractSlice _ source offsets sizes strides) =>
      match evalValue args undef ir fuel source with
      | some (RtValue.tensor t) =>
        if sliceInBounds t.shape offsets sizes strides then
          some (RtValue.tensor
            { shape := sizes, elem := fun idx => t.elem (sliceIndex offsets strides idx) })
        else none
      | _ => none
    | some (TensorOp.pad p) =>
      match evalValue args undef ir fuel p.source, p.constantPaddingValue with
      | some (RtValue.tensor t), some padValue =>
        match evalValue args undef ir fuel padValue with
        | some (RtValue.scalar c) =>
          if t.shape.length = p.low.length ∧ t.shape.length = p.high.length then
            some (RtValue.tensor
              { shape := List.zipWith (fun (n : Nat) (p : Nat × Nat) => p.1 + n + p.2)
                  t.shape (p.low.zip p.high),
                elem := fun idx =>
                  if insideSource p.low t.shape idx then
                    t.elem (List.zipWith (fun i l => i - l) idx p.low)
                  else c })
          else none
        | _ => none
      | _, _ => none
    | some (TensorOp.dim _ source index) =>
      match evalValue args undef ir fuel source with
      | some (RtValue.tensor t) =>
        (t.shape.get? index).map (fun n => RtValue.scalar (n : Int))
      | _ => none

/-- The shape and one element of a run-time tensor, for inspection. -/
def RtValue.probe (idx : List Nat) : Option RtValue → Option (List Nat × Int)
  | some (RtValue.tensor t) => some (t.shape, t.elem idx)
  | _ => none

/-- Example payload: `%1 = constant 5`, `%2 = tensor.empty(%0) : tensor<?>` with the
block argument `%0` as size, `%3 = linalg.fill ins(%1) outs(%2)`,
`%4 = tensor.pad %3 low[0] high[1]` with padding value `%1` and the dynamic result
type `tensor<?>`. -/
def fold_dynamic_example : List TensorOp :=
  [TensorOp.constant 1 5,
   TensorOp.empty 2 [none] [0],
   TensorOp.fill 3 1 2,
   TensorOp.pad { result := 4, source := 3, low := [0], high := [1],
                  constantPaddingValue := some 1, resultType := [none] }]

/-- The pad of the example payload. -/
def fold_dynamic_example_pad : PadOp :=
  { result := 4, source := 3, low := [0], high := [1],
    constantPaddingValue := some 1, resultType := [none] }

/-- Block arguments of the example: `%0` is the index 2. -/
def fold_example_args : Value → Option RtValue :=
  fun v => if v = 0 then some (RtValue.scalar 2) else none

/-- The payload after `FoldFillIntoPad` on the dynamic example: the created
`tensor.dim` (`%5`) reads `%7`, the result of the created `linalg.fill`, instead of
the erased pad `%4`. -/
def fold_dynamic_example_rewritten : List TensorOp :=
  [TensorOp.constant 1 5,
   TensorOp.empty 2 [none] [0],
   TensorOp.fill 3 1 2,
   TensorOp.dim 5 7 0,
   TensorOp.empty 6 [none] [5],
   TensorOp.fill 7 1 6]

/-- Following the sources of slice extractions from `currentOp` (none: a block
argument) ends at the operation `last`. -/
inductive SkipsTo (ir : List TensorOp) : Option TensorOp → Option TensorOp → Prop where
  | done (currentOp : Option TensorOp) :
      (∀ r s a b c, currentOp ≠ some (TensorOp.extractSlice r s a b c)) →
      SkipsTo ir currentOp currentOp
  | step (r s : Value) (a b c : List Nat) (last : Option TensorOp) :
      SkipsTo ir (getDefiningOp ir s) last →
      SkipsTo ir (some (TensorOp.extractSlice r s a b c)) last

/-- The use-def chains of the payload are acyclic (single assignment): some rank
decreases from every operation to its operands. -/
def AcyclicPayload (ir : List TensorOp) : Prop :=
  ∃ rank : Value → Nat, ∀ op, op ∈ ir → ∀ v, v ∈ op.operands → rank v < rank op.result

/-- Example payload with a static pad of a slice of a fill: `%1 = constant 5`,
`%2 = tensor.empty : tensor<4>`, `%3 = linalg.fill ins(%1) outs(%2)`,
`%4 = tensor.extract_slice %3 [1] [2] [1]`, `%5 = tensor.pad %4 low[1] high[0]` with
padding value `%1` and result type `tensor<3>`. -/
def fold_static_example : List TensorOp :=
  [TensorOp.constant 1 5,
   TensorOp.empty 2 [some 4] [],
   TensorOp.fill 3 1 2,
   TensorOp.extractSlice 4 3 [1] [2] [1],
   TensorOp.pad { result := 5, source := 4, low := [1], high := [0],
                  constantPaddingValue := some 1, resultType := [some 3] }]

/-- The pad of the static example payload. -/
def fold_static_example_pad : PadOp :=
  { result := 5, source := 4, low := [1], high := [0],
    constantPaddingValue := some 1, resultType := [some 3] }

/-- Example payload whose pad reads a block argument: `%1 = constant 5`,
`%2 = tensor.pad %0 low[1] high[0]` with padding value `%1`. -/
def fold_block_argument_example : List TensorOp :=
  [TensorOp.constant 1 5,
   TensorOp.pad { result := 2, source := 0, low := [1], high := [0],
                  constantPaddingValue := some 1, resultType := [some 3] }]

/-- The pad of the payload whose pad reads a block argument. -/
def fold_block_argument_pad : PadOp :=
  { result := 2, source := 0, low := [1], high := [0],
    constantPaddingValue := some 1, resultType := [some 3] }


/-! ### CommonExtensions.cpp: the outcome of a transform operation -/

/-- The outcome of a transform operation (`DiagnosedSilenceableFailure`): success, a
silenceable failure or a definite failure, a failure carrying its diagnostic. -/
inductive DiagnosedSilenceableFailure (μ : Type) where
  | success
  | silenceableFailure (diagnostic : μ)
  | definiteFailure (diagnostic : μ)
deriving DecidableEq, Repr

/-! ### CommonExtensions.cpp: the bufferization callbacks of the GPU target -/

/-- The marker attributes that `setMarker` attaches to an operation. -/
inductive Marker where
  | copyToWorkgroupMemory
deriving DecidableEq, Repr

/-- The operations that the copy callbacks build at the insertion point: a
`gpu.barrier`, or the copy built by `createLinalgCopyOp` with its marker if any. -/
inductive CopyFnOp where
  | BarrierOp
  | LinalgCopyOp (source : Value) (target : Value) (marker : Option Marker)
deriving DecidableEq, Repr

/-- Modelled from the spec: `getCopyToWorkgroupMemoryMarker()`, the tag by which
later passes recognise a copy as memory-hierarchy traffic. -/
def getCopyToWorkgroupMemoryMarker : Marker := Marker.copyToWorkgroupMemory

/-- Modelled from the spec: `createLinalgCopyOp(builder, loc, from, to)` builds one
copy operation from the buffer `fromValue` to the buffer `toValue`. -/
def createLinalgCopyOp (fromValue toValue : Value) : CopyFnOp :=
  CopyFnOp.LinalgCopyOp fromValue toValue none

/-- Modelled from the spec: `setMarker(op, marker)` tags the operation. -/
def setMarker (op : CopyFnOp) (marker : Marker) : CopyFnOp :=
  match op with
  | CopyFnOp.LinalgCopyOp source target _ => CopyFnOp.LinalgCopyOp source target (some marker)
  | CopyFnOp.BarrierOp => CopyFnOp.BarrierOp

/-- Embedding of `gpuComprehensiveBufferizeCopyFn` (CommonExtensions.cpp, lines
785-806). `fromType` and `toType` are the memref types of the two buffers and
`hasSharedMemoryAddressSpace` is the test of that name on a memref type (declared
outside of the file). The result is the returned status and the operations built,
in program order. -/
def gpuComprehensiveBufferizeCopyFn {τ : Type} (hasSharedMemoryAddressSpace : τ → Bool)
    (fromType toType : τ) (fromValue toValue : Value) : LogicalResult × List CopyFnOp :=
  let needsBarrier : Bool :=
    hasSharedMemoryAddressSpace fromType != hasSharedMemoryAddressSpace toType
  let before : List CopyFnOp := if needsBarrier then [CopyFnOp.BarrierOp] else []
  let copy : CopyFnOp :=
    setMarker (createLinalgCopyOp fromValue toValue) getCopyToWorkgroupMemoryMarker
  let after : List CopyFnOp := if needsBarrier then [CopyFnOp.BarrierOp] else []
  (LogicalResult.success, before ++ [copy] ++ after)

/-! ### CommonExtensions.cpp: the bufferization options and `IREEBufferizeOp` -/

/-- The allocation callbacks defined in the file. -/
inductive AllocationFn where
  | cpuComprehensiveBufferizeAllocationFn
  | gpuComprehensiveBufferizeAllocationFn
deriving DecidableEq, Repr

/-- The deallocation callbacks defined in the file. -/
inductive DeallocationFn where
  | cpuComprehensiveBufferizeDeallocationFn
  | gpuComprehensiveBufferizeDeallocationFn
deriving DecidableEq, Repr

/-- The copy callbacks defined in the file. -/
inductive MemCpyFn where
  | cpuComprehensiveBufferizeCopyFn
  | gpuComprehensiveBufferizeCopyFn
deriving DecidableEq, Repr

/-- The operation kinds that `getBufferizationOptions` denies. -/
inductive DeniedOperation where
  | arithConstantOp
  | bufferizationToMemrefOp
deriving DecidableEq, Repr

/-- The layouts chosen by the unknown type converter. -/
inductive MemRefLayout where
  | staticIdentityLayout
  | fullyDynamicLayout
deriving DecidableEq, Repr

/-- The converters that the field `unknownTypeConverterFn` can hold: the lambda of
`getBufferizationOptions`, or whatever the default options hold. -/
inductive UnknownTypeConverterFn where
  | constantsStaticElseDynamic
  | defaultConverter
deriving DecidableEq, Repr

/-- The lambda stored by `getBufferizationOptions` (lines 822-834): a value defined
by an `arith.constant` gets a static identity layout, any other a fully dynamic one. -/
def unknownTypeConverterFn (definedByConstantOp : Bool) : MemRefLayout :=
  if definedByConstantOp then MemRefLayout.staticIdentityLayout
  else MemRefLayout.fullyDynamicLayout

/-- The fields of `IREEOneShotBufferizationOptions` that the file reads or writes. A
callback that has not been set is `none`. -/
structure IREEOneShotBufferizationOptions where
  allocationFn : Option AllocationFn
  deallocationFn : Option DeallocationFn
  memCpyFn : Option MemCpyFn
  testAnalysisOnly : Bool
  printConflicts : Bool
  deniedOperations : List DeniedOperation
  unknownTypeConverterFn : UnknownTypeConverterFn
deriving DecidableEq, Repr

/-- Embedding of `getBufferizationOptions` (lines 808-837). `options` is the
default-constructed `IREEOneShotBufferizationOptions` (its constructor is declared
outside of the file); the function denies two operation kinds and stores the type
converter, and writes no other field. -/
def getBufferizationOptions (options : IREEOneShotBufferizationOptions) :
    IREEOneShotBufferizationOptions :=
  { options with
    deniedOperations := options.deniedOperations ++
      [DeniedOperation.arithConstantOp, DeniedOperation.bufferizationToMemrefOp],
    unknownTypeConverterFn := UnknownTypeConverterFn.constantsStaticElseDynamic }

/-- The options that `IREEEliminateEmptyTensorsOp::applyToOne` (lines 950-960) passes
to `eliminateEmptyTensors`: the value of `getBufferizationOptions()`. -/
def IREEEliminateEmptyTensorsOp.options (defaults : IREEOneShotBufferizationOptions) :
    IREEOneShotBufferizationOptions :=
  getBufferizationOptions defaults

/-- The options that `IREEBufferizeOp::apply` (lines 872-882 and 909-914) passes to
`runIREEOneShotBufferize`: the callbacks of the CPU target, replaced by those of the
GPU target when `target_gpu` is set, written over `getBufferizationOptions()`. -/
def IREEBufferizeOp.options (defaults : IREEOneShotBufferizationOptions)
    (targetGpu testAnalysisOnly printConflicts : Bool) : IREEOneShotBufferizationOptions :=
  let allocationFn :=
    if targetGpu then AllocationFn.gpuComprehensiveBufferizeAllocationFn
    else AllocationFn.cpuComprehensiveBufferizeAllocationFn
  let deallocationFn :=
    if targetGpu then DeallocationFn.gpuComprehensiveBufferizeDeallocationFn
    else DeallocationFn.cpuComprehensiveBufferizeDeallocationFn
  let memCpyFn :=
    if targetGpu then MemCpyFn.gpuComprehensiveBufferizeCopyFn
    else MemCpyFn.cpuComprehensiveBufferizeCopyFn
  { getBufferizationOptions defaults with
    allocationFn := some allocationFn,
    deallocationFn := some deallocationFn,
    memCpyFn := some memCpyFn,
    testAnalysisOnly := testAnalysisOnly,
    printConflicts := printConflicts }

/-- The kinds of payload operation that `IREEBufferizeOp::apply` tells apart with
`isa<ModuleOp, HAL::ExecutableOp, HAL::ExecutableVariantOp>`. -/
inductive TargetKind where
  | ModuleOp
  | ExecutableOp
  | ExecutableVariantOp
  | other
deriving DecidableEq, Repr

/-- The test `isa<ModuleOp, HAL::ExecutableOp, HAL::ExecutableVariantOp>`. -/
def TargetKind.isaContainer : TargetKind → Bool
  | TargetKind.other => false
  | _ => true

/-- The diagnostics of `IREEBufferizeOp::apply`; `listenerError` stands for the
diagnostic that the tracking listener has recorded. -/
inductive BufferizeDiagnostic where
  | requiresSingleTarget
  | greedyPatternApplicationFailed
  | bufferizationFailed
  | postBufferizationPassesFailed
  | listenerError
deriving DecidableEq, Repr

/-- The lowering steps of `IREEBufferizeOp::apply`, as recorded by the embedding when
they run. -/
inductive BufferizeStep where
  | emptyTensorLowering
  | oneShotBufferize (options : IREEOneShotBufferizationOptions)
  | postBufferizationPasses (moduleOp : Nat)
deriving DecidableEq, Repr

/-- The procedures that `IREEBufferizeOp::apply` calls and that are defined outside
of the file, as functions of the payload `σ`: the greedy application of the
empty-tensor pattern, the state of the tracking listener, one-shot bufferization,
the modules nested in the top-level operation and the post-bufferization pass
pipeline run on one of them. -/
structure BufferizeProcedures (σ : Type) where
  applyOpPatternsAndFold : σ → LogicalResult × σ
  listenerFailed : σ → Bool
  runIREEOneShotBufferize : IREEOneShotBufferizationOptions → σ → LogicalResult × σ
  moduleOps : σ → List Nat
  runPostBufferizationPasses : Nat → σ → LogicalResult × σ

/-- What a run of `IREEBufferizeOp::apply` leaves: the returned status, the payload,
the steps that ran (in order) and the payload operation stored in the result handle,
if one was. -/
structure BufferizeRun (σ : Type) where
  status : DiagnosedSilenceableFailure BufferizeDiagnostic
  payload : σ
  steps : List BufferizeStep
  results : Option Nat

/-- The method `listener.checkAndResetError()`: success when the listener has
recorded no failure, its silenceable failure otherwise. -/
def checkAndResetError (failed : Bool) : DiagnosedSilenceableFailure BufferizeDiagnostic :=
  if failed then
    DiagnosedSilenceableFailure.silenceableFailure BufferizeDiagnostic.listenerError
  else DiagnosedSilenceableFailure.success

/-- The walk of step 3 of `IREEBufferizeOp::apply` (lines 926-936): the pass pipeline
runs on each module in turn and the walk is interrupted by the first failure. The
result is whether the walk was interrupted, the payload and the steps that ran. -/
def postBufferizationWalk {σ : Type} (procs : BufferizeProcedures σ) :
    List Nat → σ → List BufferizeStep → Bool × σ × List BufferizeStep
  | [], payload, steps => (false, payload, steps)
  | moduleOp :: rest, payload, steps =>
    match procs.runPostBufferizationPasses moduleOp payload with
    | (LogicalResult.failure, payload1) =>
      (true, payload1, steps ++ [BufferizeStep.postBufferizationPasses moduleOp])
    | (LogicalResult.success, payload1) =>
      postBufferizationWalk procs rest payload1
        (steps ++ [BufferizeStep.postBufferizationPasses moduleOp])

/-- Embedding of `IREEBufferizeOp::apply` (CommonExtensions.cpp, lines 853-944).
`targets` is the list of payload operations that the target handle maps to, each
with its kind; `defaults` is the default-constructed options object. -/
def IREEBufferizeOp.apply {σ : Type} (procs : BufferizeProcedures σ)
    (defaults : IREEOneShotBufferizationOptions)
    (targetGpu testAnalysisOnly printConflicts : Bool)
    (targets : List (Nat × TargetKind)) (payload : σ) : BufferizeRun σ :=
  match targets with
  | [(target, kind)] =>
    if !kind.isaContainer then
      { status := DiagnosedSilenceableFailure.definiteFailure
          BufferizeDiagnostic.requiresSingleTarget,
        payload := payload, steps := [], results := none }
    else
      -- 1. Rewrite tensor.empty to tensor.alloc.
      match procs.applyOpPatternsAndFold payload with
      | (LogicalResult.failure, payload1) =>
        { status := DiagnosedSilenceableFailure.definiteFailure
            BufferizeDiagnostic.greedyPatternApplicationFailed,
          payload := payload1, steps := [BufferizeStep.emptyTensorLowering],
          results := none }
      | (LogicalResult.success, payload1) =>
        if procs.listenerFailed payload1 then
          { status := checkAndResetError true,
            payload := payload1, steps := [BufferizeStep.emptyTensorLowering],
            results := none }
        else
          -- 2. Run one-shot-bufferize.
          let options :=
            IREEBufferizeOp.options defaults targetGpu testAnalysisOnly printConflicts
          let steps2 :=
            [BufferizeStep.emptyTensorLowering, BufferizeStep.oneShotBufferize options]
          match procs.runIREEOneShotBufferize options payload1 with
          | (LogicalResult.failure, payload2) =>
            { status := DiagnosedSilenceableFailure.definiteFailure
                BufferizeDiagnostic.bufferizationFailed,
              payload := payload2, steps := steps2, results := none }
          | (LogicalResult.success, payload2) =>
            if testAnalysisOnly then
              { status := checkAndResetError (procs.listenerFailed payload2),
                payload := payload2, steps := steps2, results := some target }
            else
              -- 3. Post-bufferization passes.
              match postBufferizationWalk procs (procs.moduleOps payload2) payload2 steps2 with
              | (true, payload3, steps3) =>
                { status := DiagnosedSilenceableFailure.definiteFailure
                    BufferizeDiagnostic.postBufferizationPassesFailed,
                  payload := payload3, steps := steps3, results := none }
              | (false, payload3, steps3) =>
                { status := checkAndResetError (procs.listenerFailed payload3),
                  payload := payload3, steps := steps3, results := some target }
  | _ =>
    { status := DiagnosedSilenceableFailure.definiteFailure
        BufferizeDiagnostic.requiresSingleTarget,
      payload := payload, steps := [], results := none }

/-- Procedures that change the payload (a counter) whenever they run. -/
def counting_procedures : BufferizeProcedures Nat :=
  { applyOpPatternsAndFold := fun payload => (LogicalResult.success, payload + 1),
    listenerFailed := fun _ => false,
    runIREEOneShotBufferize := fun _ payload => (LogicalResult.success, payload + 1),
    moduleOps := fun _ => [0],
    runPostBufferizationPasses := fun _ payload => (LogicalResult.success, payload + 1) }

/-- Default options with no callback set. -/
def default_options : IREEOneShotBufferizationOptions :=
  { allocationFn := none, deallocationFn := none, memCpyFn := none,
    testAnalysisOnly := false, printConflicts := false, deniedOperations := [],
    unknownTypeConverterFn := UnknownTypeConverterFn.defaultConverter }

/-! ### CommonExtensions.cpp: `ApplyCommonSubexpressionEliminationOp` -/

/-- The operations below the target of the CSE transform, as a tree: an operation,
whether it has the trait `IsIsolatedFromAbove`, and the operations nested in its
regions in program order. -/
inductive NestedOp where
  | mk (op : Nat) (isIsolatedFromAbove : Bool) (nested : List NestedOp)

/-- The diagnostics of `ApplyCommonSubexpressionEliminationOp::applyToOne`: the
definite failure `CSE failed` with the operation it is anchored at, or the
diagnostic that the tracking listener has recorded. -/
inductive CSEDiagnostic where
  | cseFailed (anchor : Option Nat)
  | listenerError
deriving DecidableEq, Repr

/-- The state of the walk of `applyToOne`: the payload, whether the listener has
recorded a failure, the variable `lastOpVisited`, the isolated operations on which
CSE has run (in order), and whether the walk has been interrupted. -/
structure CSEWalk (σ : Type) where
  payload : σ
  listenerFailed : Bool
  lastOpVisited : Option Nat
  processed : List Nat
  interrupted : Bool

/-- The body of the walk callback for an isolated operation (lines 315-322):
`lastOpVisited` is set, CSE runs on the operation, and the walk is interrupted when
CSE fails or when the listener has recorded a failure. The procedure
`eliminateCommonSubexpressions` is defined outside of the file: it is a function of
the operation and the payload that gives its result, the new payload and whether it
made the listener record a failure. -/
def cseVisit {σ : Type} (eliminateCommonSubexpressions : Nat → σ → LogicalResult × σ × Bool)
    (op : Nat) (w : CSEWalk σ) : CSEWalk σ :=
  if w.interrupted then w
  else
    match eliminateCommonSubexpressions op w.payload with
    | (result, payload1, notified) =>
      let listenerFailed := w.listenerFailed || notified
      { payload := payload1,
        listenerFailed := listenerFailed,
        lastOpVisited := some op,
        processed := w.processed ++ [op],
        interrupted := decide (result = LogicalResult.failure) || listenerFailed }

mutual
/-- The pre-order walk of `applyToOne` (lines 313-324) below one operation: an
isolated operation is visited and its regions are skipped (`WalkResult::skip`), any
other operation is passed and the walk goes on in its regions
(`WalkResult::advance`); nothing is visited once the walk is interrupted. -/
def cseWalk {σ : Type} (eliminateCommonSubexpressions : Nat → σ → LogicalResult × σ × Bool) :
    NestedOp → CSEWalk σ → CSEWalk σ
  | NestedOp.mk op isIsolatedFromAbove nested, w =>
    if isIsolatedFromAbove then cseVisit eliminateCommonSubexpressions op w
    else cseWalkList eliminateCommonSubexpressions nested w
/-- The walk over the operations of a region, in program order. -/
def cseWalkList {σ : Type}
    (eliminateCommonSubexpressions : Nat → σ → LogicalResult × σ × Bool) :
    List NestedOp → CSEWalk σ → CSEWalk σ
  | [], w => w
  | t :: ts, w =>
    cseWalkList eliminateCommonSubexpressions ts (cseWalk eliminateCommonSubexpressions t w)
end

/-- What a run of the CSE transform leaves: the returned status, the payload and the
operations on which CSE has run, in order. -/
structure CSERun (σ : Type) where
  status : DiagnosedSilenceableFailure CSEDiagnostic
  payload : σ
  processed : List Nat

/-- The end of `applyToOne` (lines 326-333): success when the walk was not
interrupted, else the error of the listener if it has one, else a definite failure
anchored at `lastOpVisited`. -/
def cseStatus {σ : Type} (w : CSEWalk σ) : DiagnosedSilenceableFailure CSEDiagnostic :=
  if !w.interrupted then DiagnosedSilenceableFailure.success
  else if w.listenerFailed then
    DiagnosedSilenceableFailure.silenceableFailure CSEDiagnostic.listenerError
  else DiagnosedSilenceableFailure.definiteFailure (CSEDiagnostic.cseFailed w.lastOpVisited)

/-- Embedding of `ApplyCommonSubexpressionEliminationOp::applyToOne` (lines 307-335):
the walk from a fresh listener and a null `lastOpVisited`, then the status. -/
def ApplyCommonSubexpressionEliminationOp.applyToOne {σ : Type}
    (eliminateCommonSubexpressions : Nat → σ → LogicalResult × σ × Bool)
    (target : NestedOp) (payload : σ) : CSERun σ :=
  let w := cseWalk eliminateCommonSubexpressions target
    { payload := payload, listenerFailed := false, lastOpVisited := none,
      processed := [], interrupted := false }
  { status := cseStatus w, payload := w.payload, processed := w.processed }

mutual
/-- The isolated operations of a sub-tree (its root included) that have no isolated
proper ancestor inside the sub-tree, in pre-order. -/
def isolatedUnits : NestedOp → List Nat
  | NestedOp.mk op isIsolatedFromAbove nested =>
    if isIsolatedFromAbove then [op] else isolatedUnitsList nested
/-- The outermost isolated operations of the sub-trees of a list, in order. -/
def isolatedUnitsList : List NestedOp → List Nat
  | [] => []
  | t :: ts => isolatedUnits t ++ isolatedUnitsList ts
end

/-- The run that the contract of the CSE transform describes, the listener
included, on a list of units: CSE runs on the units in order; the run stops at the first unit whose CSE
fails or makes the listener record a failure, with the error of the listener if it
has one and else with a definite failure anchored at that unit; it succeeds when no
unit stops it. -/
def cseOnUnits {σ : Type} (eliminateCommonSubexpressions : Nat → σ → LogicalResult × σ × Bool) :
    List Nat → σ → CSERun σ
  | [], payload =>
    { status := DiagnosedSilenceableFailure.success, payload := payload, processed := [] }
  | unit :: rest, payload =>
    match eliminateCommonSubexpressions unit payload with
    | (result, payload1, notified) =>
      if notified then
        { status := DiagnosedSilenceableFailure.silenceableFailure CSEDiagnostic.listenerError,
          payload := payload1, processed := [unit] }
      else if result = LogicalResult.failure then
        { status := DiagnosedSilenceableFailure.definiteFailure
            (CSEDiagnostic.cseFailed (some unit)),
          payload := payload1, processed := [unit] }
      else
        let run := cseOnUnits eliminateCommonSubexpressions rest payload1
        { status := run.status, payload := run.payload, processed := unit :: run.processed }

/-- Example: a module (not isolated in this example) that holds two isolated
functions, the first with an isolated operation nested in it. -/
def cse_example_target : NestedOp :=
  NestedOp.mk 0 false
    [NestedOp.mk 1 true [NestedOp.mk 2 true []], NestedOp.mk 3 true []]

/-- Example: a CSE that succeeds on every unit and counts its runs in the payload,
and that makes the listener record a failure on unit 1. -/
def cse_example_listener : Nat → Nat → LogicalResult × Nat × Bool :=
  fun op payload => (LogicalResult.success, payload + 1, decide (op = 1))

/-- Example: a CSE that fails on unit 3 only. -/
def cse_example_failing : Nat → Nat → LogicalResult × Nat × Bool :=
  fun op payload =>
    (if op = 3 then LogicalResult.failure else LogicalResult.success, payload + 1, false)

/-- The walk callback run on a list of isolated operations one after the other (the
walk of a region all of whose operations are isolated). -/
def cseVisitAll {σ : Type} (eliminateCommonSubexpressions : Nat → σ → LogicalResult × σ × Bool) :
    List Nat → CSEWalk σ → CSEWalk σ
  | [], w => w
  | unit :: rest, w =>
    cseVisitAll eliminateCommonSubexpressions rest
      (cseVisit eliminateCommonSubexpressions unit w)

/-! ### CommonExtensions.cpp: `ShareForallOperandsOp` -/

/-- Where an operation of the payload stands relative to the loop: outside of it,
nested in its body, or among the yielding operations of its terminator. -/
inductive OpPosition where
  | outsideForall
  | insideBody
  | insideTerminator
deriving DecidableEq, Repr

/-- The operations that `ShareForallOperandsOp::applyToOne` tells apart: a
`tensor.extract_slice`, a `tensor.parallel_insert_slice`, or any other operation
with its operands. The offsets, sizes and strides are the mixed (static or dynamic)
ones. -/
inductive SliceOp where
  | ExtractSliceOp (source : Value) (offsets sizes strides : List OpFoldResult)
  | ParallelInsertSliceOp (source dest : Value) (offsets sizes strides : List OpFoldResult)
  | other (operands : List Value)
deriving DecidableEq, Repr

/-- The SSA values among mixed offsets, sizes or strides: the dynamic operands. -/
def dynamicValues : List OpFoldResult → List Value
  | [] => []
  | OpFoldResult.value v :: rest => v :: dynamicValues rest
  | OpFoldResult.attr _ :: rest => dynamicValues rest

/-- The operands of an operation (`getOpOperands`). -/
def SliceOp.operands : SliceOp → List Value
  | SliceOp.ExtractSliceOp source offsets sizes strides =>
    source :: (dynamicValues offsets ++ dynamicValues sizes ++ dynamicValues strides)
  | SliceOp.ParallelInsertSliceOp source dest offsets sizes strides =>
    source :: dest :: (dynamicValues offsets ++ dynamicValues sizes ++ dynamicValues strides)
  | SliceOp.other operands => operands

/-- The payload that `ShareForallOperandsOp::applyToOne` reads and writes: the loop
(a handle to it, its output operands `getOutputs()` and the block arguments
`getOutputBlockArguments()` of its body), and the other operations of the payload,
each with its position relative to the loop. -/
structure SharePayload where
  forallOp : Nat
  outputs : List Value
  outputBlockArguments : List Value
  ops : List (OpPosition × SliceOp)
deriving DecidableEq, Repr

/-- The number of uses of a value by the operations of a list. -/
def numUsesIn (v : Value) : List (OpPosition × SliceOp) → Nat
  | [] => 0
  | entry :: rest => entry.2.operands.count v + numUsesIn v rest

/-- The number of uses of a value, `std::distance(v.getUses().begin(),
v.getUses().end())`: its uses as an output operand of the loop and its uses by the
other operations. (The bounds and steps of the loop are index values, not tensors.) -/
def SharePayload.numUses (p : SharePayload) (v : Value) : Nat :=
  p.outputs.count v + numUsesIn v p.ops

/-- The loop of lines 428-432 over the users of `toShare`: the first user that is a
`tensor.extract_slice`, by its index among the operations of the payload, with its
position and its mixed offsets, sizes and strides. The loop itself, which is a
user, is no `tensor.extract_slice`. The users are met here in payload order; the
result is used only when the value has exactly two uses. -/
def findExtractSliceUser (toShare : Value) :
    List (OpPosition × SliceOp) →
      Option (Nat × OpPosition × List OpFoldResult × List OpFoldResult × List OpFoldResult)
  | [] => none
  | (position, SliceOp.ExtractSliceOp source offsets sizes strides) :: rest =>
    if toShare ∈ (SliceOp.ExtractSliceOp source offsets sizes strides).operands then
      some (0, position, offsets, sizes, strides)
    else (findExtractSliceUser toShare rest).map (fun found => (found.1 + 1, found.2))
  | _ :: rest =>
    (findExtractSliceUser toShare rest).map (fun found => (found.1 + 1, found.2))

/-- The lambda `isMatchingParallelInsertSlice` (lines 444-456): the operation is a
`tensor.parallel_insert_slice` into `bbArg` with the offsets, sizes and strides of
the `tensor.extract_slice`. -/
def isMatchingParallelInsertSlice (bbArg : Value)
    (offsets sizes strides : List OpFoldResult) : SliceOp → Bool
  | SliceOp.ParallelInsertSliceOp _ dest insertOffsets insertSizes insertStrides =>
    if dest ≠ bbArg then false
    else decide (insertOffsets = offsets) && decide (insertSizes = sizes) &&
      decide (insertStrides = strides)
  | _ => false

/-- The yielding operations of the terminator of the loop,
`forallOp.getTerminator().getYieldingOps()`. -/
def SharePayload.yieldingOps (p : SharePayload) : List SliceOp :=
  (p.ops.filter (fun entry => decide (entry.1 = OpPosition.insideTerminator))).map
    (fun entry => entry.2)

/-- The body of the loop of `applyToOne` for an output index in range (lines
418-465): the operand is skipped (`continue`) unless it has exactly two uses, one of
its users is a `tensor.extract_slice` and a yielding operation matches; otherwise the
source of the `tensor.extract_slice` is set to the block argument. -/
def shareOperand (p : SharePayload) (outputIdx : Nat) : SharePayload :=
  let toShare := p.outputs.getD outputIdx 0
  if p.numUses toShare ≠ 2 then p
  else
    match findExtractSliceUser toShare p.ops with
    | none => p
    | some (index, position, offsets, sizes, strides) =>
      let bbArg := p.outputBlockArguments.getD outputIdx 0
      if !(p.yieldingOps.any (isMatchingParallelInsertSlice bbArg offsets sizes strides)) then p
      else
        { p with
          ops := p.ops.set index
            (position, SliceOp.ExtractSliceOp bbArg offsets sizes strides) }

/-- The diagnostic of `ShareForallOperandsOp::applyToOne`. -/
inductive ShareDiagnostic where
  | operandIdxOverflow
deriving DecidableEq, Repr

/-- The loop of `applyToOne` (lines 415-466) over the indices of the attribute
`share_operands`: an index out of range ends the run with a definite failure, any
other is handled by `shareOperand`. -/
def shareOperandsLoop :
    List Int → SharePayload → DiagnosedSilenceableFailure ShareDiagnostic × SharePayload
  | [], p => (DiagnosedSilenceableFailure.success, p)
  | outputIdx :: rest, p =>
    if outputIdx < 0 ∨ outputIdx ≥ (p.outputs.length : Int) then
      (DiagnosedSilenceableFailure.definiteFailure ShareDiagnostic.operandIdxOverflow, p)
    else shareOperandsLoop rest (shareOperand p outputIdx.toNat)

/-- The local vector `shareOperands` of `applyToOne` (lines 409-414): a copy of the
attribute, replaced by all the output indices when the attribute is empty. -/
def ShareForallOperandsOp.shareOperands (getShareOperands : List Int) (numOutputs : Nat) :
    List Int :=
  if getShareOperands.isEmpty then (List.range numOutputs).map Int.ofNat
  else getShareOperands

/-- What a run of `ShareForallOperandsOp::applyToOne` leaves: the returned status,
the payload and the operations pushed to the results. -/
structure ShareRun where
  status : DiagnosedSilenceableFailure ShareDiagnostic
  payload : SharePayload
  results : List Nat
deriving DecidableEq, Repr

/-- Embedding of `ShareForallOperandsOp::applyToOne` (lines 404-470).
`getShareOperands` is the attribute `share_operands`. The loop of line 415 runs over
the attribute itself, not over the local vector `shareOperands`; after the loop the
loop operation is pushed to the results. -/
def ShareForallOperandsOp.applyToOne (getShareOperands : List Int) (p : SharePayload) :
    ShareRun :=
  match shareOperandsLoop getShareOperands p with
  | (DiagnosedSilenceableFailure.success, p1) =>
    { status := DiagnosedSilenceableFailure.success, payload := p1, results := [p.forallOp] }
  | (status, p1) => { status := status, payload := p1, results := [] }

/-- The operand-visibility invariant of the payload around the loop, as far as the
block arguments of the loop go: no operation outside of the loop has one of the
output block arguments of the loop as an operand. -/
def SharePayload.BlockArgumentsVisible (p : SharePayload) : Prop :=
  ∀ entry ∈ p.ops, entry.1 = OpPosition.outsideForall →
    ∀ v ∈ entry.2.operands, v ∉ p.outputBlockArguments

/-- Example: the output operand 10 of the loop is read by a slice with offsets
[0,0], sizes [8,8] and strides [1,1] in the body of the loop and written back by a
matching slice; 20 is the block argument. -/
def share_example : SharePayload :=
  { forallOp := 1, outputs := [10], outputBlockArguments := [20],
    ops := [
      (OpPosition.insideBody, SliceOp.ExtractSliceOp 10
        [OpFoldResult.attr 0, OpFoldResult.attr 0] [OpFoldResult.attr 8, OpFoldResult.attr 8]
        [OpFoldResult.attr 1, OpFoldResult.attr 1]),
      (OpPosition.insideTerminator, SliceOp.ParallelInsertSliceOp 30 20
        [OpFoldResult.attr 0, OpFoldResult.attr 0] [OpFoldResult.attr 8, OpFoldResult.attr 8]
        [OpFoldResult.attr 1, OpFoldResult.attr 1])] }

/-- Example: the payload of `share_example` after sharing. -/
def share_example_rewired : SharePayload :=
  { forallOp := 1, outputs := [10], outputBlockArguments := [20],
    ops := [
      (OpPosition.insideBody, SliceOp.ExtractSliceOp 20
        [OpFoldResult.attr 0, OpFoldResult.attr 0] [OpFoldResult.attr 8, OpFoldResult.attr 8]
        [OpFoldResult.attr 1, OpFoldResult.attr 1]),
      (OpPosition.insideTerminator, SliceOp.ParallelInsertSliceOp 30 20
        [OpFoldResult.attr 0, OpFoldResult.attr 0] [OpFoldResult.attr 8, OpFoldResult.attr 8]
        [OpFoldResult.attr 1, OpFoldResult.attr 1])] }

/-- Example: as `share_example`, with the write-back slice of sizes [4,8]. -/
def share_example_mismatch : SharePayload :=
  { forallOp := 1, outputs := [10], outputBlockArguments := [20],
    ops := [
      (OpPosition.insideBody, SliceOp.ExtractSliceOp 10
        [OpFoldResult.attr 0, OpFoldResult.attr 0] [OpFoldResult.attr 8, OpFoldResult.attr 8]
        [OpFoldResult.attr 1, OpFoldResult.attr 1]),
      (OpPosition.insideTerminator, SliceOp.ParallelInsertSliceOp 30 20
        [OpFoldResult.attr 0, OpFoldResult.attr 0] [OpFoldResult.attr 4, OpFoldResult.attr 8]
        [OpFoldResult.attr 1, OpFoldResult.attr 1])] }

/-- Example: as `share_example`, with the slice that reads the output operand
standing outside of the loop. -/
def share_example_outside : SharePayload :=
  { forallOp := 1, outputs := [10], outputBlockArguments := [20],
    ops := [
      (OpPosition.outsideForall, SliceOp.ExtractSliceOp 10
        [OpFoldResult.attr 0, OpFoldResult.attr 0] [OpFoldResult.attr 8, OpFoldResult.attr 8]
        [OpFoldResult.attr 1, OpFoldResult.attr 1]),
      (OpPosition.insideTerminator, SliceOp.ParallelInsertSliceOp 30 20
        [OpFoldResult.attr 0, OpFoldResult.attr 0] [OpFoldResult.attr 8, OpFoldResult.attr 8]
        [OpFoldResult.attr 1, OpFoldResult.attr 1])] }

/-! ### CommonExtensions.cpp: `rewriteForallToWorkgroup`, steps 3 to 7 -/

/-- One use of a value (an `OpOperand` in a use list): the operand number
`operandNumber` of the operation `owner`. -/
structure Use where
  owner : Nat
  operandNumber : Nat
deriving DecidableEq, Repr

/-- What the rewriter is asked to do by `rewriteForallToWorkgroup`: the operations it
creates (with their result), erases and moves. -/
inductive RewriterEvent where
  | createConstantIndexOp (result : Value) (value : Int)
  | createInterfaceWorkgroupIDOp (result : Value) (dimension : Int)
  | createInterfaceWorkgroupCountOp (result : Value) (dimension : Int)
  | eraseTerminator
  | spliceBody
  | eraseForallOp
deriving DecidableEq, Repr

/-- The payload as steps 3 to 7 of `rewriteForallToWorkgroup` read and write it: the
operands of every operation (nested ones included), the use list of every value
(first use first, as the list headed by `firstUse`), the next unused value, and the
operations created, erased and moved so far. -/
structure LoweringPayload where
  operands : Nat → List Value
  useList : Value → List Use
  nextValue : Value
  events : List RewriterEvent

/-- The value that an operand holds, `OpOperand::get`. -/
def LoweringPayload.operandValue (p : LoweringPayload) (use : Use) : Value :=
  (p.operands use.owner).getD use.operandNumber 0

/-- The element that follows `use` in a use list, if any. -/
def nextInUseList (use : Use) : List Use → Option Use
  | [] => none
  | u :: rest => if u = use then rest.head? else nextInUseList use rest

/-- The pointer `nextUse` of an operand, `getNextOperandUsingThisValue()`: the use
that follows it in the use list of the value it holds. -/
def getNextOperandUsingThisValue (p : LoweringPayload) (use : Use) : Option Use :=
  nextInUseList use (p.useList (p.operandValue use))

/-- The method `IROperand::set`: the operand is removed from the use list of the
value it holds (`removeFromCurrent`), takes the new value, and is inserted at the
head of the use list of the new value (`insertIntoCurrent`). -/
def setOperand (p : LoweringPayload) (use : Use) (newValue : Value) : LoweringPayload :=
  let oldValue := p.operandValue use
  let removed : Value → List Use :=
    Function.update p.useList oldValue ((p.useList oldValue).erase use)
  let inserted : Value → List Use :=
    Function.update removed newValue (use :: removed newValue)
  { p with
    operands := Function.update p.operands use.owner
      ((p.operands use.owner).set use.operandNumber newValue),
    useList := inserted }

/-- The method `Operation::replaceUsesOfWith(from, to)`: every operand of the
operation that holds `fromValue` is set to `toValue`, in operand order. -/
def replaceUsesOfWith (user : Nat) (fromValue toValue : Value) (p : LoweringPayload) :
    LoweringPayload :=
  if fromValue = toValue then p
  else
    (List.range (p.operands user).length).foldl
      (fun q operandNumber =>
        if q.operandValue { owner := user, operandNumber := operandNumber } = fromValue then
          setOperand q { owner := user, operandNumber := operandNumber } toValue
        else q)
      p

/-- The inner loop of step 6 (lines 552-556),
`for (user : make_early_inc_range(blockIdx.getUsers()))`. The iterator of the users
is a pointer into a use list, `current`; each turn reads the owner of `current`,
moves the iterator to the `nextUse` of `current` as it is then (the early
increment), and only then runs `user->replaceUsesOfWith(blockIdx, replacement)`.
`fuel` bounds the number of turns. -/
def replaceUsersLoop (blockIdx replacement : Value) :
    Nat → Option Use → LoweringPayload → Option LoweringPayload
  | _, none, p => some p
  | 0, some _, _ => none
  | fuel + 1, some current, p =>
    let next := getNextOperandUsingThisValue p current
    replaceUsersLoop blockIdx replacement fuel next
      (replaceUsesOfWith current.owner blockIdx replacement p)

/-- An `IRMapping` restricted to values: the pairs mapped so far, last first. -/
structure IRMapping where
  entries : List (Value × Value)
deriving DecidableEq, Repr

/-- The method `IRMapping::map` on two ranges: the values are mapped pairwise, up to
the end of the shorter range; a value mapped again takes its last image. -/
def IRMapping.map (bvm : IRMapping) (fromValues toValues : List Value) : IRMapping :=
  { entries := (fromValues.zip toValues).foldl (fun entries pair => pair :: entries)
      bvm.entries }

/-- The method `IRMapping::lookup`; `none` stands for the failed assertion on a value
that is not mapped. -/
def IRMapping.lookup (bvm : IRMapping) (v : Value) : Option Value :=
  (bvm.entries.find? (fun pair => pair.1 == v)).map (fun pair => pair.2)

/-- The loop of step 3 (lines 531-538): for each attribute of the completed mapping
a `hal.interface.workgroup.id` and a `hal.interface.workgroup.count` are created for
its axis. The result is the list `workgroupIdOps`, the list `workgroupCountOps` and
the payload. -/
def createWorkgroupOps :
    List Attribute → LoweringPayload → List Value × List Value × LoweringPayload
  | [], p => ([], [], p)
  | attr :: rest, p =>
    let idx := attr.getBlock
    let created := createWorkgroupOps rest
      { p with
        nextValue := p.nextValue + 2,
        events := p.events ++
          [RewriterEvent.createInterfaceWorkgroupIDOp p.nextValue idx,
           RewriterEvent.createInterfaceWorkgroupCountOp (p.nextValue + 1) idx] }
    (p.nextValue :: created.1, (p.nextValue + 1) :: created.2.1, created.2.2)

/-- The outer loop of step 6 (lines 551-557) over the induction variables: the users
of each are sent through `replaceUsersLoop` with `bvm.lookup(blockIdx)`. The lookup
runs only when the variable has a user. -/
def replaceInductionVars (bvm : IRMapping) (fuel : Nat) :
    List Value → LoweringPayload → Option LoweringPayload
  | [], p => some p
  | blockIdx :: rest, p =>
    match (p.useList blockIdx).head? with
    | none => replaceInductionVars bvm fuel rest p
    | some first =>
      match bvm.lookup blockIdx with
      | none => none
      | some replacement =>
        match replaceUsersLoop blockIdx replacement fuel (some first) p with
        | none => none
        | some p1 => replaceInductionVars bvm fuel rest p1

/-- Embedding of `rewriteForallToWorkgroup` (CommonExtensions.cpp, lines 476-562).
Steps 0 to 2 are `rewriteForallToWorkgroupGrid`; the constant 1 of step 1 takes the
next unused value and is created when the mapping lacks an axis. `inductionVars` are
the block arguments `forallOp.getInductionVars()` and the upper bounds of the loop
are taken as values. The result is `none` when `fuel` does not cover the turns of
the loops of step 6; otherwise it is the returned result (an error of step 0 is a
failure) and the payload. -/
def rewriteForallToWorkgroup (fuel : Nat) (forallOp : ForallOp Value)
    (inductionVars : List Value) (p : LoweringPayload) :
    Option (Except ForallToWorkgroupError Unit × LoweringPayload) :=
  match rewriteForallToWorkgroupGrid p.nextValue forallOp with
  | Except.error e => some (Except.error e, p)
  | Except.ok grid =>
    -- Step 1: the constant `one`.
    let p1 : LoweringPayload :=
      if (forallOp.mapping.getD []).length < grid.blockMapping.length then
        { p with
          nextValue := p.nextValue + 1,
          events := p.events ++ [RewriterEvent.createConstantIndexOp p.nextValue 1] }
      else p
    -- Step 3. Create the workgroup id and count ops.
    let created := createWorkgroupOps grid.blockMapping p1
    let workgroupIdOps := created.1
    let workgroupCountOps := created.2.1
    let bvm := (IRMapping.map { entries := [] } inductionVars workgroupIdOps).map
      forallOp.upperBound workgroupCountOps
    -- Step 5. Move the body of forallOp.
    let p5 : LoweringPayload :=
      { created.2.2 with
        events := created.2.2.events ++
          [RewriterEvent.eraseTerminator, RewriterEvent.spliceBody] }
    -- Step 6. RAUW thread indices to thread ops.
    match replaceInductionVars bvm fuel inductionVars p5 with
    | none => none
    | some p6 =>
      -- Step 7. Erase old op.
      some (Except.ok (), { p6 with events := p6.events ++ [RewriterEvent.eraseForallOp] })

/-! ### CommonExtensions.cpp: `ForallToWorkgroupOp` -/

/-- A parallel loop of the target function: the fields read by steps 0 to 2 and its
induction variables. -/
structure ForallLoop where
  op : ForallOp Value
  inductionVars : List Value

/-- The operations of the target function, as a tree: a parallel loop with the
operations nested in its body, or another operation with the operations nested in
its regions. -/
inductive FuncBodyOp where
  | forallOp (loop : ForallLoop) (body : List FuncBodyOp)
  | other (regions : List FuncBodyOp)

/-- The state of the walk of `ForallToWorkgroupOp::applyToOne`: interrupted, or
going on with the variable `topLevelForallOp` (null at first). -/
inductive TopLevelWalk where
  | advance (topLevelForallOp : Option ForallLoop)
  | interrupt

mutual
/-- The walk of lines 598-605 below one operation (post-order: the nested operations
come first). The callback runs on parallel loops only: a loop with a parent loop
(`getParentOfType<scf::ForallOp>()`) is passed; a second loop without one interrupts
the walk; the first one is stored in `topLevelForallOp`. -/
def walkForallOp (insideForall : Bool) : FuncBodyOp → TopLevelWalk → TopLevelWalk
  | FuncBodyOp.forallOp loop body, w =>
    match walkForallOps true body w with
    | TopLevelWalk.interrupt => TopLevelWalk.interrupt
    | TopLevelWalk.advance topLevelForallOp =>
      if insideForall then TopLevelWalk.advance topLevelForallOp
      else
        match topLevelForallOp with
        | some _ => TopLevelWalk.interrupt
        | none => TopLevelWalk.advance (some loop)
  | FuncBodyOp.other regions, w => walkForallOps insideForall regions w
/-- The walk over the operations of a region, in program order. -/
def walkForallOps (insideForall : Bool) : List FuncBodyOp → TopLevelWalk → TopLevelWalk
  | [], w => w
  | op :: rest, w =>
    match walkForallOp insideForall op w with
    | TopLevelWalk.interrupt => TopLevelWalk.interrupt
    | TopLevelWalk.advance topLevelForallOp =>
      walkForallOps insideForall rest (TopLevelWalk.advance topLevelForallOp)
end

/-- The diagnostics of `ForallToWorkgroupOp::applyToOne`. -/
inductive ForallToWorkgroupDiagnostic where
  | requiresExecutableTopLevel
  | noExecutableExportOpFound
  | noUniqueTopLevelForall
  | rewriteForallToWorkgroupFailed
deriving DecidableEq, Repr

/-- What a run of `ForallToWorkgroupOp::applyToOne` gives: a returned status with
the payload it leaves, or no return where the code goes through a null operation. -/
inductive ForallToWorkgroupRun where
  | returned (status : DiagnosedSilenceableFailure ForallToWorkgroupDiagnostic)
      (payload : LoweringPayload)
  | nullDereference

/-- Embedding of `ForallToWorkgroupOp::applyToOne` (lines 576-618).
`topLevelIsExecutable` is the test
`isa<HAL::ExecutableOp, HAL::ExecutableVariantOp>(state.getTopLevel())`, `exportOp`
the export operation found for the name of the target if any, and `target` the
operations of the body of the target function. When the walk ends without a
top-level loop, `topLevelForallOp` is null and the code goes on to
`rewriter.setInsertionPoint(topLevelForallOp)` and to `rewriteForallToWorkgroup`,
which read the fields of the null operation. The result is `none` when `fuel` does
not cover the loops of `rewriteForallToWorkgroup`. -/
def ForallToWorkgroupOp.applyToOne (fuel : Nat) (topLevelIsExecutable : Bool)
    (exportOp : Option Nat) (target : List FuncBodyOp) (p : LoweringPayload) :
    Option ForallToWorkgroupRun :=
  if !topLevelIsExecutable then
    some (ForallToWorkgroupRun.returned
      (DiagnosedSilenceableFailure.definiteFailure
        ForallToWorkgroupDiagnostic.requiresExecutableTopLevel) p)
  else
    match exportOp with
    | none =>
      some (ForallToWorkgroupRun.returned
        (DiagnosedSilenceableFailure.silenceableFailure
          ForallToWorkgroupDiagnostic.noExecutableExportOpFound) p)
    | some _ =>
      match walkForallOps false target (TopLevelWalk.advance none) with
      | TopLevelWalk.interrupt =>
        some (ForallToWorkgroupRun.returned
          (DiagnosedSilenceableFailure.silenceableFailure
            ForallToWorkgroupDiagnostic.noUniqueTopLevelForall) p)
      | TopLevelWalk.advance none => some ForallToWorkgroupRun.nullDereference
      | TopLevelWalk.advance (some loop) =>
        match rewriteForallToWorkgroup fuel loop.op loop.inductionVars p with
        | none => none
        | some (Except.error _, p1) =>
          some (ForallToWorkgroupRun.returned
            (DiagnosedSilenceableFailure.definiteFailure
              ForallToWorkgroupDiagnostic.rewriteForallToWorkgroupFailed) p1)
        | some (Except.ok _, p1) =>
          some (ForallToWorkgroupRun.returned DiagnosedSilenceableFailure.success p1)

mutual
/-- The parallel loops below an operation that are not nested in another parallel
loop, in program order. -/
def topLevelForallsOf : FuncBodyOp → List ForallLoop
  | FuncBodyOp.forallOp loop _ => [loop]
  | FuncBodyOp.other regions => topLevelForalls regions
/-- The parallel loops of a region that are not nested in another parallel loop. -/
def topLevelForalls : List FuncBodyOp → List ForallLoop
  | [] => []
  | op :: rest => topLevelForallsOf op ++ topLevelForalls rest
end

/-- Example: a loop of rank 1 mapped to the axis x, with induction variable 1 and
upper bound 2 (values). -/
def lowering_example_loop : ForallLoop :=
  { op :=
      { numResults := 0,
        mapping := some [Attribute.GPUBlockMappingAttr Blocks.DimX],
        upperBound := [2] },
    inductionVars := [1] }

/-- Example: the body of the loop holds the operation 10, which uses the induction
variable once, and after it the operation 11, which uses it twice (as in
`arith.addi %i, %i`). Each new use is put at the head of the use list, so that the
use list of the induction variable is operand 1 of 11, operand 0 of 11, operand 0 of
10. The next unused value is 50. -/
def lowering_example_payload : LoweringPayload :=
  { operands := fun op => if op = 10 then [1] else if op = 11 then [1, 1] else [],
    useList := fun v =>
      if v = 1 then
        [{ owner := 11, operandNumber := 1 }, { owner := 11, operandNumber := 0 },
         { owner := 10, operandNumber := 0 }]
      else [],
    nextValue := 50,
    events := [] }

/-- Example: as `lowering_example_payload`, each operation using the induction
variable once. -/
def lowering_example_single_use : LoweringPayload :=
  { operands := fun op => if op = 10 then [1] else if op = 11 then [1, 7] else [],
    useList := fun v =>
      if v = 1 then
        [{ owner := 11, operandNumber := 0 }, { owner := 10, operandNumber := 0 }]
      else if v = 7 then [{ owner := 11, operandNumber := 1 }]
      else [],
    nextValue := 50,
    events := [] }

/-- The callback of the walk of `ForallToWorkgroupOp::applyToOne` run on a list of
loops none of which has a parent loop, one after the other. -/
def visitTopLevelForalls : List ForallLoop → TopLevelWalk → TopLevelWalk
  | [], w => w
  | _ :: _, TopLevelWalk.interrupt => TopLevelWalk.interrupt
  | _ :: _, TopLevelWalk.advance (some _) => TopLevelWalk.interrupt
  | loop :: rest, TopLevelWalk.advance none =>
    visitTopLevelForalls rest (TopLevelWalk.advance (some loop))

/-- Example: a loop nested in `lowering_example_loop`, with a mapping to a thread
axis. -/
def lowering_example_nested : ForallLoop :=
  { op :=
      { numResults := 0,
        mapping := some [Attribute.GPUThreadMappingAttr 0],
        upperBound := [3] },
    inductionVars := [4] }

/-- Example: a function body with one top-level loop that holds a nested loop. -/
def lowering_example_target : List FuncBodyOp :=
  [FuncBodyOp.other [],
   FuncBodyOp.other
     [FuncBodyOp.forallOp lowering_example_loop
       [FuncBodyOp.forallOp lowering_example_nested [], FuncBodyOp.other []]]]

/-- Example: a function body with two top-level loops. -/
def lowering_example_two_loops : List FuncBodyOp :=
  [FuncBodyOp.forallOp lowering_example_loop [],
   FuncBodyOp.other [FuncBodyOp.forallOp lowering_example_nested []]]

/-- Example: a function body without any loop. -/
def lowering_example_no_loop : List FuncBodyOp :=
  [FuncBodyOp.other [FuncBodyOp.other []], FuncBodyOp.other []]

/-- No operation outside of the loop reads an output operand of the loop: the
condition under which `ShareForallOperandsOp` keeps the block arguments of the loop
inside of it. -/
def SharePayload.OutputsReadInside (p : SharePayload) : Prop :=
  ∀ entry ∈ p.ops, entry.1 = OpPosition.outsideForall →
    ∀ v ∈ entry.2.operands, v ∉ p.outputs

/-- The use list of a value agrees with the operands: it holds each use once, and
its uses are exactly the operands that hold the value. -/
def LoweringPayload.UseListOf (p : LoweringPayload) (v : Value) : Prop :=
  (p.useList v).Nodup ∧
  ∀ use : Use, use ∈ p.useList v ↔
    (use.operandNumber < (p.operands use.owner).length ∧ p.operandValue use = v)

/-- No operation holds the value in two of its operands. -/
def LoweringPayload.SingleUse (p : LoweringPayload) (v : Value) : Prop :=
  ∀ owner j k : Nat, j < (p.operands owner).length → k < (p.operands owner).length →
    (p.operands owner).getD j 0 = v → (p.operands owner).getD k 0 = v → j = k

/-- The value that takes the place of `v` when the induction variables
`inductionVars` are replaced by the results `workgroupIdOps`, position by position;
another value stays. -/
def replacementOf (inductionVars workgroupIdOps : List Value) (v : Value) : Value :=
  match (inductionVars.zip workgroupIdOps).find? (fun pair => pair.1 == v) with
  | some pair => pair.2
  | none => v

/-! ### CommonExtensions.cpp: `IREEPopulateWorkgroupCountRegionUsingNumThreadsSliceOp` -/

/-- The loop of lines 661-664: the largest mapping id, starting from 0
(`maxId = std::max(maxId, id)`). -/
def maxMappingId (mappingIds : List Int) : Int :=
  mappingIds.foldl (fun maxId id => max maxId id) 0

/-- The loop of lines 667-669 over `llvm::enumerate(mappingIds)`, from position
`index` on: `workgroupCountOrdered[maxId - mapId] = workgroupCount[index]`. An access
outside of the bounds of either vector gives `none`. -/
def setWorkgroupCountOrdered (maxId : Int) (workgroupCount : List OpFoldResult) :
    List Int → Nat → List OpFoldResult → Option (List OpFoldResult)
  | [], _, workgroupCountOrdered => some workgroupCountOrdered
  | mapId :: rest, index, workgroupCountOrdered =>
    if maxId - mapId < 0 ∨ (workgroupCountOrdered.length : Int) ≤ maxId - mapId then none
    else
      match workgroupCount[index]? with
      | none => none
      | some count =>
        setWorkgroupCountOrdered maxId workgroupCount rest (index + 1)
          (workgroupCountOrdered.set (maxId - mapId).toNat count)

/-- The workgroup count that
`IREEPopulateWorkgroupCountRegionUsingNumThreadsSliceOp::applyToOne` builds (lines
650-674) and passes to `lowerWorkgroupCountFromSliceOp`: the mixed upper bounds of
the loop, reordered by the mapping ids when the loop has a mapping. `getMappingId`
is the mapping id of an attribute as the `int` that the code takes it as (the method
is declared outside of the file); the sum `maxId + 1` is taken without overflow. -/
def populateWorkgroupCount (getMappingId : Attribute → Int)
    (forAllOp : ForallOp OpFoldResult) : Option (List OpFoldResult) :=
  let workgroupCount := forAllOp.upperBound
  match forAllOp.mapping with
  | some blockMapping =>
    let mappingIds := blockMapping.map getMappingId
    let maxId := maxMappingId mappingIds
    let workgroupCountOrdered : List OpFoldResult :=
      List.replicate (maxId + 1).toNat (OpFoldResult.attr 1)
    setWorkgroupCountOrdered maxId workgroupCount mappingIds 0 workgroupCountOrdered
  | none => some workgroupCount

/-- The diagnostics of
`IREEPopulateWorkgroupCountRegionUsingNumThreadsSliceOp::applyToOne`. -/
inductive PopulateWorkgroupCountDiagnostic where
  | expectedForallHandle
  | expectedNormalized
  | failedToLowerWorkgroupCountRegion
deriving DecidableEq, Repr

/-- Embedding of `IREEPopulateWorkgroupCountRegionUsingNumThreadsSliceOp::applyToOne`
(lines 636-682). `target` is the result of `dyn_cast<scf::ForallOp>` (none when the
target is no parallel loop), `isNormalized` the test `forAllOp.isNormalized()`, and
`lowerWorkgroupCountFromSliceOp` the procedure of that name, defined outside of the
file, as a function of the workgroup count it is given. The result is `none` when
the code reads or writes a vector outside of its bounds. -/
def IREEPopulateWorkgroupCountRegionUsingNumThreadsSliceOp.applyToOne
    (getMappingId : Attribute → Int)
    (lowerWorkgroupCountFromSliceOp : List OpFoldResult → LogicalResult)
    (target : Option (ForallOp OpFoldResult)) (isNormalized : Bool) :
    Option (DiagnosedSilenceableFailure PopulateWorkgroupCountDiagnostic) :=
  match target with
  | none =>
    some (DiagnosedSilenceableFailure.definiteFailure
      PopulateWorkgroupCountDiagnostic.expectedForallHandle)
  | some forAllOp =>
    if !isNormalized then
      some (DiagnosedSilenceableFailure.definiteFailure
        PopulateWorkgroupCountDiagnostic.expectedNormalized)
    else
      match populateWorkgroupCount getMappingId forAllOp with
      | none => none
      | some workgroupCount =>
        match lowerWorkgroupCountFromSliceOp workgroupCount with
        | LogicalResult.failure =>
          some (DiagnosedSilenceableFailure.definiteFailure
            PopulateWorkgroupCountDiagnostic.failedToLowerWorkgroupCountRegion)
        | LogicalResult.success => some DiagnosedSilenceableFailure.success

/-- Example: the mapping id of an attribute, a block axis by its ordinal and a thread
axis by its number. -/
def example_getMappingId : Attribute → Int
  | Attribute.GPUBlockMappingAttr b => b.ordinal
  | Attribute.GPUThreadMappingAttr n => n
  | Attribute.other n => n

/-- Example: a normalized loop of rank 2 mapped to the axes (z, x), with upper
bounds 4 and the value 9. -/
def populate_example : ForallOp OpFoldResult :=
  { numResults := 0,
    mapping := some [Attribute.GPUBlockMappingAttr Blocks.DimZ,
      Attribute.GPUBlockMappingAttr Blocks.DimX],
    upperBound := [OpFoldResult.attr 4, OpFoldResult.value 9] }

/-- In the list `erased`, every subview and every allocation stands after all the
owners of the uses of its result: when the operations of the list are erased front
to back, none is erased while one of its users is still there. (The other
operations of the list are stores, transfer writes and deallocations, for which
`allUsesAreStores` records no user.) -/
def ErasedAfterUsers (erased : List Operation) : Prop :=
  ∀ (i : Nat) (op : Operation), erased[i]? = some op →
    (op.kind = OpKind.SubViewOp ∨ op.kind = OpKind.AllocOp) →
    ∀ u ∈ op.users, ∃ j, j < i ∧ erased[j]? = some u

/-! ### pack.c: the offsets of the loop nest -/

/-- The loop bounds and the output strides of `iree_ukernel_pack`. -/
structure iree_ukernel_pack_loops where
  lsize0 : Int
  lsize1 : Int
  lsize2 : Int
  lsize3 : Int
  out_stride_l0 : Int
  out_stride_l1 : Int
  out_stride_l2 : Int
  out_stride_l3 : Int

/-- What `iree_ukernel_pack` computes before its loops (pack.c, lines 51-67): the
loop bounds and the output strides, after the swaps of the two transpose flags. -/
def pack_loops (params : iree_ukernel_pack_params_t) : iree_ukernel_pack_loops :=
  let lsize0 := params.out_size0
  let lsize1 := params.out_size1
  let lsize2 := params.out_size2
  let lsize3 := params.out_size3
  let out_stride_l0 := params.out_stride0
  let out_stride_l1 := ssize_wrap (params.out_size3 * params.out_size2)
  let out_stride_l2 := params.out_size3
  let out_stride_l3 : Int := 1
  let outer := params.flags &&& IREE_UKERNEL_FLAG_PACK_TRANSPOSE_OUTER ≠ 0
  let s01 := if outer then iree_ukernel_ssize_swap lsize0 lsize1 else (lsize0, lsize1)
  let t01 := if outer then iree_ukernel_ssize_swap out_stride_l0 out_stride_l1
             else (out_stride_l0, out_stride_l1)
  let inner := params.flags &&& IREE_UKERNEL_FLAG_PACK_TRANSPOSE_INNER ≠ 0
  let s23 := if inner then iree_ukernel_ssize_swap lsize2 lsize3 else (lsize2, lsize3)
  let t23 := if inner then iree_ukernel_ssize_swap out_stride_l2 out_stride_l3
             else (out_stride_l2, out_stride_l3)
  { lsize0 := s01.1, lsize1 := s01.2, lsize2 := s23.1, lsize3 := s23.2,
    out_stride_l0 := t01.1, out_stride_l1 := t01.2,
    out_stride_l2 := t23.1, out_stride_l3 := t23.2 }

/-- The loop coordinates that the loop nest of `iree_ukernel_pack` goes through
(pack.c, lines 68-71). -/
def PackLoopCoords (params : iree_ukernel_pack_params_t) (l0 l1 l2 l3 : Int) : Prop :=
  0 ≤ l0 ∧ l0 < (pack_loops params).lsize0 ∧ 0 ≤ l1 ∧ l1 < (pack_loops params).lsize1 ∧
  0 ≤ l2 ∧ l2 < (pack_loops params).lsize2 ∧ 0 ≤ l3 ∧ l3 < (pack_loops params).lsize3

/-- The expression `out_offset` of the loop body (pack.c, lines 72-74), as a value of
`iree_ukernel_ssize_t`. -/
def pack_out_offset (params : iree_ukernel_pack_params_t) (l0 l1 l2 l3 : Int) : Int :=
  ssize_wrap
    (l0 * (pack_loops params).out_stride_l0 + l2 * (pack_loops params).out_stride_l2 +
      l1 * (pack_loops params).out_stride_l1 + l3 * (pack_loops params).out_stride_l3)

/-- The expression `i0` of the loop body (pack.c, line 75), as a value of
`iree_ukernel_ssize_t`. -/
def pack_i0 (params : iree_ukernel_pack_params_t) (l0 l2 : Int) : Int :=
  ssize_wrap (l0 * (pack_loops params).lsize2 + l2)

/-- The expression `i1` of the loop body (pack.c, line 76), as a value of
`iree_ukernel_ssize_t`. -/
def pack_i1 (params : iree_ukernel_pack_params_t) (l1 l3 : Int) : Int :=
  ssize_wrap (l1 * (pack_loops params).lsize3 + l3)

/-- The expression `in_offset` of the branch of the loop body that reads the source
(pack.c, line 81), as a value of `iree_ukernel_ssize_t`. -/
def pack_in_offset (params : iree_ukernel_pack_params_t) (l0 l1 l2 l3 : Int) : Int :=
  ssize_wrap (pack_i1 params l1 l3 + pack_i0 params l0 l2 * params.in_stride0)

/-- The address of byte `k` of the destination element that the loop body writes at
the loop coordinates `(l0, l1, l2, l3)`, for elements of `es` bytes: `out_ptr` of
the loop body (pack.c, line 77), then `dst[k]` of `iree_ukernel_memcpy`
(pack.c, line 41). -/
def pack_out_addr (params : iree_ukernel_pack_params_t) (es : Int)
    (l0 l1 l2 l3 k : Int) : Int :=
  ptr_wrap
    (ptr_wrap (params.out_buffer + ssize_wrap (pack_out_offset params l0 l1 l2 l3 * es)) + k)
/-! ## Part II. Lemmas and theorems -/

/-! ### Loops -/

theorem forLoopAux_inv {σ : Type} (I : σ → Prop) (body : Int → σ → σ) :
    ∀ (n : Nat) (s : σ), I s →
      (∀ i : Nat, i < n → ∀ t, I t → I (body (i : Int) t)) →
      I (forLoopAux body n s)
  | 0, _, h0, _ => h0
  | n + 1, s, h0, hstep => by
      simp only [forLoopAux]
      exact hstep n (Nat.lt_succ_self n) _
        (forLoopAux_inv I body n s h0 (fun i hi => hstep i (Nat.lt_succ_of_lt hi)))

theorem forLoop_inv {σ : Type} (I : σ → Prop) (n : Int) (body : Int → σ → σ) (s : σ)
    (h0 : I s) (hstep : ∀ i : Int, 0 ≤ i → i < n → ∀ t, I t → I (body i t)) :
    I (forLoop n body s) := by
  unfold forLoop
  apply forLoopAux_inv I body _ s h0
  intro i hi t ht
  exact hstep i (by omega) (by omega) t ht

theorem forLoop_frame (n : Int) (body : Int → Memory → Memory) (a : Int) (m : Memory)
    (h : ∀ i : Int, 0 ≤ i → i < n → ∀ t : Memory, body i t a = t a) :
    forLoop n body m a = m a :=
  forLoop_inv (fun t => t a = m a) n body m rfl
    (fun i h0 hn t ht => (h i h0 hn t).trans ht)

theorem forLoopAux_sets (I : Memory → Prop) (body : Int → Memory → Memory) (a : Int)
    (v : Nat) (i : Nat) :
    ∀ (n : Nat) (m : Memory), i < n → I m →
      (∀ j : Nat, j < n → ∀ t, I t → I (body (j : Int) t)) →
      (∀ t, I t → body (i : Int) t a = v) →
      (∀ j : Nat, i < j → j < n → ∀ t : Memory, body (j : Int) t a = t a) →
      forLoopAux body n m a = v
  | 0, _, hin, _, _, _, _ => absurd hin (Nat.not_lt_zero i)
  | n + 1, m, hin, hm, hpres, hset, hframe => by
      simp only [forLoopAux]
      have hI : I (forLoopAux body n m) :=
        forLoopAux_inv I body n m hm (fun j hj => hpres j (Nat.lt_succ_of_lt hj))
      rcases Nat.lt_succ_iff_lt_or_eq.mp hin with hlt | heq
      · rw [hframe n hlt (Nat.lt_succ_self n)]
        exact forLoopAux_sets I body a v i n m hlt hm
          (fun j hj => hpres j (Nat.lt_succ_of_lt hj)) hset
          (fun j hij hj => hframe j hij (Nat.lt_succ_of_lt hj))
      · subst heq
        exact hset _ hI

theorem forLoop_sets (I : Memory → Prop) (n : Int) (body : Int → Memory → Memory)
    (a : Int) (v : Nat) (i : Int) (hi0 : 0 ≤ i) (hin : i < n) (m : Memory) (hm : I m)
    (hpres : ∀ j : Int, 0 ≤ j → j < n → ∀ t, I t → I (body j t))
    (hset : ∀ t, I t → body i t a = v)
    (hframe : ∀ j : Int, i < j → j < n → ∀ t : Memory, body j t a = t a) :
    forLoop n body m a = v := by
  unfold forLoop
  have hcast : ((i.toNat : Nat) : Int) = i := Int.toNat_of_nonneg hi0
  apply forLoopAux_sets I body a v i.toNat n.toNat m (by omega) hm
  · intro j hj t ht
    exact hpres j (by omega) (by omega) t ht
  · intro t ht
    rw [hcast]
    exact hset t ht
  · intro j hij hj t
    exact hframe j (by omega) (by omega) t

/-! ### memcpy -/

theorem iree_ukernel_memcpy_exact_frame (dst src size a : Int) (m : Memory)
    (h : ∀ i : Int, 0 ≤ i → i < size → a ≠ dst + i) :
    iree_ukernel_memcpy_exact dst src size m a = m a := by
  unfold iree_ukernel_memcpy_exact
  apply forLoop_frame
  intro i h0 hn t
  exact Function.update_noteq (h i h0 hn) _ _

theorem iree_ukernel_memcpy_exact_pres (W : Int → Prop) (mem0 : Memory) (dst src size : Int)
    (hW : ∀ i : Int, 0 ≤ i → i < size → W (dst + i)) (m : Memory)
    (hm : AgreesOutside W mem0 m) :
    AgreesOutside W mem0 (iree_ukernel_memcpy_exact dst src size m) := by
  intro a ha
  rw [iree_ukernel_memcpy_exact_frame dst src size a m]
  · exact hm a ha
  · intro i h0 hn heq
    exact ha (heq ▸ hW i h0 hn)

theorem iree_ukernel_memcpy_exact_sets (W : Int → Prop) (mem0 : Memory) (dst src size k : Int)
    (hk0 : 0 ≤ k) (hk : k < size)
    (hW : ∀ i : Int, 0 ≤ i → i < size → W (dst + i))
    (hsrc : ¬ W (src + k)) (m : Memory) (hm : AgreesOutside W mem0 m) :
    iree_ukernel_memcpy_exact dst src size m (dst + k) = mem0 (src + k) := by
  unfold iree_ukernel_memcpy_exact
  apply forLoop_sets (AgreesOutside W mem0) size _ (dst + k) (mem0 (src + k)) k hk0 hk m hm
  · intro j h0 hn t ht a ha
    have hne : a ≠ dst + j := fun heq => ha (heq ▸ hW j h0 hn)
    rw [Function.update_noteq hne]
    exact ht a ha
  · intro t ht
    rw [Function.update_same]
    exact ht _ hsrc
  · intro j hkj _ t
    exact Function.update_noteq (by omega) _ _

/-! ### The loop nest of the pack kernel -/

theorem elem_addr_inj (es x y k k' : Int) (hk0 : 0 ≤ k) (hk : k < es)
    (hk0' : 0 ≤ k') (hk' : k' < es) (h : x * es + k = y * es + k') :
    x = y ∧ k = k' := by
  have hxy : x = y := by
    rcases lt_trichotomy x y with hlt | heq | hgt
    · exfalso
      have : (y - x) * es ≥ 1 * es := by
        apply Int.mul_le_mul_of_nonneg_right <;> omega
      nlinarith
    · exact heq
    · exfalso
      have : (x - y) * es ≥ 1 * es := by
        apply Int.mul_le_mul_of_nonneg_right <;> omega
      nlinarith
  subst hxy
  exact ⟨rfl, by omega⟩

section PackNest

variable (p : iree_ukernel_pack_params_t) (es lsize0 lsize1 lsize2 lsize3 : Int)
  (st0 st1 st2 st3 : Int) (mem0 : Memory) (W : Int → Prop)

theorem pack_loop_body_exact_pres
    (hW : ∀ l0 l1 l2 l3 k : Int, 0 ≤ l0 → l0 < lsize0 → 0 ≤ l1 → l1 < lsize1 →
      0 ≤ l2 → l2 < lsize2 → 0 ≤ l3 → l3 < lsize3 → 0 ≤ k → k < es →
      W (p.out_buffer + (l0 * st0 + l2 * st2 + l1 * st1 + l3 * st3) * es + k))
    (l0 l1 l2 l3 : Int) (h0 : 0 ≤ l0) (h0' : l0 < lsize0) (h1 : 0 ≤ l1) (h1' : l1 < lsize1)
    (h2 : 0 ≤ l2) (h2' : l2 < lsize2) (h3 : 0 ≤ l3) (h3' : l3 < lsize3)
    (m : Memory) (hm : AgreesOutside W mem0 m) :
    AgreesOutside W mem0
      (pack_loop_body_exact p es lsize2 lsize3 st0 st1 st2 st3 l0 l2 l1 l3 m) := by
  unfold pack_loop_body_exact
  simp only []
  split
  · exact iree_ukernel_memcpy_exact_pres W mem0 _ _ _
      (fun i hi0 hi => hW l0 l1 l2 l3 i h0 h0' h1 h1' h2 h2' h3 h3' hi0 hi) m hm
  · exact iree_ukernel_memcpy_exact_pres W mem0 _ _ _
      (fun i hi0 hi => hW l0 l1 l2 l3 i h0 h0' h1 h1' h2 h2' h3 h3' hi0 hi) m hm

theorem pack_loop_body_exact_frame
    (hinj : ∀ l0 l1 l2 l3 l0' l1' l2' l3' : Int,
      0 ≤ l0 → l0 < lsize0 → 0 ≤ l1 → l1 < lsize1 →
      0 ≤ l2 → l2 < lsize2 → 0 ≤ l3 → l3 < lsize3 →
      0 ≤ l0' → l0' < lsize0 → 0 ≤ l1' → l1' < lsize1 →
      0 ≤ l2' → l2' < lsize2 → 0 ≤ l3' → l3' < lsize3 →
      l0 * st0 + l2 * st2 + l1 * st1 + l3 * st3 =
        l0' * st0 + l2' * st2 + l1' * st1 + l3' * st3 →
      l0 = l0' ∧ l1 = l1' ∧ l2 = l2' ∧ l3 = l3')
    (l0 l1 l2 l3 k : Int) (h0 : 0 ≤ l0) (h0' : l0 < lsize0) (h1 : 0 ≤ l1) (h1' : l1 < lsize1)
    (h2 : 0 ≤ l2) (h2' : l2 < lsize2) (h3 : 0 ≤ l3) (h3' : l3 < lsize3)
    (hk0 : 0 ≤ k) (hk : k < es)
    (j0 j1 j2 j3 : Int) (g0 : 0 ≤ j0) (g0' : j0 < lsize0) (g1 : 0 ≤ j1) (g1' : j1 < lsize1)
    (g2 : 0 ≤ j2) (g2' : j2 < lsize2) (g3 : 0 ≤ j3) (g3' : j3 < lsize3)
    (hne : ¬ (l0 = j0 ∧ l1 = j1 ∧ l2 = j2 ∧ l3 = j3)) (m : Memory) :
    pack_loop_body_exact p es lsize2 lsize3 st0 st1 st2 st3 j0 j2 j1 j3 m
        (p.out_buffer + (l0 * st0 + l2 * st2 + l1 * st1 + l3 * st3) * es + k)
      = m (p.out_buffer + (l0 * st0 + l2 * st2 + l1 * st1 + l3 * st3) * es + k) := by
  have key : ∀ i : Int, 0 ≤ i → i < es →
      p.out_buffer + (l0 * st0 + l2 * st2 + l1 * st1 + l3 * st3) * es + k ≠
      p.out_buffer + (j0 * st0 + j2 * st2 + j1 * st1 + j3 * st3) * es + i := by
    intro i hi0 hi heq
    have h := elem_addr_inj es (l0 * st0 + l2 * st2 + l1 * st1 + l3 * st3)
      (j0 * st0 + j2 * st2 + j1 * st1 + j3 * st3) k i hk0 hk hi0 hi (by linarith)
    exact hne (hinj l0 l1 l2 l3 j0 j1 j2 j3 h0 h0' h1 h1' h2 h2' h3 h3'
      g0 g0' g1 g1' g2 g2' g3 g3' h.1)
  unfold pack_loop_body_exact
  simp only []
  split
  · exact iree_ukernel_memcpy_exact_frame _ _ _ _ m key
  · exact iree_ukernel_memcpy_exact_frame _ _ _ _ m key

theorem pack_loop_body_exact_sets
    (hW : ∀ l0 l1 l2 l3 k : Int, 0 ≤ l0 → l0 < lsize0 → 0 ≤ l1 → l1 < lsize1 →
      0 ≤ l2 → l2 < lsize2 → 0 ≤ l3 → l3 < lsize3 → 0 ≤ k → k < es →
      W (p.out_buffer + (l0 * st0 + l2 * st2 + l1 * st1 + l3 * st3) * es + k))
    (hin : ∀ i0 i1 k : Int, 0 ≤ i0 → i0 < p.in_size0 → 0 ≤ i1 → i1 < p.in_size1 →
      0 ≤ k → k < es → ¬ W (p.in_buffer + (i1 + i0 * p.in_stride0) * es + k))
    (hpad : ∀ k : Int, 0 ≤ k → k < es → ¬ W (p.padding_value + k))
    (l0 l1 l2 l3 k : Int) (h0 : 0 ≤ l0) (h0' : l0 < lsize0) (h1 : 0 ≤ l1) (h1' : l1 < lsize1)
    (h2 : 0 ≤ l2) (h2' : l2 < lsize2) (h3 : 0 ≤ l3) (h3' : l3 < lsize3)
    (hk0 : 0 ≤ k) (hk : k < es) (m : Memory) (hm : AgreesOutside W mem0 m) :
    pack_loop_body_exact p es lsize2 lsize3 st0 st1 st2 st3 l0 l2 l1 l3 m
        (p.out_buffer + (l0 * st0 + l2 * st2 + l1 * st1 + l3 * st3) * es + k)
      = if l0 * lsize2 + l2 ≥ p.in_size0 ∨ l1 * lsize3 + l3 ≥ p.in_size1 then
          mem0 (p.padding_value + k)
        else
          mem0 (p.in_buffer +
            (l1 * lsize3 + l3 + (l0 * lsize2 + l2) * p.in_stride0) * es + k) := by
  have hWl : ∀ i : Int, 0 ≤ i → i < es →
      W (p.out_buffer + (l0 * st0 + l2 * st2 + l1 * st1 + l3 * st3) * es + i) :=
    fun i hi0 hi => hW l0 l1 l2 l3 i h0 h0' h1 h1' h2 h2' h3 h3' hi0 hi
  unfold pack_loop_body_exact
  simp only []
  split
  · exact iree_ukernel_memcpy_exact_sets W mem0 _ _ _ k hk0 hk hWl (hpad k hk0 hk) m hm
  · rename_i hc
    have hc' := not_or.mp hc
    have hi0 : 0 ≤ l0 * lsize2 + l2 := by
      have : 0 ≤ l0 * lsize2 := Int.mul_nonneg h0 (by omega)
      omega
    have hi1 : 0 ≤ l1 * lsize3 + l3 := by
      have : 0 ≤ l1 * lsize3 := Int.mul_nonneg h1 (by omega)
      omega
    exact iree_ukernel_memcpy_exact_sets W mem0 _ _ _ k hk0 hk hWl
      (hin _ _ k hi0 (by omega) hi1 (by omega) hk0 hk) m hm

theorem pack_loop_nest_exact_spec
    (hW : ∀ l0 l1 l2 l3 k : Int, 0 ≤ l0 → l0 < lsize0 → 0 ≤ l1 → l1 < lsize1 →
      0 ≤ l2 → l2 < lsize2 → 0 ≤ l3 → l3 < lsize3 → 0 ≤ k → k < es →
      W (p.out_buffer + (l0 * st0 + l2 * st2 + l1 * st1 + l3 * st3) * es + k))
    (hin : ∀ i0 i1 k : Int, 0 ≤ i0 → i0 < p.in_size0 → 0 ≤ i1 → i1 < p.in_size1 →
      0 ≤ k → k < es → ¬ W (p.in_buffer + (i1 + i0 * p.in_stride0) * es + k))
    (hpad : ∀ k : Int, 0 ≤ k → k < es → ¬ W (p.padding_value + k))
    (hinj : ∀ l0 l1 l2 l3 l0' l1' l2' l3' : Int,
      0 ≤ l0 → l0 < lsize0 → 0 ≤ l1 → l1 < lsize1 →
      0 ≤ l2 → l2 < lsize2 → 0 ≤ l3 → l3 < lsize3 →
      0 ≤ l0' → l0' < lsize0 → 0 ≤ l1' → l1' < lsize1 →
      0 ≤ l2' → l2' < lsize2 → 0 ≤ l3' → l3' < lsize3 →
      l0 * st0 + l2 * st2 + l1 * st1 + l3 * st3 =
        l0' * st0 + l2' * st2 + l1' * st1 + l3' * st3 →
      l0 = l0' ∧ l1 = l1' ∧ l2 = l2' ∧ l3 = l3')
    (l0 l1 l2 l3 k : Int) (h0 : 0 ≤ l0) (h0' : l0 < lsize0) (h1 : 0 ≤ l1) (h1' : l1 < lsize1)
    (h2 : 0 ≤ l2) (h2' : l2 < lsize2) (h3 : 0 ≤ l3) (h3' : l3 < lsize3)
    (hk0 : 0 ≤ k) (hk : k < es) :
    pack_loop_nest_exact p es lsize0 lsize1 lsize2 lsize3 st0 st1 st2 st3 mem0
        (p.out_buffer + (l0 * st0 + l2 * st2 + l1 * st1 + l3 * st3) * es + k)
      = if l0 * lsize2 + l2 ≥ p.in_size0 ∨ l1 * lsize3 + l3 ≥ p.in_size1 then
          mem0 (p.padding_value + k)
        else
          mem0 (p.in_buffer +
            (l1 * lsize3 + l3 + (l0 * lsize2 + l2) * p.in_stride0) * es + k) := by
  have hpres : ∀ j0 j1 j2 j3 : Int, 0 ≤ j0 → j0 < lsize0 → 0 ≤ j1 → j1 < lsize1 →
      0 ≤ j2 → j2 < lsize2 → 0 ≤ j3 → j3 < lsize3 → ∀ t, AgreesOutside W mem0 t →
      AgreesOutside W mem0
        (pack_loop_body_exact p es lsize2 lsize3 st0 st1 st2 st3 j0 j2 j1 j3 t) :=
    fun j0 j1 j2 j3 g0 g0' g1 g1' g2 g2' g3 g3' t ht =>
      pack_loop_body_exact_pres p es lsize0 lsize1 lsize2 lsize3 st0 st1 st2 st3 mem0 W hW
        j0 j1 j2 j3 g0 g0' g1 g1' g2 g2' g3 g3' t ht
  have hframe : ∀ j0 j1 j2 j3 : Int, 0 ≤ j0 → j0 < lsize0 → 0 ≤ j1 → j1 < lsize1 →
      0 ≤ j2 → j2 < lsize2 → 0 ≤ j3 → j3 < lsize3 →
      ¬ (l0 = j0 ∧ l1 = j1 ∧ l2 = j2 ∧ l3 = j3) → ∀ t : Memory,
      pack_loop_body_exact p es lsize2 lsize3 st0 st1 st2 st3 j0 j2 j1 j3 t
        (p.out_buffer + (l0 * st0 + l2 * st2 + l1 * st1 + l3 * st3) * es + k)
      = t (p.out_buffer + (l0 * st0 + l2 * st2 + l1 * st1 + l3 * st3) * es + k) :=
    fun j0 j1 j2 j3 g0 g0' g1 g1' g2 g2' g3 g3' hne t =>
      pack_loop_body_exact_frame p es lsize0 lsize1 lsize2 lsize3 st0 st1 st2 st3 hinj
        l0 l1 l2 l3 k h0 h0' h1 h1' h2 h2' h3 h3' hk0 hk
        j0 j1 j2 j3 g0 g0' g1 g1' g2 g2' g3 g3' hne t
  have hmem0 : AgreesOutside W mem0 mem0 := fun _ _ => rfl
  unfold pack_loop_nest_exact
  apply forLoop_sets (AgreesOutside W mem0) lsize0 _ _ _ l0 h0 h0' mem0 hmem0
  · intro j0 g0 g0' t ht
    apply forLoop_inv (AgreesOutside W mem0) _ _ _ ht
    intro j2 g2 g2' t ht
    apply forLoop_inv (AgreesOutside W mem0) _ _ _ ht
    intro j1 g1 g1' t ht
    apply forLoop_inv (AgreesOutside W mem0) _ _ _ ht
    intro j3 g3 g3' t ht
    exact hpres j0 j1 j2 j3 g0 g0' g1 g1' g2 g2' g3 g3' t ht
  · intro t ht
    apply forLoop_sets (AgreesOutside W mem0) lsize2 _ _ _ l2 h2 h2' t ht
    · intro j2 g2 g2' t ht
      apply forLoop_inv (AgreesOutside W mem0) _ _ _ ht
      intro j1 g1 g1' t ht
      apply forLoop_inv (AgreesOutside W mem0) _ _ _ ht
      intro j3 g3 g3' t ht
      exact hpres l0 j1 j2 j3 h0 h0' g1 g1' g2 g2' g3 g3' t ht
    · intro t ht
      apply forLoop_sets (AgreesOutside W mem0) lsize1 _ _ _ l1 h1 h1' t ht
      · intro j1 g1 g1' t ht
        apply forLoop_inv (AgreesOutside W mem0) _ _ _ ht
        intro j3 g3 g3' t ht
        exact hpres l0 j1 l2 j3 h0 h0' g1 g1' h2 h2' g3 g3' t ht
      · intro t ht
        apply forLoop_sets (AgreesOutside W mem0) lsize3 _ _ _ l3 h3 h3' t ht
        · intro j3 g3 g3' t ht
          exact hpres l0 l1 l2 j3 h0 h0' h1 h1' h2 h2' g3 g3' t ht
        · intro t ht
          exact pack_loop_body_exact_sets p es lsize0 lsize1 lsize2 lsize3 st0 st1 st2 st3
            mem0 W hW hin hpad l0 l1 l2 l3 k h0 h0' h1 h1' h2 h2' h3 h3' hk0 hk t ht
        · intro j3 hlt g3' t
          exact hframe l0 l1 l2 j3 h0 h0' h1 h1' h2 h2' (by omega) g3'
            (fun h => by omega) t
      · intro j1 hlt g1' t
        apply forLoop_frame
        intro j3 g3 g3' t
        exact hframe l0 j1 l2 j3 h0 h0' (by omega) g1' h2 h2' g3 g3'
          (fun h => by omega) t
    · intro j2 hlt g2' t
      apply forLoop_frame
      intro j1 g1 g1' t
      apply forLoop_frame
      intro j3 g3 g3' t
      exact hframe l0 j1 j2 j3 h0 h0' g1 g1' (by omega) g2' g3 g3'
        (fun h => by omega) t
  · intro j0 hlt g0' t
    apply forLoop_frame
    intro j2 g2 g2' t
    apply forLoop_frame
    intro j1 g1 g1' t
    apply forLoop_frame
    intro j3 g3 g3' t
    exact hframe j0 j1 j2 j3 (by omega) g0' g1 g1' g2 g2' g3 g3'
      (fun h => by omega) t

end PackNest

/-! ### Destination offsets are a mixed radix numbering -/

theorem radix_bound (s q r d : Int) (hd0 : 0 ≤ d) (hd : d < s) (hr0 : 0 ≤ r) (hr : r < q) :
    0 ≤ d * q + r ∧ d * q + r < s * q := by
  have h1 : 0 ≤ d * q := Int.mul_nonneg hd0 (by omega)
  have h2 : (d + 1) * q ≤ s * q := Int.mul_le_mul_of_nonneg_right (by omega) (by omega)
  constructor
  · omega
  · nlinarith

theorem phys_offset_inj (S0 s1 s2 s3 d0 d1 d2 d3 e0 e1 e2 e3 : Int)
    (hS : S0 ≥ s1 * s2 * s3)
    (hd1 : 0 ≤ d1) (hd1' : d1 < s1) (hd2 : 0 ≤ d2) (hd2' : d2 < s2)
    (hd3 : 0 ≤ d3) (hd3' : d3 < s3)
    (he1 : 0 ≤ e1) (he1' : e1 < s1) (he2 : 0 ≤ e2) (he2' : e2 < s2)
    (he3 : 0 ≤ e3) (he3' : e3 < s3)
    (h : d0 * S0 + d1 * (s3 * s2) + d2 * s3 + d3 = e0 * S0 + e1 * (s3 * s2) + e2 * s3 + e3) :
    d0 = e0 ∧ d1 = e1 ∧ d2 = e2 ∧ d3 = e3 := by
  have bd := radix_bound s2 s3 d3 d2 hd2 hd2' hd3 hd3'
  have be := radix_bound s2 s3 e3 e2 he2 he2' he3 he3'
  have bd' := radix_bound s1 (s2 * s3) (d2 * s3 + d3) d1 hd1 hd1' bd.1 bd.2
  have be' := radix_bound s1 (s2 * s3) (e2 * s3 + e3) e1 he1 he1' be.1 be.2
  have A := elem_addr_inj S0 d0 e0 (d1 * (s2 * s3) + (d2 * s3 + d3))
    (e1 * (s2 * s3) + (e2 * s3 + e3)) bd'.1 (by linarith [bd'.2]) be'.1
    (by linarith [be'.2]) (by linarith)
  have B := elem_addr_inj (s2 * s3) d1 e1 (d2 * s3 + d3) (e2 * s3 + e3)
    bd.1 bd.2 be.1 be.2 A.2
  have C := elem_addr_inj s3 d2 e2 d3 e3 hd3 hd3' he3 he3' B.2
  exact ⟨A.1, B.1, C.1, C.2⟩


/-! ### Wrap-around -/

theorem ssize_wrap_eq (x : Int) (h0 : -2 ^ 63 ≤ x) (h1 : x < 2 ^ 63) : ssize_wrap x = x := by
  unfold ssize_wrap
  rw [Int.emod_eq_of_lt (by omega) (by omega)]
  omega

theorem ptr_wrap_eq (a : Int) (h0 : 0 ≤ a) (h1 : a < 2 ^ 64) : ptr_wrap a = a :=
  Int.emod_eq_of_lt h0 h1

/-- The wrapped value differs from the exact one by a multiple of `2 ^ 64`. -/
theorem ssize_wrap_congr (x : Int) : ∃ q : Int, ssize_wrap x = x + q * 2 ^ 64 := by
  refine ⟨-((x + 2 ^ 63) / 2 ^ 64), ?_⟩
  unfold ssize_wrap
  have h := Int.emod_add_ediv (x + 2 ^ 63) (2 ^ 64)
  linarith

theorem ssize_wrap_add_mul (x q : Int) : ssize_wrap (x + q * 2 ^ 64) = ssize_wrap x := by
  unfold ssize_wrap
  have e : x + q * 2 ^ 64 + 2 ^ 63 = x + 2 ^ 63 + q * 2 ^ 64 := by ring
  rw [e, Int.add_mul_emod_self]

/-- Reducing an operand first does not change the reduced sum. -/
theorem ssize_wrap_add (x y : Int) : ssize_wrap (ssize_wrap x + y) = ssize_wrap (x + y) := by
  obtain ⟨q, hq⟩ := ssize_wrap_congr x
  rw [hq]
  have e : x + q * 2 ^ 64 + y = x + y + q * 2 ^ 64 := by ring
  rw [e, ssize_wrap_add_mul]

/-- Reducing an operand first does not change the reduced product. -/
theorem ssize_wrap_mul (x y : Int) : ssize_wrap (ssize_wrap x * y) = ssize_wrap (x * y) := by
  obtain ⟨q, hq⟩ := ssize_wrap_congr x
  rw [hq]
  have e : (x + q * 2 ^ 64) * y = x * y + (q * y) * 2 ^ 64 := by ring
  rw [e, ssize_wrap_add_mul]

/-! ### The kernel when nothing overflows -/

theorem forLoopAux_congr {σ : Type} (body body' : Int → σ → σ) :
    ∀ (n : Nat) (s : σ), (∀ i : Nat, i < n → ∀ t, body (i : Int) t = body' (i : Int) t) →
      forLoopAux body n s = forLoopAux body' n s
  | 0, _, _ => rfl
  | n + 1, s, h => by
      simp only [forLoopAux]
      rw [forLoopAux_congr body body' n s (fun i hi => h i (Nat.lt_succ_of_lt hi))]
      exact h n (Nat.lt_succ_self n) _

theorem forLoop_congr {σ : Type} (n : Int) (body body' : Int → σ → σ) (s : σ)
    (h : ∀ i : Int, 0 ≤ i → i < n → ∀ t, body i t = body' i t) :
    forLoop n body s = forLoop n body' s := by
  unfold forLoop
  apply forLoopAux_congr
  intro i hi t
  exact h i (by omega) (by omega) t

/-- A copy whose destination and source lie inside the address space is the copy
in exact arithmetic. -/
theorem iree_ukernel_memcpy_eq_exact (dst src size : Int) (m : Memory)
    (hd0 : 0 ≤ dst) (hd1 : dst + size ≤ 2 ^ 64) (hs0 : 0 ≤ src) (hs1 : src + size ≤ 2 ^ 64) :
    iree_ukernel_memcpy dst src size m = iree_ukernel_memcpy_exact dst src size m := by
  unfold iree_ukernel_memcpy iree_ukernel_memcpy_exact
  apply forLoop_congr
  intro i h0 h1 t
  rw [ptr_wrap_eq (dst + i) (by omega) (by omega), ptr_wrap_eq (src + i) (by omega) (by omega)]

/-- One iteration of the loop body whose offsets and addresses do not overflow is
the iteration in exact arithmetic. -/
theorem pack_loop_body_eq_exact (p : iree_ukernel_pack_params_t)
    (es lsize2 lsize3 st0 st1 st2 st3 l0 l2 l1 l3 : Int) (m : Memory) (hes : 0 < es)
    (hoff0 : 0 ≤ l0 * st0 + l2 * st2 + l1 * st1 + l3 * st3)
    (hoff1 : l0 * st0 + l2 * st2 + l1 * st1 + l3 * st3 < 2 ^ 63)
    (hbyte : (l0 * st0 + l2 * st2 + l1 * st1 + l3 * st3) * es < 2 ^ 63)
    (hout0 : 0 ≤ p.out_buffer)
    (hout1 : p.out_buffer + (l0 * st0 + l2 * st2 + l1 * st1 + l3 * st3) * es + es ≤ 2 ^ 64)
    (hi0 : 0 ≤ l0 * lsize2 + l2) (hi0' : l0 * lsize2 + l2 < 2 ^ 63)
    (hi1 : 0 ≤ l1 * lsize3 + l3) (hi1' : l1 * lsize3 + l3 < 2 ^ 63)
    (hpad0 : 0 ≤ p.padding_value) (hpad1 : p.padding_value + es ≤ 2 ^ 64)
    (hin : l0 * lsize2 + l2 < p.in_size0 → l1 * lsize3 + l3 < p.in_size1 →
      0 ≤ l1 * lsize3 + l3 + (l0 * lsize2 + l2) * p.in_stride0 ∧
      l1 * lsize3 + l3 + (l0 * lsize2 + l2) * p.in_stride0 < 2 ^ 63 ∧
      (l1 * lsize3 + l3 + (l0 * lsize2 + l2) * p.in_stride0) * es < 2 ^ 63 ∧
      0 ≤ p.in_buffer ∧
      p.in_buffer + (l1 * lsize3 + l3 + (l0 * lsize2 + l2) * p.in_stride0) * es + es
        ≤ 2 ^ 64) :
    pack_loop_body p es lsize2 lsize3 st0 st1 st2 st3 l0 l2 l1 l3 m =
      pack_loop_body_exact p es lsize2 lsize3 st0 st1 st2 st3 l0 l2 l1 l3 m := by
  have hb0 : 0 ≤ (l0 * st0 + l2 * st2 + l1 * st1 + l3 * st3) * es := Int.mul_nonneg hoff0 (by omega)
  unfold pack_loop_body pack_loop_body_exact
  simp only []
  rw [ssize_wrap_eq _ (by omega) hoff1, ssize_wrap_eq _ (by omega) hi0',
    ssize_wrap_eq _ (by omega) hi1', ssize_wrap_eq _ (by omega) hbyte,
    ptr_wrap_eq _ (by omega) (by omega)]
  by_cases hc : l0 * lsize2 + l2 ≥ p.in_size0 ∨ l1 * lsize3 + l3 ≥ p.in_size1
  · rw [if_pos hc, if_pos hc]
    exact iree_ukernel_memcpy_eq_exact _ _ _ m (by omega) (by omega) hpad0 hpad1
  · rw [if_neg hc, if_neg hc]
    obtain ⟨a, b, c, d, e⟩ := hin (by omega) (by omega)
    have hc0 : 0 ≤ (l1 * lsize3 + l3 + (l0 * lsize2 + l2) * p.in_stride0) * es :=
      Int.mul_nonneg a (by omega)
    rw [ssize_wrap_eq _ (by omega) b, ssize_wrap_eq _ (by omega) c,
      ptr_wrap_eq _ (by omega) (by omega)]
    exact iree_ukernel_memcpy_eq_exact _ _ _ m (by omega) (by omega) (by omega) (by omega)

/-- A loop nest all of whose iterations are free of overflow is the loop nest in
exact arithmetic. -/
theorem pack_loop_nest_eq_exact (p : iree_ukernel_pack_params_t)
    (es lsize0 lsize1 lsize2 lsize3 st0 st1 st2 st3 : Int) (mem : Memory)
    (h : ∀ l0 l1 l2 l3 : Int, 0 ≤ l0 → l0 < lsize0 → 0 ≤ l1 → l1 < lsize1 →
      0 ≤ l2 → l2 < lsize2 → 0 ≤ l3 → l3 < lsize3 → ∀ m : Memory,
      pack_loop_body p es lsize2 lsize3 st0 st1 st2 st3 l0 l2 l1 l3 m =
        pack_loop_body_exact p es lsize2 lsize3 st0 st1 st2 st3 l0 l2 l1 l3 m) :
    pack_loop_nest p es lsize0 lsize1 lsize2 lsize3 st0 st1 st2 st3 mem =
      pack_loop_nest_exact p es lsize0 lsize1 lsize2 lsize3 st0 st1 st2 st3 mem := by
  unfold pack_loop_nest pack_loop_nest_exact
  apply forLoop_congr
  intro l0 h0 h0' t
  apply forLoop_congr
  intro l2 h2 h2' t
  apply forLoop_congr
  intro l1 h1 h1' t
  apply forLoop_congr
  intro l3 h3 h3' t
  exact h l0 l1 l2 l3 h0 h0' h1 h1' h2 h2' h3 h3' t

/-- The offset of the physical position (d0, d1, d2, d3) lies inside the output
buffer. -/
theorem phys_offset_bound (S0 s0 s1 s2 s3 d0 d1 d2 d3 : Int)
    (hS : S0 ≥ s1 * s2 * s3)
    (hd0 : 0 ≤ d0) (hd0' : d0 < s0) (hd1 : 0 ≤ d1) (hd1' : d1 < s1)
    (hd2 : 0 ≤ d2) (hd2' : d2 < s2) (hd3 : 0 ≤ d3) (hd3' : d3 < s3) :
    0 ≤ d0 * S0 + d1 * (s3 * s2) + d2 * s3 + d3 ∧
    d0 * S0 + d1 * (s3 * s2) + d2 * s3 + d3 < (s0 - 1) * S0 + s1 * s2 * s3 := by
  have bd := radix_bound s2 s3 d3 d2 hd2 hd2' hd3 hd3'
  have bd' := radix_bound s1 (s2 * s3) (d2 * s3 + d3) d1 hd1 hd1' bd.1 bd.2
  have hS0 : 0 ≤ S0 := by nlinarith [bd'.1, bd'.2]
  have h0 : 0 ≤ d0 * S0 := Int.mul_nonneg hd0 hS0
  have h1 : d0 * S0 ≤ (s0 - 1) * S0 :=
    Int.mul_le_mul_of_nonneg_right (by omega) hS0
  constructor
  · nlinarith [bd'.1]
  · nlinarith [bd'.2]

/-! ### Bounds that exclude an overflow -/

theorem lt_of_mul_lt (E es B : Int) (hes : 0 < es) (hB : 0 ≤ B) (h : E * es < B) : E < B := by
  by_contra hc
  have h1 : E * 1 ≤ E * es := Int.mul_le_mul_of_nonneg_left (by omega) (by omega)
  omega

theorem prod_le_prod4 (a b c d : Int) (ha : 1 ≤ a) (hb : 1 ≤ b) (hc : 1 ≤ c) (hd : 1 ≤ d) :
    a * b ≤ a * b * c * d := by
  have hab : 0 ≤ a * b := Int.mul_nonneg (by omega) (by omega)
  have h1 : a * b ≤ a * b * c := le_mul_of_one_le_right hab hc
  have h2 : a * b * c ≤ a * b * c * d :=
    le_mul_of_one_le_right (Int.mul_nonneg hab (by omega)) hd
  exact le_trans h1 h2

/-- When the extent of the output buffer is below `2 ^ 63`, so is every product of
two of its sizes. -/
theorem pack_products_fit (S0 s0 s1 s2 s3 : Int) (h0 : 1 ≤ s0) (h1 : 1 ≤ s1) (h2 : 1 ≤ s2)
    (h3 : 1 ≤ s3) (hS : S0 ≥ s1 * s2 * s3) (hE : (s0 - 1) * S0 + s1 * s2 * s3 < 2 ^ 63) :
    s0 * s2 < 2 ^ 63 ∧ s1 * s3 < 2 ^ 63 ∧ s0 * s3 < 2 ^ 63 ∧ s1 * s2 < 2 ^ 63 ∧
      s3 * s2 < 2 ^ 63 := by
  have hq : 0 ≤ s1 * s2 * s3 :=
    Int.mul_nonneg (Int.mul_nonneg (by omega) (by omega)) (by omega)
  have hP : s0 * s1 * s2 * s3 ≤ (s0 - 1) * S0 + s1 * s2 * s3 := by
    have : (s0 - 1) * (s1 * s2 * s3) ≤ (s0 - 1) * S0 :=
      Int.mul_le_mul_of_nonneg_left hS (by omega)
    linarith
  have a1 := prod_le_prod4 s0 s2 s1 s3 h0 h2 h1 h3
  have a2 := prod_le_prod4 s1 s3 s0 s2 h1 h3 h0 h2
  have a3 := prod_le_prod4 s0 s3 s1 s2 h0 h3 h1 h2
  have a4 := prod_le_prod4 s1 s2 s0 s3 h1 h2 h0 h3
  have a5 := prod_le_prod4 s3 s2 s0 s1 h3 h2 h0 h1
  refine ⟨?_, ?_, ?_, ?_, ?_⟩ <;> linarith

theorem pack_index_bound (A C x y : Int) (hx0 : 0 ≤ x) (hx : x < A) (hy0 : 0 ≤ y)
    (hy : y < C) (hAC : A * C < 2 ^ 63) : 0 ≤ x * C + y ∧ x * C + y < 2 ^ 63 := by
  have h := radix_bound A C y x hx0 hx hy0 hy
  exact ⟨h.1, by omega⟩

/-- The offset of a destination element, its byte offset and its address do not
overflow when the extent of the output buffer in bytes is below `2 ^ 63` and the
buffer ends inside the address space. -/
theorem phys_offset_fits (S0 s0 s1 s2 s3 es base d0 d1 d2 d3 : Int)
    (hS : S0 ≥ s1 * s2 * s3) (hes : 0 < es)
    (hE : ((s0 - 1) * S0 + s1 * s2 * s3) * es < 2 ^ 63)
    (hend : base + ((s0 - 1) * S0 + s1 * s2 * s3) * es ≤ 2 ^ 64)
    (hd0 : 0 ≤ d0) (hd0' : d0 < s0) (hd1 : 0 ≤ d1) (hd1' : d1 < s1)
    (hd2 : 0 ≤ d2) (hd2' : d2 < s2) (hd3 : 0 ≤ d3) (hd3' : d3 < s3) :
    0 ≤ d0 * S0 + d1 * (s3 * s2) + d2 * s3 + d3 ∧
    d0 * S0 + d1 * (s3 * s2) + d2 * s3 + d3 < 2 ^ 63 ∧
    (d0 * S0 + d1 * (s3 * s2) + d2 * s3 + d3) * es < 2 ^ 63 ∧
    base + (d0 * S0 + d1 * (s3 * s2) + d2 * s3 + d3) * es + es ≤ 2 ^ 64 := by
  have hb := phys_offset_bound S0 s0 s1 s2 s3 d0 d1 d2 d3 hS hd0 hd0' hd1 hd1' hd2 hd2'
    hd3 hd3'
  have h1 : (d0 * S0 + d1 * (s3 * s2) + d2 * s3 + d3 + 1) * es ≤
      ((s0 - 1) * S0 + s1 * s2 * s3) * es :=
    Int.mul_le_mul_of_nonneg_right (by omega) (by omega)
  have h2 : (d0 * S0 + d1 * (s3 * s2) + d2 * s3 + d3) * 1 ≤
      (d0 * S0 + d1 * (s3 * s2) + d2 * s3 + d3) * es :=
    Int.mul_le_mul_of_nonneg_left (by omega) hb.1
  have h3 : (d0 * S0 + d1 * (s3 * s2) + d2 * s3 + d3 + 1) * es =
      (d0 * S0 + d1 * (s3 * s2) + d2 * s3 + d3) * es + es := by ring
  refine ⟨hb.1, ?_, ?_, ?_⟩ <;> omega

/-- The offset of a source element, its byte offset and its address do not overflow
when the extent of the input buffer in bytes is below `2 ^ 63` and the buffer ends
inside the address space. -/
theorem in_offset_fits (n0 n1 stride es base i0 i1 : Int) (hstride : 0 ≤ stride)
    (hes : 0 < es) (hE : ((n0 - 1) * stride + n1) * es < 2 ^ 63)
    (hend : base + ((n0 - 1) * stride + n1) * es ≤ 2 ^ 64)
    (h0 : 0 ≤ i0) (h0' : i0 < n0) (h1 : 0 ≤ i1) (h1' : i1 < n1) :
    0 ≤ i1 + i0 * stride ∧ i1 + i0 * stride < 2 ^ 63 ∧
    (i1 + i0 * stride) * es < 2 ^ 63 ∧
    base + (i1 + i0 * stride) * es + es ≤ 2 ^ 64 := by
  have a : 0 ≤ i0 * stride := Int.mul_nonneg h0 hstride
  have b : i0 * stride ≤ (n0 - 1) * stride :=
    Int.mul_le_mul_of_nonneg_right (by omega) hstride
  have c : (i1 + i0 * stride + 1) * es ≤ ((n0 - 1) * stride + n1) * es :=
    Int.mul_le_mul_of_nonneg_right (by omega) (by omega)
  have d : (i1 + i0 * stride) * 1 ≤ (i1 + i0 * stride) * es :=
    Int.mul_le_mul_of_nonneg_left (by omega) (by omega)
  have e : (i1 + i0 * stride + 1) * es = (i1 + i0 * stride) * es + es := by ring
  refine ⟨by omega, ?_, ?_, ?_⟩ <;> omega

/-! ### The pack kernel -/

/-- Parameters that pass validation have no negative stride or size. -/
theorem pack_dims_of_valid (p : iree_ukernel_pack_params_t)
    (h : iree_ukernel_pack_validate p = iree_ukernel_status_t.ok) : PackDimsValid p := by
  unfold iree_ukernel_pack_validate at h
  simp only [] at h
  split at h
  · exact absurd h (by decide)
  · split at h
    · exact absurd h (by decide)
    all_goals
      split at h
      · exact absurd h (by decide)
      · unfold PackDimsValid
        omega

theorem iree_ukernel_pack_of_valid (es_of : iree_ukernel_pack_type_t → Int)
    (p : iree_ukernel_pack_params_t) (mem : Memory)
    (hval : iree_ukernel_pack_validate p = iree_ukernel_status_t.ok)
    (hnz : ¬ (p.out_size0 = 0 ∨ p.out_size1 = 0 ∨ p.out_size2 = 0 ∨ p.out_size3 = 0)) :
    (iree_ukernel_pack es_of p mem).2 =
      pack_loop_nest p (es_of p.type)
        (if p.flags &&& IREE_UKERNEL_FLAG_PACK_TRANSPOSE_OUTER ≠ 0 then p.out_size1
          else p.out_size0)
        (if p.flags &&& IREE_UKERNEL_FLAG_PACK_TRANSPOSE_OUTER ≠ 0 then p.out_size0
          else p.out_size1)
        (if p.flags &&& IREE_UKERNEL_FLAG_PACK_TRANSPOSE_INNER ≠ 0 then p.out_size3
          else p.out_size2)
        (if p.flags &&& IREE_UKERNEL_FLAG_PACK_TRANSPOSE_INNER ≠ 0 then p.out_size2
          else p.out_size3)
        (if p.flags &&& IREE_UKERNEL_FLAG_PACK_TRANSPOSE_OUTER ≠ 0 then
          ssize_wrap (p.out_size3 * p.out_size2) else p.out_stride0)
        (if p.flags &&& IREE_UKERNEL_FLAG_PACK_TRANSPOSE_OUTER ≠ 0 then p.out_stride0
          else ssize_wrap (p.out_size3 * p.out_size2))
        (if p.flags &&& IREE_UKERNEL_FLAG_PACK_TRANSPOSE_INNER ≠ 0 then 1
          else p.out_size3)
        (if p.flags &&& IREE_UKERNEL_FLAG_PACK_TRANSPOSE_INNER ≠ 0 then p.out_size3
          else 1)
        mem := by
  unfold iree_ukernel_pack
  rw [hval]
  simp only [if_neg hnz, iree_ukernel_ssize_swap]
  by_cases hO : p.flags &&& IREE_UKERNEL_FLAG_PACK_TRANSPOSE_OUTER ≠ 0 <;>
  by_cases hI : p.flags &&& IREE_UKERNEL_FLAG_PACK_TRANSPOSE_INNER ≠ 0
  · simp only [if_pos hO, if_pos hI]
  · simp only [if_pos hO, if_neg hI]
  · simp only [if_neg hO, if_pos hI]
  · simp only [if_neg hO, if_neg hI]

/-- When nothing overflows, `iree_ukernel_pack` runs the loop nest of exact
arithmetic. -/
theorem iree_ukernel_pack_exact_of_valid (es_of : iree_ukernel_pack_type_t → Int)
    (p : iree_ukernel_pack_params_t) (mem : Memory)
    (hval : iree_ukernel_pack_validate p = iree_ukernel_status_t.ok)
    (hnz : ¬ (p.out_size0 = 0 ∨ p.out_size1 = 0 ∨ p.out_size2 = 0 ∨ p.out_size3 = 0))
    (hstride : p.out_stride0 ≥ p.out_size1 * p.out_size2 * p.out_size3)
    (hes : 0 < es_of p.type) (hfit : PackNoOverflow p (es_of p.type)) :
    (iree_ukernel_pack es_of p mem).2 =
      pack_loop_nest_exact p (es_of p.type)
        (if p.flags &&& IREE_UKERNEL_FLAG_PACK_TRANSPOSE_OUTER ≠ 0 then p.out_size1
          else p.out_size0)
        (if p.flags &&& IREE_UKERNEL_FLAG_PACK_TRANSPOSE_OUTER ≠ 0 then p.out_size0
          else p.out_size1)
        (if p.flags &&& IREE_UKERNEL_FLAG_PACK_TRANSPOSE_INNER ≠ 0 then p.out_size3
          else p.out_size2)
        (if p.flags &&& IREE_UKERNEL_FLAG_PACK_TRANSPOSE_INNER ≠ 0 then p.out_size2
          else p.out_size3)
        (if p.flags &&& IREE_UKERNEL_FLAG_PACK_TRANSPOSE_OUTER ≠ 0 then
          p.out_size3 * p.out_size2 else p.out_stride0)
        (if p.flags &&& IREE_UKERNEL_FLAG_PACK_TRANSPOSE_OUTER ≠ 0 then p.out_stride0
          else p.out_size3 * p.out_size2)
        (if p.flags &&& IREE_UKERNEL_FLAG_PACK_TRANSPOSE_INNER ≠ 0 then 1
          else p.out_size3)
        (if p.flags &&& IREE_UKERNEL_FLAG_PACK_TRANSPOSE_INNER ≠ 0 then p.out_size3
          else 1)
        mem := by
  have hdims := pack_dims_of_valid p hval
  unfold PackDimsValid at hdims
  obtain ⟨hE, hEin, hob, hoe, hib, hie, hpb, hpe⟩ := hfit
  unfold pack_out_extent at hE hoe
  unfold pack_in_extent at hEin hie
  have hprod := pack_products_fit p.out_stride0 p.out_size0 p.out_size1 p.out_size2
    p.out_size3 (by omega) (by omega) (by omega) (by omega) hstride
    (lt_of_mul_lt _ _ _ hes (by norm_num) hE)
  have h32 : 0 ≤ p.out_size3 * p.out_size2 := Int.mul_nonneg (by omega) (by omega)
  have hw : ssize_wrap (p.out_size3 * p.out_size2) = p.out_size3 * p.out_size2 :=
    ssize_wrap_eq _ (by omega) hprod.2.2.2.2
  rw [iree_ukernel_pack_of_valid es_of p mem hval hnz, hw]
  have hin : ∀ i0 i1 : Int, 0 ≤ i0 → 0 ≤ i1 → i0 < p.in_size0 → i1 < p.in_size1 →
      0 ≤ i1 + i0 * p.in_stride0 ∧ i1 + i0 * p.in_stride0 < 2 ^ 63 ∧
      (i1 + i0 * p.in_stride0) * es_of p.type < 2 ^ 63 ∧ 0 ≤ p.in_buffer ∧
      p.in_buffer + (i1 + i0 * p.in_stride0) * es_of p.type + es_of p.type ≤ 2 ^ 64 := by
    intro i0 i1 a b c d
    have h := in_offset_fits p.in_size0 p.in_size1 p.in_stride0 (es_of p.type) p.in_buffer
      i0 i1 hdims.1 hes hEin hie a c b d
    exact ⟨h.1, h.2.1, h.2.2.1, hib, h.2.2.2⟩
  have hphys : ∀ d0 d1 d2 d3 : Int, 0 ≤ d0 → d0 < p.out_size0 → 0 ≤ d1 → d1 < p.out_size1 →
      0 ≤ d2 → d2 < p.out_size2 → 0 ≤ d3 → d3 < p.out_size3 →
      0 ≤ d0 * p.out_stride0 + d1 * (p.out_size3 * p.out_size2) + d2 * p.out_size3 + d3 ∧
      d0 * p.out_stride0 + d1 * (p.out_size3 * p.out_size2) + d2 * p.out_size3 + d3
        < 2 ^ 63 ∧
      (d0 * p.out_stride0 + d1 * (p.out_size3 * p.out_size2) + d2 * p.out_size3 + d3)
        * es_of p.type < 2 ^ 63 ∧
      p.out_buffer +
        (d0 * p.out_stride0 + d1 * (p.out_size3 * p.out_size2) + d2 * p.out_size3 + d3)
          * es_of p.type + es_of p.type ≤ 2 ^ 64 :=
    fun d0 d1 d2 d3 a a' b b' c c' d d' =>
      phys_offset_fits p.out_stride0 p.out_size0 p.out_size1 p.out_size2 p.out_size3
        (es_of p.type) p.out_buffer d0 d1 d2 d3 hstride hes hE hoe a a' b b' c c' d d'
  by_cases hO : p.flags &&& IREE_UKERNEL_FLAG_PACK_TRANSPOSE_OUTER ≠ 0 <;>
  by_cases hI : p.flags &&& IREE_UKERNEL_FLAG_PACK_TRANSPOSE_INNER ≠ 0
  · simp only [if_pos hO, if_pos hI]
    apply pack_loop_nest_eq_exact
    intro l0 l1 l2 l3 a a' b b' c c' d d' m
    have B := hphys l1 l0 l3 l2 b b' a a' d d' c c'
    have I0 := pack_index_bound p.out_size1 p.out_size3 l0 l2 a a' c c' hprod.2.1
    have I1 := pack_index_bound p.out_size0 p.out_size2 l1 l3 b b' d d' hprod.1
    exact pack_loop_body_eq_exact p _ _ _ _ _ _ _ l0 l2 l1 l3 m hes
      (by linarith [B.1]) (by linarith [B.2.1]) (by linarith [B.2.2.1]) hob
      (by linarith [B.2.2.2]) I0.1 I0.2 I1.1 I1.2 hpb hpe
      (fun h0 h1 => hin _ _ I0.1 I1.1 h0 h1)
  · simp only [if_pos hO, if_neg hI]
    apply pack_loop_nest_eq_exact
    intro l0 l1 l2 l3 a a' b b' c c' d d' m
    have B := hphys l1 l0 l2 l3 b b' a a' c c' d d'
    have I0 := pack_index_bound p.out_size1 p.out_size2 l0 l2 a a' c c' hprod.2.2.2.1
    have I1 := pack_index_bound p.out_size0 p.out_size3 l1 l3 b b' d d' hprod.2.2.1
    exact pack_loop_body_eq_exact p _ _ _ _ _ _ _ l0 l2 l1 l3 m hes
      (by linarith [B.1]) (by linarith [B.2.1]) (by linarith [B.2.2.1]) hob
      (by linarith [B.2.2.2]) I0.1 I0.2 I1.1 I1.2 hpb hpe
      (fun h0 h1 => hin _ _ I0.1 I1.1 h0 h1)
  · simp only [if_neg hO, if_pos hI]
    apply pack_loop_nest_eq_exact
    intro l0 l1 l2 l3 a a' b b' c c' d d' m
    have B := hphys l0 l1 l3 l2 a a' b b' d d' c c'
    have I0 := pack_index_bound p.out_size0 p.out_size3 l0 l2 a a' c c' hprod.2.2.1
    have I1 := pack_index_bound p.out_size1 p.out_size2 l1 l3 b b' d d' hprod.2.2.2.1
    exact pack_loop_body_eq_exact p _ _ _ _ _ _ _ l0 l2 l1 l3 m hes
      (by linarith [B.1]) (by linarith [B.2.1]) (by linarith [B.2.2.1]) hob
      (by linarith [B.2.2.2]) I0.1 I0.2 I1.1 I1.2 hpb hpe
      (fun h0 h1 => hin _ _ I0.1 I1.1 h0 h1)
  · simp only [if_neg hO, if_neg hI]
    apply pack_loop_nest_eq_exact
    intro l0 l1 l2 l3 a a' b b' c c' d d' m
    have B := hphys l0 l1 l2 l3 a a' b b' c c' d d'
    have I0 := pack_index_bound p.out_size0 p.out_size2 l0 l2 a a' c c' hprod.1
    have I1 := pack_index_bound p.out_size1 p.out_size3 l1 l3 b b' d d' hprod.2.1
    exact pack_loop_body_eq_exact p _ _ _ _ _ _ _ l0 l2 l1 l3 m hes
      (by linarith [B.1]) (by linarith [B.2.1]) (by linarith [B.2.2.1]) hob
      (by linarith [B.2.2.2]) I0.1 I0.2 I1.1 I1.2 hpb hpe
      (fun h0 h1 => hin _ _ I0.1 I1.1 h0 h1)

/-- The contract of the kernel, for the four combinations of the two flags, when
nothing overflows. -/
theorem iree_ukernel_pack_spec (es_of : iree_ukernel_pack_type_t → Int)
    (p : iree_ukernel_pack_params_t) (mem : Memory)
    (hval : iree_ukernel_pack_validate p = iree_ukernel_status_t.ok)
    (hstride : p.out_stride0 ≥ p.out_size1 * p.out_size2 * p.out_size3)
    (hdisj : BuffersDisjoint p (es_of p.type))
    (hfit : PackNoOverflow p (es_of p.type))
    (d0 d1 d2 d3 k : Int) (h0 : 0 ≤ d0) (h0' : d0 < p.out_size0)
    (h1 : 0 ≤ d1) (h1' : d1 < p.out_size1) (h2 : 0 ≤ d2) (h2' : d2 < p.out_size2)
    (h3 : 0 ≤ d3) (h3' : d3 < p.out_size3) (hk0 : 0 ≤ k) (hk : k < es_of p.type) :
    (iree_ukernel_pack es_of p mem).2
        (p.out_buffer +
          (d0 * p.out_stride0 + d1 * p.out_size2 * p.out_size3 + d2 * p.out_size3 + d3)
            * es_of p.type + k)
      = pack_contract_value p (es_of p.type) mem d0 d1 d2 d3 k := by
  have hnz : ¬ (p.out_size0 = 0 ∨ p.out_size1 = 0 ∨ p.out_size2 = 0 ∨ p.out_size3 = 0) := by
    omega
  rw [iree_ukernel_pack_exact_of_valid es_of p mem hval hnz hstride (by omega) hfit]
  have hin : ∀ i0 i1 k : Int, 0 ≤ i0 → i0 < p.in_size0 → 0 ≤ i1 → i1 < p.in_size1 →
      0 ≤ k → k < es_of p.type →
      ¬ OutBufferAddr p (es_of p.type)
        (p.in_buffer + (i1 + i0 * p.in_stride0) * es_of p.type + k) := by
    intro i0 i1 k a b c d e f hout
    exact (hdisj _ hout).1 ⟨i0, i1, k, a, b, c, d, e, f, by ring⟩
  have hpad : ∀ k : Int, 0 ≤ k → k < es_of p.type →
      ¬ OutBufferAddr p (es_of p.type) (p.padding_value + k) := by
    intro k a b hout
    exact (hdisj _ hout).2 ⟨k, a, b, rfl⟩
  unfold pack_contract_value
  by_cases hO : p.flags &&& IREE_UKERNEL_FLAG_PACK_TRANSPOSE_OUTER ≠ 0 <;>
  by_cases hI : p.flags &&& IREE_UKERNEL_FLAG_PACK_TRANSPOSE_INNER ≠ 0
  · -- both transpositions
    simp only [if_pos hO, if_pos hI]
    have haddr : p.out_buffer +
        (d0 * p.out_stride0 + d1 * p.out_size2 * p.out_size3 + d2 * p.out_size3 + d3)
          * es_of p.type + k =
        p.out_buffer + (d1 * (p.out_size3 * p.out_size2) + d3 * 1 + d0 * p.out_stride0 +
          d2 * p.out_size3) * es_of p.type + k := by ring
    rw [haddr, pack_loop_nest_exact_spec p (es_of p.type) p.out_size1 p.out_size0 p.out_size3
      p.out_size2 (p.out_size3 * p.out_size2) p.out_stride0 1 p.out_size3 mem
      (OutBufferAddr p (es_of p.type)) _ hin hpad _ d1 d0 d3 d2 k h1 h1' h0 h0' h3 h3' h2 h2'
      hk0 hk]
    · have e : d0 * p.out_size2 + d2 + (d1 * p.out_size3 + d3) * p.in_stride0 =
          (d1 * p.out_size3 + d3) * p.in_stride0 + (d0 * p.out_size2 + d2) := by ring
      rw [e]
    · intro l0 l1 l2 l3 k a b c d e f g h i j
      exact ⟨l1, l0, l3, l2, k, c, d, a, b, g, h, e, f, i, j, by ring⟩
    · intro l0 l1 l2 l3 l0' l1' l2' l3' a b c d e f g h a' b' c' d' e' f' g' h' heq
      have := phys_offset_inj p.out_stride0 p.out_size1 p.out_size2 p.out_size3
        l1 l0 l3 l2 l1' l0' l3' l2' hstride a b g h e f a' b' g' h' e' f' (by linarith)
      tauto
  · -- outer transposition only
    simp only [if_pos hO, if_neg hI]
    have haddr : p.out_buffer +
        (d0 * p.out_stride0 + d1 * p.out_size2 * p.out_size3 + d2 * p.out_size3 + d3)
          * es_of p.type + k =
        p.out_buffer + (d1 * (p.out_size3 * p.out_size2) + d2 * p.out_size3 +
          d0 * p.out_stride0 + d3 * 1) * es_of p.type + k := by ring
    rw [haddr, pack_loop_nest_exact_spec p (es_of p.type) p.out_size1 p.out_size0 p.out_size2
      p.out_size3 (p.out_size3 * p.out_size2) p.out_stride0 p.out_size3 1 mem
      (OutBufferAddr p (es_of p.type)) _ hin hpad _ d1 d0 d2 d3 k h1 h1' h0 h0' h2 h2' h3 h3'
      hk0 hk]
    · have e : d0 * p.out_size3 + d3 + (d1 * p.out_size2 + d2) * p.in_stride0 =
          (d1 * p.out_size2 + d2) * p.in_stride0 + (d0 * p.out_size3 + d3) := by ring
      rw [e]
    · intro l0 l1 l2 l3 k a b c d e f g h i j
      exact ⟨l1, l0, l2, l3, k, c, d, a, b, e, f, g, h, i, j, by ring⟩
    · intro l0 l1 l2 l3 l0' l1' l2' l3' a b c d e f g h a' b' c' d' e' f' g' h' heq
      have := phys_offset_inj p.out_stride0 p.out_size1 p.out_size2 p.out_size3
        l1 l0 l2 l3 l1' l0' l2' l3' hstride a b e f g h a' b' e' f' g' h' (by linarith)
      tauto
  · -- inner transposition only
    simp only [if_neg hO, if_pos hI]
    have haddr : p.out_buffer +
        (d0 * p.out_stride0 + d1 * p.out_size2 * p.out_size3 + d2 * p.out_size3 + d3)
          * es_of p.type + k =
        p.out_buffer + (d0 * p.out_stride0 + d3 * 1 + d1 * (p.out_size3 * p.out_size2) +
          d2 * p.out_size3) * es_of p.type + k := by ring
    rw [haddr, pack_loop_nest_exact_spec p (es_of p.type) p.out_size0 p.out_size1 p.out_size3
      p.out_size2 p.out_stride0 (p.out_size3 * p.out_size2) 1 p.out_size3 mem
      (OutBufferAddr p (es_of p.type)) _ hin hpad _ d0 d1 d3 d2 k h0 h0' h1 h1' h3 h3' h2 h2'
      hk0 hk]
    · have e : d1 * p.out_size2 + d2 + (d0 * p.out_size3 + d3) * p.in_stride0 =
          (d0 * p.out_size3 + d3) * p.in_stride0 + (d1 * p.out_size2 + d2) := by ring
      rw [e]
    · intro l0 l1 l2 l3 k a b c d e f g h i j
      exact ⟨l0, l1, l3, l2, k, a, b, c, d, g, h, e, f, i, j, by ring⟩
    · intro l0 l1 l2 l3 l0' l1' l2' l3' a b c d e f g h a' b' c' d' e' f' g' h' heq
      have := phys_offset_inj p.out_stride0 p.out_size1 p.out_size2 p.out_size3
        l0 l1 l3 l2 l0' l1' l3' l2' hstride c d g h e f c' d' g' h' e' f' (by linarith)
      tauto
  · -- no transposition
    simp only [if_neg hO, if_neg hI]
    have haddr : p.out_buffer +
        (d0 * p.out_stride0 + d1 * p.out_size2 * p.out_size3 + d2 * p.out_size3 + d3)
          * es_of p.type + k =
        p.out_buffer + (d0 * p.out_stride0 + d2 * p.out_size3 +
          d1 * (p.out_size3 * p.out_size2) + d3 * 1) * es_of p.type + k := by ring
    rw [haddr, pack_loop_nest_exact_spec p (es_of p.type) p.out_size0 p.out_size1 p.out_size2
      p.out_size3 p.out_stride0 (p.out_size3 * p.out_size2) p.out_size3 1 mem
      (OutBufferAddr p (es_of p.type)) _ hin hpad _ d0 d1 d2 d3 k h0 h0' h1 h1' h2 h2' h3 h3'
      hk0 hk]
    · have e : d1 * p.out_size3 + d3 + (d0 * p.out_size2 + d2) * p.in_stride0 =
          (d0 * p.out_size2 + d2) * p.in_stride0 + (d1 * p.out_size3 + d3) := by ring
      rw [e]
    · intro l0 l1 l2 l3 k a b c d e f g h i j
      exact ⟨l0, l1, l2, l3, k, a, b, c, d, e, f, g, h, i, j, by ring⟩
    · intro l0 l1 l2 l3 l0' l1' l2' l3' a b c d e f g h a' b' c' d' e' f' g' h' heq
      have := phys_offset_inj p.out_stride0 p.out_size1 p.out_size2 p.out_size3
        l0 l1 l2 l3 l0' l1' l2' l3' hstride c d e f g h c' d' e' f' g' h' (by linarith)
      tauto


theorem pack_overflow_disjoint :
    BuffersDisjoint pack_overflow_params
      (pack_example_elem_size pack_overflow_params.type) := by
  rintro a ⟨d0, d1, d2, d3, k, h0, h0', h1, h1', h2, h2', h3, h3', hk0, hk, ha⟩
  simp only [pack_overflow_params, pack_example_elem_size] at *
  constructor
  · rintro ⟨i0, i1, k', g0, g0', g1, g1', gk0, gk, ha'⟩
    simp only [] at *
    omega
  · rintro ⟨k', gk0, gk, ha'⟩
    simp only [] at *
    omega

/-- C1, as stated (without a bound on the sizes), fails. The parameters
`pack_overflow_params` (two elements of four bytes, output sizes (2, 1, 1, 1), outer
stride `2 ^ 62`, both flags clear) pass validation, satisfy the stride condition and
have an output buffer disjoint from the input buffer and the padding value. The byte
offset `1 * 2 ^ 62 * 4` of the destination element (1, 0, 0, 0) is `2 ^ 64`, which is
0 in 64 bits: that element is written over the element (0, 0, 0, 0), at address
100, which after the call holds the source element (1, 0) (first byte 11, read at
address 4) and not the source element (0, 0) (first byte 7, read at address 0). -/
theorem iree_ukernel_pack_no_transpose_overflow_counterexample :
    ¬ (∀ (es_of : iree_ukernel_pack_type_t → Int) (p : iree_ukernel_pack_params_t)
        (mem : Memory),
        iree_ukernel_pack_validate p = iree_ukernel_status_t.ok →
        p.flags &&& IREE_UKERNEL_FLAG_PACK_TRANSPOSE_INNER = 0 →
        p.flags &&& IREE_UKERNEL_FLAG_PACK_TRANSPOSE_OUTER = 0 →
        p.out_stride0 ≥ p.out_size1 * p.out_size2 * p.out_size3 →
        BuffersDisjoint p (es_of p.type) →
        ∀ d0 d1 d2 d3 k : Int, 0 ≤ d0 → d0 < p.out_size0 → 0 ≤ d1 → d1 < p.out_size1 →
          0 ≤ d2 → d2 < p.out_size2 → 0 ≤ d3 → d3 < p.out_size3 →
          0 ≤ k → k < es_of p.type →
          (iree_ukernel_pack es_of p mem).2
            (p.out_buffer +
              (d0 * p.out_stride0 + d1 * p.out_size2 * p.out_size3 + d2 * p.out_size3 + d3)
                * es_of p.type + k)
          = if d0 * p.out_size2 + d2 < p.in_size0 ∧ d1 * p.out_size3 + d3 < p.in_size1 then
              mem (p.in_buffer +
                ((d0 * p.out_size2 + d2) * p.in_stride0 + (d1 * p.out_size3 + d3))
                  * es_of p.type + k)
            else
              mem (p.padding_value + k)) ∧
    (iree_ukernel_pack pack_example_elem_size pack_overflow_params pack_example_mem).2 100
      = 11 ∧
    pack_example_mem 0 = 7 ∧ pack_example_mem 4 = 11 := by
  refine ⟨?_, by decide, by decide, by decide⟩
  intro h
  have h' := h pack_example_elem_size pack_overflow_params pack_example_mem
    (by decide) (by decide) (by decide) (by decide) pack_overflow_disjoint
    0 0 0 0 0 (by decide) (by decide) (by decide) (by decide)
    (by decide) (by decide) (by decide) (by decide) (by decide) (by decide)
  revert h'
  decide

/-- C1 (amended): for parameters that pass validation, with neither transpose flag
set, with `out_stride0 ≥ out_size1 * out_size2 * out_size3`, the output buffer
disjoint from the input buffer and the padding value, and no overflow of an offset
or of an address (`PackNoOverflow`: the extents of the two buffers in bytes are below
`2 ^ 63` and the buffers and the padding value lie inside the address space),
`iree_ukernel_pack` returns `ok` and every byte `k` of the destination element at
offset `d0 * out_stride0 + d1 * out_size2 * out_size3 + d2 * out_size3 + d3` equals
the same byte of the source element at offset `i0 * in_stride0 + i1`, where
`i0 = d0 * out_size2 + d2` and `i1 = d1 * out_size3 + d3`, when `i0 < in_size0` and
`i1 < in_size1`, and the same byte of the padding value otherwise. -/
theorem iree_ukernel_pack_no_transpose (es_of : iree_ukernel_pack_type_t → Int)
    (p : iree_ukernel_pack_params_t) (mem : Memory)
    (hval : iree_ukernel_pack_validate p = iree_ukernel_status_t.ok)
    (hinner : p.flags &&& IREE_UKERNEL_FLAG_PACK_TRANSPOSE_INNER = 0)
    (houter : p.flags &&& IREE_UKERNEL_FLAG_PACK_TRANSPOSE_OUTER = 0)
    (hstride : p.out_stride0 ≥ p.out_size1 * p.out_size2 * p.out_size3)
    (hdisj : BuffersDisjoint p (es_of p.type))
    (hfit : PackNoOverflow p (es_of p.type)) :
    (iree_ukernel_pack es_of p mem).1 = iree_ukernel_status_t.ok ∧
    ∀ d0 d1 d2 d3 k : Int, 0 ≤ d0 → d0 < p.out_size0 → 0 ≤ d1 → d1 < p.out_size1 →
      0 ≤ d2 → d2 < p.out_size2 → 0 ≤ d3 → d3 < p.out_size3 →
      0 ≤ k → k < es_of p.type →
      (iree_ukernel_pack es_of p mem).2
        (p.out_buffer +
          (d0 * p.out_stride0 + d1 * p.out_size2 * p.out_size3 + d2 * p.out_size3 + d3)
            * es_of p.type + k)
      = if d0 * p.out_size2 + d2 < p.in_size0 ∧ d1 * p.out_size3 + d3 < p.in_size1 then
          mem (p.in_buffer +
            ((d0 * p.out_size2 + d2) * p.in_stride0 + (d1 * p.out_size3 + d3))
              * es_of p.type + k)
        else
          mem (p.padding_value + k) := by
  constructor
  · unfold iree_ukernel_pack
    rw [hval]
    simp only []
    split <;> rfl
  · intro d0 d1 d2 d3 k h0 h0' h1 h1' h2 h2' h3 h3' hk0 hk
    rw [iree_ukernel_pack_spec es_of p mem hval hstride hdisj hfit d0 d1 d2 d3 k
      h0 h0' h1 h1' h2 h2' h3 h3' hk0 hk]
    unfold pack_contract_value
    have hO : ¬ (p.flags &&& IREE_UKERNEL_FLAG_PACK_TRANSPOSE_OUTER ≠ 0) :=
      fun h => h houter
    have hI : ¬ (p.flags &&& IREE_UKERNEL_FLAG_PACK_TRANSPOSE_INNER ≠ 0) :=
      fun h => h hinner
    simp only [if_neg hO, if_neg hI]
    by_cases hc : d0 * p.out_size2 + d2 < p.in_size0 ∧ d1 * p.out_size3 + d3 < p.in_size1
    · rw [if_pos hc, if_neg (by omega)]
    · rw [if_neg hc, if_pos (by omega)]

theorem pack_example_disjoint :
    BuffersDisjoint pack_example_params (pack_example_elem_size pack_example_params.type) := by
  rintro a ⟨d0, d1, d2, d3, k, h0, h0', h1, h1', h2, h2', h3, h3', hk0, hk, ha⟩
  simp only [pack_example_params, pack_example_elem_size] at *
  constructor
  · rintro ⟨i0, i1, k', g0, g0', g1, g1', gk0, gk, ha'⟩
    simp only [] at *
    omega
  · rintro ⟨k', gk0, gk, ha'⟩
    simp only [] at *
    omega

theorem pack_example_no_overflow :
    PackNoOverflow pack_example_params (pack_example_elem_size pack_example_params.type) := by
  unfold PackNoOverflow pack_out_extent pack_in_extent
  decide

/-- Witness of C1 (amended): a 2x3 source packed into 2x3 tiles of 1x1; the
destination element at the physical position (1, 1, 0, 0), at address 104, holds the
source element (1, 1), read at address 4. -/
theorem iree_ukernel_pack_no_transpose_witness :
    (iree_ukernel_pack pack_example_elem_size pack_example_params pack_example_mem).2 104
      = pack_example_mem 4 := by
  have h := (iree_ukernel_pack_no_transpose pack_example_elem_size pack_example_params
    pack_example_mem (by decide) (by decide) (by decide) (by decide)
    pack_example_disjoint pack_example_no_overflow).2 1 1 0 0 0 (by decide) (by decide)
    (by decide) (by decide) (by decide) (by decide) (by decide) (by decide) (by decide)
    (by decide)
  simpa [pack_example_params, pack_example_elem_size] using h

/-! ### Validation -/

theorem testBit_three (i : Nat) : Nat.testBit 3 i = true ↔ i < 2 := by
  constructor
  · intro h
    by_contra hge
    have hlt : 3 < 2 ^ i := by
      calc 3 < 2 ^ 2 := by decide
        _ ≤ 2 ^ i := Nat.pow_le_pow_right (by decide) (by omega)
    rw [Nat.testBit_lt_two_pow hlt] at h
    exact Bool.false_ne_true h
  · intro h
    interval_cases i <;> decide

theorem testBit_uint32_not_three (i : Nat) (hi : i < 32) :
    Nat.testBit (uint32_not 3) i = true ↔ 2 ≤ i := by
  have e : uint32_not 3 = 4294967292 := by decide
  rw [e]
  interval_cases i <;> decide

theorem pack_flags_check (p : iree_ukernel_pack_params_t) (hflags : p.flags < 2 ^ 32) :
    p.flags &&& uint32_not (IREE_UKERNEL_FLAG_PACK_TRANSPOSE_INNER |||
      IREE_UKERNEL_FLAG_PACK_TRANSPOSE_OUTER) = 0 ↔ PackFlagsValid p := by
  have e : IREE_UKERNEL_FLAG_PACK_TRANSPOSE_INNER |||
      IREE_UKERNEL_FLAG_PACK_TRANSPOSE_OUTER = 3 := by decide
  unfold PackFlagsValid
  rw [e]
  constructor
  · intro h i hi
    have hi32 : i < 32 := by
      by_contra hge
      have hlt : p.flags < 2 ^ i :=
        lt_of_lt_of_le hflags (Nat.pow_le_pow_right (by decide) (by omega))
      rw [Nat.testBit_lt_two_pow hlt] at hi
      exact Bool.false_ne_true hi
    have hb : Nat.testBit (p.flags &&& uint32_not 3) i = false := by
      rw [h]
      exact Nat.zero_testBit i
    rw [Nat.testBit_land, hi, Bool.true_and] at hb
    rw [testBit_three]
    by_contra hge
    have := (testBit_uint32_not_three i hi32).mpr (by omega)
    rw [this] at hb
    exact Bool.noConfusion hb
  · intro h
    apply Nat.eq_of_testBit_eq
    intro i
    rw [Nat.testBit_land, Nat.zero_testBit]
    cases hb : Nat.testBit p.flags i
    · rfl
    · have hi2 : i < 2 := (testBit_three i).mp (h i hb)
      have : Nat.testBit (uint32_not 3) i = false := by
        interval_cases i <;> decide
      rw [this]
      rfl

theorem iree_ukernel_pack_validate_cases (p : iree_ukernel_pack_params_t)
    (hflags : p.flags < 2 ^ 32) :
    (¬ PackFlagsValid p → iree_ukernel_pack_validate p = iree_ukernel_status_t.bad_flags) ∧
    (PackFlagsValid p → ¬ PackTypeValid p →
      iree_ukernel_pack_validate p = iree_ukernel_status_t.bad_type) ∧
    (PackFlagsValid p → PackTypeValid p → ¬ PackDimsValid p →
      iree_ukernel_pack_validate p =
        iree_ukernel_status_t.unsupported_huge_or_negative_dimension) ∧
    (PackFlagsValid p → PackTypeValid p → PackDimsValid p →
      iree_ukernel_pack_validate p = iree_ukernel_status_t.ok) := by
  have hd : (p.in_stride0 < 0 ∨ p.out_stride0 < 0 ∨ p.in_size0 < 0 ∨ p.in_size1 < 0 ∨
      p.out_size0 < 0 ∨ p.out_size1 < 0 ∨ p.out_size2 < 0 ∨ p.out_size3 < 0) ↔
      ¬ PackDimsValid p := by
    unfold PackDimsValid
    omega
  unfold iree_ukernel_pack_validate
  simp only []
  refine ⟨?_, ?_, ?_, ?_⟩
  · intro hf
    rw [if_pos (fun h => hf ((pack_flags_check p hflags).mp h))]
  · intro hf ht
    rw [if_neg (not_not.mpr ((pack_flags_check p hflags).mpr hf))]
    unfold PackTypeValid at ht
    cases hty : p.type <;> simp_all
  · intro hf ht hdim
    rw [if_neg (not_not.mpr ((pack_flags_check p hflags).mpr hf))]
    rcases ht with ht | ht | ht <;> rw [ht] <;> simp only [] <;> rw [if_pos (hd.mpr hdim)]
  · intro hf ht hdim
    rw [if_neg (not_not.mpr ((pack_flags_check p hflags).mpr hf))]
    rcases ht with ht | ht | ht <;> rw [ht] <;> simp only [] <;>
      rw [if_neg (fun h => hd.mp h hdim)]

theorem iree_ukernel_pack_status_eq (es_of : iree_ukernel_pack_type_t → Int)
    (p : iree_ukernel_pack_params_t) (mem : Memory) :
    (iree_ukernel_pack es_of p mem).1 = iree_ukernel_pack_validate p := by
  unfold iree_ukernel_pack
  cases h : iree_ukernel_pack_validate p <;> simp only []
  split <;> rfl

theorem iree_ukernel_pack_mem_of_error (es_of : iree_ukernel_pack_type_t → Int)
    (p : iree_ukernel_pack_params_t) (mem : Memory)
    (h : iree_ukernel_pack_validate p ≠ iree_ukernel_status_t.ok) :
    (iree_ukernel_pack es_of p mem).2 = mem := by
  unfold iree_ukernel_pack
  cases hv : iree_ukernel_pack_validate p <;> simp only []
  exact absurd hv h

/-- C2: `iree_ukernel_pack` returns `ok` if and only if the parameters pass
validation (no flag bit outside TRANSPOSE_INNER and TRANSPOSE_OUTER, a supported
type, no negative stride or size); otherwise it returns `bad_flags` if the flags
are invalid, else `bad_type` if the type is unsupported, else
`unsupported_huge_or_negative_dimension`; and in every failing case the memory, so
every destination element, is left as it was. -/
theorem iree_ukernel_pack_status (es_of : iree_ukernel_pack_type_t → Int)
    (p : iree_ukernel_pack_params_t) (mem : Memory) (hflags : p.flags < 2 ^ 32) :
    ((iree_ukernel_pack es_of p mem).1 = iree_ukernel_status_t.ok ↔
      PackFlagsValid p ∧ PackTypeValid p ∧ PackDimsValid p) ∧
    (¬ PackFlagsValid p →
      (iree_ukernel_pack es_of p mem).1 = iree_ukernel_status_t.bad_flags) ∧
    (PackFlagsValid p → ¬ PackTypeValid p →
      (iree_ukernel_pack es_of p mem).1 = iree_ukernel_status_t.bad_type) ∧
    (PackFlagsValid p → PackTypeValid p → ¬ PackDimsValid p →
      (iree_ukernel_pack es_of p mem).1 =
        iree_ukernel_status_t.unsupported_huge_or_negative_dimension) ∧
    ((iree_ukernel_pack es_of p mem).1 ≠ iree_ukernel_status_t.ok →
      (iree_ukernel_pack es_of p mem).2 = mem) := by
  obtain ⟨c1, c2, c3, c4⟩ := iree_ukernel_pack_validate_cases p hflags
  rw [iree_ukernel_pack_status_eq]
  refine ⟨⟨?_, fun h => c4 h.1 h.2.1 h.2.2⟩, c1, c2, c3, ?_⟩
  · intro hok
    by_cases hf : PackFlagsValid p
    · by_cases ht : PackTypeValid p
      · by_cases hdim : PackDimsValid p
        · exact ⟨hf, ht, hdim⟩
        · rw [c3 hf ht hdim] at hok
          exact absurd hok (by decide)
      · rw [c2 hf ht] at hok
        exact absurd hok (by decide)
    · rw [c1 hf] at hok
      exact absurd hok (by decide)
  · intro h
    exact iree_ukernel_pack_mem_of_error es_of p mem h

/-- Witness of C2: flags with bit 2 set are refused with `bad_flags` and the memory
is left as it was. -/
theorem iree_ukernel_pack_status_witness :
    (iree_ukernel_pack pack_example_elem_size
        { pack_example_params with flags := 4 } pack_example_mem).1
      = iree_ukernel_status_t.bad_flags ∧
    (iree_ukernel_pack pack_example_elem_size
        { pack_example_params with flags := 4 } pack_example_mem).2 = pack_example_mem := by
  have h := iree_ukernel_pack_status pack_example_elem_size
    { pack_example_params with flags := 4 } pack_example_mem (by decide)
  have hbad : ¬ PackFlagsValid { pack_example_params with flags := 4 } := by
    intro hv
    exact absurd (hv 2 (by decide)) (by decide)
  refine ⟨h.2.1 hbad, h.2.2.2.2 ?_⟩
  rw [h.2.1 hbad]
  decide


/-- C3, as stated, fails in two ways. First it has no disjointness assumption: the
transposition (TRANSPOSE_OUTER) of a 2x3 source into 3x2 tiles of 1x1 in place
(output buffer = input buffer) passes validation and satisfies the stride condition,
yet the destination element at the physical position (2, 0, 0, 0), offset 4, does
not hold the source element (0, 2) as it was before the call, and the destination
element at (1, 0, 0, 0), offset 2, does not hold the source element (0, 1) as it is
after the call. So the claim fails whether the source is read before or after the
call. Second it has no bound on the sizes: even with disjoint buffers, for the
parameters `pack_overflow_params` (outer stride `2 ^ 62`, elements of four bytes)
the byte offset of the destination element (1, 0, 0, 0) is `2 ^ 64`, that is 0 in 64
bits, and the element (0, 0, 0, 0) does not hold the source element (0, 0). -/
theorem iree_ukernel_pack_transpose_overlap_counterexample :
    ¬ (∀ (es_of : iree_ukernel_pack_type_t → Int) (p : iree_ukernel_pack_params_t)
        (mem : Memory),
        iree_ukernel_pack_validate p = iree_ukernel_status_t.ok →
        p.out_stride0 ≥ p.out_size1 * p.out_size2 * p.out_size3 →
        ∀ d0 d1 d2 d3 k : Int, 0 ≤ d0 → d0 < p.out_size0 → 0 ≤ d1 → d1 < p.out_size1 →
          0 ≤ d2 → d2 < p.out_size2 → 0 ≤ d3 → d3 < p.out_size3 →
          0 ≤ k → k < es_of p.type →
          (iree_ukernel_pack es_of p mem).2
            (p.out_buffer +
              (d0 * p.out_stride0 + d1 * p.out_size2 * p.out_size3 + d2 * p.out_size3 + d3)
                * es_of p.type + k)
          = pack_contract_value p (es_of p.type) mem d0 d1 d2 d3 k) ∧
    ¬ (∀ (es_of : iree_ukernel_pack_type_t → Int) (p : iree_ukernel_pack_params_t)
        (mem : Memory),
        iree_ukernel_pack_validate p = iree_ukernel_status_t.ok →
        p.out_stride0 ≥ p.out_size1 * p.out_size2 * p.out_size3 →
        ∀ d0 d1 d2 d3 k : Int, 0 ≤ d0 → d0 < p.out_size0 → 0 ≤ d1 → d1 < p.out_size1 →
          0 ≤ d2 → d2 < p.out_size2 → 0 ≤ d3 → d3 < p.out_size3 →
          0 ≤ k → k < es_of p.type →
          (iree_ukernel_pack es_of p mem).2
            (p.out_buffer +
              (d0 * p.out_stride0 + d1 * p.out_size2 * p.out_size3 + d2 * p.out_size3 + d3)
                * es_of p.type + k)
          = pack_contract_value p (es_of p.type) (iree_ukernel_pack es_of p mem).2
              d0 d1 d2 d3 k) ∧
    ¬ (∀ (es_of : iree_ukernel_pack_type_t → Int) (p : iree_ukernel_pack_params_t)
        (mem : Memory),
        iree_ukernel_pack_validate p = iree_ukernel_status_t.ok →
        p.out_stride0 ≥ p.out_size1 * p.out_size2 * p.out_size3 →
        BuffersDisjoint p (es_of p.type) →
        ∀ d0 d1 d2 d3 k : Int, 0 ≤ d0 → d0 < p.out_size0 → 0 ≤ d1 → d1 < p.out_size1 →
          0 ≤ d2 → d2 < p.out_size2 → 0 ≤ d3 → d3 < p.out_size3 →
          0 ≤ k → k < es_of p.type →
          (iree_ukernel_pack es_of p mem).2
            (p.out_buffer +
              (d0 * p.out_stride0 + d1 * p.out_size2 * p.out_size3 + d2 * p.out_size3 + d3)
                * es_of p.type + k)
          = pack_contract_value p (es_of p.type) mem d0 d1 d2 d3 k) := by
  refine ⟨?_, ?_, ?_⟩
  · intro h
    have h' := h pack_example_elem_size pack_inplace_params pack_example_mem
      (by decide) (by decide) 2 0 0 0 0 (by decide) (by decide) (by decide) (by decide)
      (by decide) (by decide) (by decide) (by decide) (by decide) (by decide)
    revert h'
    decide
  · intro h
    have h' := h pack_example_elem_size pack_inplace_params pack_example_mem
      (by decide) (by decide) 1 0 0 0 0 (by decide) (by decide) (by decide) (by decide)
      (by decide) (by decide) (by decide) (by decide) (by decide) (by decide)
    revert h'
    decide
  · intro h
    have h' := h pack_example_elem_size pack_overflow_params pack_example_mem
      (by decide) (by decide) pack_overflow_disjoint
      0 0 0 0 0 (by decide) (by decide) (by decide) (by decide)
      (by decide) (by decide) (by decide) (by decide) (by decide) (by decide)
    revert h'
    decide

/-- C3 (amended): for parameters that pass validation, with
`out_stride0 ≥ out_size1 * out_size2 * out_size3`, the output buffer disjoint from
the input buffer and the padding value, and no overflow of an offset or of an
address (`PackNoOverflow`: the extents of the two buffers in bytes are below `2 ^ 63`
and the buffers and the padding value lie inside the address space), every byte `k`
of the destination element at the physical position `(d0, d1, d2, d3)` holds the
value of the contract: the two transpose flags act independently as an outer-pair
swap and an inner-pair swap. -/
theorem iree_ukernel_pack_transpose (es_of : iree_ukernel_pack_type_t → Int)
    (p : iree_ukernel_pack_params_t) (mem : Memory)
    (hval : iree_ukernel_pack_validate p = iree_ukernel_status_t.ok)
    (hstride : p.out_stride0 ≥ p.out_size1 * p.out_size2 * p.out_size3)
    (hdisj : BuffersDisjoint p (es_of p.type))
    (hfit : PackNoOverflow p (es_of p.type)) :
    ∀ d0 d1 d2 d3 k : Int, 0 ≤ d0 → d0 < p.out_size0 → 0 ≤ d1 → d1 < p.out_size1 →
      0 ≤ d2 → d2 < p.out_size2 → 0 ≤ d3 → d3 < p.out_size3 →
      0 ≤ k → k < es_of p.type →
      (iree_ukernel_pack es_of p mem).2
        (p.out_buffer +
          (d0 * p.out_stride0 + d1 * p.out_size2 * p.out_size3 + d2 * p.out_size3 + d3)
            * es_of p.type + k)
      = pack_contract_value p (es_of p.type) mem d0 d1 d2 d3 k :=
  fun d0 d1 d2 d3 k h0 h0' h1 h1' h2 h2' h3 h3' hk0 hk =>
    iree_ukernel_pack_spec es_of p mem hval hstride hdisj hfit d0 d1 d2 d3 k
      h0 h0' h1 h1' h2 h2' h3 h3' hk0 hk

theorem pack_transposed_disjoint :
    BuffersDisjoint pack_transposed_params
      (pack_example_elem_size pack_transposed_params.type) := by
  rintro a ⟨d0, d1, d2, d3, k, h0, h0', h1, h1', h2, h2', h3, h3', hk0, hk, ha⟩
  simp only [pack_transposed_params, pack_example_elem_size] at *
  constructor
  · rintro ⟨i0, i1, k', g0, g0', g1, g1', gk0, gk, ha'⟩
    simp only [] at *
    omega
  · rintro ⟨k', gk0, gk, ha'⟩
    simp only [] at *
    omega

theorem pack_transposed_no_overflow :
    PackNoOverflow pack_transposed_params
      (pack_example_elem_size pack_transposed_params.type) := by
  unfold PackNoOverflow pack_out_extent pack_in_extent
  decide

/-- Witness of C3 (amended): with both transpose flags set, a 2x3 source and an
output of sizes (2, 1, 1, 2) at address 100, the destination element at the physical
position (1, 0, 0, 1), at address 103, holds the source element (1, 1), read at
address 4. -/
theorem iree_ukernel_pack_transpose_witness :
    (iree_ukernel_pack pack_example_elem_size pack_transposed_params pack_example_mem).2 103
      = pack_example_mem 4 := by
  have h := iree_ukernel_pack_transpose pack_example_elem_size pack_transposed_params
    pack_example_mem (by decide) (by decide) pack_transposed_disjoint
    pack_transposed_no_overflow
    1 0 0 1 0 (by decide) (by decide) (by decide) (by decide)
    (by decide) (by decide) (by decide) (by decide) (by decide) (by decide)
  have e : pack_contract_value pack_transposed_params
      (pack_example_elem_size pack_transposed_params.type) pack_example_mem 1 0 0 1 0
      = pack_example_mem 4 := by decide
  rw [e] at h
  simpa [pack_transposed_params, pack_example_elem_size] using h


/-! ### Dead allocations -/

theorem transitiveUser_iff_below (root o : Operation) :
    TransitiveUser root o ↔ BelowUsers root.users o := by
  constructor
  · intro h
    induction h with
    | direct u hu => exact Or.inl hu
    | through s u _ hk hu ih =>
      rcases ih with hs | ⟨s', hs', hk', ht⟩
      · exact Or.inr ⟨s, hs, hk, TransitiveUser.direct u hu⟩
      · exact Or.inr ⟨s', hs', hk', TransitiveUser.through s u ht hk hu⟩
  · rintro (h | ⟨s, hs, hk, ht⟩)
    · exact TransitiveUser.direct o h
    · induction ht with
      | direct u hu => exact TransitiveUser.through s u (TransitiveUser.direct s hs) hk hu
      | through s2 u _ hk2 hu ih => exact TransitiveUser.through s2 u ih hk2 hu

theorem belowUsers_nil (o : Operation) : ¬ BelowUsers [] o := by
  rintro (h | ⟨s, hs, _⟩)
  · exact List.not_mem_nil _ h
  · exact List.not_mem_nil _ hs

theorem belowUsers_cons (u : Operation) (rest : List Operation) (o : Operation) :
    BelowUsers (u :: rest) o ↔
      (o = u ∨ (u.kind = OpKind.SubViewOp ∧ TransitiveUser u o)) ∨ BelowUsers rest o := by
  unfold BelowUsers
  constructor
  · rintro (h | ⟨s, hs, hk, ht⟩)
    · rcases List.mem_cons.mp h with h | h
      · exact Or.inl (Or.inl h)
      · exact Or.inr (Or.inl h)
    · rcases List.mem_cons.mp hs with h | h
      · subst h
        exact Or.inl (Or.inr ⟨hk, ht⟩)
      · exact Or.inr (Or.inr ⟨s, h, hk, ht⟩)
  · rintro ((h | ⟨hk, ht⟩) | (h | ⟨s, hs, hk, ht⟩))
    · exact Or.inl (List.mem_cons.mpr (Or.inl h))
    · exact Or.inr ⟨u, List.mem_cons_self _ _, hk, ht⟩
    · exact Or.inl (List.mem_cons.mpr (Or.inr h))
    · exact Or.inr ⟨s, List.mem_cons.mpr (Or.inr hs), hk, ht⟩

theorem isaDeallocTransferWriteStore_iff (k : OpKind) :
    isaDeallocTransferWriteStore k = true ↔
      (k = OpKind.StoreOp ∨ k = OpKind.TransferWriteOp ∨ k = OpKind.DeallocOp) := by
  cases k <;> simp [isaDeallocTransferWriteStore]

mutual
theorem allUsesAreStores_accepts : ∀ (op : Operation) (uses : List Operation),
    (∀ u, u ∈ op.users → WriteOnlyUser u) →
    ∃ L, allUsesAreStores op uses = (true, uses ++ L) ∧ ∀ o, o ∈ L ↔ TransitiveUser op o
  | Operation.mk i k users, uses, h => by
    obtain ⟨L, hL, hmem⟩ := allUsesAreStoresLoop_accepts users [] h
    refine ⟨L, ?_, ?_⟩
    · rw [allUsesAreStores, hL]
      simp
    · intro o
      rw [hmem o, transitiveUser_iff_below]
      rfl
theorem allUsesAreStoresLoop_accepts : ∀ (us acc : List Operation),
    (∀ u, u ∈ us → WriteOnlyUser u) →
    ∃ L, allUsesAreStoresLoop us acc = some (acc ++ L) ∧ ∀ o, o ∈ L ↔ BelowUsers us o
  | [], acc, _ => ⟨[], by simp [allUsesAreStoresLoop], fun o => by
      simp [belowUsers_nil]⟩
  | u :: rest, acc, h => by
    have hu : WriteOnlyUser u := h u (List.mem_cons_self _ _)
    have hrest : ∀ v, v ∈ rest → WriteOnlyUser v :=
      fun v hv => h v (List.mem_cons_of_mem _ hv)
    by_cases hw : isaDeallocTransferWriteStore u.kind = true
    · obtain ⟨L, hL, hmem⟩ := allUsesAreStoresLoop_accepts rest (acc ++ [u]) hrest
      refine ⟨u :: L, ?_, ?_⟩
      · rw [allUsesAreStoresLoop, if_pos hw, hL]
        simp
      · intro o
        rw [belowUsers_cons, List.mem_cons, hmem o]
        have hns : u.kind ≠ OpKind.SubViewOp := by
          intro hk
          rw [hk] at hw
          exact Bool.false_ne_true hw
        constructor
        · rintro (h1 | h1)
          · exact Or.inl (Or.inl h1)
          · exact Or.inr h1
        · rintro ((h1 | ⟨hk, _⟩) | h1)
          · exact Or.inl h1
          · exact absurd hk hns
          · exact Or.inr h1
    · have hsub : u.kind = OpKind.SubViewOp ∧ ∀ v, v ∈ u.users → WriteOnlyUser v := by
        cases hu with
        | write _ hk => exact absurd ((isaDeallocTransferWriteStore_iff _).mpr hk) hw
        | subview _ hk hv => exact ⟨hk, hv⟩
      obtain ⟨Lu, hLu, hmemu⟩ := allUsesAreStores_accepts u acc hsub.2
      obtain ⟨L, hL, hmem⟩ := allUsesAreStoresLoop_accepts rest (acc ++ Lu ++ [u]) hrest
      refine ⟨Lu ++ u :: L, ?_, ?_⟩
      · rw [allUsesAreStoresLoop, if_neg hw, if_pos hsub.1, hLu]
        simp only []
        rw [hL]
        simp
      · intro o
        rw [belowUsers_cons, List.mem_append, List.mem_cons, hmem o, hmemu o]
        constructor
        · rintro (h1 | h1 | h1)
          · exact Or.inl (Or.inr ⟨hsub.1, h1⟩)
          · exact Or.inl (Or.inl h1)
          · exact Or.inr h1
        · rintro ((h1 | ⟨_, h1⟩) | h1)
          · exact Or.inr (Or.inl h1)
          · exact Or.inl h1
          · exact Or.inr (Or.inr h1)
end

mutual
theorem allUsesAreStores_rejects : ∀ (op : Operation) (uses : List Operation),
    (∃ o, TransitiveUser op o ∧ isaDeallocTransferWriteStore o.kind = false ∧
      o.kind ≠ OpKind.SubViewOp) →
    allUsesAreStores op uses = (false, uses)
  | Operation.mk i k users, uses, h => by
    have hloop : allUsesAreStoresLoop users [] = none := by
      obtain ⟨o, ho, hbad⟩ := h
      exact allUsesAreStoresLoop_rejects users []
        ⟨o, (transitiveUser_iff_below _ o).mp ho, hbad⟩
    rw [allUsesAreStores, hloop]
theorem allUsesAreStoresLoop_rejects : ∀ (us acc : List Operation),
    (∃ o, BelowUsers us o ∧ isaDeallocTransferWriteStore o.kind = false ∧
      o.kind ≠ OpKind.SubViewOp) →
    allUsesAreStoresLoop us acc = none
  | [], acc, h => by
    obtain ⟨o, ho, _⟩ := h
    exact absurd ho (belowUsers_nil o)
  | u :: rest, acc, h => by
    obtain ⟨o, ho, hbw, hbs⟩ := h
    rw [belowUsers_cons] at ho
    by_cases hw : isaDeallocTransferWriteStore u.kind = true
    · rw [allUsesAreStoresLoop, if_pos hw]
      rcases ho with (h1 | ⟨hk, _⟩) | h1
      · subst h1
        rw [hw] at hbw
        exact absurd hbw (by decide)
      · rw [hk] at hw
        exact absurd hw (by decide)
      · exact allUsesAreStoresLoop_rejects rest _ ⟨o, h1, hbw, hbs⟩
    · rw [allUsesAreStoresLoop, if_neg hw]
      by_cases hs : u.kind = OpKind.SubViewOp
      · rw [if_pos hs]
        rcases ho with (h1 | ⟨_, h1⟩) | h1
        · subst h1
          exact absurd hs hbs
        · rw [allUsesAreStores_rejects u acc ⟨o, h1, hbw, hbs⟩]
        · cases hres : allUsesAreStores u acc with
          | mk b l =>
            cases b
            · rfl
            · exact allUsesAreStoresLoop_rejects rest _ ⟨o, h1, hbw, hbs⟩
      · rw [if_neg hs]
end

theorem allUsesAreStores_uses (op : Operation) (uses : List Operation) :
    allUsesAreStores op uses =
      ((allUsesAreStores op []).1, uses ++ (allUsesAreStores op []).2) := by
  cases op with
  | mk i k users =>
    rw [allUsesAreStores, allUsesAreStores]
    cases allUsesAreStoresLoop users [] <;> simp

theorem eraseDeadAllocAndStoresVisit_append (acc : List Operation) (op : Operation) :
    eraseDeadAllocAndStoresVisit acc op = acc ++ eraseDeadAllocAndStoresVisit [] op := by
  unfold eraseDeadAllocAndStoresVisit
  by_cases hk : op.kind = OpKind.AllocOp
  · rw [if_pos hk, if_pos hk, allUsesAreStores_uses op acc]
    cases hres : allUsesAreStores op [] with
    | mk b l =>
      cases b <;> simp [allUsesAreStores_uses op [], hres]
  · rw [if_neg hk, if_neg hk]
    simp

theorem foldl_visit_append (walk acc : List Operation) :
    walk.foldl eraseDeadAllocAndStoresVisit acc =
      acc ++ walk.foldl eraseDeadAllocAndStoresVisit [] := by
  induction walk generalizing acc with
  | nil => simp
  | cons op rest ih =>
    rw [List.foldl_cons, List.foldl_cons, ih (eraseDeadAllocAndStoresVisit acc op),
      ih (eraseDeadAllocAndStoresVisit [] op), eraseDeadAllocAndStoresVisit_append acc op,
      List.append_assoc]

theorem eraseDeadAllocAndStores_split (pre post : List Operation) (a : Operation) :
    eraseDeadAllocAndStores (pre ++ a :: post) =
      eraseDeadAllocAndStores pre ++ eraseDeadAllocAndStoresVisit [] a ++
        eraseDeadAllocAndStores post := by
  unfold eraseDeadAllocAndStores
  rw [List.foldl_append, List.foldl_cons, foldl_visit_append post,
    eraseDeadAllocAndStoresVisit_append]

/-- C4: for an allocation whose every user is a store, a transfer-write, a
deallocation, or a subview whose own users recursively satisfy the same condition,
`allUsesAreStores` returns true, and `eraseDeadAllocAndStores` erases, on account of
that allocation, a list `L` of operations whose members are exactly the allocation
and its transitive users through subviews: what is erased for the operations walked
before and after it is not affected. In particular an allocation with no users is
erased (alone). -/
theorem eraseDeadAllocAndStores_dead_alloc (a : Operation)
    (ha : a.kind = OpKind.AllocOp) (h : ∀ u, u ∈ a.users → WriteOnlyUser u) :
    (∀ uses, (allUsesAreStores a uses).1 = true) ∧
    (∀ pre post : List Operation, ∃ L,
      eraseDeadAllocAndStores (pre ++ a :: post) =
        eraseDeadAllocAndStores pre ++ L ++ eraseDeadAllocAndStores post ∧
      ∀ o, o ∈ L ↔ (o = a ∨ TransitiveUser a o)) ∧
    (a.users = [] → ∀ pre post : List Operation,
      eraseDeadAllocAndStores (pre ++ a :: post) =
        eraseDeadAllocAndStores pre ++ [a] ++ eraseDeadAllocAndStores post) := by
  refine ⟨?_, ?_, ?_⟩
  · intro uses
    obtain ⟨L, hL, _⟩ := allUsesAreStores_accepts a uses h
    rw [hL]
  · intro pre post
    obtain ⟨L, hL, hmem⟩ := allUsesAreStores_accepts a [] h
    refine ⟨L ++ [a], ?_, ?_⟩
    · rw [eraseDeadAllocAndStores_split]
      unfold eraseDeadAllocAndStoresVisit
      rw [if_pos ha, hL]
      simp
    · intro o
      rw [List.mem_append, hmem o, List.mem_singleton]
      exact Or.comm
  · intro hnil pre post
    rw [eraseDeadAllocAndStores_split]
    unfold eraseDeadAllocAndStoresVisit
    rw [if_pos ha]
    cases a with
    | mk i k users =>
      have hu : users = [] := hnil
      subst hu
      simp [allUsesAreStores, allUsesAreStoresLoop]

theorem dead_alloc_example_users :
    ∀ u, u ∈ dead_alloc_example.users → WriteOnlyUser u := by
  intro u hu
  simp only [dead_alloc_example, Operation.users, List.mem_cons, List.mem_singleton,
    List.not_mem_nil, or_false] at hu
  rcases hu with h | h | h
  · subst h
    exact WriteOnlyUser.write _ (Or.inl rfl)
  · subst h
    refine WriteOnlyUser.subview _ rfl ?_
    intro v hv
    simp only [Operation.users, List.mem_singleton] at hv
    subst hv
    exact WriteOnlyUser.write _ (Or.inr (Or.inl rfl))
  · subst h
    exact WriteOnlyUser.write _ (Or.inr (Or.inr rfl))

/-- Witness of C4: the example allocation (a store, a subview with a
transfer-write, a deallocation) is accepted. -/
theorem eraseDeadAllocAndStores_dead_alloc_witness :
    (allUsesAreStores dead_alloc_example []).1 = true :=
  (eraseDeadAllocAndStores_dead_alloc dead_alloc_example rfl dead_alloc_example_users).1 []

/-- C5: for an allocation that has, directly or through a chain of subviews, a user
that is neither a store, a transfer-write, a deallocation nor a subview,
`allUsesAreStores` returns false and leaves the caller's list unchanged, and in a
walk whose only allocation is that one `eraseDeadAllocAndStores` erases nothing. -/
theorem eraseDeadAllocAndStores_live_alloc (a : Operation)
    (h : ∃ o, TransitiveUser a o ∧ isaDeallocTransferWriteStore o.kind = false ∧
      o.kind ≠ OpKind.SubViewOp) :
    (∀ uses, allUsesAreStores a uses = (false, uses)) ∧
    (∀ walk : List Operation, (∀ o, o ∈ walk → o.kind = OpKind.AllocOp → o = a) →
      eraseDeadAllocAndStores walk = []) := by
  refine ⟨fun uses => allUsesAreStores_rejects a uses h, ?_⟩
  intro walk hwalk
  unfold eraseDeadAllocAndStores
  induction walk with
  | nil => rfl
  | cons op rest ih =>
    rw [List.foldl_cons]
    have hv : eraseDeadAllocAndStoresVisit [] op = [] := by
      unfold eraseDeadAllocAndStoresVisit
      by_cases hk : op.kind = OpKind.AllocOp
      · rw [if_pos hk, hwalk op (List.mem_cons_self _ _) hk,
          allUsesAreStores_rejects a [] h]
      · rw [if_neg hk]
    rw [hv]
    exact ih (fun o ho => hwalk o (List.mem_cons_of_mem _ ho))

/-- Witness of C5: the example allocation with one additional read is rejected,
the list of the caller is unchanged, and nothing is erased. -/
theorem eraseDeadAllocAndStores_live_alloc_witness :
    allUsesAreStores live_alloc_example [dead_alloc_example] = (false, [dead_alloc_example]) ∧
    eraseDeadAllocAndStores [live_alloc_example] = [] := by
  have h := eraseDeadAllocAndStores_live_alloc live_alloc_example
    ⟨Operation.mk 5 OpKind.Other [],
      TransitiveUser.direct _ (by simp [live_alloc_example, Operation.users]), rfl,
      by simp [Operation.kind]⟩
  refine ⟨h.1 _, h.2 _ ?_⟩
  intro o ho _
  simpa using ho

/-! ### Operand limit of the elementwise fusion -/

theorem setVector_insert_nodup (s : List Value) (v : Value) (hs : s.Nodup) :
    (SetVector.insert s v).Nodup := by
  unfold SetVector.insert
  split
  · exact hs
  · rename_i hv
    rw [List.nodup_append]
    refine ⟨hs, List.nodup_singleton v, ?_⟩
    intro a ha hb
    rw [List.mem_singleton] at hb
    subst hb
    exact hv ha

theorem setVector_insert_toFinset (s : List Value) (v : Value) :
    (SetVector.insert s v).toFinset = s.toFinset ∪ {v} := by
  unfold SetVector.insert
  ext x
  split
  · rename_i hv
    simp only [List.mem_toFinset, Finset.mem_union, Finset.mem_singleton]
    constructor
    · exact Or.inl
    · rintro (h | h)
      · exact h
      · exact h ▸ hv
  · simp [List.mem_toFinset]

theorem setVector_insertRange_spec (vs : List Value) :
    ∀ s : List Value, s.Nodup →
      (SetVector.insertRange s vs).Nodup ∧
      (SetVector.insertRange s vs).toFinset = s.toFinset ∪ vs.toFinset := by
  induction vs with
  | nil =>
    intro s hs
    exact ⟨hs, by simp [SetVector.insertRange]⟩
  | cons v rest ih =>
    intro s hs
    have h := ih (SetVector.insert s v) (setVector_insert_nodup s v hs)
    unfold SetVector.insertRange at h ⊢
    rw [List.foldl_cons]
    refine ⟨h.1, ?_⟩
    rw [h.2, setVector_insert_toFinset]
    ext x
    simp only [Finset.mem_union, Finset.mem_singleton, List.mem_toFinset, List.mem_cons]
    tauto

theorem setVector_remove_spec (s : List Value) (v : Value) (hs : s.Nodup) :
    (SetVector.remove s v).Nodup ∧ (SetVector.remove s v).toFinset = s.toFinset \ {v} := by
  unfold SetVector.remove
  refine ⟨hs.erase v, ?_⟩
  ext x
  simp only [List.mem_toFinset, Finset.mem_sdiff, Finset.mem_singleton, hs.mem_erase_iff]
  tauto

theorem addOperands_some_spec (op : PayloadOp) (s : List Value) (hs : s.Nodup) :
    (addOperands (some op) s).Nodup ∧
    (addOperands (some op) s).toFinset = s.toFinset ∪ op.inputOperands.toFinset := by
  cases op with
  | linalgOp i o r => exact setVector_insertRange_spec i s hs
  | otherOp o r => exact setVector_insertRange_spec o s hs

theorem setFusedOpOperandLimit_eq (limit : Nat) (fusedOperand : OpOperand)
    (producer : PayloadOp) (r : Value) (hp : fusedOperand.definingOp = some producer)
    (hr : producer.results = [r]) :
    setFusedOpOperandLimit limit fusedOperand =
      decide ((fusedInputOperands fusedOperand.owner producer r).card ≤ limit) := by
  unfold setFusedOpOperandLimit
  rw [hp]
  simp only []
  rw [hr]
  simp only []
  have h1 := addOperands_some_spec fusedOperand.owner [] List.nodup_nil
  have h2 := setVector_remove_spec _ r h1.1
  have h3 := addOperands_some_spec producer _ h2.1
  have hcard : (addOperands (some producer)
      (SetVector.remove (addOperands (some fusedOperand.owner) []) r)).length =
      (fusedInputOperands fusedOperand.owner producer r).card := by
    rw [← List.toFinset_card_of_nodup h3.1, h3.2, h2.2, h1.2]
    unfold fusedInputOperands
    simp
  rw [hcard]

/-- C6: `setFusedOpOperandLimit<3>` accepts a fused operand only if the producer
exists, has one result `r`, and the number of distinct values in the set (input
operands of the consumer, minus `r`) union (input operands of the producer) is at
most 3; whenever that set has 4 or more distinct values the fusion is rejected. -/
theorem setFusedOpOperandLimit_only_if (fusedOperand : OpOperand) :
    (setFusedOpOperandLimit 3 fusedOperand = true →
      ∃ producer r, fusedOperand.definingOp = some producer ∧ producer.results = [r] ∧
        (fusedInputOperands fusedOperand.owner producer r).card ≤ 3) ∧
    (∀ producer r, fusedOperand.definingOp = some producer → producer.results = [r] →
      4 ≤ (fusedInputOperands fusedOperand.owner producer r).card →
      setFusedOpOperandLimit 3 fusedOperand = false) := by
  constructor
  · intro h
    cases hp : fusedOperand.definingOp with
    | none =>
      unfold setFusedOpOperandLimit at h
      rw [hp] at h
      exact absurd h Bool.false_ne_true
    | some producer =>
      cases hr : producer.results with
      | nil =>
        unfold setFusedOpOperandLimit at h
        rw [hp] at h
        simp only [hr] at h
        exact absurd h Bool.false_ne_true
      | cons r rest =>
        cases rest with
        | nil =>
          rw [setFusedOpOperandLimit_eq 3 fusedOperand producer r hp hr] at h
          exact ⟨producer, r, rfl, hr, of_decide_eq_true h⟩
        | cons r2 rest2 =>
          unfold setFusedOpOperandLimit at h
          rw [hp] at h
          simp only [hr] at h
          exact absurd h Bool.false_ne_true
  · intro producer r hp hr hcard
    rw [setFusedOpOperandLimit_eq 3 fusedOperand producer r hp hr]
    exact decide_eq_false (by omega)

/-- Witness of C6: a consumer with four inputs besides the result of the producer,
whose two inputs are different from them: six distinct values, rejected. -/
theorem setFusedOpOperandLimit_only_if_witness :
    setFusedOpOperandLimit 3 fusion_operand_over_limit = false :=
  (setFusedOpOperandLimit_only_if fusion_operand_over_limit).2
    fusion_producer_example 20 rfl rfl (by decide)

/-- C7, as stated, fails: an elementwise producer with one input and two results,
and an elementwise consumer of its first result and of one more value, have two
distinct input operands after fusion, yet the fusion is rejected, because the
producer does not have exactly one result. -/
theorem setFusedOpOperandLimit_two_results_counterexample :
    ¬ (∀ (fusedOperand : OpOperand) (producer : PayloadOp),
        fusedOperand.definingOp = some producer →
        fusedOperand.value ∈ producer.results →
        (fusedInputOperands fusedOperand.owner producer fusedOperand.value).card ≤ 3 →
        setFusedOpOperandLimit 3 fusedOperand = true) := by
  intro h
  have h' := h fusion_operand_two_results (PayloadOp.linalgOp [10] [11, 12] [20, 21])
    rfl (by decide) (by decide)
  exact absurd h' (by decide)

/-- C7 (amended): for every producer and consumer such that the producer has exactly
one result, the fused value, and the combined distinct input-operand count after
fusion is at most 3, `setFusedOpOperandLimit<3>` accepts the fusion. -/
theorem setFusedOpOperandLimit_accepts (fusedOperand : OpOperand) (producer : PayloadOp)
    (hp : fusedOperand.definingOp = some producer)
    (hr : producer.results = [fusedOperand.value])
    (hcard : (fusedInputOperands fusedOperand.owner producer fusedOperand.value).card ≤ 3) :
    setFusedOpOperandLimit 3 fusedOperand = true := by
  rw [setFusedOpOperandLimit_eq 3 fusedOperand producer fusedOperand.value hp hr]
  exact decide_eq_true hcard

/-- Witness of C7 (amended): the example producer (inputs 10 and 11) and consumer
(inputs 20, 30 and 20 again) have three distinct input operands after fusion. -/
theorem setFusedOpOperandLimit_accepts_witness :
    setFusedOpOperandLimit 3 fusion_operand_example = true :=
  setFusedOpOperandLimit_accepts fusion_operand_example fusion_producer_example rfl rfl
    (by decide)

/-! ### Lowering of a parallel loop to workgroups: the grid -/

theorem completeBlockMapping_eq {α : Type} (one : α) (blockMapping : List Attribute)
    (numBlocks : List α) :
    completeBlockMapping one blockMapping numBlocks =
      (blockMapping ++
        [Attribute.GPUBlockMappingAttr Blocks.DimX, Attribute.GPUBlockMappingAttr Blocks.DimY,
          Attribute.GPUBlockMappingAttr Blocks.DimZ].filter (fun a => decide (a ∉ blockMapping)),
       numBlocks ++ List.replicate
        ([Attribute.GPUBlockMappingAttr Blocks.DimX, Attribute.GPUBlockMappingAttr Blocks.DimY,
          Attribute.GPUBlockMappingAttr Blocks.DimZ].filter
            (fun a => decide (a ∉ blockMapping))).length one) := by
  unfold completeBlockMapping
  by_cases hx : Attribute.GPUBlockMappingAttr Blocks.DimX ∈ blockMapping <;>
  by_cases hy : Attribute.GPUBlockMappingAttr Blocks.DimY ∈ blockMapping <;>
  by_cases hz : Attribute.GPUBlockMappingAttr Blocks.DimZ ∈ blockMapping <;>
  simp [List.filter, hx, hy, hz, List.replicate]

theorem get?_of_small {α : Type} (a : Blocks) (l : List Blocks) (xs g : List α)
    (h3 : l.length ≤ 3)
    (h : ∀ i : Nat, i < 3 → l.get? i = some a → g.get? a.ordinal.toNat = xs.get? i) :
    ∀ i : Nat, l.get? i = some a → g.get? a.ordinal.toNat = xs.get? i := by
  intro i hi
  have : i < l.length := by
    by_contra hge
    rw [List.get?_eq_none.mpr (by omega)] at hi
    exact Option.noConfusion hi
  exact h i (by omega) hi

theorem rewriteForallToWorkgroupGrid_ok {α : Type} (one : α) (mapping : List Blocks)
    (numBlocks : List α) (hrank : numBlocks.length ≤ 3) :
    rewriteForallToWorkgroupGrid one
        { numResults := 0, mapping := some (mapping.map Attribute.GPUBlockMappingAttr),
          upperBound := numBlocks }
      = Except.ok
        { blockMapping :=
            (completeBlockMapping one (mapping.map Attribute.GPUBlockMappingAttr) numBlocks).1,
          numBlocks :=
            (completeBlockMapping one (mapping.map Attribute.GPUBlockMappingAttr) numBlocks).2,
          gridDimValues := getValuesSortedByKey
            (completeBlockMapping one (mapping.map Attribute.GPUBlockMappingAttr) numBlocks).1
            (completeBlockMapping one (mapping.map Attribute.GPUBlockMappingAttr) numBlocks).2
            blockComparator } := by
  have hany : (mapping.map Attribute.GPUBlockMappingAttr).any
      (fun map => !map.isaGPUBlockMappingAttr) = false := by
    rw [List.any_eq_false]
    intro a ha
    obtain ⟨b, _, rfl⟩ := List.mem_map.mp ha
    simp [Attribute.isaGPUBlockMappingAttr]
  unfold rewriteForallToWorkgroupGrid
  simp only [ForallOp.getRank]
  rw [if_neg (by decide), if_neg (by omega)]
  simp only [hany]
  rfl

/-- For a parallel loop of rank at most 3 without results whose block mapping is
injective, steps 0 to 2 complete the mapping to exactly the three axes x, y, z, each
once, the missing axes being appended with the value `one` as number of blocks; and
the grid sizes sorted on the axis ordinal are three values, the one at the ordinal
of axis `a` being the upper bound of the dimension mapped to `a`, or `one` if no
dimension is mapped to `a`. -/
theorem rewriteForallToWorkgroupGrid_values {α : Type} (one : α) (mapping : List Blocks)
    (numBlocks : List α) (hinj : mapping.Nodup)
    (hlen : mapping.length = numBlocks.length) (hrank : numBlocks.length ≤ 3) :
    ∃ g : WorkgroupGrid α,
      rewriteForallToWorkgroupGrid one
        { numResults := 0, mapping := some (mapping.map Attribute.GPUBlockMappingAttr),
          upperBound := numBlocks } = Except.ok g ∧
      g.blockMapping.Perm
        [Attribute.GPUBlockMappingAttr Blocks.DimX, Attribute.GPUBlockMappingAttr Blocks.DimY,
          Attribute.GPUBlockMappingAttr Blocks.DimZ] ∧
      (∃ missing : List Attribute,
        g.blockMapping = mapping.map Attribute.GPUBlockMappingAttr ++ missing ∧
        g.numBlocks = numBlocks ++ List.replicate missing.length one) ∧
      g.gridDimValues.length = 3 ∧
      ∀ a : Blocks,
        (∀ i : Nat, mapping.get? i = some a →
          g.gridDimValues.get? a.ordinal.toNat = numBlocks.get? i) ∧
        (a ∉ mapping → g.gridDimValues.get? a.ordinal.toNat = some one) := by
  refine ⟨_, rewriteForallToWorkgroupGrid_ok one mapping numBlocks hrank, ?_⟩
  simp only [completeBlockMapping_eq]
  refine ⟨?_, ⟨_, rfl, rfl⟩, ?_⟩
  · match mapping, hinj, hlen, hrank with
    | [], _, _, _ => decide
    | [m0], _, _, _ => cases m0 <;> decide
    | [m0, m1], hinj, _, _ =>
      cases m0 <;> cases m1 <;> first | exact absurd hinj (by decide) | decide
    | [m0, m1, m2], hinj, _, _ =>
      cases m0 <;> cases m1 <;> cases m2 <;> first | exact absurd hinj (by decide) | decide
    | _ :: _ :: _ :: _ :: _, _, hlen, hrank =>
      simp only [List.length_cons] at hlen
      omega
  · match mapping, numBlocks, hinj, hlen, hrank with
    | [], [], _, _, _ =>
      refine ⟨rfl, fun a => ⟨fun i h => by simp at h, fun _ => ?_⟩⟩
      cases a <;> rfl
    | [m0], [x0], _, _, _ =>
      cases m0 <;>
      refine ⟨rfl, fun a => ⟨get?_of_small a _ _ _ (by decide) ?_, ?_⟩⟩ <;>
      first
      | · intro i hi h
          interval_cases i <;> cases a <;> simp at h <;> rfl
      | · intro h
          cases a <;> simp at h <;> rfl
    | [m0, m1], [x0, x1], hinj, _, _ =>
      cases m0 <;> cases m1 <;> first
      | exact absurd hinj (by decide)
      | · refine ⟨rfl, fun a => ⟨get?_of_small a _ _ _ (by decide) ?_, ?_⟩⟩
          · intro i hi h
            interval_cases i <;> cases a <;> simp at h <;> rfl
          · intro h
            cases a <;> simp at h <;> rfl
    | [m0, m1, m2], [x0, x1, x2], hinj, _, _ =>
      cases m0 <;> cases m1 <;> cases m2 <;> first
      | exact absurd hinj (by decide)
      | · refine ⟨rfl, fun a => ⟨get?_of_small a _ _ _ (by decide) ?_, ?_⟩⟩
          · intro i hi h
            interval_cases i <;> cases a <;> simp at h <;> rfl
          · intro h
            cases a <;> simp at h
    | [], _ :: _, _, hlen, _ => simp at hlen
    | [_], [], _, hlen, _ => simp at hlen
    | [_], _ :: _ :: _, _, hlen, _ => simp at hlen
    | [_, _], [], _, hlen, _ => simp at hlen
    | [_, _], [_], _, hlen, _ => simp at hlen
    | [_, _], _ :: _ :: _ :: _, _, hlen, _ => simp at hlen
    | [_, _, _], [], _, hlen, _ => simp at hlen
    | [_, _, _], [_], _, hlen, _ => simp at hlen
    | [_, _, _], [_, _], _, hlen, _ => simp at hlen
    | [_, _, _], _ :: _ :: _ :: _ :: _, _, hlen, _ => simp at hlen
    | _ :: _ :: _ :: _ :: _, _, _, hlen, hrank =>
      simp only [List.length_cons] at hlen
      omega

/-- The upper bound of a normalized dimension is its trip count, when it is not
negative. -/
theorem ForallDim.tripCount_of_normalized (d : ForallDim) (h : d.isNormalized = true)
    (h0 : 0 ≤ d.upperBound) : d.tripCount = d.upperBound := by
  unfold ForallDim.isNormalized at h
  simp only [Bool.and_eq_true, decide_eq_true_eq] at h
  unfold ForallDim.tripCount
  rw [h.1, h.2]
  split
  · omega
  · simp

/-- C10, as stated, fails in two ways. First a loop with a result (rank 2, injective
block mapping (x, y)) is refused by step 0, before any mapping is completed and any
grid size computed. Second the grid sizes are the upper bounds of the loop, which are
its trip counts only when the loop is normalized: for the loop
`scf.forall (%i) = (2) to (6) step (2)` mapped to x, which is not normalized and has
the trip count 2, the grid sizes are [6, 1, 1]. -/
theorem rewriteForallToWorkgroup_grid_counterexample :
    rewriteForallToWorkgroupGrid 1 forall_with_result_example =
      Except.error ForallToWorkgroupError.onlyBufferized ∧
    (∃ g : WorkgroupGrid Nat,
      rewriteForallToWorkgroupGrid 1 forall_strided_example = Except.ok g ∧
      g.gridDimValues = [6, 1, 1]) ∧
    forall_strided_example.upperBound.map (fun n : Nat => (n : Int)) =
      [forall_strided_dim.upperBound] ∧
    forall_strided_dim.isNormalized = false ∧
    forall_strided_dim.tripCount = 2 :=
  ⟨rfl, ⟨_, rfl, rfl⟩, rfl, rfl, rfl⟩

/-- C10 (amended): for a parallel loop without results, of rank at most 3, whose
block mapping is injective and whose dimensions `dims` are normalized (lower bound 0,
step 1) with upper bounds that are not negative, `rewriteForallToWorkgroup` completes
the mapping to exactly the three axes x, y, z, each once, the missing axes being
appended with the value `one` (the constant 1) as number of blocks; and the grid
sizes that it computes by sorting on the axis ordinal are three values, the one at
the ordinal of axis `a` having as value the trip count of the dimension mapped to
`a`, or 1 if no dimension is mapped to `a`. The function `value` gives the integer
that a value of the program holds. -/
theorem rewriteForallToWorkgroup_grid {α : Type} (value : α → Int) (one : α)
    (forallOp : ForallOp α) (mapping : List Blocks) (dims : List ForallDim)
    (hone : value one = 1)
    (hres : forallOp.numResults = 0)
    (hmap : forallOp.mapping = some (mapping.map Attribute.GPUBlockMappingAttr))
    (hub : forallOp.upperBound.map value = dims.map (fun d => d.upperBound))
    (hnorm : ∀ d ∈ dims, d.isNormalized = true ∧ 0 ≤ d.upperBound)
    (hinj : mapping.Nodup) (hlen : mapping.length = dims.length)
    (hrank : dims.length ≤ 3) :
    ∃ g : WorkgroupGrid α,
      rewriteForallToWorkgroupGrid one forallOp = Except.ok g ∧
      g.blockMapping.Perm
        [Attribute.GPUBlockMappingAttr Blocks.DimX, Attribute.GPUBlockMappingAttr Blocks.DimY,
          Attribute.GPUBlockMappingAttr Blocks.DimZ] ∧
      (∃ missing : List Attribute,
        g.blockMapping = mapping.map Attribute.GPUBlockMappingAttr ++ missing ∧
        g.numBlocks = forallOp.upperBound ++ List.replicate missing.length one) ∧
      g.gridDimValues.length = 3 ∧
      ∀ a : Blocks,
        (∀ (i : Nat) (d : ForallDim), mapping.get? i = some a → dims.get? i = some d →
          (g.gridDimValues.get? a.ordinal.toNat).map value = some d.tripCount) ∧
        (a ∉ mapping → (g.gridDimValues.get? a.ordinal.toNat).map value = some 1) := by
  have hl : forallOp.upperBound.length = dims.length := by
    have := congrArg List.length hub
    simpa using this
  obtain ⟨g, hg, hperm, hmiss, hlen3, hval⟩ :=
    rewriteForallToWorkgroupGrid_values one mapping forallOp.upperBound hinj
      (by omega) (by omega)
  have hop : forallOp =
      { numResults := 0,
        mapping := some (mapping.map Attribute.GPUBlockMappingAttr),
        upperBound := forallOp.upperBound } := by
    cases forallOp
    simp only [ForallOp.mk.injEq] at hres hmap ⊢
    exact ⟨hres, hmap, trivial⟩
  refine ⟨g, by rw [hop]; exact hg, hperm, hmiss, hlen3, fun a => ⟨?_, ?_⟩⟩
  · intro i d hi hd
    rw [(hval a).1 i hi, ← List.get?_map, hub, List.get?_map, hd]
    simp only [Option.map_some']
    rw [ForallDim.tripCount_of_normalized d (hnorm d (List.get?_mem hd)).1
      (hnorm d (List.get?_mem hd)).2]
  · intro ha
    rw [(hval a).2 ha]
    simp only [Option.map_some', hone]

/-- Witness of C10 (amended): dimensions mapped to (x, y) with trip counts (4, 7), of
a normalized loop without results, give the grid sizes [4, 7, 1]. -/
theorem rewriteForallToWorkgroup_grid_witness :
    ∃ g : WorkgroupGrid Nat,
      rewriteForallToWorkgroupGrid 1 forall_example = Except.ok g ∧
      g.gridDimValues = [4, 7, 1] := by
  obtain ⟨g, hg, _, _, _, _⟩ := rewriteForallToWorkgroup_grid (fun n : Nat => (n : Int))
    1 forall_example [Blocks.DimX, Blocks.DimY]
    [{ lowerBound := 0, upperBound := 4, step := 1 },
     { lowerBound := 0, upperBound := 7, step := 1 }]
    rfl rfl rfl rfl (by decide) (by decide) rfl (by decide)
  refine ⟨g, hg, ?_⟩
  have h2 : rewriteForallToWorkgroupGrid 1 forall_example =
      Except.ok
        { blockMapping := [Attribute.GPUBlockMappingAttr Blocks.DimX,
            Attribute.GPUBlockMappingAttr Blocks.DimY,
            Attribute.GPUBlockMappingAttr Blocks.DimZ],
          numBlocks := [4, 7, 1],
          gridDimValues := [4, 7, 1] } := rfl
  have h3 : rewriteForallToWorkgroupGrid 1 forall_example = Except.ok g := hg
  rw [h2] at h3
  injection h3 with h3
  rw [← h3]

/-! ### Folding a fill into a pad -/

theorem fold_dynamic_example_rewritten_cycle (args : Value → Option RtValue) (undef : Int) :
    ∀ fuel : Nat,
      evalValue args undef fold_dynamic_example_rewritten fuel 7 = none ∧
      evalValue args undef fold_dynamic_example_rewritten fuel 6 = none ∧
      evalValue args undef fold_dynamic_example_rewritten fuel 5 = none
  | 0 => ⟨rfl, rfl, rfl⟩
  | fuel + 1 => by
    obtain ⟨h7, h6, h5⟩ := fold_dynamic_example_rewritten_cycle args undef fuel
    refine ⟨?_, ?_, ?_⟩
    · have hd : getDefiningOp fold_dynamic_example_rewritten 7 = some (TensorOp.fill 7 1 6) := by
        decide
      rw [evalValue, hd]
      simp only [h6]
      split <;> simp_all
    · have hd : getDefiningOp fold_dynamic_example_rewritten 6 =
          some (TensorOp.empty 6 [none] [5]) := by decide
      rw [evalValue, hd]
      simp [h5, RtValue.asIndex, allSizes]
    · have hd : getDefiningOp fold_dynamic_example_rewritten 5 = some (TensorOp.dim 5 7 0) := by
        decide
      rw [evalValue, hd]
      simp [h7]

/-- C8 at the failing input: on a fill of the constant 5 over a dynamically shaped
tensor, padded with the same constant into the dynamic result type `tensor<?>`,
`FoldFillIntoPad` succeeds; the original pad evaluates (with size 2 for the fill) to
a tensor of shape [3] whose elements are 5; but in the rewritten payload the created
`tensor.dim` reads the result of the created fill, so that the replacement value
`%7` has no value, whatever the block arguments and the number of evaluation
steps. -/
theorem foldFillIntoPad_dynamic_result_type :
    FoldFillIntoPad.matchAndRewrite 4 fold_dynamic_example fold_dynamic_example_pad
      = some (LogicalResult.success, fold_dynamic_example_rewritten) ∧
    foldFillIntoPadResult fold_dynamic_example fold_dynamic_example_pad.resultType = 7 ∧
    RtValue.probe [0] (evalValue fold_example_args 0 fold_dynamic_example 5 4)
      = some ([3], 5) ∧
    RtValue.probe [1] (evalValue fold_example_args 0 fold_dynamic_example 5 4)
      = some ([3], 5) ∧
    RtValue.probe [2] (evalValue fold_example_args 0 fold_dynamic_example 5 4)
      = some ([3], 5) ∧
    ∀ (args : Value → Option RtValue) (undef : Int) (fuel : Nat),
      evalValue args undef fold_dynamic_example_rewritten fuel 7 = none :=
  ⟨by decide, by decide, by decide, by decide, by decide,
    fun args undef fuel => (fold_dynamic_example_rewritten_cycle args undef fuel).1⟩

theorem getDefiningOp_some (ir : List TensorOp) (v : Value) (op : TensorOp)
    (h : getDefiningOp ir v = some op) : op ∈ ir ∧ op.result = v := by
  unfold getDefiningOp at h
  exact ⟨List.mem_of_find?_eq_some h, by simpa using List.find?_some h⟩

theorem skipExtractSlices_sound (ir : List TensorOp) :
    ∀ (fuel : Nat) (currentOp last : Option TensorOp),
      skipExtractSlices ir fuel currentOp = some last → SkipsTo ir currentOp last
  | 0, _, _, h => by simp [skipExtractSlices] at h
  | fuel + 1, currentOp, last, h => by
    cases currentOp with
    | none =>
      simp only [skipExtractSlices, Option.some.injEq] at h
      subst h
      exact SkipsTo.done _ (fun r s a b c hc => Option.noConfusion hc)
    | some op =>
      cases op with
      | extractSlice r s a b c =>
        simp only [skipExtractSlices] at h
        exact SkipsTo.step r s a b c last (skipExtractSlices_sound ir fuel _ _ h)
      | _ =>
        simp only [skipExtractSlices, Option.some.injEq] at h
        subst h
        exact SkipsTo.done _ (fun r s a b c hc => by simp at hc)

theorem skipsTo_unique (ir : List TensorOp) (currentOp last last' : Option TensorOp)
    (h : SkipsTo ir currentOp last) (h' : SkipsTo ir currentOp last') : last = last' := by
  induction h with
  | done cur hne =>
    cases h' with
    | done _ _ => rfl
    | step r s a b c _ _ => exact absurd rfl (hne r s a b c)
  | step r s a b c last _ ih =>
    cases h' with
    | done _ hne => exact absurd rfl (hne r s a b c)
    | step _ _ _ _ _ _ h2 => exact ih h2

theorem skipExtractSlices_terminates (ir : List TensorOp) (rank : Value → Nat)
    (hrank : ∀ op, op ∈ ir → ∀ v, v ∈ op.operands → rank v < rank op.result) :
    ∀ (n : Nat) (currentOp : Option TensorOp),
      (∀ op, currentOp = some op → op ∈ ir ∧ rank op.result < n) →
      ∀ fuel, n + 1 ≤ fuel → ∃ last, skipExtractSlices ir fuel currentOp = some last
  | n, currentOp, hcur, 0, hfuel => absurd hfuel (by omega)
  | n, none, _, fuel + 1, _ => ⟨none, by simp [skipExtractSlices]⟩
  | n, some op, hcur, fuel + 1, hfuel => by
    obtain ⟨hmem, hlt⟩ := hcur op rfl
    cases op with
    | extractSlice r s a b c =>
      simp only [skipExtractSlices]
      have hs : rank s < rank r := hrank _ hmem s (by simp [TensorOp.operands])
      have hr : rank r < n := hlt
      cases n with
      | zero => omega
      | succ m =>
        apply skipExtractSlices_terminates ir rank hrank m (getDefiningOp ir s) _ fuel
          (by omega)
        intro op' hop'
        obtain ⟨hm', hres'⟩ := getDefiningOp_some ir s op' hop'
        refine ⟨hm', ?_⟩
        rw [hres']
        omega
    | _ => exact ⟨_, rfl⟩

/-- C9: on a payload with acyclic use-def chains, `FoldFillIntoPad::matchAndRewrite`
returns (with enough iterations of its loop); it reports a match failure, with the
payload unchanged, exactly when the source of the pad followed back through slice
extractions does not end at a fill (for instance ends at a block argument), or the
pad has no constant padding value, or the padding value differs (as fold result)
from the value of the fill; in every other case it succeeds. -/
theorem foldFillIntoPad_matchFailure (ir : List TensorOp) (padOp : PadOp)
    (hacyclic : AcyclicPayload ir) :
    ∃ fuel0, ∀ fuel, fuel0 ≤ fuel →
      ∃ result ir', FoldFillIntoPad.matchAndRewrite fuel ir padOp = some (result, ir') ∧
        (result = LogicalResult.failure ↔
          ((¬ ∃ r i o, SkipsTo ir (getDefiningOp ir padOp.source)
              (some (TensorOp.fill r i o))) ∨
            padOp.constantPaddingValue = none ∨
            ∃ r i o padValue, SkipsTo ir (getDefiningOp ir padOp.source)
              (some (TensorOp.fill r i o)) ∧
              padOp.constantPaddingValue = some padValue ∧
              getAsOpFoldResult ir padValue ≠ getAsOpFoldResult ir i)) ∧
        (result = LogicalResult.failure → ir' = ir) ∧
        (result ≠ LogicalResult.failure → result = LogicalResult.success) := by
  obtain ⟨rank, hrank⟩ := hacyclic
  have hterm := skipExtractSlices_terminates ir rank hrank
    (rank padOp.source + 1) (getDefiningOp ir padOp.source) (by
      intro op hop
      obtain ⟨hm, hres⟩ := getDefiningOp_some ir _ op hop
      exact ⟨hm, by rw [hres]; omega⟩)
  refine ⟨rank padOp.source + 1 + 1, fun fuel hfuel => ?_⟩
  obtain ⟨last, hlast⟩ := hterm fuel hfuel
  have hskip := skipExtractSlices_sound ir fuel _ _ hlast
  have huniq := fun l h => skipsTo_unique ir _ last l hskip h
  unfold FoldFillIntoPad.matchAndRewrite
  rw [hlast]
  have notFill : (∀ r i o, last ≠ some (TensorOp.fill r i o)) →
      ¬ ∃ r i o, SkipsTo ir (getDefiningOp ir padOp.source) (some (TensorOp.fill r i o)) := by
    rintro hne ⟨r, i, o, h⟩
    exact hne r i o (huniq _ h)
  cases last with
  | none =>
    exact ⟨_, _, rfl, ⟨fun _ => Or.inl (notFill (fun r i o h => Option.noConfusion h)),
      fun _ => rfl⟩, fun _ => rfl, fun h => absurd rfl h⟩
  | some op =>
    cases op with
    | fill r i o =>
      simp only []
      cases hpv : padOp.constantPaddingValue with
      | none =>
        exact ⟨_, _, rfl, ⟨fun _ => Or.inr (Or.inl rfl), fun _ => rfl⟩, fun _ => rfl,
          fun h => absurd rfl h⟩
      | some padValue =>
        simp only []
        by_cases hne : getAsOpFoldResult ir padValue ≠ getAsOpFoldResult ir i
        · rw [if_pos hne]
          exact ⟨_, _, rfl, ⟨fun _ => Or.inr (Or.inr ⟨r, i, o, padValue, hskip, rfl, hne⟩),
            fun _ => rfl⟩, fun _ => rfl, fun h => absurd rfl h⟩
        · rw [if_neg hne]
          refine ⟨_, _, rfl, ⟨fun h => by simp at h, ?_⟩, fun h => by simp at h, fun _ => rfl⟩
          rintro (h | h | ⟨r', i', o', pv', h1, h2, h3⟩)
          · exact absurd ⟨r, i, o, hskip⟩ h
          · exact Option.noConfusion h
          · have e := huniq _ h1
            simp only [Option.some.injEq, TensorOp.fill.injEq] at e
            obtain ⟨_, hi, _⟩ := e
            simp only [Option.some.injEq] at h2
            subst h2
            subst hi
            exact absurd h3 hne
    | _ =>
      exact ⟨_, _, rfl, ⟨fun _ => Or.inl (notFill (fun r i o h => by simp at h)),
        fun _ => rfl⟩, fun _ => rfl, fun h => absurd rfl h⟩

/-- Witness of C9: a pad whose source is a block argument is a match failure and the
payload is unchanged. -/
theorem foldFillIntoPad_matchFailure_witness :
    ∃ fuel0, ∀ fuel, fuel0 ≤ fuel →
      FoldFillIntoPad.matchAndRewrite fuel fold_block_argument_example
        fold_block_argument_pad
        = some (LogicalResult.failure, fold_block_argument_example) := by
  obtain ⟨fuel0, h⟩ := foldFillIntoPad_matchFailure fold_block_argument_example
    fold_block_argument_pad ⟨id, by decide⟩
  refine ⟨fuel0, fun fuel hfuel => ?_⟩
  obtain ⟨result, ir', heq, hiff, hsame, _⟩ := h fuel hfuel
  have hfail : result = LogicalResult.failure := by
    apply hiff.mpr
    left
    rintro ⟨r, i, o, hs⟩
    have hnone : getDefiningOp fold_block_argument_example fold_block_argument_pad.source
        = none := by decide
    rw [hnone] at hs
    cases hs
  rw [heq, hfail, hsame hfail]

/-! ### Folding a fill into a pad of static type -/

theorem skipsTo_fuel (ir : List TensorOp) (currentOp last : Option TensorOp)
    (h : SkipsTo ir currentOp last) :
    ∃ fuel0, ∀ fuel, fuel0 ≤ fuel → skipExtractSlices ir fuel currentOp = some last := by
  induction h with
  | done cur hne =>
    refine ⟨1, fun fuel hfuel => ?_⟩
    obtain ⟨f, rfl⟩ : ∃ f, fuel = f + 1 := ⟨fuel - 1, by omega⟩
    cases cur with
    | none => rfl
    | some op =>
      cases op with
      | extractSlice r s a b c => exact absurd rfl (hne r s a b c)
      | _ => rfl
  | step r s a b c last _ ih =>
    obtain ⟨fuel0, h0⟩ := ih
    refine ⟨fuel0 + 1, fun fuel hfuel => ?_⟩
    obtain ⟨f, rfl⟩ : ∃ f, fuel = f + 1 := ⟨fuel - 1, by omega⟩
    simp only [skipExtractSlices]
    exact h0 f (by omega)

theorem le_foldl_max (l : List Nat) :
    ∀ init : Nat, init ≤ l.foldl max init ∧ ∀ x, x ∈ l → x ≤ l.foldl max init := by
  induction l with
  | nil => intro init; exact ⟨le_refl _, fun x hx => absurd hx (List.not_mem_nil x)⟩
  | cons a rest ih =>
    intro init
    rw [List.foldl_cons]
    obtain ⟨h1, h2⟩ := ih (max init a)
    refine ⟨le_trans (le_max_left _ _) h1, fun x hx => ?_⟩
    rcases List.mem_cons.mp hx with h | h
    · subst h
      exact le_trans (le_max_right _ _) h1
    · exact h2 x h

theorem lt_freshValue (ir : List TensorOp) (op : TensorOp) (hop : op ∈ ir) :
    op.result < freshValue ir ∧ ∀ v, v ∈ op.operands → v < freshValue ir := by
  unfold freshValue
  have h1 := (le_foldl_max (ir.map (fun op => (op.result :: op.operands).foldl max 0)) 0).2
    _ (List.mem_map.mpr ⟨op, hop, rfl⟩)
  have h2 := (le_foldl_max (op.result :: op.operands) 0).2
  refine ⟨?_, fun v hv => ?_⟩
  · exact Nat.lt_succ_of_le (le_trans (h2 op.result (List.mem_cons_self _ _)) h1)
  · exact Nat.lt_succ_of_le (le_trans (h2 v (List.mem_cons_of_mem _ hv)) h1)

theorem replaceUsesOfWith_result (old new : Value) (op : TensorOp) :
    (op.replaceUsesOfWith old new).result = op.result := by
  cases op <;> rfl

theorem getDefiningOp_rewritten (ir newOps : List TensorOp) (old new v : Value)
    (hv : v ≠ old) (hnew : ∀ op, op ∈ newOps → op.result ≠ v) :
    getDefiningOp (replaceOp (insertBefore ir old newOps) old new) v =
      (getDefiningOp ir v).map (TensorOp.replaceUsesOfWith old new) := by
  unfold getDefiningOp replaceOp insertBefore
  rw [List.find?_map, List.find?_filter]
  have hfun : (fun a : TensorOp => decide ((a.result != old) = true ∧
      ((fun op => op.result == v) ∘ TensorOp.replaceUsesOfWith old new) a = true)) =
      (fun op => op.result == v) := by
    funext a
    simp only [Function.comp, replaceUsesOfWith_result]
    by_cases h : a.result = v
    · simp [h, hv]
    · simp [h]
  rw [hfun, List.find?_append, List.find?_append]
  have hnone : List.find? (fun op => op.result == v) newOps = none := by
    rw [List.find?_eq_none]
    intro x hx
    simpa using hnew x hx
  rw [hnone, Option.or_none, ← List.find?_append, List.takeWhile_append_dropWhile]

theorem getDefiningOp_inserted (ir newOps : List TensorOp) (old new v : Value)
    (hv : v ≠ old) (hir : ∀ op, op ∈ ir → op.result ≠ v) :
    getDefiningOp (replaceOp (insertBefore ir old newOps) old new) v =
      (getDefiningOp newOps v).map (TensorOp.replaceUsesOfWith old new) := by
  unfold getDefiningOp replaceOp insertBefore
  rw [List.find?_map, List.find?_filter]
  have hfun : (fun a : TensorOp => decide ((a.result != old) = true ∧
      ((fun op => op.result == v) ∘ TensorOp.replaceUsesOfWith old new) a = true)) =
      (fun op => op.result == v) := by
    funext a
    simp only [Function.comp, replaceUsesOfWith_result]
    by_cases h : a.result = v
    · simp [h, hv]
    · simp [h]
  rw [hfun, List.find?_append, List.find?_append]
  have hA : List.find? (fun op => op.result == v)
      (List.takeWhile (fun op => op.result != old) ir) = none := by
    rw [List.find?_eq_none]
    intro x hx
    simpa using hir x ((List.takeWhile_sublist _).subset hx)
  have hB : List.find? (fun op => op.result == v)
      (List.dropWhile (fun op => op.result != old) ir) = none := by
    rw [List.find?_eq_none]
    intro x hx
    simpa using hir x ((List.dropWhile_sublist _).subset hx)
  rw [hA, hB, Option.or_none, Option.none_or]

theorem dynamicDimIndices_static (shape : List Nat) :
    dynamicDimIndices (shape.map some) = [] := by
  unfold dynamicDimIndices
  rw [List.map_eq_nil_iff, List.filter_eq_nil_iff]
  intro p hp
  obtain ⟨n, _, hn⟩ := List.mem_map.mp (List.snd_mem_of_mem_enum hp)
  rw [← hn]
  simp

theorem resolveShape_static (shape : List Nat) :
    resolveShape (shape.map some) [] = some shape := by
  induction shape with
  | nil => rfl
  | cons n rest ih => simp [resolveShape, ih]

theorem getAsOpFoldResult_attr (ir : List TensorOp) (v : Value) (c : Int)
    (h : getAsOpFoldResult ir v = OpFoldResult.attr c) :
    ∃ r, getDefiningOp ir v = some (TensorOp.constant r c) := by
  unfold getAsOpFoldResult at h
  cases hd : getDefiningOp ir v with
  | none => simp [hd] at h
  | some op =>
    cases op with
    | constant r a =>
      simp only [hd, OpFoldResult.attr.injEq] at h
      exact ⟨r, by rw [h]⟩
    | _ => simp [hd] at h

theorem evalValue_constant (args : Value → Option RtValue) (undef : Int)
    (ir : List TensorOp) (v r : Value) (c : Int)
    (hd : getDefiningOp ir v = some (TensorOp.constant r c)) (fuel : Nat) :
    evalValue args undef ir (fuel + 1) v = some (RtValue.scalar c) := by
  rw [evalValue, hd]

theorem evalValue_of_constant (args : Value → Option RtValue) (undef : Int)
    (ir : List TensorOp) (v r : Value) (c : Int)
    (hd : getDefiningOp ir v = some (TensorOp.constant r c)) (fuel : Nat) (x : RtValue)
    (h : evalValue args undef ir fuel v = some x) : x = RtValue.scalar c := by
  cases fuel with
  | zero => simp [evalValue] at h
  | succ f =>
    rw [evalValue_constant args undef ir v r c hd f] at h
    exact (Option.some.inj h).symm

theorem chain_elems (args : Value → Option RtValue) (undef : Int) (ir : List TensorOp)
    (r i o : Value) (currentOp last : Option TensorOp) (h : SkipsTo ir currentOp last) :
    last = some (TensorOp.fill r i o) →
    ∀ (v : Value) (fuel : Nat) (t : Tensor), getDefiningOp ir v = currentOp →
      evalValue args undef ir fuel v = some (RtValue.tensor t) →
      ∃ (c : Int) (fuel' : Nat),
        evalValue args undef ir fuel' i = some (RtValue.scalar c) ∧ ∀ idx, t.elem idx = c := by
  induction h with
  | done cur _ =>
    intro hl v fuel t hd he
    subst hl
    cases fuel with
    | zero => simp [evalValue] at he
    | succ f =>
      rw [evalValue, hd] at he
      simp only [] at he
      cases hi : evalValue args undef ir f i with
      | none => simp [hi] at he
      | some xi =>
        cases xi with
        | tensor _ => simp [hi] at he
        | scalar c =>
          cases ho : evalValue args undef ir f o with
          | none => simp [hi, ho] at he
          | some xo =>
            cases xo with
            | scalar _ => simp [hi, ho] at he
            | tensor tout =>
              simp only [hi, ho, Option.some.injEq, RtValue.tensor.injEq] at he
              refine ⟨c, f, hi, fun idx => ?_⟩
              rw [← he]
  | step r' s a b c' last _ ih =>
    intro hl v fuel t hd he
    cases fuel with
    | zero => simp [evalValue] at he
    | succ f =>
      rw [evalValue, hd] at he
      simp only [] at he
      cases hs : evalValue args undef ir f s with
      | none => simp [hs] at he
      | some xs =>
        cases xs with
        | scalar _ => simp [hs] at he
        | tensor ts =>
          simp only [hs] at he
          by_cases hb : sliceInBounds ts.shape a b c' = true
          · rw [if_pos hb] at he
            simp only [Option.some.injEq, RtValue.tensor.injEq] at he
            obtain ⟨c, fuel', hc, hall⟩ := ih hl s f ts rfl hs
            refine ⟨c, fuel', hc, fun idx => ?_⟩
            rw [← he]
            exact hall _
          · rw [if_neg hb] at he
            exact Option.noConfusion he

theorem value_succ_ne (a b : Nat) (h : a < b) : b + 1 ≠ a := by omega

theorem value_ne_of_lt (a b : Nat) (h : a < b) : b ≠ a := by omega

theorem value_ne_of_lt_of_le (a b v : Nat) (h : a < b) (hv : b ≤ v) : a ≠ v := by omega

theorem value_ne_succ (a : Nat) : a ≠ a + 1 := by omega

/-- For a pad of static result type the rewrite is right: when the payload is
one in which the pad, its chain of slice extractions and its fill of the constant `c`
evaluate, and the pad result has the shape of its type, `FoldFillIntoPad` succeeds
and the created fill evaluates to a tensor of the same shape, equal to the pad result
at every valid index, every element being `c`. -/
theorem foldFillIntoPad_static_result_type (ir : List TensorOp) (padOp : PadOp)
    (args : Value → Option RtValue) (undef : Int) (r i o padValue : Value) (c : Int)
    (shape : List Nat) (fuel : Nat) (t : Tensor)
    (hpad : getDefiningOp ir padOp.result = some (TensorOp.pad padOp))
    (hchain : SkipsTo ir (getDefiningOp ir padOp.source) (some (TensorOp.fill r i o)))
    (hpv : padOp.constantPaddingValue = some padValue)
    (hpc : getAsOpFoldResult ir padValue = OpFoldResult.attr c)
    (hfc : getAsOpFoldResult ir i = OpFoldResult.attr c)
    (hstatic : padOp.resultType = shape.map some)
    (horig : evalValue args undef ir fuel padOp.result = some (RtValue.tensor t))
    (htype : t.shape = shape) :
    ∃ fuel0 ir',
      (∀ f, fuel0 ≤ f → FoldFillIntoPad.matchAndRewrite f ir padOp
        = some (LogicalResult.success, ir')) ∧
      ∃ t', evalValue args undef ir' 3 (foldFillIntoPadResult ir padOp.resultType)
          = some (RtValue.tensor t') ∧
        t'.shape = t.shape ∧
        ∀ idx, ValidIndex t.shape idx → t'.elem idx = t.elem idx ∧ t.elem idx = c := by
  obtain ⟨fuel0, hskip⟩ := skipsTo_fuel ir _ _ hchain
  obtain ⟨rp, hdp⟩ := getAsOpFoldResult_attr ir padValue c hpc
  obtain ⟨ri, hdi⟩ := getAsOpFoldResult_attr ir i c hfc
  have hpadmem := getDefiningOp_some ir _ _ hpad
  have hold_lt : padOp.result < freshValue ir := by
    have := (lt_freshValue ir _ hpadmem.1).1
    simpa [TensorOp.result] using this
  have hpv_ne : padValue ≠ padOp.result := by
    intro h
    rw [h, hpad] at hdp
    simp at hdp
  have hpv_lt : padValue < freshValue ir := by
    obtain ⟨hm, hres⟩ := getDefiningOp_some ir _ _ hdp
    have := (lt_freshValue ir _ hm).1
    rw [hres] at this
    exact this
  have hdims : createDynamicDimensions (freshValue ir) padOp.result padOp.resultType = [] := by
    unfold createDynamicDimensions
    rw [hstatic, dynamicDimIndices_static]
    rfl
  refine ⟨fuel0, replaceOp (insertBefore ir padOp.result
      [TensorOp.empty (freshValue ir) padOp.resultType [],
        TensorOp.fill (freshValue ir + 1) padValue (freshValue ir)])
      padOp.result (freshValue ir + 1), ?_, ?_⟩
  · intro f hf
    unfold FoldFillIntoPad.matchAndRewrite
    rw [hskip f hf]
    simp only [hpv]
    rw [if_neg (by rw [hpc, hfc]; exact fun h => h rfl)]
    simp only [hdims, List.length_nil, Nat.add_zero, List.map_nil, List.nil_append,
      TensorOp.result]
  · have hres : foldFillIntoPadResult ir padOp.resultType = freshValue ir + 1 := by
      unfold foldFillIntoPadResult
      rw [hstatic, dynamicDimIndices_static]
      rfl
    have hne_ir : ∀ v, freshValue ir ≤ v → ∀ op, op ∈ ir → op.result ≠ v := by
      intro v hv op hop
      exact value_ne_of_lt_of_le _ _ _ (lt_freshValue ir op hop).1 hv
    have hfill := getDefiningOp_inserted ir
      [TensorOp.empty (freshValue ir) padOp.resultType [],
        TensorOp.fill (freshValue ir + 1) padValue (freshValue ir)]
      padOp.result (freshValue ir + 1) (freshValue ir + 1)
      (value_succ_ne _ _ hold_lt) (hne_ir _ (Nat.le_succ _))
    have hempty := getDefiningOp_inserted ir
      [TensorOp.empty (freshValue ir) padOp.resultType [],
        TensorOp.fill (freshValue ir + 1) padValue (freshValue ir)]
      padOp.result (freshValue ir + 1) (freshValue ir)
      (value_ne_of_lt _ _ hold_lt) (hne_ir _ (Nat.le_refl _))
    have hconst := getDefiningOp_rewritten ir
      [TensorOp.empty (freshValue ir) padOp.resultType [],
        TensorOp.fill (freshValue ir + 1) padValue (freshValue ir)]
      padOp.result (freshValue ir + 1) padValue hpv_ne (by
        intro op hop
        simp only [List.mem_cons, List.mem_singleton, List.not_mem_nil, or_false] at hop
        rcases hop with h | h
        · subst h
          exact value_ne_of_lt _ _ hpv_lt
        · subst h
          exact value_succ_ne _ _ hpv_lt)
    have e1 : getDefiningOp
        [TensorOp.empty (freshValue ir) padOp.resultType [],
          TensorOp.fill (freshValue ir + 1) padValue (freshValue ir)] (freshValue ir + 1)
        = some (TensorOp.fill (freshValue ir + 1) padValue (freshValue ir)) := by
      unfold getDefiningOp
      rw [List.find?_cons_of_neg _ (by
        simp [TensorOp.result]),
        List.find?_cons_of_pos _ (by simp [TensorOp.result])]
    have e2 : getDefiningOp
        [TensorOp.empty (freshValue ir) padOp.resultType [],
          TensorOp.fill (freshValue ir + 1) padValue (freshValue ir)] (freshValue ir)
        = some (TensorOp.empty (freshValue ir) padOp.resultType []) := by
      unfold getDefiningOp
      rw [List.find?_cons_of_pos _ (by simp [TensorOp.result])]
    rw [e1] at hfill
    rw [e2] at hempty
    rw [hdp] at hconst
    have r1 : replaceValue padOp.result (freshValue ir + 1) padValue = padValue := by
      unfold replaceValue
      rw [if_neg hpv_ne]
    have r2 : replaceValue padOp.result (freshValue ir + 1) (freshValue ir)
        = freshValue ir := by
      unfold replaceValue
      rw [if_neg (value_ne_of_lt _ _ hold_lt)]
    simp only [Option.map_some', TensorOp.replaceUsesOfWith, r1, r2, List.map_nil]
      at hfill hempty hconst
    refine ⟨{ shape := shape, elem := fun _ => c }, ?_, htype.symm, ?_⟩
    · rw [hres, evalValue, hfill]
      simp only []
      rw [evalValue_constant args undef _ padValue rp c hconst 1]
      have he : evalValue args undef (replaceOp (insertBefore ir padOp.result
          [TensorOp.empty (freshValue ir) padOp.resultType [],
            TensorOp.fill (freshValue ir + 1) padValue (freshValue ir)])
          padOp.result (freshValue ir + 1)) 2 (freshValue ir)
          = some (RtValue.tensor { shape := shape, elem := fun _ => undef }) := by
        rw [evalValue, hempty]
        simp only [List.map_nil, allSizes]
        rw [hstatic, resolveShape_static]
        rfl
      rw [he]
    · intro idx _
      cases fuel with
      | zero => simp [evalValue] at horig
      | succ f =>
        rw [evalValue, hpad] at horig
        simp only [hpv] at horig
        cases hs : evalValue args undef ir f padOp.source with
        | none => simp [hs] at horig
        | some xs =>
          cases xs with
          | scalar _ => simp [hs] at horig
          | tensor ts =>
            simp only [hs] at horig
            cases hp : evalValue args undef ir f padValue with
            | none => simp [hp] at horig
            | some xp =>
              have hxp := evalValue_of_constant args undef ir padValue rp c hdp f xp hp
              subst hxp
              simp only [hp] at horig
              obtain ⟨c0, fuel', hc0, hall⟩ := chain_elems args undef ir r i o _ _ hchain rfl
                padOp.source f ts rfl hs
              have hc0' := evalValue_of_constant args undef ir i ri c hdi fuel' _ hc0
              simp only [RtValue.scalar.injEq] at hc0'
              subst hc0'
              split at horig
              · simp only [Option.some.injEq, RtValue.tensor.injEq] at horig
                have ht : t.elem idx = c0 := by
                  rw [← horig]
                  simp only []
                  split
                  · exact hall _
                  · rfl
                exact ⟨ht.symm, ht⟩
              · exact Option.noConfusion horig

theorem fold_static_example_chain :
    SkipsTo fold_static_example (getDefiningOp fold_static_example fold_static_example_pad.source)
      (some (TensorOp.fill 3 1 2)) := by
  have h4 : getDefiningOp fold_static_example fold_static_example_pad.source
      = some (TensorOp.extractSlice 4 3 [1] [2] [1]) := by decide
  have h3 : getDefiningOp fold_static_example 3 = some (TensorOp.fill 3 1 2) := by decide
  rw [h4]
  apply SkipsTo.step
  rw [h3]
  exact SkipsTo.done _ (fun r s a b c h => by simp at h)

/-- The rewrite of a pad of static result type on an example: a fill of 5, a slice of it, and a pad with
5 into `tensor<3>`: the rewritten value `%7` is a tensor of shape [3] whose element
at index 0 is 5. -/
theorem foldFillIntoPad_static_result_type_witness :
    ∃ fuel0 ir',
      (∀ f, fuel0 ≤ f → FoldFillIntoPad.matchAndRewrite f fold_static_example
        fold_static_example_pad = some (LogicalResult.success, ir')) ∧
      ∃ t', evalValue (fun _ => none) 0 ir' 3 7 = some (RtValue.tensor t') ∧
        t'.shape = [3] ∧ t'.elem [0] = 5 := by
  have horig : ∃ t, evalValue (fun _ => none) 0 fold_static_example 5
      fold_static_example_pad.result = some (RtValue.tensor t) ∧ t.shape = [3] :=
    ⟨_, rfl, rfl⟩
  obtain ⟨t, ht, hshape⟩ := horig
  obtain ⟨fuel0, ir', h1, t', h2, h3, h4⟩ := foldFillIntoPad_static_result_type
    fold_static_example fold_static_example_pad (fun _ => none) 0 3 1 2 1 5 [3] 5 t
    (by decide) fold_static_example_chain rfl (by decide) (by decide) rfl ht hshape
  refine ⟨fuel0, ir', h1, t', ?_, h3.trans hshape, ?_⟩
  · have e : foldFillIntoPadResult fold_static_example fold_static_example_pad.resultType
        = 7 := by decide
    rw [e] at h2
    exact h2
  · have hv : ValidIndex t.shape [0] := by
      rw [hshape]
      exact List.Forall₂.cons (by decide) List.Forall₂.nil
    obtain ⟨e1, e2⟩ := h4 [0] hv
    rw [e1, e2]

/-! ### Folding a fill into a pad of dynamic type -/

theorem evalValue_cycle (args : Value → Option RtValue) (undef : Int) (ir : List TensorOp)
    (a b c x : Value) (j : Nat) (ty : RankedTensorType) (ds : List Value)
    (ha : getDefiningOp ir a = some (TensorOp.fill a x b))
    (hb : getDefiningOp ir b = some (TensorOp.empty b ty (c :: ds)))
    (hc : getDefiningOp ir c = some (TensorOp.dim c a j)) :
    ∀ fuel : Nat, evalValue args undef ir fuel a = none ∧
      evalValue args undef ir fuel b = none ∧ evalValue args undef ir fuel c = none
  | 0 => ⟨rfl, rfl, rfl⟩
  | fuel + 1 => by
    obtain ⟨h1, h2, h3⟩ := evalValue_cycle args undef ir a b c x j ty ds ha hb hc fuel
    refine ⟨?_, ?_, ?_⟩
    · rw [evalValue, ha]
      simp only [h2]
      split <;> simp_all
    · rw [evalValue, hb]
      simp [h3, RtValue.asIndex, allSizes]
    · rw [evalValue, hc]
      simp [h1]

theorem matchAndRewrite_success (fuel : Nat) (ir ir' : List TensorOp) (padOp : PadOp)
    (h : FoldFillIntoPad.matchAndRewrite fuel ir padOp = some (LogicalResult.success, ir')) :
    ∃ padValue, padOp.constantPaddingValue = some padValue ∧
      ir' = replaceOp (insertBefore ir padOp.result
        (createDynamicDimensions (freshValue ir) padOp.result padOp.resultType ++
          [TensorOp.empty
            (freshValue ir +
              (createDynamicDimensions (freshValue ir) padOp.result padOp.resultType).length)
            padOp.resultType
            ((createDynamicDimensions (freshValue ir) padOp.result padOp.resultType).map
              TensorOp.result),
           TensorOp.fill
            (freshValue ir +
              (createDynamicDimensions (freshValue ir) padOp.result padOp.resultType).length + 1)
            padValue
            (freshValue ir +
              (createDynamicDimensions (freshValue ir) padOp.result
                padOp.resultType).length)]))
        padOp.result
        (freshValue ir +
          (createDynamicDimensions (freshValue ir) padOp.result padOp.resultType).length + 1) := by
  unfold FoldFillIntoPad.matchAndRewrite at h
  cases hs : skipExtractSlices ir fuel (getDefiningOp ir padOp.source) with
  | none => simp [hs] at h
  | some last =>
    cases last with
    | none => simp [hs] at h
    | some op =>
      cases op with
      | fill r i o =>
        simp only [hs] at h
        cases hpv : padOp.constantPaddingValue with
        | none => simp [hpv] at h
        | some padValue =>
          simp only [hpv] at h
          split at h
          · simp at h
          · simp only [Option.some.injEq, Prod.mk.injEq, true_and, TensorOp.result] at h
            exact ⟨padValue, rfl, h.symm⟩
      | _ => simp [hs] at h

theorem createDynamicDimensions_result (fresh old : Value) (type : RankedTensorType)
    (op : TensorOp) (hop : op ∈ createDynamicDimensions fresh old type) :
    ∃ k, k < (createDynamicDimensions fresh old type).length ∧ op.result = fresh + k := by
  unfold createDynamicDimensions at hop ⊢
  obtain ⟨p, hp, rfl⟩ := List.mem_map.mp hop
  refine ⟨p.1, ?_, rfl⟩
  rw [List.length_map, List.enum_length]
  exact List.fst_lt_of_mem_enum hp

theorem createDynamicDimensions_cons (fresh old : Value) (type : RankedTensorType)
    (hdyn : dynamicDimIndices type ≠ []) :
    ∃ j rest, createDynamicDimensions fresh old type = TensorOp.dim fresh old j :: rest := by
  unfold createDynamicDimensions
  cases h : dynamicDimIndices type with
  | nil => exact absurd h hdyn
  | cons j js =>
    exact ⟨j, (List.enumFrom 1 js).map
      (fun (p : Nat × Nat) => TensorOp.dim (fresh + p.1) old p.2), rfl⟩

/-- Every pad whose result type has a dynamic dimension, on which `FoldFillIntoPad`
succeeds, is replaced by a value that has no value: the created fill is built on a
`tensor.empty` whose first dynamic size is a `tensor.dim` of that same fill. -/
theorem foldFillIntoPad_dynamic_no_value (fuel : Nat) (ir ir' : List TensorOp)
    (padOp : PadOp)
    (h : FoldFillIntoPad.matchAndRewrite fuel ir padOp = some (LogicalResult.success, ir'))
    (hold : padOp.result < freshValue ir)
    (hdyn : dynamicDimIndices padOp.resultType ≠ []) :
    ∀ (args : Value → Option RtValue) (undef : Int) (f : Nat),
      evalValue args undef ir' f (foldFillIntoPadResult ir padOp.resultType) = none := by
  obtain ⟨padValue, _, hir'⟩ := matchAndRewrite_success fuel ir ir' padOp h
  obtain ⟨j, rest, hdims⟩ := createDynamicDimensions_cons (freshValue ir) padOp.result
    padOp.resultType hdyn
  have hlen : (createDynamicDimensions (freshValue ir) padOp.result padOp.resultType).length
      = (dynamicDimIndices padOp.resultType).length := by
    unfold createDynamicDimensions
    rw [List.length_map, List.enum_length]
  have hres : foldFillIntoPadResult ir padOp.resultType = freshValue ir +
      (createDynamicDimensions (freshValue ir) padOp.result padOp.resultType).length + 1 := by
    unfold foldFillIntoPadResult
    rw [hlen]
  have hdimres := createDynamicDimensions_result (freshValue ir) padOp.result
    padOp.resultType
  generalize hn : (createDynamicDimensions (freshValue ir) padOp.result
    padOp.resultType).length = n at hir' hres hdimres
  have hne_ir : ∀ v, freshValue ir ≤ v → ∀ op, op ∈ ir → op.result ≠ v := by
    intro v hv op hop
    exact value_ne_of_lt_of_le _ _ _ (lt_freshValue ir op hop).1 hv
  have hne_old : ∀ v : Nat, freshValue ir ≤ v → v ≠ padOp.result := by
    intro v hv e
    exact absurd hold (by rw [← e]; exact Nat.not_lt.mpr hv)
  have hnodim : ∀ v : Nat, freshValue ir + n ≤ v →
      List.find? (fun op => op.result == v)
        (createDynamicDimensions (freshValue ir) padOp.result padOp.resultType) = none := by
    intro v hv
    rw [List.find?_eq_none]
    intro op hop
    obtain ⟨k, hk, hr⟩ := hdimres op hop
    have : op.result ≠ v := by
      rw [hr]
      exact Nat.ne_of_lt (Nat.lt_of_lt_of_le (Nat.add_lt_add_left hk _) hv)
    simpa using this
  have hrepl : ∀ v : Nat, freshValue ir ≤ v →
      replaceValue padOp.result (freshValue ir + n + 1) v = v := by
    intro v hv
    unfold replaceValue
    rw [if_neg (hne_old v hv)]
  -- the three operations of the cycle, looked up in the new payload
  have hfill : getDefiningOp ir' (freshValue ir + n + 1) = some (TensorOp.fill
      (freshValue ir + n + 1) (replaceValue padOp.result (freshValue ir + n + 1) padValue)
      (freshValue ir + n)) := by
    rw [hir', getDefiningOp_inserted ir _ padOp.result _ _
      (hne_old _ (Nat.le_add_right_of_le (Nat.le_add_right _ _)))
      (hne_ir _ (Nat.le_add_right_of_le (Nat.le_add_right _ _)))]
    unfold getDefiningOp
    rw [List.find?_append, hnodim _ (Nat.le_succ _), Option.none_or,
      List.find?_cons_of_neg _ (by simp [TensorOp.result]),
      List.find?_cons_of_pos _ (by simp [TensorOp.result])]
    simp only [Option.map_some', TensorOp.replaceUsesOfWith,
      hrepl _ (Nat.le_add_right (freshValue ir) n)]
  have hempty : getDefiningOp ir' (freshValue ir + n) = some (TensorOp.empty
      (freshValue ir + n) padOp.resultType
      (freshValue ir :: (rest.map TensorOp.result).map
        (replaceValue padOp.result (freshValue ir + n + 1)))) := by
    rw [hir', getDefiningOp_inserted ir _ padOp.result _ _
      (hne_old _ (Nat.le_add_right _ _)) (hne_ir _ (Nat.le_add_right _ _))]
    unfold getDefiningOp
    rw [List.find?_append, hnodim _ (Nat.le_refl _), Option.none_or,
      List.find?_cons_of_pos _ (by simp [TensorOp.result])]
    simp only [Option.map_some', TensorOp.replaceUsesOfWith, hdims, List.map_cons,
      TensorOp.result, hrepl _ (Nat.le_refl (freshValue ir))]
  have hdim : getDefiningOp ir' (freshValue ir) = some (TensorOp.dim (freshValue ir)
      (freshValue ir + n + 1) j) := by
    rw [hir', getDefiningOp_inserted ir _ padOp.result _ _
      (hne_old _ (Nat.le_refl _)) (hne_ir _ (Nat.le_refl _))]
    unfold getDefiningOp
    rw [hdims, List.cons_append, List.find?_cons_of_pos _ (by simp [TensorOp.result])]
    simp [TensorOp.replaceUsesOfWith, replaceValue]
  intro args undef f
  rw [hres]
  exact (evalValue_cycle args undef ir' _ _ _ _ j padOp.resultType _ hfill hempty hdim f).1

/-- The example with a dynamic result type is an instance: its rewritten value `%7`
has no value. -/
theorem foldFillIntoPad_dynamic_no_value_witness :
    ∀ (args : Value → Option RtValue) (undef : Int) (f : Nat),
      evalValue args undef fold_dynamic_example_rewritten f 7 = none :=
  foldFillIntoPad_dynamic_no_value 4 fold_dynamic_example fold_dynamic_example_rewritten
    fold_dynamic_example_pad (by decide) (by decide) (by decide)

/-! ### The GPU copy callback -/

/-- C16. `gpuComprehensiveBufferizeCopyFn` always returns success; when exactly one
of the two buffers is in the shared address space the operations it builds are
barrier, copy, barrier in this order, and when both or neither are it builds the copy
alone; in both cases the copy carries the copy-to-workgroup-memory marker. -/
theorem gpuComprehensiveBufferizeCopyFn_sequence {τ : Type}
    (hasSharedMemoryAddressSpace : τ → Bool) (fromType toType : τ)
    (fromValue toValue : Value) :
    (gpuComprehensiveBufferizeCopyFn hasSharedMemoryAddressSpace fromType toType
        fromValue toValue).1 = LogicalResult.success ∧
    (hasSharedMemoryAddressSpace fromType ≠ hasSharedMemoryAddressSpace toType →
      (gpuComprehensiveBufferizeCopyFn hasSharedMemoryAddressSpace fromType toType
        fromValue toValue).2 =
        [CopyFnOp.BarrierOp,
         CopyFnOp.LinalgCopyOp fromValue toValue (some Marker.copyToWorkgroupMemory),
         CopyFnOp.BarrierOp]) ∧
    (hasSharedMemoryAddressSpace fromType = hasSharedMemoryAddressSpace toType →
      (gpuComprehensiveBufferizeCopyFn hasSharedMemoryAddressSpace fromType toType
        fromValue toValue).2 =
        [CopyFnOp.LinalgCopyOp fromValue toValue (some Marker.copyToWorkgroupMemory)]) := by
  refine ⟨rfl, ?_, ?_⟩
  · intro h
    have hb : (hasSharedMemoryAddressSpace fromType !=
        hasSharedMemoryAddressSpace toType) = true := by
      cases h1 : hasSharedMemoryAddressSpace fromType <;>
        cases h2 : hasSharedMemoryAddressSpace toType <;> simp_all
    simp [gpuComprehensiveBufferizeCopyFn, hb, setMarker, createLinalgCopyOp,
      getCopyToWorkgroupMemoryMarker]
  · intro h
    have hb : (hasSharedMemoryAddressSpace fromType !=
        hasSharedMemoryAddressSpace toType) = false := by
      rw [h]; cases hasSharedMemoryAddressSpace toType <;> rfl
    simp [gpuComprehensiveBufferizeCopyFn, hb, setMarker, createLinalgCopyOp,
      getCopyToWorkgroupMemoryMarker]

/-- Witness of C16: a copy from a buffer in global memory (false) to a buffer in
shared memory (true), and a copy between two buffers in shared memory. -/
theorem gpuComprehensiveBufferizeCopyFn_sequence_witness :
    (gpuComprehensiveBufferizeCopyFn (fun (shared : Bool) => shared) false true 3 4).2 =
        [CopyFnOp.BarrierOp,
         CopyFnOp.LinalgCopyOp 3 4 (some Marker.copyToWorkgroupMemory),
         CopyFnOp.BarrierOp] ∧
    (gpuComprehensiveBufferizeCopyFn (fun (shared : Bool) => shared) true true 3 4).2 =
        [CopyFnOp.LinalgCopyOp 3 4 (some Marker.copyToWorkgroupMemory)] :=
  ⟨(gpuComprehensiveBufferizeCopyFn_sequence (fun (shared : Bool) => shared) false true
      3 4).2.1 (by decide),
   (gpuComprehensiveBufferizeCopyFn_sequence (fun (shared : Bool) => shared) true true
      3 4).2.2 rfl⟩

/-! ### The target check of `IREEBufferizeOp` and the bufferization options -/

/-- The run of `IREEBufferizeOp::apply` on a target handle that does not hold exactly
one operation of a container kind: a definite failure, the payload as it was, no
step run and no result set. -/
theorem IREEBufferizeOp_apply_rejected {σ : Type} (procs : BufferizeProcedures σ)
    (defaults : IREEOneShotBufferizationOptions)
    (targetGpu testAnalysisOnly printConflicts : Bool)
    (targets : List (Nat × TargetKind)) (payload : σ)
    (h : targets.length ≠ 1 ∨ ∃ target kind, targets = [(target, kind)] ∧
      kind ≠ TargetKind.ModuleOp ∧ kind ≠ TargetKind.ExecutableOp ∧
      kind ≠ TargetKind.ExecutableVariantOp) :
    IREEBufferizeOp.apply procs defaults targetGpu testAnalysisOnly printConflicts
      targets payload =
    { status := DiagnosedSilenceableFailure.definiteFailure
        BufferizeDiagnostic.requiresSingleTarget,
      payload := payload, steps := [], results := none } := by
  rcases h with h | ⟨target, kind, rfl, h1, h2, h3⟩
  · match targets, h with
    | [], _ => rfl
    | [_], h => exact absurd rfl h
    | _ :: _ :: _, _ => rfl
  · cases kind
    · exact absurd rfl h1
    · exact absurd rfl h2
    · exact absurd rfl h3
    · rfl

/-- C17. When the target handle of `IREEBufferizeOp` does not map to exactly one
payload operation, or maps to one operation that is neither a module, an executable
nor an executable variant, `apply` returns a definite failure, leaves the payload as
it was and runs none of its lowering steps; applied again to the payload it left, it
returns the same failure. -/
theorem IREEBufferizeOp_apply_precondition {σ : Type} (procs : BufferizeProcedures σ)
    (defaults : IREEOneShotBufferizationOptions)
    (targetGpu testAnalysisOnly printConflicts : Bool)
    (targets : List (Nat × TargetKind)) (payload : σ)
    (h : targets.length ≠ 1 ∨ ∃ target kind, targets = [(target, kind)] ∧
      kind ≠ TargetKind.ModuleOp ∧ kind ≠ TargetKind.ExecutableOp ∧
      kind ≠ TargetKind.ExecutableVariantOp) :
    (IREEBufferizeOp.apply procs defaults targetGpu testAnalysisOnly printConflicts
      targets payload).status =
      DiagnosedSilenceableFailure.definiteFailure BufferizeDiagnostic.requiresSingleTarget ∧
    (IREEBufferizeOp.apply procs defaults targetGpu testAnalysisOnly printConflicts
      targets payload).payload = payload ∧
    (IREEBufferizeOp.apply procs defaults targetGpu testAnalysisOnly printConflicts
      targets payload).steps = [] ∧
    (IREEBufferizeOp.apply procs defaults targetGpu testAnalysisOnly printConflicts targets
      (IREEBufferizeOp.apply procs defaults targetGpu testAnalysisOnly printConflicts
        targets payload).payload).status =
      (IREEBufferizeOp.apply procs defaults targetGpu testAnalysisOnly printConflicts
        targets payload).status := by
  have hrun := IREEBufferizeOp_apply_rejected procs defaults targetGpu testAnalysisOnly
    printConflicts targets payload h
  rw [hrun]
  refine ⟨rfl, rfl, rfl, ?_⟩
  show (IREEBufferizeOp.apply procs defaults targetGpu testAnalysisOnly printConflicts
    targets payload).status = _
  rw [hrun]

/-- Witness of C17: a handle that maps to two modules, with procedures that would
change the payload if they ran. -/
theorem IREEBufferizeOp_apply_precondition_witness :
    (IREEBufferizeOp.apply counting_procedures default_options false false false
      [(0, TargetKind.ModuleOp), (1, TargetKind.ModuleOp)] 5).status =
      DiagnosedSilenceableFailure.definiteFailure BufferizeDiagnostic.requiresSingleTarget ∧
    (IREEBufferizeOp.apply counting_procedures default_options false false false
      [(0, TargetKind.ModuleOp), (1, TargetKind.ModuleOp)] 5).payload = 5 ∧
    (IREEBufferizeOp.apply counting_procedures default_options false false false
      [(0, TargetKind.ModuleOp)] 5).payload = 8 :=
  ⟨(IREEBufferizeOp_apply_precondition counting_procedures default_options false false
      false [(0, TargetKind.ModuleOp), (1, TargetKind.ModuleOp)] 5
      (Or.inl (by decide))).1,
   (IREEBufferizeOp_apply_precondition counting_procedures default_options false false
      false [(0, TargetKind.ModuleOp), (1, TargetKind.ModuleOp)] 5
      (Or.inl (by decide))).2.1,
   rfl⟩

/-- Counterexample to C18 as stated: for the CPU target, with default options that
hold no callback, the options passed to the elimination of empty tensors hold no
allocation callback while those passed to one-shot bufferization hold the CPU one. -/
theorem eliminateEmptyTensors_options_counterexample :
    (IREEEliminateEmptyTensorsOp.options default_options).allocationFn = none ∧
    (IREEBufferizeOp.options default_options false false false).allocationFn =
      some AllocationFn.cpuComprehensiveBufferizeAllocationFn ∧
    (IREEEliminateEmptyTensorsOp.options default_options).allocationFn ≠
      (IREEBufferizeOp.options default_options false false false).allocationFn := by
  decide

/-- C18, amended. The options that `IREEEliminateEmptyTensorsOp` passes are those of
`getBufferizationOptions()`: they hold the same denied operations and the same
unknown type converter as the options that `IREEBufferizeOp` passes to one-shot
bufferization, and the callbacks of the default options; the options of
`IREEBufferizeOp` hold the CPU callbacks, or the GPU callbacks when `target_gpu` is
set. Whatever the default options are, the allocation callbacks of the two
operations differ for at least one of the two target classes. -/
theorem eliminateEmptyTensors_options_shared (defaults : IREEOneShotBufferizationOptions)
    (targetGpu testAnalysisOnly printConflicts : Bool) :
    (IREEEliminateEmptyTensorsOp.options defaults).deniedOperations =
      (IREEBufferizeOp.options defaults targetGpu testAnalysisOnly
        printConflicts).deniedOperations ∧
    (IREEEliminateEmptyTensorsOp.options defaults).unknownTypeConverterFn =
      (IREEBufferizeOp.options defaults targetGpu testAnalysisOnly
        printConflicts).unknownTypeConverterFn ∧
    (IREEEliminateEmptyTensorsOp.options defaults).allocationFn = defaults.allocationFn ∧
    (IREEEliminateEmptyTensorsOp.options defaults).deallocationFn =
      defaults.deallocationFn ∧
    (IREEEliminateEmptyTensorsOp.options defaults).memCpyFn = defaults.memCpyFn ∧
    (IREEBufferizeOp.options defaults targetGpu testAnalysisOnly printConflicts).allocationFn =
      some (if targetGpu then AllocationFn.gpuComprehensiveBufferizeAllocationFn
        else AllocationFn.cpuComprehensiveBufferizeAllocationFn) ∧
    (IREEBufferizeOp.options defaults targetGpu testAnalysisOnly
        printConflicts).deallocationFn =
      some (if targetGpu then DeallocationFn.gpuComprehensiveBufferizeDeallocationFn
        else DeallocationFn.cpuComprehensiveBufferizeDeallocationFn) ∧
    (IREEBufferizeOp.options defaults targetGpu testAnalysisOnly printConflicts).memCpyFn =
      some (if targetGpu then MemCpyFn.gpuComprehensiveBufferizeCopyFn
        else MemCpyFn.cpuComprehensiveBufferizeCopyFn) ∧
    ((IREEEliminateEmptyTensorsOp.options defaults).allocationFn ≠
        (IREEBufferizeOp.options defaults false testAnalysisOnly
          printConflicts).allocationFn ∨
      (IREEEliminateEmptyTensorsOp.options defaults).allocationFn ≠
        (IREEBufferizeOp.options defaults true testAnalysisOnly
          printConflicts).allocationFn) := by
  refine ⟨rfl, rfl, rfl, rfl, rfl, rfl, rfl, rfl, ?_⟩
  show defaults.allocationFn ≠ some AllocationFn.cpuComprehensiveBufferizeAllocationFn ∨
    defaults.allocationFn ≠ some AllocationFn.gpuComprehensiveBufferizeAllocationFn
  by_cases h : defaults.allocationFn = some AllocationFn.cpuComprehensiveBufferizeAllocationFn
  · right
    rw [h]
    decide
  · left
    exact h

/-! ### The CSE transform -/

/-- The walk callback passes an interrupted state on unchanged. -/
theorem cseVisit_interrupted {σ : Type} (cse : Nat → σ → LogicalResult × σ × Bool)
    (op : Nat) (w : CSEWalk σ) (h : w.interrupted = true) : cseVisit cse op w = w := by
  simp [cseVisit, h]

/-- Nothing is visited once the walk is interrupted. -/
theorem cseVisitAll_interrupted {σ : Type} (cse : Nat → σ → LogicalResult × σ × Bool)
    (units : List Nat) (w : CSEWalk σ) (h : w.interrupted = true) :
    cseVisitAll cse units w = w := by
  induction units with
  | nil => rfl
  | cons unit rest ih => simp [cseVisitAll, cseVisit_interrupted cse unit w h, ih]

/-- Visiting two lists in a row is visiting their concatenation. -/
theorem cseVisitAll_append {σ : Type} (cse : Nat → σ → LogicalResult × σ × Bool)
    (a b : List Nat) (w : CSEWalk σ) :
    cseVisitAll cse (a ++ b) w = cseVisitAll cse b (cseVisitAll cse a w) := by
  induction a generalizing w with
  | nil => rfl
  | cons unit rest ih => simp [cseVisitAll, ih]

mutual
/-- The walk below an operation visits its outermost isolated operations, in
pre-order, and no other operation. -/
theorem cseWalk_eq_visitAll {σ : Type} (cse : Nat → σ → LogicalResult × σ × Bool) :
    ∀ (t : NestedOp) (w : CSEWalk σ),
      cseWalk cse t w = cseVisitAll cse (isolatedUnits t) w
  | NestedOp.mk op isIsolatedFromAbove nested, w => by
    cases isIsolatedFromAbove with
    | true => simp [cseWalk, isolatedUnits, cseVisitAll]
    | false =>
      simp only [cseWalk, isolatedUnits, Bool.false_eq_true, if_false]
      exact cseWalkList_eq_visitAll cse nested w
/-- The walk of a region visits the outermost isolated operations of its
operations. -/
theorem cseWalkList_eq_visitAll {σ : Type} (cse : Nat → σ → LogicalResult × σ × Bool) :
    ∀ (ts : List NestedOp) (w : CSEWalk σ),
      cseWalkList cse ts w = cseVisitAll cse (isolatedUnitsList ts) w
  | [], w => by simp [cseWalkList, isolatedUnitsList, cseVisitAll]
  | t :: ts, w => by
    simp only [cseWalkList, isolatedUnitsList, cseVisitAll_append]
    rw [cseWalk_eq_visitAll cse t w]
    exact cseWalkList_eq_visitAll cse ts _
end

/-- From a state that is neither interrupted nor failed, the visits of a list of
units end as the run of the contract does. -/
theorem cseVisitAll_eq_cseOnUnits {σ : Type} (cse : Nat → σ → LogicalResult × σ × Bool)
    (units : List Nat) (w : CSEWalk σ)
    (hi : w.interrupted = false) (hl : w.listenerFailed = false) :
    cseStatus (cseVisitAll cse units w) = (cseOnUnits cse units w.payload).status ∧
    (cseVisitAll cse units w).payload = (cseOnUnits cse units w.payload).payload ∧
    (cseVisitAll cse units w).processed =
      w.processed ++ (cseOnUnits cse units w.payload).processed := by
  induction units generalizing w with
  | nil => simp [cseVisitAll, cseOnUnits, cseStatus, hi]
  | cons unit rest ih =>
    rcases hcse : cse unit w.payload with ⟨result, payload1, notified⟩
    cases notified with
    | true =>
      have hv : cseVisit cse unit w =
          { payload := payload1, listenerFailed := true, lastOpVisited := some unit,
            processed := w.processed ++ [unit], interrupted := true } := by
        simp [cseVisit, hi, hcse]
      simp [cseVisitAll, cseOnUnits, hcse, hv, cseVisitAll_interrupted, cseStatus]
    | false =>
      cases result with
      | failure =>
        have hv : cseVisit cse unit w =
            { payload := payload1, listenerFailed := false, lastOpVisited := some unit,
              processed := w.processed ++ [unit], interrupted := true } := by
          simp [cseVisit, hi, hl, hcse]
        simp [cseVisitAll, cseOnUnits, hcse, hv, cseVisitAll_interrupted, cseStatus]
      | success =>
        have hv : cseVisit cse unit w =
            { payload := payload1, listenerFailed := false, lastOpVisited := some unit,
              processed := w.processed ++ [unit], interrupted := false } := by
          simp [cseVisit, hi, hl, hcse]
        have h := ih
          { payload := payload1, listenerFailed := false, lastOpVisited := some unit,
            processed := w.processed ++ [unit], interrupted := false } rfl rfl
        simp only [cseVisitAll, hv, cseOnUnits, hcse]
        simpa using h

/-- Counterexample to C19 as stated: on a target with the two outermost units 1 and
3, with a CSE that succeeds on every unit but makes the listener record a failure on
unit 1, the transform stops after unit 1 and returns the silenceable error of the
listener, neither success nor a definite failure. -/
theorem applyCSE_listener_counterexample :
    (∀ op, (cse_example_listener op 0).1 = LogicalResult.success) ∧
    isolatedUnits cse_example_target = [1, 3] ∧
    (ApplyCommonSubexpressionEliminationOp.applyToOne cse_example_listener
      cse_example_target 0).processed = [1] ∧
    (ApplyCommonSubexpressionEliminationOp.applyToOne cse_example_listener
      cse_example_target 0).status =
      DiagnosedSilenceableFailure.silenceableFailure CSEDiagnostic.listenerError :=
  ⟨fun _ => rfl, by decide, by decide, by decide⟩

/-- C19, amended. `ApplyCommonSubexpressionEliminationOp::applyToOne` runs CSE, in
pre-order, on the isolated operations of the target sub-tree that have no isolated
proper ancestor in it, and on no other operation; it stops at the first such unit
whose CSE fails or makes the tracking listener record a failure, and leaves the
later units unprocessed; it then returns the error of the listener if the listener
has recorded one, and otherwise a definite failure anchored at the failing unit; it
returns success when no unit stops it. -/
theorem applyCSE_outermost_units {σ : Type}
    (eliminateCommonSubexpressions : Nat → σ → LogicalResult × σ × Bool)
    (target : NestedOp) (payload : σ) :
    ApplyCommonSubexpressionEliminationOp.applyToOne eliminateCommonSubexpressions
      target payload =
    cseOnUnits eliminateCommonSubexpressions (isolatedUnits target) payload := by
  have h := cseVisitAll_eq_cseOnUnits eliminateCommonSubexpressions (isolatedUnits target)
    { payload := payload, listenerFailed := false, lastOpVisited := none,
      processed := [], interrupted := false } rfl rfl
  simp only [ApplyCommonSubexpressionEliminationOp.applyToOne, cseWalk_eq_visitAll]
  rcases h with ⟨h1, h2, h3⟩
  rw [h1, h2, h3]
  simp

/-! ### Sharing the output operands of a loop -/

/-- An operation that has a value among its operands is one use of it at least. -/
theorem numUsesIn_pos (v : Value) (ops : List (OpPosition × SliceOp)) (i : Nat)
    (entry : OpPosition × SliceOp) (h : ops[i]? = some entry)
    (hv : v ∈ entry.2.operands) : 1 ≤ numUsesIn v ops := by
  induction ops generalizing i with
  | nil => simp at h
  | cons e rest ih =>
    cases i with
    | zero =>
      simp only [List.getElem?_cons_zero, Option.some.injEq] at h
      subst h
      have := List.count_pos_iff.mpr hv
      simp only [numUsesIn]
      omega
    | succ k =>
      simp only [List.getElem?_cons_succ] at h
      have := ih k h
      simp only [numUsesIn]
      omega

/-- If a value has one use at most among the operations and a `tensor.extract_slice`
uses it, the search of the users finds this very operation. -/
theorem findExtractSliceUser_unique (v : Value) (ops : List (OpPosition × SliceOp))
    (i : Nat) (position : OpPosition) (source : Value)
    (offsets sizes strides : List OpFoldResult)
    (h : ops[i]? = some (position, SliceOp.ExtractSliceOp source offsets sizes strides))
    (hv : v ∈ (SliceOp.ExtractSliceOp source offsets sizes strides).operands)
    (hle : numUsesIn v ops ≤ 1) :
    findExtractSliceUser v ops = some (i, position, offsets, sizes, strides) := by
  induction ops generalizing i with
  | nil => simp at h
  | cons e rest ih =>
    cases i with
    | zero =>
      simp only [List.getElem?_cons_zero, Option.some.injEq] at h
      subst h
      simp only [findExtractSliceUser, if_pos hv]
    | succ k =>
      simp only [List.getElem?_cons_succ] at h
      have hrest := numUsesIn_pos v rest k _ h hv
      simp only [numUsesIn] at hle
      have hcount : e.2.operands.count v = 0 := by omega
      have hnot : v ∉ e.2.operands := List.count_eq_zero.mp hcount
      have hfound := ih k h (by omega)
      rcases e with ⟨pos, op⟩
      cases op with
      | ExtractSliceOp src o s t =>
        simp only [findExtractSliceUser, if_neg hnot, hfound, Option.map_some']
      | ParallelInsertSliceOp src dst o s t =>
        simp only [findExtractSliceUser, hfound, Option.map_some']
      | other operands =>
        simp only [findExtractSliceUser, hfound, Option.map_some']

/-- What the search of the users finds is a `tensor.extract_slice` of the payload
that uses the value. -/
theorem findExtractSliceUser_sound (v : Value) (ops : List (OpPosition × SliceOp))
    (j : Nat) (position : OpPosition) (offsets sizes strides : List OpFoldResult)
    (h : findExtractSliceUser v ops = some (j, position, offsets, sizes, strides)) :
    ∃ source, ops[j]? = some (position, SliceOp.ExtractSliceOp source offsets sizes strides) ∧
      v ∈ (SliceOp.ExtractSliceOp source offsets sizes strides).operands := by
  induction ops generalizing j with
  | nil => simp [findExtractSliceUser] at h
  | cons e rest ih =>
    have hstep : ∀ (found : Option (Nat × OpPosition × List OpFoldResult ×
        List OpFoldResult × List OpFoldResult)),
        found = findExtractSliceUser v rest →
        found.map (fun f => (f.1 + 1, f.2)) = some (j, position, offsets, sizes, strides) →
        ∃ source, (e :: rest)[j]? =
          some (position, SliceOp.ExtractSliceOp source offsets sizes strides) ∧
          v ∈ (SliceOp.ExtractSliceOp source offsets sizes strides).operands := by
      intro found hf hm
      cases found with
      | none => simp at hm
      | some f =>
        simp only [Option.map_some', Option.some.injEq, Prod.mk.injEq] at hm
        obtain ⟨hj, hdata⟩ := hm
        obtain ⟨source, h1, h2⟩ := ih f.1 (by rw [← hf, ← hdata])
        refine ⟨source, ?_, h2⟩
        rw [← hj, List.getElem?_cons_succ]
        exact h1
    rcases e with ⟨pos, op⟩
    cases op with
    | ExtractSliceOp src o s t =>
      by_cases hv : v ∈ (SliceOp.ExtractSliceOp src o s t).operands
      · simp only [findExtractSliceUser, if_pos hv, Option.some.injEq, Prod.mk.injEq] at h
        obtain ⟨rfl, rfl, rfl, rfl, rfl⟩ := h
        exact ⟨src, by simp, hv⟩
      · simp only [findExtractSliceUser, if_neg hv] at h
        exact hstep _ rfl h
    | ParallelInsertSliceOp src dst o s t =>
      simp only [findExtractSliceUser] at h
      exact hstep _ rfl h
    | other operands =>
      simp only [findExtractSliceUser] at h
      exact hstep _ rfl h

/-- Some yielding operation matches exactly when the terminator holds a
`tensor.parallel_insert_slice` into the block argument with the same offsets, sizes
and strides. -/
theorem yieldingOps_any_matching (p : SharePayload) (bbArg : Value)
    (offsets sizes strides : List OpFoldResult) :
    p.yieldingOps.any (isMatchingParallelInsertSlice bbArg offsets sizes strides) = true ↔
    ∃ x, (OpPosition.insideTerminator,
      SliceOp.ParallelInsertSliceOp x bbArg offsets sizes strides) ∈ p.ops := by
  simp only [SharePayload.yieldingOps, List.any_eq_true, List.mem_map, List.mem_filter,
    decide_eq_true_eq]
  constructor
  · rintro ⟨op, ⟨⟨pos, op2⟩, ⟨hmem, hpos⟩, rfl⟩, hmatch⟩
    simp only at hpos
    subst hpos
    cases op2 with
    | ExtractSliceOp src o s t => simp [isMatchingParallelInsertSlice] at hmatch
    | other operands => simp [isMatchingParallelInsertSlice] at hmatch
    | ParallelInsertSliceOp src dst o s t =>
      simp only [isMatchingParallelInsertSlice] at hmatch
      by_cases hd : dst = bbArg
      · simp only [hd, ne_eq, not_true_eq_false, if_false, Bool.and_eq_true,
          decide_eq_true_eq] at hmatch
        obtain ⟨⟨rfl, rfl⟩, rfl⟩ := hmatch
        subst hd
        exact ⟨src, hmem⟩
      · simp [hd] at hmatch
  · rintro ⟨x, hmem⟩
    refine ⟨_, ⟨_, ⟨hmem, rfl⟩, rfl⟩, ?_⟩
    simp [isMatchingParallelInsertSlice]

/-- Handling an output leaves the output operands of the loop as they are. -/
theorem shareOperand_outputs (p : SharePayload) (outputIdx : Nat) :
    (shareOperand p outputIdx).outputs = p.outputs := by
  unfold shareOperand
  simp only
  split
  · rfl
  · split
    · rfl
    · split <;> rfl

/-- When every index is in range the loop handles them all, in order, and ends
with success. -/
theorem shareOperandsLoop_in_range (indices : List Int) (p : SharePayload)
    (hrange : ∀ idx ∈ indices, 0 ≤ idx ∧ idx < (p.outputs.length : Int)) :
    shareOperandsLoop indices p =
      (DiagnosedSilenceableFailure.success,
        indices.foldl (fun q idx => shareOperand q idx.toNat) p) := by
  induction indices generalizing p with
  | nil => rfl
  | cons idx rest ih =>
    have h0 := hrange idx (List.mem_cons_self _ _)
    have hnot : ¬ (idx < 0 ∨ idx ≥ (p.outputs.length : Int)) := by omega
    simp only [shareOperandsLoop, if_neg hnot, List.foldl_cons]
    apply ih
    intro i hi
    rw [shareOperand_outputs]
    exact hrange i (List.mem_cons_of_mem _ hi)

/-- The loop stops at the first index out of range, after it has handled the indices
before it. -/
theorem shareOperandsLoop_overflow (before after : List Int) (bad : Int) (p : SharePayload)
    (hrange : ∀ idx ∈ before, 0 ≤ idx ∧ idx < (p.outputs.length : Int))
    (hbad : bad < 0 ∨ (p.outputs.length : Int) ≤ bad) :
    shareOperandsLoop (before ++ bad :: after) p =
      (DiagnosedSilenceableFailure.definiteFailure ShareDiagnostic.operandIdxOverflow,
        before.foldl (fun q idx => shareOperand q idx.toNat) p) := by
  induction before generalizing p with
  | nil =>
    have hcond : bad < 0 ∨ bad ≥ (p.outputs.length : Int) := by omega
    simp only [List.nil_append, shareOperandsLoop, if_pos hcond, List.foldl_nil]
  | cons idx rest ih =>
    have h0 := hrange idx (List.mem_cons_self _ _)
    have hnot : ¬ (idx < 0 ∨ idx ≥ (p.outputs.length : Int)) := by omega
    simp only [List.cons_append, shareOperandsLoop, if_neg hnot, List.foldl_cons]
    apply ih
    · intro i hi
      rw [shareOperand_outputs]
      exact hrange i (List.mem_cons_of_mem _ hi)
    · rw [shareOperand_outputs]
      exact hbad

/-- An output that meets the sharing conditions has the source of its
`tensor.extract_slice` set to the block argument. -/
theorem shareOperand_rewires (q : SharePayload) (outputIdx : Nat)
    (hidx : outputIdx < q.outputs.length)
    (i : Nat) (position : OpPosition) (source x : Value)
    (offsets sizes strides : List OpFoldResult)
    (huses : q.numUses (q.outputs.getD outputIdx 0) = 2)
    (hslice : q.ops[i]? =
      some (position, SliceOp.ExtractSliceOp source offsets sizes strides))
    (huser : q.outputs.getD outputIdx 0 ∈
      (SliceOp.ExtractSliceOp source offsets sizes strides).operands)
    (hwrite : (OpPosition.insideTerminator,
      SliceOp.ParallelInsertSliceOp x (q.outputBlockArguments.getD outputIdx 0)
        offsets sizes strides) ∈ q.ops) :
    shareOperand q outputIdx =
      { q with
        ops := q.ops.set i
          (position, SliceOp.ExtractSliceOp (q.outputBlockArguments.getD outputIdx 0)
            offsets sizes strides) } := by
  have hmem : q.outputs.getD outputIdx 0 ∈ q.outputs := by
    rw [List.getD_eq_getElem _ _ hidx]
    exact List.getElem_mem _
  have hcount : 1 ≤ q.outputs.count (q.outputs.getD outputIdx 0) :=
    List.count_pos_iff.mpr hmem
  have hle : numUsesIn (q.outputs.getD outputIdx 0) q.ops ≤ 1 := by
    simp only [SharePayload.numUses] at huses
    omega
  have hfind := findExtractSliceUser_unique _ q.ops i position source offsets sizes
    strides hslice huser hle
  have hany := (yieldingOps_any_matching q (q.outputBlockArguments.getD outputIdx 0)
    offsets sizes strides).mpr ⟨x, hwrite⟩
  unfold shareOperand
  simp only [huses, ne_eq, not_true_eq_false, if_false, hfind, hany, Bool.not_true,
    Bool.false_eq_true]

/-- An output that does not meet the sharing conditions is skipped and the payload
is left as it is. -/
theorem shareOperand_skips (q : SharePayload) (outputIdx : Nat)
    (h : ¬ ∃ (i : Nat) (position : OpPosition) (source x : Value)
      (offsets sizes strides : List OpFoldResult),
      q.numUses (q.outputs.getD outputIdx 0) = 2 ∧
      q.ops[i]? = some (position, SliceOp.ExtractSliceOp source offsets sizes strides) ∧
      q.outputs.getD outputIdx 0 ∈
        (SliceOp.ExtractSliceOp source offsets sizes strides).operands ∧
      (OpPosition.insideTerminator,
        SliceOp.ParallelInsertSliceOp x (q.outputBlockArguments.getD outputIdx 0)
          offsets sizes strides) ∈ q.ops) :
    shareOperand q outputIdx = q := by
  unfold shareOperand
  simp only
  split
  · rfl
  · rename_i huses
    split
    · rfl
    · rename_i index position offsets sizes strides hfind
      split
      · rfl
      · rename_i hany
        exfalso
        apply h
        obtain ⟨source, hslice, huser⟩ :=
          findExtractSliceUser_sound _ _ _ _ _ _ _ hfind
        have hany2 : q.yieldingOps.any (isMatchingParallelInsertSlice
            (q.outputBlockArguments.getD outputIdx 0) offsets sizes strides) = true := by
          simpa using hany
        obtain ⟨x, hx⟩ := (yieldingOps_any_matching q _ offsets sizes strides).mp hany2
        exact ⟨index, position, source, x, offsets, sizes, strides,
          by simpa using huses, hslice, huser, hx⟩

/-- C14. When every index of `share_operands` is in range,
`ShareForallOperandsOp::applyToOne` returns success with the loop as its result and
the payload is the one obtained by handling the listed outputs in order. For an
output index in range, handled in a payload `q`: if the output operand has exactly
two uses, a `tensor.extract_slice` of the payload uses it, and the terminator holds a
`tensor.parallel_insert_slice` into the block argument of the output with the
offsets, sizes and strides of that slice, then the source of the slice is set to the
block argument and nothing else changes; in every other case the payload is left as
it is. -/
theorem shareForallOperands_rewires_iff (p : SharePayload) (getShareOperands : List Int)
    (hrange : ∀ idx ∈ getShareOperands, 0 ≤ idx ∧ idx < (p.outputs.length : Int)) :
    ShareForallOperandsOp.applyToOne getShareOperands p =
      { status := DiagnosedSilenceableFailure.success,
        payload := getShareOperands.foldl (fun q idx => shareOperand q idx.toNat) p,
        results := [p.forallOp] } ∧
    ∀ (q : SharePayload) (outputIdx : Nat), outputIdx < q.outputs.length →
      (∀ (i : Nat) (position : OpPosition) (source x : Value)
        (offsets sizes strides : List OpFoldResult),
        q.numUses (q.outputs.getD outputIdx 0) = 2 →
        q.ops[i]? = some (position, SliceOp.ExtractSliceOp source offsets sizes strides) →
        q.outputs.getD outputIdx 0 ∈
          (SliceOp.ExtractSliceOp source offsets sizes strides).operands →
        (OpPosition.insideTerminator,
          SliceOp.ParallelInsertSliceOp x (q.outputBlockArguments.getD outputIdx 0)
            offsets sizes strides) ∈ q.ops →
        shareOperand q outputIdx =
          { q with
            ops := q.ops.set i
              (position, SliceOp.ExtractSliceOp (q.outputBlockArguments.getD outputIdx 0)
                offsets sizes strides) }) ∧
      ((¬ ∃ (i : Nat) (position : OpPosition) (source x : Value)
        (offsets sizes strides : List OpFoldResult),
        q.numUses (q.outputs.getD outputIdx 0) = 2 ∧
        q.ops[i]? = some (position, SliceOp.ExtractSliceOp source offsets sizes strides) ∧
        q.outputs.getD outputIdx 0 ∈
          (SliceOp.ExtractSliceOp source offsets sizes strides).operands ∧
        (OpPosition.insideTerminator,
          SliceOp.ParallelInsertSliceOp x (q.outputBlockArguments.getD outputIdx 0)
            offsets sizes strides) ∈ q.ops) →
        shareOperand q outputIdx = q) := by
  constructor
  · simp only [ShareForallOperandsOp.applyToOne,
      shareOperandsLoop_in_range getShareOperands p hrange]
  · intro q outputIdx hidx
    exact ⟨fun i position source x offsets sizes strides h1 h2 h3 h4 =>
        shareOperand_rewires q outputIdx hidx i position source x offsets sizes strides
          h1 h2 h3 h4,
      shareOperand_skips q outputIdx⟩

/-- Witness of C14: the read of the example is rewired, and the example with a
write-back slice of other sizes is left unchanged. -/
theorem shareForallOperands_rewires_iff_witness :
    ShareForallOperandsOp.applyToOne [0] share_example =
      { status := DiagnosedSilenceableFailure.success,
        payload := share_example_rewired,
        results := [1] } ∧
    shareOperand share_example 0 = share_example_rewired ∧
    shareOperand share_example_mismatch 0 = share_example_mismatch :=
  ⟨(shareForallOperands_rewires_iff share_example [0] (by decide)).1,
   ((shareForallOperands_rewires_iff share_example [0] (by decide)).2 share_example 0
      (by decide)).1 0 OpPosition.insideBody 10 30
      [OpFoldResult.attr 0, OpFoldResult.attr 0] [OpFoldResult.attr 8, OpFoldResult.attr 8]
      [OpFoldResult.attr 1, OpFoldResult.attr 1] (by decide) (by decide) (by decide)
      (by decide),
   ((shareForallOperands_rewires_iff share_example [0] (by decide)).2
      share_example_mismatch 0 (by decide)).2 (by
        rintro ⟨i, position, source, x, offsets, sizes, strides, -, hslice, -, hwrite⟩
        simp only [share_example_mismatch, List.mem_cons, Prod.mk.injEq,
          List.mem_singleton, SliceOp.ParallelInsertSliceOp.injEq, reduceCtorEq,
          false_and, false_or, List.not_mem_nil, or_false] at hwrite
        obtain ⟨-, -, -, -, hsizes, -⟩ := hwrite
        subst hsizes
        match i, hslice with
        | 0, hslice => simp [share_example_mismatch] at hslice
        | 1, hslice => simp [share_example_mismatch] at hslice
        | _ + 2, hslice => simp [share_example_mismatch] at hslice)⟩

/-- Counterexample to C15 as stated: with `share_operands = [0, 1]` on the example
loop, which has one output, the index 1 is out of range and the transform returns
the definite failure, but the read of output 0 has been rewired before. -/
theorem shareForallOperands_overflow_counterexample :
    (ShareForallOperandsOp.applyToOne [0, 1] share_example).status =
      DiagnosedSilenceableFailure.definiteFailure ShareDiagnostic.operandIdxOverflow ∧
    (ShareForallOperandsOp.applyToOne [0, 1] share_example).payload =
      share_example_rewired ∧
    (ShareForallOperandsOp.applyToOne [0, 1] share_example).payload ≠ share_example := by
  decide

/-- C15, amended. When `share_operands` holds an index that is negative or not
smaller than the number of outputs of the loop, `applyToOne` returns the definite
failure `operand idx overflow` and pushes no result; the indices before the first
such index have been handled in order by then (an output that meets the sharing
conditions has had its slice rewired), and no index after it is handled. -/
theorem shareForallOperands_overflow (p : SharePayload) (before after : List Int)
    (bad : Int)
    (hrange : ∀ idx ∈ before, 0 ≤ idx ∧ idx < (p.outputs.length : Int))
    (hbad : bad < 0 ∨ (p.outputs.length : Int) ≤ bad) :
    ShareForallOperandsOp.applyToOne (before ++ bad :: after) p =
      { status := DiagnosedSilenceableFailure.definiteFailure
          ShareDiagnostic.operandIdxOverflow,
        payload := before.foldl (fun q idx => shareOperand q idx.toNat) p,
        results := [] } := by
  simp only [ShareForallOperandsOp.applyToOne,
    shareOperandsLoop_overflow before after bad p hrange hbad]

/-- Witness of C15, amended: the list [0, 1, 0] on the example loop. -/
theorem shareForallOperands_overflow_witness :
    ShareForallOperandsOp.applyToOne ([0] ++ 1 :: [0]) share_example =
      { status := DiagnosedSilenceableFailure.definiteFailure
          ShareDiagnostic.operandIdxOverflow,
        payload := [(0 : Int)].foldl (fun q idx => shareOperand q idx.toNat) share_example,
        results := [] } :=
  shareForallOperands_overflow share_example [0] [0] 1 (by decide) (by decide)

/-- C20, at the failing input: when the slice that reads the output operand stands
outside of the loop, `ShareForallOperandsOp::applyToOne` succeeds and sets the source
of this slice to the block argument of the loop, so that an operation outside of the
loop has a block argument of the loop as an operand: the invariant holds before the
run and not after it. -/
theorem shareForallOperands_outside_slice :
    share_example_outside.BlockArgumentsVisible ∧
    (ShareForallOperandsOp.applyToOne [0] share_example_outside).status =
      DiagnosedSilenceableFailure.success ∧
    (ShareForallOperandsOp.applyToOne [0] share_example_outside).payload.ops[0]? =
      some (OpPosition.outsideForall, SliceOp.ExtractSliceOp 20
        [OpFoldResult.attr 0, OpFoldResult.attr 0] [OpFoldResult.attr 8, OpFoldResult.attr 8]
        [OpFoldResult.attr 1, OpFoldResult.attr 1]) ∧
    ¬ (ShareForallOperandsOp.applyToOne [0]
        share_example_outside).payload.BlockArgumentsVisible := by
  refine ⟨?_, by decide, by decide, ?_⟩
  · unfold SharePayload.BlockArgumentsVisible
    decide
  · unfold SharePayload.BlockArgumentsVisible
    decide

/-! ### The lowering of a parallel loop to workgroups -/

mutual
/-- Inside a parallel loop the walk changes nothing: every loop met there has a
parent loop. -/
theorem walkForallOp_inside : ∀ (op : FuncBodyOp) (w : TopLevelWalk),
    walkForallOp true op w = w
  | FuncBodyOp.forallOp loop body, w => by
    simp only [walkForallOp, walkForallOps_inside body w]
    cases w <;> rfl
  | FuncBodyOp.other regions, w => by
    simp only [walkForallOp, walkForallOps_inside regions w]
/-- Inside a parallel loop the walk of a region changes nothing. -/
theorem walkForallOps_inside : ∀ (ops : List FuncBodyOp) (w : TopLevelWalk),
    walkForallOps true ops w = w
  | [], w => by simp only [walkForallOps]
  | op :: rest, w => by
    simp only [walkForallOps, walkForallOp_inside op w]
    cases w with
    | interrupt => rfl
    | advance t => exact walkForallOps_inside rest _
end

/-- An interrupted walk stays interrupted. -/
theorem visitTopLevelForalls_interrupt (loops : List ForallLoop) :
    visitTopLevelForalls loops TopLevelWalk.interrupt = TopLevelWalk.interrupt := by
  cases loops <;> rfl

/-- Visiting two lists of loops in a row is visiting their concatenation. -/
theorem visitTopLevelForalls_append (a b : List ForallLoop) (w : TopLevelWalk) :
    visitTopLevelForalls (a ++ b) w = visitTopLevelForalls b (visitTopLevelForalls a w) := by
  induction a generalizing w with
  | nil => rfl
  | cons loop rest ih =>
    match w with
    | TopLevelWalk.interrupt =>
      simp [visitTopLevelForalls, visitTopLevelForalls_interrupt]
    | TopLevelWalk.advance (some t) =>
      simp [visitTopLevelForalls, visitTopLevelForalls_interrupt]
    | TopLevelWalk.advance none =>
      simp only [List.cons_append, visitTopLevelForalls]
      exact ih _

mutual
/-- Outside of any parallel loop the walk below an operation runs the callback on
the loops below it that are not nested in another loop. -/
theorem walkForallOp_outside : ∀ (op : FuncBodyOp) (w : TopLevelWalk),
    walkForallOp false op w = visitTopLevelForalls (topLevelForallsOf op) w
  | FuncBodyOp.forallOp loop body, w => by
    simp only [walkForallOp, walkForallOps_inside body w, topLevelForallsOf]
    match w with
    | TopLevelWalk.interrupt => rfl
    | TopLevelWalk.advance (some t) => rfl
    | TopLevelWalk.advance none => rfl
  | FuncBodyOp.other regions, w => by
    simp only [walkForallOp, topLevelForallsOf]
    exact walkForallOps_outside regions w
/-- Outside of any parallel loop the walk of a region runs the callback on its
loops that are not nested in another loop. -/
theorem walkForallOps_outside : ∀ (ops : List FuncBodyOp) (w : TopLevelWalk),
    walkForallOps false ops w = visitTopLevelForalls (topLevelForalls ops) w
  | [], w => by simp only [walkForallOps, topLevelForalls, visitTopLevelForalls]
  | op :: rest, w => by
    simp only [walkForallOps, topLevelForalls, visitTopLevelForalls_append,
      walkForallOp_outside op w]
    cases h : visitTopLevelForalls (topLevelForallsOf op) w with
    | interrupt => simp [visitTopLevelForalls_interrupt]
    | advance t => exact walkForallOps_outside rest _
end

/-- The three ends of the walk of `ForallToWorkgroupOp::applyToOne`: no top-level
loop, exactly one, or more than one. -/
theorem walkForallOps_cases (target : List FuncBodyOp) :
    (topLevelForalls target = [] →
      walkForallOps false target (TopLevelWalk.advance none) = TopLevelWalk.advance none) ∧
    (∀ loop, topLevelForalls target = [loop] →
      walkForallOps false target (TopLevelWalk.advance none) =
        TopLevelWalk.advance (some loop)) ∧
    (2 ≤ (topLevelForalls target).length →
      walkForallOps false target (TopLevelWalk.advance none) = TopLevelWalk.interrupt) := by
  rw [walkForallOps_outside]
  refine ⟨?_, ?_, ?_⟩
  · intro h
    rw [h]
    rfl
  · intro loop h
    rw [h]
    rfl
  · intro h
    match hl : topLevelForalls target, h with
    | [], h => simp at h
    | [_], h => simp at h
    | a :: b :: rest, _ =>
      simp [visitTopLevelForalls, visitTopLevelForalls_interrupt]

/-- Step 0 of `rewriteForallToWorkgroup` refuses, with an error, a loop with
results, of rank above 3, without mapping, or with a mapping entry that is no block
axis. -/
theorem rewriteForallToWorkgroupGrid_error {α : Type} (one : α) (forallOp : ForallOp α)
    (h : forallOp.numResults > 0 ∨ forallOp.getRank > 3 ∨ forallOp.mapping = none ∨
      ∃ mapping attr, forallOp.mapping = some mapping ∧ attr ∈ mapping ∧
        attr.isaGPUBlockMappingAttr = false) :
    ∃ e, rewriteForallToWorkgroupGrid one forallOp = Except.error e := by
  unfold rewriteForallToWorkgroupGrid
  by_cases h1 : forallOp.numResults > 0
  · exact ⟨_, if_pos h1⟩
  · rw [if_neg h1]
    by_cases h2 : forallOp.getRank > 3
    · exact ⟨_, if_pos h2⟩
    · rw [if_neg h2]
      rcases h with h | h | h | ⟨mapping, attr, hm, ha, hb⟩
      · exact absurd h h1
      · exact absurd h h2
      · rw [h]
        exact ⟨_, rfl⟩
      · rw [hm]
        have hany : mapping.any (fun map => !map.isaGPUBlockMappingAttr) = true := by
          rw [List.any_eq_true]
          exact ⟨attr, ha, by simp [hb]⟩
        simp only [hany, if_true]
        exact ⟨_, rfl⟩

/-- C12. When the loop has at least one result, or more than 3 induction
variables, or no mapping, or a mapping entry that is not a block axis,
`rewriteForallToWorkgroup` returns a failure (whatever the fuel) and leaves the
payload as it was: no operation has been created, moved or erased; and
`ForallToWorkgroupOp::applyToOne`, on a target whose only top-level loop is this
one, returns the definite failure `rewriteForallToWorkgroup failed` with the payload
as it was. -/
theorem rewriteForallToWorkgroup_failure (fuel : Nat) (loop : ForallLoop)
    (p : LoweringPayload) (exportOp : Nat) (target : List FuncBodyOp)
    (htarget : topLevelForalls target = [loop])
    (h : loop.op.numResults > 0 ∨ loop.op.getRank > 3 ∨ loop.op.mapping = none ∨
      ∃ mapping attr, loop.op.mapping = some mapping ∧ attr ∈ mapping ∧
        attr.isaGPUBlockMappingAttr = false) :
    (∃ e, rewriteForallToWorkgroup fuel loop.op loop.inductionVars p =
      some (Except.error e, p)) ∧
    ForallToWorkgroupOp.applyToOne fuel true (some exportOp) target p =
      some (ForallToWorkgroupRun.returned
        (DiagnosedSilenceableFailure.definiteFailure
          ForallToWorkgroupDiagnostic.rewriteForallToWorkgroupFailed) p) := by
  obtain ⟨e, he⟩ := rewriteForallToWorkgroupGrid_error p.nextValue loop.op h
  have hrewrite : rewriteForallToWorkgroup fuel loop.op loop.inductionVars p =
      some (Except.error e, p) := by
    simp only [rewriteForallToWorkgroup, he]
  refine ⟨⟨e, hrewrite⟩, ?_⟩
  simp only [ForallToWorkgroupOp.applyToOne, Bool.not_true, Bool.false_eq_true, if_false,
    (walkForallOps_cases target).2.1 loop htarget, hrewrite]

/-- Witness of C12: the loop nested in the example, mapped to a thread axis, taken
as the only loop of a function. -/
theorem rewriteForallToWorkgroup_failure_witness :
    (∃ e, rewriteForallToWorkgroup 0 lowering_example_nested.op
      lowering_example_nested.inductionVars lowering_example_payload =
      some (Except.error e, lowering_example_payload)) ∧
    ForallToWorkgroupOp.applyToOne 0 true (some 0)
      [FuncBodyOp.forallOp lowering_example_nested []] lowering_example_payload =
      some (ForallToWorkgroupRun.returned
        (DiagnosedSilenceableFailure.definiteFailure
          ForallToWorkgroupDiagnostic.rewriteForallToWorkgroupFailed)
        lowering_example_payload) :=
  rewriteForallToWorkgroup_failure 0 lowering_example_nested lowering_example_payload 0
    [FuncBodyOp.forallOp lowering_example_nested []] rfl
    (Or.inr (Or.inr (Or.inr ⟨[Attribute.GPUThreadMappingAttr 0],
      Attribute.GPUThreadMappingAttr 0, rfl, by simp, rfl⟩)))

/-- C13. On a target under an executable top level with an export operation,
`ForallToWorkgroupOp::applyToOne` returns the silenceable failure `could not find a
unique topLevel scf.forall`, with the payload as it was, when the target function
holds more than one parallel loop that is not nested in another; when it holds
exactly one (with any number of loops nested in it), the run is that of
`rewriteForallToWorkgroup` on this loop; when it holds none, the walk is not
interrupted, `topLevelForallOp` stays null, and the code goes through the null
operation instead of returning a silenceable failure. -/
theorem ForallToWorkgroupOp_applyToOne_top_level (fuel : Nat) (exportOp : Nat)
    (target : List FuncBodyOp) (p : LoweringPayload) :
    (2 ≤ (topLevelForalls target).length →
      ForallToWorkgroupOp.applyToOne fuel true (some exportOp) target p =
        some (ForallToWorkgroupRun.returned
          (DiagnosedSilenceableFailure.silenceableFailure
            ForallToWorkgroupDiagnostic.noUniqueTopLevelForall) p)) ∧
    (∀ loop, topLevelForalls target = [loop] →
      ForallToWorkgroupOp.applyToOne fuel true (some exportOp) target p =
        (rewriteForallToWorkgroup fuel loop.op loop.inductionVars p).map
          (fun result =>
            match result with
            | (Except.error _, p1) =>
              ForallToWorkgroupRun.returned
                (DiagnosedSilenceableFailure.definiteFailure
                  ForallToWorkgroupDiagnostic.rewriteForallToWorkgroupFailed) p1
            | (Except.ok _, p1) =>
              ForallToWorkgroupRun.returned DiagnosedSilenceableFailure.success p1)) ∧
    (topLevelForalls target = [] →
      ForallToWorkgroupOp.applyToOne fuel true (some exportOp) target p =
        some ForallToWorkgroupRun.nullDereference) := by
  refine ⟨?_, ?_, ?_⟩
  · intro h
    simp only [ForallToWorkgroupOp.applyToOne, Bool.not_true, Bool.false_eq_true, if_false,
      (walkForallOps_cases target).2.2 h]
  · intro loop h
    simp only [ForallToWorkgroupOp.applyToOne, Bool.not_true, Bool.false_eq_true, if_false,
      (walkForallOps_cases target).2.1 loop h]
    cases hr : rewriteForallToWorkgroup fuel loop.op loop.inductionVars p with
    | none => rfl
    | some result =>
      rcases result with ⟨status, p1⟩
      cases status <;> rfl
  · intro h
    simp only [ForallToWorkgroupOp.applyToOne, Bool.not_true, Bool.false_eq_true, if_false,
      (walkForallOps_cases target).1 h]

/-- Witness of C13: a function with two top-level loops, a function with one
top-level loop that holds a nested loop (the run returns success and has replaced
the induction variable of the top-level loop), and a function without any loop. -/
theorem ForallToWorkgroupOp_applyToOne_top_level_witness :
    ForallToWorkgroupOp.applyToOne 10 true (some 0) lowering_example_two_loops
        lowering_example_single_use =
      some (ForallToWorkgroupRun.returned
        (DiagnosedSilenceableFailure.silenceableFailure
          ForallToWorkgroupDiagnostic.noUniqueTopLevelForall)
        lowering_example_single_use) ∧
    ForallToWorkgroupOp.applyToOne 10 true (some 0) lowering_example_target
        lowering_example_single_use =
      (rewriteForallToWorkgroup 10 lowering_example_loop.op
        lowering_example_loop.inductionVars lowering_example_single_use).map
        (fun result =>
          match result with
          | (Except.error _, p1) =>
            ForallToWorkgroupRun.returned
              (DiagnosedSilenceableFailure.definiteFailure
                ForallToWorkgroupDiagnostic.rewriteForallToWorkgroupFailed) p1
          | (Except.ok _, p1) =>
            ForallToWorkgroupRun.returned DiagnosedSilenceableFailure.success p1) ∧
    (ForallToWorkgroupOp.applyToOne 10 true (some 0) lowering_example_target
        lowering_example_single_use).map
        (fun run =>
          match run with
          | ForallToWorkgroupRun.returned status payload =>
            (decide (status = DiagnosedSilenceableFailure.success),
              payload.operands 10, payload.operands 11)
          | ForallToWorkgroupRun.nullDereference => (false, [], [])) =
      some (true, [51], [51, 7]) ∧
    ForallToWorkgroupOp.applyToOne 10 true (some 0) lowering_example_no_loop
        lowering_example_single_use =
      some ForallToWorkgroupRun.nullDereference :=
  ⟨(ForallToWorkgroupOp_applyToOne_top_level 10 0 lowering_example_two_loops
      lowering_example_single_use).1 (by decide),
   (ForallToWorkgroupOp_applyToOne_top_level 10 0 lowering_example_target
      lowering_example_single_use).2.1 lowering_example_loop rfl,
   rfl,
   (ForallToWorkgroupOp_applyToOne_top_level 10 0 lowering_example_no_loop
      lowering_example_single_use).2.2 rfl⟩

/-- C11, at the failing input: the loop of rank 1 mapped to the axis x whose body
holds an operation that uses the induction variable once and, after it, an operation
that uses it twice. `rewriteForallToWorkgroup` succeeds; the two operands of the
second operation now hold the result 51 of the workgroup id of axis x, but the first
operation still holds the induction variable 1, which stays in use after the loop
has been erased. -/
theorem rewriteForallToWorkgroup_residual_use :
    (rewriteForallToWorkgroup 10 lowering_example_loop.op
      lowering_example_loop.inductionVars lowering_example_payload).map
      (fun result =>
        (result.1.toBool, result.2.operands 11, result.2.operands 10,
          result.2.useList 1, result.2.events)) =
    some (true, [51, 51], [1], [{ owner := 10, operandNumber := 0 }],
      [RewriterEvent.createConstantIndexOp 50 1,
       RewriterEvent.createInterfaceWorkgroupIDOp 51 0,
       RewriterEvent.createInterfaceWorkgroupCountOp 52 0,
       RewriterEvent.createInterfaceWorkgroupIDOp 53 1,
       RewriterEvent.createInterfaceWorkgroupCountOp 54 1,
       RewriterEvent.createInterfaceWorkgroupIDOp 55 2,
       RewriterEvent.createInterfaceWorkgroupCountOp 56 2,
       RewriterEvent.eraseTerminator, RewriterEvent.spliceBody,
       RewriterEvent.eraseForallOp]) := by
  rfl

/-- Handling an output leaves the block arguments of the loop as they are. -/
theorem shareOperand_outputBlockArguments (p : SharePayload) (outputIdx : Nat) :
    (shareOperand p outputIdx).outputBlockArguments = p.outputBlockArguments := by
  unfold shareOperand
  simp only
  split
  · rfl
  · split
    · rfl
    · split <;> rfl

/-- Handling an output changes at most one operation, which keeps its position and
which is a `tensor.extract_slice` that used the output operand. -/
theorem shareOperand_ops (p : SharePayload) (outputIdx : Nat) :
    shareOperand p outputIdx = p ∨
    ∃ (i : Nat) (position : OpPosition) (source : Value)
      (offsets sizes strides : List OpFoldResult),
      p.ops[i]? = some (position, SliceOp.ExtractSliceOp source offsets sizes strides) ∧
      p.outputs.getD outputIdx 0 ∈
        (SliceOp.ExtractSliceOp source offsets sizes strides).operands ∧
      (shareOperand p outputIdx).ops = p.ops.set i
        (position, SliceOp.ExtractSliceOp (p.outputBlockArguments.getD outputIdx 0)
          offsets sizes strides) := by
  unfold shareOperand
  simp only
  split
  · exact Or.inl rfl
  · split
    · exact Or.inl rfl
    · rename_i index position offsets sizes strides hfind
      split
      · exact Or.inl rfl
      · obtain ⟨source, hslice, huser⟩ := findExtractSliceUser_sound _ _ _ _ _ _ _ hfind
        exact Or.inr ⟨index, position, source, offsets, sizes, strides, hslice, huser, rfl⟩

/-- When no operation outside of the loop reads an output operand of the loop,
handling an output in range keeps the block arguments of the loop inside of it, and
still no operation outside of the loop reads an output operand. -/
theorem shareOperand_visible (p : SharePayload) (outputIdx : Nat)
    (hidx : outputIdx < p.outputs.length)
    (hvisible : p.BlockArgumentsVisible) (hinside : p.OutputsReadInside) :
    (shareOperand p outputIdx).BlockArgumentsVisible ∧
    (shareOperand p outputIdx).OutputsReadInside := by
  rcases shareOperand_ops p outputIdx with h | ⟨i, position, source, offsets, sizes,
    strides, hslice, huser, hops⟩
  · rw [h]
    exact ⟨hvisible, hinside⟩
  · have hmem : p.outputs.getD outputIdx 0 ∈ p.outputs := by
      rw [List.getD_eq_getElem _ _ hidx]
      exact List.getElem_mem _
    have hentry : (position, SliceOp.ExtractSliceOp source offsets sizes strides) ∈ p.ops :=
      List.mem_iff_getElem?.mpr ⟨i, hslice⟩
    have hpos : position ≠ OpPosition.outsideForall := by
      intro hp
      exact hinside _ hentry hp _ huser hmem
    constructor
    · intro entry he hout v hv
      rw [shareOperand_outputBlockArguments]
      rw [hops] at he
      rcases List.mem_or_eq_of_mem_set he with he | he
      · exact hvisible entry he hout v hv
      · rw [he] at hout
        exact absurd hout hpos
    · intro entry he hout v hv
      rw [shareOperand_outputs]
      rw [hops] at he
      rcases List.mem_or_eq_of_mem_set he with he | he
      · exact hinside entry he hout v hv
      · rw [he] at hout
        exact absurd hout hpos

/-- When no operation outside of the loop reads an output operand of the loop, a run
of `ShareForallOperandsOp::applyToOne` keeps the block arguments of the loop inside
of it. -/
theorem shareForallOperands_visible (getShareOperands : List Int) (p : SharePayload)
    (hvisible : p.BlockArgumentsVisible) (hinside : p.OutputsReadInside) :
    (ShareForallOperandsOp.applyToOne getShareOperands p).payload.BlockArgumentsVisible := by
  have hloop : ∀ (indices : List Int) (q : SharePayload),
      q.BlockArgumentsVisible → q.OutputsReadInside →
      (shareOperandsLoop indices q).2.BlockArgumentsVisible := by
    intro indices
    induction indices with
    | nil => intro q hq _; exact hq
    | cons idx rest ih =>
      intro q hq hq2
      simp only [shareOperandsLoop]
      split
      · exact hq
      · rename_i hnot
        have hidx : idx.toNat < q.outputs.length := by omega
        have := shareOperand_visible q idx.toNat hidx hq hq2
        exact ih _ this.1 this.2
  have := hloop getShareOperands p hvisible hinside
  unfold ShareForallOperandsOp.applyToOne
  split
  · rename_i p1 heq
    rw [heq] at this
    exact this
  · rename_i status p1 _ heq
    rw [heq] at this
    exact this

/-- The loop of the example, whose slice stands in the body, keeps the invariant. -/
theorem shareForallOperands_visible_witness :
    (ShareForallOperandsOp.applyToOne [0] share_example).payload.BlockArgumentsVisible :=
  shareForallOperands_visible [0] share_example
    (by unfold SharePayload.BlockArgumentsVisible; decide)
    (by unfold SharePayload.OutputsReadInside; decide)

/-! ### Step 6 of `rewriteForallToWorkgroup` when no operation uses an induction
variable twice -/

/-- The use that follows the head of a use list is the head of its tail. -/
theorem nextInUseList_head (use : Use) (rest : List Use) :
    nextInUseList use (use :: rest) = rest.head? := by
  simp [nextInUseList]

/-- The operands of the owner after `setOperand`. -/
theorem setOperand_operands_owner (p : LoweringPayload) (use : Use) (newValue : Value) :
    (setOperand p use newValue).operands use.owner =
      (p.operands use.owner).set use.operandNumber newValue := by
  simp [setOperand]

/-- The operands of another operation after `setOperand`. -/
theorem setOperand_operands_other (p : LoweringPayload) (use : Use) (newValue : Value)
    (o : Nat) (h : o ≠ use.owner) :
    (setOperand p use newValue).operands o = p.operands o := by
  simp [setOperand, Function.update_noteq h]

/-- The use list of the old value after `setOperand`. -/
theorem setOperand_useList_old (p : LoweringPayload) (use : Use) (newValue : Value)
    (h : p.operandValue use ≠ newValue) :
    (setOperand p use newValue).useList (p.operandValue use) =
      (p.useList (p.operandValue use)).erase use := by
  simp [setOperand, Function.update_noteq h]

/-- The use list of a value that is neither the old nor the new one after
`setOperand`. -/
theorem setOperand_useList_other (p : LoweringPayload) (use : Use) (newValue v : Value)
    (h1 : v ≠ p.operandValue use) (h2 : v ≠ newValue) :
    (setOperand p use newValue).useList v = p.useList v := by
  simp [setOperand, Function.update_noteq h1, Function.update_noteq h2]

/-- The fields `nextValue` and `events` after `setOperand`. -/
theorem setOperand_rest (p : LoweringPayload) (use : Use) (newValue : Value) :
    (setOperand p use newValue).nextValue = p.nextValue ∧
    (setOperand p use newValue).events = p.events := by
  simp [setOperand]

/-- On an operation that holds the value in one operand only, `replaceUsesOfWith`
sets this one operand. -/
theorem replaceUsesOfWith_single (p : LoweringPayload) (o k : Nat) (b r : Value)
    (hbr : b ≠ r) (hk : k < (p.operands o).length)
    (hval : (p.operands o).getD k 0 = b)
    (hsingle : ∀ j, j < (p.operands o).length → (p.operands o).getD j 0 = b → j = k) :
    replaceUsesOfWith o b r p = setOperand p { owner := o, operandNumber := k } r := by
  have hfold : ∀ n, n ≤ (p.operands o).length →
      (List.range n).foldl
        (fun q operandNumber =>
          if q.operandValue { owner := o, operandNumber := operandNumber } = b then
            setOperand q { owner := o, operandNumber := operandNumber } r
          else q) p =
      if k < n then setOperand p { owner := o, operandNumber := k } r else p := by
    intro n
    induction n with
    | zero => intro _; simp
    | succ n ih =>
      intro hn
      rw [List.range_succ, List.foldl_append, ih (by omega)]
      simp only [List.foldl_cons, List.foldl_nil]
      by_cases hkn : k < n
      · have hne : n ≠ k := by omega
        have hvaln : (p.operands o).getD n 0 ≠ b := fun h => hne (hsingle n (by omega) h)
        have hq : (setOperand p { owner := o, operandNumber := k } r).operandValue
            { owner := o, operandNumber := n } ≠ b := by
          have hops := setOperand_operands_owner p { owner := o, operandNumber := k } r
          simp only at hops
          simp only [LoweringPayload.operandValue, hops]
          rw [List.getD_eq_getElem?_getD, List.getElem?_set_ne (by omega),
            ← List.getD_eq_getElem?_getD]
          exact hvaln
        rw [if_pos hkn, if_neg hq, if_pos (by omega)]
      · rw [if_neg hkn]
        by_cases hkeq : k = n
        · subst hkeq
          have : p.operandValue { owner := o, operandNumber := k } = b := hval
          rw [if_pos this, if_pos (by omega)]
        · have hvaln : p.operandValue { owner := o, operandNumber := n } ≠ b :=
            fun h => hkeq (hsingle n (by omega) h).symm
          rw [if_neg hvaln, if_neg (by omega)]
  unfold replaceUsesOfWith
  rw [if_neg hbr, hfold _ (Nat.le_refl _), if_pos hk]

/-- The value held by an operand of the owner after `setOperand`. -/
theorem getD_set_operand (l : List Value) (k j : Nat) (r : Value) (hk : k < l.length) :
    (l.set k r).getD j 0 = if j = k then r else l.getD j 0 := by
  by_cases hjk : j = k
  · subst hjk
    rw [if_pos rfl, List.getD_eq_getElem?_getD, List.getElem?_set_eq_of_lt _ hk]
    rfl
  · rw [if_neg hjk, List.getD_eq_getElem?_getD, List.getElem?_set_ne (Ne.symm hjk),
      ← List.getD_eq_getElem?_getD]

/-- Replacing `b` by `r` in a list in which position `k` has already been set to `r`
gives the same as replacing `b` by `r` in the list itself, when position `k` held
`b`. -/
theorem map_replace_set (l : List Value) (k : Nat) (b r : Value) (hbr : b ≠ r)
    (hk : k < l.length) (hval : l.getD k 0 = b) :
    (l.set k r).map (fun v => if v = b then r else v) =
      l.map (fun v => if v = b then r else v) := by
  apply List.ext_getElem?
  intro i
  by_cases hik : i = k
  · subst hik
    have hget : l[i]? = some b := by
      rw [List.getD_eq_getElem?_getD, List.getElem?_eq_getElem hk] at hval
      rw [List.getElem?_eq_getElem hk]
      simpa using hval
    rw [List.getElem?_map, List.getElem?_map, List.getElem?_set_eq_of_lt _ hk, hget]
    simp [Ne.symm hbr]
  · rw [List.getElem?_map, List.getElem?_map, List.getElem?_set_ne (Ne.symm hik)]

/-- One turn of the loop of step 6 on the head of the use list keeps the use list in
agreement with the operands, and keeps the single uses. -/
theorem setOperand_invariant (p : LoweringPayload) (b r : Value) (hbr : b ≠ r)
    (u : Use) (rest : List Use) (hL : p.useList b = u :: rest)
    (hU : p.UseListOf b) (hS : p.SingleUse b) :
    (setOperand p u r).useList b = rest ∧
    (setOperand p u r).UseListOf b ∧ (setOperand p u r).SingleUse b := by
  have hu : u.operandNumber < (p.operands u.owner).length ∧ p.operandValue u = b :=
    (hU.2 u).mp (by rw [hL]; exact List.mem_cons_self _ _)
  have hnodup : (u :: rest).Nodup := by rw [← hL]; exact hU.1
  have hlist : (setOperand p u r).useList b = rest := by
    have h := setOperand_useList_old p u r (by rw [hu.2]; exact hbr)
    rw [hu.2] at h
    rw [h, hL]
    simp
  have hown := setOperand_operands_owner p u r
  refine ⟨hlist, ⟨?_, ?_⟩, ?_⟩
  · rw [hlist]
    exact (List.nodup_cons.mp hnodup).2
  · intro use
    rw [hlist]
    by_cases ho : use.owner = u.owner
    · constructor
      · intro hmem
        exfalso
        have hin : use ∈ p.useList b := by rw [hL]; exact List.mem_cons_of_mem _ hmem
        have huse := (hU.2 use).mp hin
        have heq : use.operandNumber = u.operandNumber := by
          apply hS u.owner
          · rw [← ho]; exact huse.1
          · exact hu.1
          · have := huse.2
            simp only [LoweringPayload.operandValue, ho] at this
            exact this
          · exact hu.2
        have : use = u := by
          cases use; cases u; simp_all
        rw [this] at hmem
        exact (List.nodup_cons.mp hnodup).1 hmem
      · rintro ⟨hlt, hval⟩
        exfalso
        simp only [LoweringPayload.operandValue, ho, hown] at hval
        rw [getD_set_operand _ _ _ _ hu.1] at hval
        by_cases hj : use.operandNumber = u.operandNumber
        · rw [if_pos hj] at hval
          exact hbr hval.symm
        · rw [if_neg hj] at hval
          apply hj
          apply hS u.owner
          · rw [ho, hown, List.length_set] at hlt
            exact hlt
          · exact hu.1
          · exact hval
          · exact hu.2
    · have hops := setOperand_operands_other p u r use.owner ho
      have hne : use ≠ u := fun h => ho (by rw [h])
      simp only [LoweringPayload.operandValue, hops]
      have hiff := hU.2 use
      rw [hL] at hiff
      simp only [LoweringPayload.operandValue, List.mem_cons, hne, false_or] at hiff
      exact hiff
  · intro owner j k hj hk hvj hvk
    by_cases ho : owner = u.owner
    · subst ho
      rw [hown, List.length_set] at hj hk
      rw [hown, getD_set_operand _ _ _ _ hu.1] at hvj hvk
      by_cases hj2 : j = u.operandNumber
      · rw [if_pos hj2] at hvj
        exact absurd hvj.symm hbr
      · by_cases hk2 : k = u.operandNumber
        · rw [if_pos hk2] at hvk
          exact absurd hvk.symm hbr
        · rw [if_neg hj2] at hvj
          rw [if_neg hk2] at hvk
          exact hS u.owner j k hj hk hvj hvk
    · rw [setOperand_operands_other p u r owner ho] at hj hk hvj hvk
      exact hS owner j k hj hk hvj hvk

/-- The inner loop of step 6 on an induction variable that no operation uses twice:
with fuel for each use, the loop ends, every operand that held the variable holds
the replacement, the use list of the variable is empty, and nothing else changes. -/
theorem replaceUsersLoop_single_use (b r : Value) (hbr : b ≠ r) :
    ∀ (L : List Use) (p : LoweringPayload) (fuel : Nat),
      p.useList b = L → p.UseListOf b → p.SingleUse b → L.length ≤ fuel →
      ∃ p', replaceUsersLoop b r fuel L.head? p = some p' ∧
        (∀ o, p'.operands o = (p.operands o).map (fun v => if v = b then r else v)) ∧
        p'.useList b = [] ∧
        (∀ v, v ≠ b → v ≠ r → p'.useList v = p.useList v) ∧
        p'.nextValue = p.nextValue ∧ p'.events = p.events := by
  intro L
  induction L with
  | nil =>
    intro p fuel hL hU _ _
    refine ⟨p, ?_, ?_, hL, fun _ _ _ => rfl, rfl, rfl⟩
    · cases fuel <;> rfl
    · intro o
      symm
      rw [List.map_congr_left, List.map_id]
      intro v hv
      have hvb : v ≠ b := by
        intro hvb
        obtain ⟨k, hk, hget⟩ := List.getElem_of_mem hv
        have hin : ({ owner := o, operandNumber := k } : Use) ∈ p.useList b := by
          apply (hU.2 _).mpr
          refine ⟨hk, ?_⟩
          simp only [LoweringPayload.operandValue]
          rw [List.getD_eq_getElem _ _ hk, hget, hvb]
        rw [hL] at hin
        exact absurd hin (List.not_mem_nil _)
      simp [hvb]
  | cons u rest ih =>
    intro p fuel hL hU hS hfuel
    have hu : u.operandNumber < (p.operands u.owner).length ∧ p.operandValue u = b :=
      (hU.2 u).mp (by rw [hL]; exact List.mem_cons_self _ _)
    obtain ⟨hlist, hU1, hS1⟩ := setOperand_invariant p b r hbr u rest hL hU hS
    cases fuel with
    | zero => simp at hfuel
    | succ fuel =>
      have hnext : getNextOperandUsingThisValue p u = rest.head? := by
        simp only [getNextOperandUsingThisValue, hu.2, hL, nextInUseList_head]
      have hreplace : replaceUsesOfWith u.owner b r p = setOperand p u r :=
        replaceUsesOfWith_single p u.owner u.operandNumber b r hbr hu.1 hu.2
          (fun j hj hvj => hS u.owner j u.operandNumber hj hu.1 hvj hu.2)
      obtain ⟨p', hrun, hops, hempty, hother, hnv, hev⟩ :=
        ih (setOperand p u r) fuel hlist hU1 hS1 (by simp at hfuel; omega)
      refine ⟨p', ?_, ?_, hempty, ?_, ?_, ?_⟩
      · simp only [List.head?_cons, replaceUsersLoop, hnext, hreplace]
        exact hrun
      · intro o
        rw [hops o]
        by_cases ho : o = u.owner
        · subst ho
          rw [setOperand_operands_owner]
          exact map_replace_set _ _ b r hbr hu.1 hu.2
        · rw [setOperand_operands_other p u r o ho]
      · intro v hvb hvr
        rw [hother v hvb hvr]
        exact setOperand_useList_other p u r v (by rw [hu.2]; exact hvb) hvr
      · rw [hnv]
        exact (setOperand_rest p u r).1
      · rw [hev]
        exact (setOperand_rest p u r).2

/-- Replacing `b` by `r` in a list does not change which operands hold a third
value. -/
theorem getD_map_replace_iff (l : List Value) (b r b' : Value) (hb : b' ≠ b)
    (hr : b' ≠ r) (k : Nat) (hk : k < l.length) :
    (l.map (fun v => if v = b then r else v)).getD k 0 = b' ↔ l.getD k 0 = b' := by
  rw [List.getD_eq_getElem _ _ (by rw [List.length_map]; exact hk),
    List.getD_eq_getElem _ _ hk, List.getElem_map]
  by_cases h : l[k] = b
  · rw [if_pos h, h]
    exact ⟨fun h2 => absurd h2.symm hr, fun h2 => absurd h2.symm hb⟩
  · rw [if_neg h]

/-- The invariants of a variable are kept when another variable is replaced. -/
theorem invariant_of_replaced (p p1 : LoweringPayload) (b r b' : Value) (hb : b' ≠ b)
    (hr : b' ≠ r)
    (hops : ∀ o, p1.operands o = (p.operands o).map (fun v => if v = b then r else v))
    (hlist : p1.useList b' = p.useList b')
    (hU : p.UseListOf b') (hS : p.SingleUse b') :
    p1.UseListOf b' ∧ p1.SingleUse b' := by
  constructor
  · refine ⟨by rw [hlist]; exact hU.1, ?_⟩
    intro use
    rw [hlist, hU.2 use]
    simp only [LoweringPayload.operandValue, hops, List.length_map]
    constructor
    · rintro ⟨hk, hv⟩
      exact ⟨hk, (getD_map_replace_iff _ b r b' hb hr _ hk).mpr hv⟩
    · rintro ⟨hk, hv⟩
      exact ⟨hk, (getD_map_replace_iff _ b r b' hb hr _ hk).mp hv⟩
  · intro owner j k hj hk hvj hvk
    rw [hops, List.length_map] at hj hk
    rw [hops] at hvj hvk
    exact hS owner j k hj hk ((getD_map_replace_iff _ b r b' hb hr _ hj).mp hvj)
      ((getD_map_replace_iff _ b r b' hb hr _ hk).mp hvk)

/-- The outer loop of step 6 on induction variables none of which is used twice by
an operation: with fuel for the uses of each variable, the loop ends and every
operand that held an induction variable holds its image under `bvm`; no other
operand changes. -/
theorem replaceInductionVars_single_use (bvm : IRMapping) (fuel : Nat) :
    ∀ (ivs : List Value) (p : LoweringPayload),
      ivs.Nodup →
      (∀ b ∈ ivs, ∃ r, bvm.lookup b = some r ∧ ∀ b' ∈ ivs, r ≠ b') →
      (∀ b ∈ ivs, p.UseListOf b ∧ p.SingleUse b ∧ (p.useList b).length ≤ fuel) →
      ∃ p', replaceInductionVars bvm fuel ivs p = some p' ∧
        (∀ o, p'.operands o =
          (p.operands o).map (fun v => if v ∈ ivs then (bvm.lookup v).getD v else v)) ∧
        p'.nextValue = p.nextValue ∧ p'.events = p.events := by
  intro ivs
  induction ivs with
  | nil =>
    intro p _ _ _
    exact ⟨p, rfl, fun o => by simp, rfl, rfl⟩
  | cons b rest ih =>
    intro p hnodup hbvm huse
    obtain ⟨r, hlookup, hfresh⟩ := hbvm b (List.mem_cons_self _ _)
    have hbr : b ≠ r := fun h => hfresh b (List.mem_cons_self _ _) h.symm
    obtain ⟨hU, hS, hfuel⟩ := huse b (List.mem_cons_self _ _)
    obtain ⟨p1, hrun, hops, _, hother, hnv, hev⟩ :=
      replaceUsersLoop_single_use b r hbr (p.useList b) p fuel rfl hU hS hfuel
    have hstep : replaceInductionVars bvm fuel (b :: rest) p =
        replaceInductionVars bvm fuel rest p1 := by
      cases hhead : (p.useList b).head? with
      | none =>
        rw [hhead] at hrun
        have hp1 : p1 = p := by
          cases fuel <;> simp [replaceUsersLoop] at hrun <;> exact hrun.symm
        simp only [replaceInductionVars, hhead, hp1]
      | some first =>
        rw [hhead] at hrun
        simp only [replaceInductionVars, hhead, hlookup, hrun]
    have hrest : ∀ b' ∈ rest, p1.UseListOf b' ∧ p1.SingleUse b' ∧
        (p1.useList b').length ≤ fuel := by
      intro b' hb'
      have hne : b' ≠ b := by
        intro h
        rw [h] at hb'
        exact (List.nodup_cons.mp hnodup).1 hb'
      have hner : b' ≠ r := fun h => hfresh b' (List.mem_cons_of_mem _ hb') h.symm
      obtain ⟨hU', hS', hf'⟩ := huse b' (List.mem_cons_of_mem _ hb')
      have hlist := hother b' hne hner
      have := invariant_of_replaced p p1 b r b' hne hner hops hlist hU' hS'
      exact ⟨this.1, this.2, by rw [hlist]; exact hf'⟩
    obtain ⟨p', hrun', hops', hnv', hev'⟩ := ih p1 (List.nodup_cons.mp hnodup).2
      (fun b' hb' => by
        obtain ⟨r', h1, h2⟩ := hbvm b' (List.mem_cons_of_mem _ hb')
        exact ⟨r', h1, fun b'' hb'' => h2 b'' (List.mem_cons_of_mem _ hb'')⟩)
      hrest
    refine ⟨p', by rw [hstep]; exact hrun', ?_, by rw [hnv', hnv], by rw [hev', hev]⟩
    intro o
    rw [hops' o, hops o, List.map_map]
    apply List.map_congr_left
    intro v _
    simp only [Function.comp]
    by_cases hvb : v = b
    · subst hvb
      have hnot : r ∉ rest := fun h => hfresh r (List.mem_cons_of_mem _ h) rfl
      simp [hnot, hlookup]
    · simp [hvb]

/-- What the loop of step 3 leaves: one workgroup id per attribute, whose result is
an unused value and whose creation for the axis of the attribute is recorded; the
operands and the use lists are untouched and the earlier events are kept. -/
theorem createWorkgroupOps_spec : ∀ (attrs : List Attribute) (p : LoweringPayload),
    (createWorkgroupOps attrs p).1.length = attrs.length ∧
    (∀ (i : Nat) (attr : Attribute), attrs[i]? = some attr →
      ∃ id, (createWorkgroupOps attrs p).1[i]? = some id ∧ p.nextValue ≤ id ∧
        RewriterEvent.createInterfaceWorkgroupIDOp id attr.getBlock ∈
          (createWorkgroupOps attrs p).2.2.events) ∧
    (∀ id ∈ (createWorkgroupOps attrs p).1, p.nextValue ≤ id) ∧
    (createWorkgroupOps attrs p).2.2.operands = p.operands ∧
    (createWorkgroupOps attrs p).2.2.useList = p.useList ∧
    (∀ e ∈ p.events, e ∈ (createWorkgroupOps attrs p).2.2.events)
  | [], p => by
    refine ⟨rfl, ?_, ?_, rfl, rfl, fun e he => he⟩
    · intro i attr h
      simp at h
    · intro id h
      simp [createWorkgroupOps] at h
  | attr0 :: rest, p => by
    have ih := createWorkgroupOps_spec rest
      { p with
        nextValue := p.nextValue + 2,
        events := p.events ++
          [RewriterEvent.createInterfaceWorkgroupIDOp p.nextValue attr0.getBlock,
           RewriterEvent.createInterfaceWorkgroupCountOp (p.nextValue + 1)
             attr0.getBlock] }
    obtain ⟨hlen, hids, hge, hops, huse, hev⟩ := ih
    simp only [createWorkgroupOps]
    refine ⟨by simp [hlen], ?_, ?_, hops, huse, ?_⟩
    · intro i attr h
      cases i with
      | zero =>
        simp only [List.getElem?_cons_zero, Option.some.injEq] at h
        subst h
        refine ⟨p.nextValue, by simp, Nat.le_refl _, ?_⟩
        apply hev
        simp
      | succ i =>
        simp only [List.getElem?_cons_succ] at h
        obtain ⟨id, h1, h2, h3⟩ := hids i attr h
        refine ⟨id, by simpa using h1, ?_, h3⟩
        exact Nat.le_trans (Nat.le_add_right _ 2) h2
    · intro id h
      rcases List.mem_cons.mp h with h | h
      · exact h ▸ Nat.le_refl _
      · exact Nat.le_trans (Nat.le_add_right _ 2) (hge id h)
    · intro e he
      apply hev
      exact List.mem_append_left _ he

/-- In the pairs of a list without repetition with another list, a first component
has one second component. -/
theorem zip_nodup_unique : ∀ (ivs ids : List Value) (b r1 r2 : Value),
    ivs.Nodup → (b, r1) ∈ ivs.zip ids → (b, r2) ∈ ivs.zip ids → r1 = r2
  | [], _, _, _, _, _, h1, _ => by simp at h1
  | _ :: _, [], _, _, _, _, h1, _ => by simp at h1
  | a :: as, c :: cs, b, r1, r2, hnodup, h1, h2 => by
    simp only [List.zip_cons_cons, List.mem_cons, Prod.mk.injEq] at h1 h2
    have hna : a ∉ as := (List.nodup_cons.mp hnodup).1
    rcases h1 with ⟨hb1, hr1⟩ | h1
    · rcases h2 with ⟨_, hr2⟩ | h2
      · rw [hr1, hr2]
      · exfalso
        have := (List.of_mem_zip h2).1
        rw [hb1] at this
        exact hna this
    · rcases h2 with ⟨hb2, _⟩ | h2
      · exfalso
        have := (List.of_mem_zip h1).1
        rw [hb2] at this
        exact hna this
      · exact zip_nodup_unique as cs b r1 r2 (List.nodup_cons.mp hnodup).2 h1 h2

/-- The search of a key in a list of pairs in which the key has one image. -/
theorem find?_unique_key (l : List (Value × Value)) (b r : Value) (hmem : (b, r) ∈ l)
    (huniq : ∀ r', (b, r') ∈ l → r' = r) :
    l.find? (fun pair => pair.1 == b) = some (b, r) := by
  cases h : l.find? (fun pair => pair.1 == b) with
  | none =>
    have := List.find?_eq_none.mp h (b, r) hmem
    simp at this
  | some x =>
    have hx := List.mem_of_find?_eq_some h
    have hk := List.find?_some h
    simp only [beq_iff_eq] at hk
    rcases x with ⟨x1, x2⟩
    simp only at hk
    subst hk
    rw [huniq x2 hx]

/-- The image under `bvm` of an induction variable, after the two calls of
`bvm.map` of step 3, is the workgroup id at the position of the variable, when no
upper bound of the loop is an induction variable. -/
theorem lookup_inductionVar (ivs ids ubs counts : List Value) (b r : Value)
    (hnodup : ivs.Nodup) (hub : b ∉ ubs) (hmem : (b, r) ∈ ivs.zip ids) :
    ((IRMapping.map { entries := [] } ivs ids).map ubs counts).lookup b = some r ∧
    replacementOf ivs ids b = r := by
  constructor
  · simp only [IRMapping.lookup, IRMapping.map, List.foldl_flip_cons_eq_append,
      List.append_nil]
    have hnone : (ubs.zip counts).reverse.find? (fun pair => pair.1 == b) = none := by
      rw [List.find?_eq_none]
      intro pair hp
      have := (List.of_mem_zip (List.mem_reverse.mp hp)).1
      simp only [beq_iff_eq]
      intro h
      rw [h] at this
      exact hub this
    rw [List.find?_append, hnone]
    simp only [Option.none_or]
    rw [find?_unique_key _ b r (List.mem_reverse.mpr hmem)
      (fun r' h => zip_nodup_unique ivs ids b r' r hnodup (List.mem_reverse.mp h) hmem)]
    rfl
  · simp only [replacementOf]
    rw [find?_unique_key _ b r hmem
      (fun r' h => zip_nodup_unique ivs ids b r' r hnodup h hmem)]

/-- A value that is no induction variable is its own replacement. -/
theorem replacementOf_other (ivs ids : List Value) (v : Value) (h : v ∉ ivs) :
    replacementOf ivs ids v = v := by
  have hnone : (ivs.zip ids).find? (fun pair => pair.1 == v) = none := by
    rw [List.find?_eq_none]
    intro pair hp
    have := (List.of_mem_zip hp).1
    simp only [beq_iff_eq]
    intro h2
    rw [h2] at this
    exact h this
  simp only [replacementOf, hnone]

/-- The invariants of a variable read the operands and the use lists only. -/
theorem invariant_congr (p q : LoweringPayload) (b : Value)
    (hops : q.operands = p.operands) (hlist : q.useList = p.useList)
    (h : p.UseListOf b ∧ p.SingleUse b ∧ (p.useList b).length ≤ n) :
    q.UseListOf b ∧ q.SingleUse b ∧ (q.useList b).length ≤ n := by
  simp only [LoweringPayload.UseListOf, LoweringPayload.SingleUse,
    LoweringPayload.operandValue, hops, hlist]
  exact h

/-- Every element of a list has a partner in the pairs with a list that is not
shorter. -/
theorem exists_mem_zip : ∀ (ivs ids : List Value) (b : Value),
    b ∈ ivs → ivs.length ≤ ids.length → ∃ r, (b, r) ∈ ivs.zip ids ∧ r ∈ ids
  | [], _, _, h, _ => by simp at h
  | _ :: _, [], _, _, hlen => by simp at hlen
  | a :: as, c :: cs, b, h, hlen => by
    rcases List.mem_cons.mp h with h | h
    · exact ⟨c, by simp [h], List.mem_cons_self _ _⟩
    · obtain ⟨r, h1, h2⟩ := exists_mem_zip as cs b h (by simpa using hlen)
      exact ⟨r, by simp [h1], List.mem_cons_of_mem _ h2⟩

/-- The pair of the elements at the same position of two lists is among their
pairs. -/
theorem mem_zip_of_getElem? : ∀ (ivs ids : List Value) (i : Nat) (b r : Value),
    ivs[i]? = some b → ids[i]? = some r → (b, r) ∈ ivs.zip ids
  | [], _, _, _, _, h, _ => by simp at h
  | _ :: _, [], _, _, _, _, h => by simp at h
  | a :: as, c :: cs, 0, b, r, h1, h2 => by
    simp only [List.getElem?_cons_zero, Option.some.injEq] at h1 h2
    simp [h1, h2]
  | a :: as, c :: cs, i + 1, b, r, h1, h2 => by
    simp only [List.getElem?_cons_succ] at h1 h2
    have := mem_zip_of_getElem? as cs i b r h1 h2
    simp [this]

/-- Step 6 replaces every use when no operation uses an induction variable twice.
For a loop without results, of rank at most 3, with a block mapping `mapping`, whose induction
variables are distinct values that are no upper bounds of the loop, on a payload
whose use lists agree with the operands and in which no operation holds an induction
variable in two operands: with fuel for the uses of each variable,
`rewriteForallToWorkgroup` succeeds; it has created, for each position `i` of the
mapping, a `hal.interface.workgroup.id` for the axis `mapping[i]`; every operand
that held the induction variable `i` holds the result of this operation, every other
operand is unchanged, and no operand holds an induction variable any more. -/
theorem rewriteForallToWorkgroup_single_use (mapping : List Blocks)
    (numBlocks inductionVars : List Value) (p : LoweringPayload) (fuel : Nat)
    (hlen : mapping.length = numBlocks.length) (hrank : numBlocks.length ≤ 3)
    (hivs : inductionVars.length = numBlocks.length) (hnodup : inductionVars.Nodup)
    (hfresh : ∀ b ∈ inductionVars, b < p.nextValue)
    (hub : ∀ b ∈ inductionVars, b ∉ numBlocks)
    (huse : ∀ b ∈ inductionVars,
      p.UseListOf b ∧ p.SingleUse b ∧ (p.useList b).length ≤ fuel) :
    ∃ (p' : LoweringPayload) (workgroupIdOps : List Value),
      rewriteForallToWorkgroup fuel
        { numResults := 0, mapping := some (mapping.map Attribute.GPUBlockMappingAttr),
          upperBound := numBlocks } inductionVars p = some (Except.ok (), p') ∧
      (∀ (i : Nat) (a : Blocks), mapping[i]? = some a →
        ∃ id, workgroupIdOps[i]? = some id ∧ p.nextValue ≤ id ∧
          RewriterEvent.createInterfaceWorkgroupIDOp id a.ordinal ∈ p'.events) ∧
      (∀ (i : Nat) (b id : Value), inductionVars[i]? = some b →
        workgroupIdOps[i]? = some id →
        replacementOf inductionVars workgroupIdOps b = id) ∧
      (∀ o, p'.operands o =
        (p.operands o).map (replacementOf inductionVars workgroupIdOps)) ∧
      (∀ o b, b ∈ inductionVars → b ∉ p'.operands o) := by
  have hgrid := rewriteForallToWorkgroupGrid_ok p.nextValue mapping numBlocks hrank
  rw [completeBlockMapping_eq] at hgrid
  generalize hmissing : [Attribute.GPUBlockMappingAttr Blocks.DimX,
    Attribute.GPUBlockMappingAttr Blocks.DimY,
    Attribute.GPUBlockMappingAttr Blocks.DimZ].filter
      (fun a => decide (a ∉ mapping.map Attribute.GPUBlockMappingAttr)) = missing at hgrid
  -- the payload after the constant of step 1
  obtain ⟨p1, hp1, hops1, hlist1, hnv1, hev1⟩ : ∃ p1 : LoweringPayload,
      (if ((some (mapping.map Attribute.GPUBlockMappingAttr)).getD []).length <
          (mapping.map Attribute.GPUBlockMappingAttr ++ missing).length then
        { p with
          nextValue := p.nextValue + 1,
          events := p.events ++ [RewriterEvent.createConstantIndexOp p.nextValue 1] }
      else p) = p1 ∧ p1.operands = p.operands ∧ p1.useList = p.useList ∧
      p.nextValue ≤ p1.nextValue ∧ (∀ e ∈ p.events, e ∈ p1.events) := by
    split
    · exact ⟨_, rfl, rfl, rfl, Nat.le_add_right _ 1,
        fun e he => List.mem_append_left _ he⟩
    · exact ⟨_, rfl, rfl, rfl, Nat.le_refl _, fun e he => he⟩
  obtain ⟨hclen, hcids, hcge, hcops, hclist, _⟩ :=
    createWorkgroupOps_spec (mapping.map Attribute.GPUBlockMappingAttr ++ missing) p1
  generalize hcreated :
    createWorkgroupOps (mapping.map Attribute.GPUBlockMappingAttr ++ missing) p1 = created
    at hclen hcids hcge hcops hclist
  -- the images of the induction variables
  have hlenle : inductionVars.length ≤ created.1.length := by
    rw [hclen, List.length_append, List.length_map, hivs, hlen]
    exact Nat.le_add_right _ _
  have hidfresh : ∀ r ∈ created.1, ∀ b' ∈ inductionVars, r ≠ b' := by
    intro r hr b' hb' heq
    have h1 := hcge r hr
    have h2 := hfresh b' hb'
    rw [heq] at h1
    exact absurd (Nat.lt_of_lt_of_le h2 (Nat.le_trans hnv1 h1)) (Nat.lt_irrefl _)
  have hbvm : ∀ b ∈ inductionVars, ∃ r,
      ((IRMapping.map { entries := [] } inductionVars created.1).map numBlocks
        created.2.1).lookup b = some r ∧ replacementOf inductionVars created.1 b = r ∧
      ∀ b' ∈ inductionVars, r ≠ b' := by
    intro b hb
    obtain ⟨r, hzip, hr⟩ := exists_mem_zip inductionVars created.1 b hb hlenle
    have := lookup_inductionVar inductionVars created.1 numBlocks created.2.1 b r hnodup
      (hub b hb) hzip
    exact ⟨r, this.1, this.2, hidfresh r hr⟩
  -- step 6
  obtain ⟨p6, hrun6, hops6, _, hev6⟩ := replaceInductionVars_single_use
    ((IRMapping.map { entries := [] } inductionVars created.1).map numBlocks created.2.1)
    fuel inductionVars
    { created.2.2 with
      events := created.2.2.events ++
        [RewriterEvent.eraseTerminator, RewriterEvent.spliceBody] }
    hnodup
    (fun b hb => by
      obtain ⟨r, h1, _, h3⟩ := hbvm b hb
      exact ⟨r, h1, h3⟩)
    (fun b hb => invariant_congr p _ b (by rw [hcops, hops1]) (by rw [hclist, hlist1])
      (huse b hb))
  have hopsfinal : ∀ o, p6.operands o =
      (p.operands o).map (replacementOf inductionVars created.1) := by
    intro o
    rw [hops6 o]
    simp only [hcops, hops1]
    apply List.map_congr_left
    intro v _
    by_cases hv : v ∈ inductionVars
    · obtain ⟨r, h1, h2, _⟩ := hbvm v hv
      rw [if_pos hv, h1, h2]
      rfl
    · rw [if_neg hv, replacementOf_other _ _ _ hv]
  refine ⟨{ p6 with events := p6.events ++ [RewriterEvent.eraseForallOp] }, created.1,
    ?_, ?_, ?_, hopsfinal, ?_⟩
  · simp only [rewriteForallToWorkgroup, hgrid, hp1, hcreated, hrun6]
  · intro i a hi
    have hattr : (mapping.map Attribute.GPUBlockMappingAttr ++ missing)[i]? =
        some (Attribute.GPUBlockMappingAttr a) := by
      have hlt : i < mapping.length := by
        by_contra hge
        rw [List.getElem?_eq_none (by omega)] at hi
        exact absurd hi (by simp)
      rw [List.getElem?_append_left (by rw [List.length_map]; exact hlt),
        List.getElem?_map, hi]
      rfl
    obtain ⟨id, h1, h2, h3⟩ := hcids i _ hattr
    refine ⟨id, h1, Nat.le_trans hnv1 h2, ?_⟩
    show _ ∈ p6.events ++ [RewriterEvent.eraseForallOp]
    rw [hev6]
    exact List.mem_append_left _ (List.mem_append_left _ h3)
  · intro i b id hb hid
    have hzip := mem_zip_of_getElem? inductionVars created.1 i b id hb hid
    have hbmem : b ∈ inductionVars := List.mem_iff_getElem?.mpr ⟨i, hb⟩
    exact (lookup_inductionVar inductionVars created.1 numBlocks created.2.1 b id hnodup
      (hub b hbmem) hzip).2
  · intro o b hb hmem
    have hmem6 : b ∈ p6.operands o := hmem
    rw [hopsfinal o] at hmem6
    obtain ⟨v, _, hv⟩ := List.mem_map.mp hmem6
    by_cases hvi : v ∈ inductionVars
    · obtain ⟨r, _, h2, h3⟩ := hbvm v hvi
      rw [h2] at hv
      exact h3 b hb hv
    · rw [replacementOf_other _ _ _ hvi] at hv
      rw [hv] at hvi
      exact hvi hb

/-- The example payload in which each operation uses the induction variable once
meets the conditions on the use lists. -/
theorem lowering_example_single_use_invariant :
    lowering_example_single_use.UseListOf 1 ∧ lowering_example_single_use.SingleUse 1 ∧
    (lowering_example_single_use.useList 1).length ≤ 10 := by
  refine ⟨⟨by decide, ?_⟩, ?_, by decide⟩
  · rintro ⟨o, k⟩
    simp only [lowering_example_single_use, LoweringPayload.operandValue]
    by_cases h10 : o = 10
    · subst h10
      match k with
      | 0 => decide
      | k + 1 => simp
    · by_cases h11 : o = 11
      · subst h11
        match k with
        | 0 => decide
        | 1 => decide
        | k + 2 => simp
      · simp [h10, h11]
  · intro o j k hj hk hvj hvk
    simp only [lowering_example_single_use] at hj hk hvj hvk
    by_cases h10 : o = 10
    · subst h10
      simp only [if_true, List.length_singleton] at hj hk
      omega
    · by_cases h11 : o = 11
      · subst h11
        simp only [if_neg h10, if_true] at hj hk hvj hvk
        match j, k, hj, hk, hvj, hvk with
        | 0, 0, _, _, _, _ => rfl
        | 0, 1, _, _, _, h => simp at h
        | 1, _, _, _, h, _ => simp at h
        | j + 2, _, h, _, _, _ => simp at h
        | 0, k + 2, _, h, _, _ => simp at h
      · simp [h10, h11] at hj

/-- The conditions of `rewriteForallToWorkgroup_single_use` are met by the example
loop on the payload in which each operation uses the induction variable once. -/
theorem rewriteForallToWorkgroup_single_use_witness :
    ∃ (p' : LoweringPayload) (workgroupIdOps : List Value),
      rewriteForallToWorkgroup 10
        { numResults := 0,
          mapping := some ([Blocks.DimX].map Attribute.GPUBlockMappingAttr),
          upperBound := [2] } [1] lowering_example_single_use = some (Except.ok (), p') ∧
      (∀ (i : Nat) (a : Blocks), [Blocks.DimX][i]? = some a →
        ∃ id, workgroupIdOps[i]? = some id ∧ lowering_example_single_use.nextValue ≤ id ∧
          RewriterEvent.createInterfaceWorkgroupIDOp id a.ordinal ∈ p'.events) ∧
      (∀ (i : Nat) (b id : Value), [(1 : Value)][i]? = some b →
        workgroupIdOps[i]? = some id →
        replacementOf [1] workgroupIdOps b = id) ∧
      (∀ o, p'.operands o =
        (lowering_example_single_use.operands o).map (replacementOf [1] workgroupIdOps)) ∧
      (∀ o b, b ∈ [(1 : Value)] → b ∉ p'.operands o) :=
  rewriteForallToWorkgroup_single_use [Blocks.DimX] [2] [1] lowering_example_single_use 10
    rfl (by decide) rfl (by decide) (by decide) (by decide)
    (fun b hb => by
      have hb1 : b = 1 := by simpa using hb
      subst hb1
      exact lowering_example_single_use_invariant)

/-- The example payload with the double use is well formed: the use list of the
induction variable holds each of its three uses once and agrees with the operands; the
operation 11 holds the variable in two operands. -/
theorem lowering_example_payload_useList :
    lowering_example_payload.UseListOf 1 ∧ ¬ lowering_example_payload.SingleUse 1 := by
  refine ⟨⟨by decide, ?_⟩, ?_⟩
  · rintro ⟨o, k⟩
    simp only [lowering_example_payload, LoweringPayload.operandValue]
    by_cases h10 : o = 10
    · subst h10
      match k with
      | 0 => decide
      | k + 1 => simp
    · by_cases h11 : o = 11
      · subst h11
        match k with
        | 0 => decide
        | 1 => decide
        | k + 2 => simp
      · simp [h10, h11]
  · intro h
    exact absurd (h 11 0 1 (by decide) (by decide) (by decide) (by decide)) (by decide)

/-! ### The empty `share_operands` attribute -/

/-- C21, at the failing input: with an empty `share_operands` attribute on the
example loop, whose output 0 meets the sharing conditions, the local vector
`shareOperands` holds the index 0 of the output, but the loop of `applyToOne` runs
over the attribute, which is empty: no output is handled, the run returns success
and the slice of output 0 is not rewired. With an empty attribute this is so for
every payload. -/
theorem shareForallOperands_empty_attribute :
    ShareForallOperandsOp.shareOperands [] share_example.outputs.length = [0] ∧
    shareOperand share_example 0 = share_example_rewired ∧
    share_example_rewired ≠ share_example ∧
    ShareForallOperandsOp.applyToOne [] share_example =
      { status := DiagnosedSilenceableFailure.success, payload := share_example,
        results := [1] } ∧
    ∀ p : SharePayload, ShareForallOperandsOp.applyToOne [] p =
      { status := DiagnosedSilenceableFailure.success, payload := p,
        results := [p.forallOp] } :=
  ⟨by decide, by decide, by decide, by decide, fun _ => rfl⟩

/-! ### The workgroup count ordered by mapping id -/

/-- The running maximum is at least its start value and at least every id met, and
at most any bound of both. -/
theorem foldl_max_bounds (ids : List Int) (start : Int) :
    start ≤ ids.foldl (fun maxId id => max maxId id) start ∧
    (∀ id ∈ ids, id ≤ ids.foldl (fun maxId id => max maxId id) start) ∧
    (∀ bound, start ≤ bound → (∀ id ∈ ids, id ≤ bound) →
      ids.foldl (fun maxId id => max maxId id) start ≤ bound) := by
  induction ids generalizing start with
  | nil => exact ⟨Int.le_refl _, fun _ h => absurd h (List.not_mem_nil _), fun _ h _ => h⟩
  | cons a rest ih =>
    obtain ⟨h1, h2, h3⟩ := ih (max start a)
    refine ⟨Int.le_trans (Int.le_max_left _ _) h1, ?_, ?_⟩
    · intro id hid
      rcases List.mem_cons.mp hid with h | h
      · rw [h]
        exact Int.le_trans (Int.le_max_right _ _) h1
      · exact h2 id h
    · intro bound hb hall
      exact h3 bound (Int.max_le.mpr ⟨hb, hall a (List.mem_cons_self _ _)⟩)
        (fun id hid => hall id (List.mem_cons_of_mem _ hid))

/-- The variable `maxId` of the code is the maximum of the mapping ids when these
are not negative and there is one at least. -/
theorem maxMappingId_eq (ids : List Int) (maxId : Int) (hmem : maxId ∈ ids)
    (hmax : ∀ id ∈ ids, id ≤ maxId) (hpos : ∀ id ∈ ids, 0 ≤ id) :
    maxMappingId ids = maxId := by
  obtain ⟨_, h2, h3⟩ := foldl_max_bounds ids 0
  exact Int.le_antisymm (h3 maxId (hpos maxId hmem) hmax) (h2 maxId hmem)

/-- The loop that fills `workgroupCountOrdered`, on distinct ids between 0 and
`maxId` and a vector of `maxId + 1` elements: no access is out of bounds, the
position `maxId - id` takes the count at the index of `id`, and the positions that
are not written keep what they held. -/
theorem setWorkgroupCountOrdered_spec (maxId : Int) (workgroupCount : List OpFoldResult) :
    ∀ (ids : List Int) (index : Nat) (ordered : List OpFoldResult),
      ids.Nodup → (∀ id ∈ ids, 0 ≤ id ∧ id ≤ maxId) →
      (ordered.length : Int) = maxId + 1 → index + ids.length ≤ workgroupCount.length →
      ∃ result, setWorkgroupCountOrdered maxId workgroupCount ids index ordered =
          some result ∧
        result.length = ordered.length ∧
        (∀ (k : Nat) (id : Int), ids[k]? = some id →
          result[(maxId - id).toNat]? = workgroupCount[index + k]?) ∧
        (∀ j : Nat, (∀ id ∈ ids, (maxId - id).toNat ≠ j) → result[j]? = ordered[j]?) := by
  intro ids
  induction ids with
  | nil =>
    intro index ordered _ _ _ _
    exact ⟨ordered, rfl, rfl, fun k id h => by simp at h, fun _ _ => rfl⟩
  | cons mapId rest ih =>
    intro index ordered hnodup hrange hlen hcount
    have hm := hrange mapId (List.mem_cons_self _ _)
    have hbound : ¬ (maxId - mapId < 0 ∨ (ordered.length : Int) ≤ maxId - mapId) := by
      omega
    have hidx : index < workgroupCount.length := by
      simp only [List.length_cons] at hcount
      omega
    obtain ⟨result, hrun, hrlen, hwritten, hkept⟩ :=
      ih (index + 1) (ordered.set (maxId - mapId).toNat workgroupCount[index])
        (List.nodup_cons.mp hnodup).2
        (fun id hid => hrange id (List.mem_cons_of_mem _ hid))
        (by rw [List.length_set]; exact hlen)
        (by simp only [List.length_cons] at hcount; omega)
    refine ⟨result, ?_, by rw [hrlen, List.length_set], ?_, ?_⟩
    · simp only [setWorkgroupCountOrdered, if_neg hbound, List.getElem?_eq_getElem hidx]
      exact hrun
    · intro k id hk
      cases k with
      | zero =>
        simp only [List.getElem?_cons_zero, Option.some.injEq] at hk
        subst hk
        have hother : ∀ id ∈ rest, (maxId - id).toNat ≠ (maxId - mapId).toNat := by
          intro id hid heq
          have hr := hrange id (List.mem_cons_of_mem _ hid)
          have : id = mapId := by omega
          rw [this] at hid
          exact (List.nodup_cons.mp hnodup).1 hid
        rw [hkept _ hother, List.getElem?_set_eq_of_lt _ (by omega), Nat.add_zero,
          List.getElem?_eq_getElem hidx]
      | succ k =>
        simp only [List.getElem?_cons_succ] at hk
        rw [hwritten k id hk]
        congr 1
        omega
    · intro j hj
      rw [hkept j (fun id hid => hj id (List.mem_cons_of_mem _ hid)),
        List.getElem?_set_ne (hj mapId (List.mem_cons_self _ _))]

/-- C24. For a loop whose mapping ids are distinct, not negative and have the
maximum `maxId`, each mapped dimension having an upper bound, the workgroup count
that `IREEPopulateWorkgroupCountRegionUsingNumThreadsSliceOp` builds is defined (no
vector is read or written outside of its bounds) and has length `maxId + 1`; every
index `maxId - id` that is written lies within it; at position `maxId - id` it holds
the upper bound of the dimension mapped to `id`, and at every position `j` such that
the id `maxId - j` is not mapped it holds the index attribute 1. -/
theorem populateWorkgroupCount_ordered (getMappingId : Attribute → Int)
    (forAllOp : ForallOp OpFoldResult) (blockMapping : List Attribute) (maxId : Int)
    (hmapping : forAllOp.mapping = some blockMapping)
    (hnodup : (blockMapping.map getMappingId).Nodup)
    (hpos : ∀ id ∈ blockMapping.map getMappingId, 0 ≤ id)
    (hmem : maxId ∈ blockMapping.map getMappingId)
    (hmax : ∀ id ∈ blockMapping.map getMappingId, id ≤ maxId)
    (hrank : blockMapping.length ≤ forAllOp.upperBound.length) :
    ∃ workgroupCount, populateWorkgroupCount getMappingId forAllOp = some workgroupCount ∧
      (workgroupCount.length : Int) = maxId + 1 ∧
      (∀ id ∈ blockMapping.map getMappingId,
        0 ≤ maxId - id ∧ maxId - id < (workgroupCount.length : Int)) ∧
      (∀ (index : Nat) (attr : Attribute), blockMapping[index]? = some attr →
        workgroupCount[(maxId - getMappingId attr).toNat]? =
          forAllOp.upperBound[index]?) ∧
      (∀ j : Nat, (j : Int) ≤ maxId → maxId - (j : Int) ∉ blockMapping.map getMappingId →
        workgroupCount[j]? = some (OpFoldResult.attr 1)) := by
  have hmaxeq := maxMappingId_eq _ maxId hmem hmax hpos
  have hmax0 : 0 ≤ maxId := hpos maxId hmem
  have hlen0 : ((List.replicate (maxId + 1).toNat (OpFoldResult.attr 1)).length : Int) =
      maxId + 1 := by
    rw [List.length_replicate]
    omega
  obtain ⟨result, hrun, hrlen, hwritten, hkept⟩ :=
    setWorkgroupCountOrdered_spec maxId forAllOp.upperBound
      (blockMapping.map getMappingId) 0
      (List.replicate (maxId + 1).toNat (OpFoldResult.attr 1)) hnodup
      (fun id hid => ⟨hpos id hid, hmax id hid⟩) hlen0
      (by rw [List.length_map]; omega)
  have hlen : (result.length : Int) = maxId + 1 := by rw [hrlen]; exact hlen0
  refine ⟨result, ?_, hlen, ?_, ?_, ?_⟩
  · simp only [populateWorkgroupCount, hmapping, hmaxeq]
    exact hrun
  · intro id hid
    have := hmax id hid
    have := hpos id hid
    omega
  · intro index attr hattr
    have hk : (blockMapping.map getMappingId)[index]? = some (getMappingId attr) := by
      rw [List.getElem?_map, hattr]
      rfl
    have := hwritten index (getMappingId attr) hk
    rw [Nat.zero_add] at this
    exact this
  · intro j hj hnot
    have hfree : ∀ id ∈ blockMapping.map getMappingId, (maxId - id).toNat ≠ j := by
      intro id hid heq
      have h1 := hmax id hid
      apply hnot
      have : maxId - (j : Int) = id := by omega
      rw [this]
      exact hid
    rw [hkept j hfree, List.getElem?_replicate]
    have : j < (maxId + 1).toNat := by omega
    simp [this]

/-- Witness of C24: the loop of rank 2 mapped to the axes (z, x), of ids 2 and 0,
with the upper bounds 4 and the value 9: the workgroup count is 4, 1, 9. -/
theorem populateWorkgroupCount_ordered_witness :
    populateWorkgroupCount example_getMappingId populate_example =
      some [OpFoldResult.attr 4, OpFoldResult.attr 1, OpFoldResult.value 9] ∧
    ∃ workgroupCount,
      populateWorkgroupCount example_getMappingId populate_example = some workgroupCount ∧
      (workgroupCount.length : Int) = 2 + 1 ∧
      (∀ id ∈ [Attribute.GPUBlockMappingAttr Blocks.DimZ,
          Attribute.GPUBlockMappingAttr Blocks.DimX].map example_getMappingId,
        0 ≤ 2 - id ∧ 2 - id < (workgroupCount.length : Int)) ∧
      (∀ (index : Nat) (attr : Attribute),
        [Attribute.GPUBlockMappingAttr Blocks.DimZ,
          Attribute.GPUBlockMappingAttr Blocks.DimX][index]? = some attr →
        workgroupCount[(2 - example_getMappingId attr).toNat]? =
          populate_example.upperBound[index]?) ∧
      (∀ j : Nat, (j : Int) ≤ 2 →
        2 - (j : Int) ∉ [Attribute.GPUBlockMappingAttr Blocks.DimZ,
          Attribute.GPUBlockMappingAttr Blocks.DimX].map example_getMappingId →
        workgroupCount[j]? = some (OpFoldResult.attr 1)) :=
  ⟨by decide,
   populateWorkgroupCount_ordered example_getMappingId populate_example
    [Attribute.GPUBlockMappingAttr Blocks.DimZ, Attribute.GPUBlockMappingAttr Blocks.DimX]
    2 rfl (by decide) (by decide) (by decide) (by decide) (by decide)⟩

/-- On a normalized loop whose workgroup count is defined, the transform returns
success or the definite failure of the lowering, as `lowerWorkgroupCountFromSliceOp`
does on this workgroup count. -/
theorem populateWorkgroupCount_applyToOne (getMappingId : Attribute → Int)
    (lowerWorkgroupCountFromSliceOp : List OpFoldResult → LogicalResult)
    (forAllOp : ForallOp OpFoldResult) (workgroupCount : List OpFoldResult)
    (h : populateWorkgroupCount getMappingId forAllOp = some workgroupCount) :
    IREEPopulateWorkgroupCountRegionUsingNumThreadsSliceOp.applyToOne getMappingId
      lowerWorkgroupCountFromSliceOp (some forAllOp) true =
    some (match lowerWorkgroupCountFromSliceOp workgroupCount with
      | LogicalResult.failure =>
        DiagnosedSilenceableFailure.definiteFailure
          PopulateWorkgroupCountDiagnostic.failedToLowerWorkgroupCountRegion
      | LogicalResult.success => DiagnosedSilenceableFailure.success) := by
  simp only [IREEPopulateWorkgroupCountRegionUsingNumThreadsSliceOp.applyToOne,
    Bool.not_true, Bool.false_eq_true, if_false, h]
  cases lowerWorkgroupCountFromSliceOp workgroupCount <;> rfl

/-! ### The order of the operations erased by `eraseDeadAllocAndStores` -/

/-- Two lists in each of which the users come first, put one after the other. -/
theorem erasedAfterUsers_append (M N : List Operation)
    (hM : ErasedAfterUsers M) (hN : ErasedAfterUsers N) : ErasedAfterUsers (M ++ N) := by
  intro i op hi hkind u hu
  by_cases hlt : i < M.length
  · rw [List.getElem?_append_left hlt] at hi
    obtain ⟨j, hj, hju⟩ := hM i op hi hkind u hu
    exact ⟨j, hj, by rw [List.getElem?_append_left (by omega)]; exact hju⟩
  · rw [List.getElem?_append_right (by omega)] at hi
    obtain ⟨j, hj, hju⟩ := hN (i - M.length) op hi hkind u hu
    exact ⟨M.length + j, by omega, by
      rw [List.getElem?_append_right (by omega)]
      simpa using hju⟩

/-- A list in which the users come first, followed by an operation all of whose
users are in the list. -/
theorem erasedAfterUsers_concat (M : List Operation) (op : Operation)
    (hM : ErasedAfterUsers M) (husers : ∀ u ∈ op.users, u ∈ M) :
    ErasedAfterUsers (M ++ [op]) := by
  intro i x hi hkind u hu
  by_cases hlt : i < M.length
  · rw [List.getElem?_append_left hlt] at hi
    obtain ⟨j, hj, hju⟩ := hM i x hi hkind u hu
    exact ⟨j, hj, by rw [List.getElem?_append_left (by omega)]; exact hju⟩
  · have hi2 := hi
    rw [List.getElem?_append_right (by omega)] at hi2
    have hzero : i - M.length = 0 := by
      by_contra hne
      rw [List.getElem?_eq_none (by simp; omega)] at hi2
      exact absurd hi2 (by simp)
    rw [hzero] at hi2
    simp only [List.getElem?_cons_zero, Option.some.injEq] at hi2
    subst hi2
    obtain ⟨j, hj⟩ := List.mem_iff_getElem?.mp (husers u hu)
    have hjlt : j < M.length := by
      by_contra hge
      rw [List.getElem?_eq_none (by omega)] at hj
      exact absurd hj (by simp)
    exact ⟨j, by omega, by rw [List.getElem?_append_left hjlt]; exact hj⟩

/-- A list that holds one operation that is neither a subview nor an allocation. -/
theorem erasedAfterUsers_leaf (op : Operation)
    (h : isaDeallocTransferWriteStore op.kind = true) : ErasedAfterUsers [op] := by
  intro i x hi hkind
  cases i with
  | zero =>
    simp only [List.getElem?_cons_zero, Option.some.injEq] at hi
    subst hi
    rcases hkind with hk | hk <;> rw [hk] at h <;> exact absurd h (by decide)
  | succ i => simp at hi

mutual
/-- What `allUsesAreStores` appends to the vector `uses` when it returns true: a
list that holds all the users of the operation and in which the users come first;
when it returns false the vector is unchanged. -/
theorem allUsesAreStores_order : ∀ (op : Operation) (uses : List Operation),
    (∀ uses1, allUsesAreStores op uses = (true, uses1) →
      ∃ L, uses1 = uses ++ L ∧ ErasedAfterUsers L ∧ ∀ u ∈ op.users, u ∈ L) ∧
    (∀ uses1, allUsesAreStores op uses = (false, uses1) → uses1 = uses)
  | Operation.mk i k users, uses => by
    have hloop := allUsesAreStoresLoop_order users []
    constructor
    · intro uses1 h
      rw [allUsesAreStores] at h
      cases hl : allUsesAreStoresLoop users [] with
      | none => rw [hl] at h; simp at h
      | some opUses =>
        rw [hl] at h
        simp only [Prod.mk.injEq, true_and] at h
        obtain ⟨L, hL, hE, hmem⟩ := hloop opUses hl
        rw [List.nil_append] at hL
        subst hL
        exact ⟨opUses, h.symm, hE, hmem⟩
    · intro uses1 h
      rw [allUsesAreStores] at h
      cases hl : allUsesAreStoresLoop users [] with
      | none =>
        rw [hl] at h
        simp only [Prod.mk.injEq, true_and] at h
        exact h.symm
      | some opUses => rw [hl] at h; simp at h
/-- What the loop of `allUsesAreStores` appends to the local vector `opUses` when it
runs to its end. -/
theorem allUsesAreStoresLoop_order : ∀ (us acc : List Operation) (acc1 : List Operation),
    allUsesAreStoresLoop us acc = some acc1 →
    ∃ L, acc1 = acc ++ L ∧ ErasedAfterUsers L ∧ ∀ u ∈ us, u ∈ L
  | [], acc, acc1 => by
    intro h
    simp only [allUsesAreStoresLoop, Option.some.injEq] at h
    refine ⟨[], by simp [h], ?_, fun u hu => absurd hu (List.not_mem_nil _)⟩
    intro i op hi
    simp at hi
  | u :: rest, acc, acc1 => by
    intro h
    rw [allUsesAreStoresLoop] at h
    by_cases hw : isaDeallocTransferWriteStore u.kind = true
    · rw [if_pos hw] at h
      obtain ⟨L, hL, hE, hmem⟩ := allUsesAreStoresLoop_order rest (acc ++ [u]) acc1 h
      refine ⟨[u] ++ L, by rw [hL, List.append_assoc], ?_, ?_⟩
      · exact erasedAfterUsers_append _ _ (erasedAfterUsers_leaf u hw) hE
      · intro v hv
        rcases List.mem_cons.mp hv with hv | hv
        · rw [hv]; simp
        · exact List.mem_append_right _ (hmem v hv)
    · rw [if_neg hw] at h
      by_cases hs : u.kind = OpKind.SubViewOp
      · rw [if_pos hs] at h
        have hop := allUsesAreStores_order u acc
        rcases hres : allUsesAreStores u acc with ⟨flag, acc2⟩
        rw [hres] at h
        cases flag with
        | false => simp at h
        | true =>
          simp only at h
          obtain ⟨Ls, hLs, hEs, hmems⟩ := hop.1 acc2 hres
          obtain ⟨L, hL, hE, hmem⟩ :=
            allUsesAreStoresLoop_order rest (acc2 ++ [u]) acc1 h
          refine ⟨(Ls ++ [u]) ++ L, by rw [hL, hLs]; simp, ?_, ?_⟩
          · exact erasedAfterUsers_append _ _ (erasedAfterUsers_concat Ls u hEs hmems) hE
          · intro v hv
            rcases List.mem_cons.mp hv with hv | hv
            · rw [hv]; simp
            · exact List.mem_append_right _ (hmem v hv)
      · rw [if_neg hs] at h
        simp at h
end

/-- The walk of `eraseDeadAllocAndStores` keeps the users first in `opToErase`. -/
theorem eraseDeadAllocAndStores_order (walk : List Operation) :
    ∀ opToErase : List Operation, ErasedAfterUsers opToErase →
      ErasedAfterUsers (walk.foldl eraseDeadAllocAndStoresVisit opToErase) := by
  induction walk with
  | nil => intro opToErase h; exact h
  | cons op rest ih =>
    intro opToErase h
    rw [List.foldl_cons]
    apply ih
    unfold eraseDeadAllocAndStoresVisit
    by_cases hk : op.kind = OpKind.AllocOp
    · rw [if_pos hk]
      have hop := allUsesAreStores_order op opToErase
      rcases hres : allUsesAreStores op opToErase with ⟨flag, uses1⟩
      cases flag with
      | false =>
        simp only
        rw [hop.2 uses1 hres]
        exact h
      | true =>
        simp only
        obtain ⟨L, hL, hE, hmem⟩ := hop.1 uses1 hres
        rw [hL, List.append_assoc]
        exact erasedAfterUsers_append _ _ h (erasedAfterUsers_concat L op hE hmem)
    · rw [if_neg hk]
      exact h

/-- C22. In the list that `eraseDeadAllocAndStores` builds and erases front to back,
a subview stands after all the users of its result, and an allocation stands after
all its transitive users (its users, and the users of the subviews among them): no
operation of the list is erased while one of its users is still there. -/
theorem eraseDeadAllocAndStores_users_first (walk : List Operation) (i : Nat)
    (op : Operation) (h : (eraseDeadAllocAndStores walk)[i]? = some op) :
    (op.kind = OpKind.SubViewOp → ∀ u ∈ op.users,
      ∃ j, j < i ∧ (eraseDeadAllocAndStores walk)[j]? = some u) ∧
    (op.kind = OpKind.AllocOp → ∀ u, TransitiveUser op u →
      ∃ j, j < i ∧ (eraseDeadAllocAndStores walk)[j]? = some u) := by
  have hE : ErasedAfterUsers (eraseDeadAllocAndStores walk) := by
    apply eraseDeadAllocAndStores_order
    intro i op hi
    simp at hi
  refine ⟨fun hk u hu => hE i op h (Or.inl hk) u hu, ?_⟩
  intro hk u hu
  induction hu with
  | direct u hu => exact hE i op h (Or.inr hk) u hu
  | through s u _ hs hu ih =>
    obtain ⟨j, hj, hjs⟩ := ih
    obtain ⟨j2, hj2, hju⟩ := hE j s hjs (Or.inl hs) u hu
    exact ⟨j2, by omega, hju⟩

/-- Witness of C22: the allocation of the example is the last of the five operations
erased, after the store, the transfer write, the subview and the deallocation; the
transfer write, a user of the subview, is erased before it. -/
theorem eraseDeadAllocAndStores_users_first_witness :
    eraseDeadAllocAndStores [dead_alloc_example] =
      [Operation.mk 1 OpKind.StoreOp [], Operation.mk 3 OpKind.TransferWriteOp [],
       Operation.mk 2 OpKind.SubViewOp [Operation.mk 3 OpKind.TransferWriteOp []],
       Operation.mk 4 OpKind.DeallocOp [], dead_alloc_example] ∧
    ∃ j, j < 4 ∧ (eraseDeadAllocAndStores [dead_alloc_example])[j]? =
      some (Operation.mk 3 OpKind.TransferWriteOp []) :=
  ⟨rfl, (eraseDeadAllocAndStores_users_first [dead_alloc_example] 4 dead_alloc_example
    rfl).2 rfl (Operation.mk 3 OpKind.TransferWriteOp [])
    (TransitiveUser.through
      (Operation.mk 2 OpKind.SubViewOp [Operation.mk 3 OpKind.TransferWriteOp []])
      (Operation.mk 3 OpKind.TransferWriteOp [])
      (TransitiveUser.direct _ (by simp [dead_alloc_example, Operation.users]))
      rfl (by simp [Operation.users]))⟩

/-! ### The offsets of the pack kernel -/

/-- The loop nest of `iree_ukernel_pack` runs with the bounds and strides of
`pack_loops`. -/
theorem iree_ukernel_pack_runs_loops (es_of : iree_ukernel_pack_type_t → Int)
    (p : iree_ukernel_pack_params_t) (mem : Memory)
    (hval : iree_ukernel_pack_validate p = iree_ukernel_status_t.ok)
    (hnz : ¬ (p.out_size0 = 0 ∨ p.out_size1 = 0 ∨ p.out_size2 = 0 ∨ p.out_size3 = 0)) :
    (iree_ukernel_pack es_of p mem).2 =
      pack_loop_nest p (es_of p.type) (pack_loops p).lsize0 (pack_loops p).lsize1
        (pack_loops p).lsize2 (pack_loops p).lsize3 (pack_loops p).out_stride_l0
        (pack_loops p).out_stride_l1 (pack_loops p).out_stride_l2
        (pack_loops p).out_stride_l3 mem := by
  unfold iree_ukernel_pack
  rw [hval]
  simp only [if_neg hnz]
  rfl

/-- The loop body writes the element at `out_offset`, and reads either the padding
value or the element at `in_offset` of the source, which it reads only when `i0` and
`i1` are inside the source. -/
theorem pack_loop_body_offsets (p : iree_ukernel_pack_params_t) (es : Int)
    (l0 l1 l2 l3 : Int) (mem : Memory) :
    pack_loop_body p es (pack_loops p).lsize2 (pack_loops p).lsize3
      (pack_loops p).out_stride_l0 (pack_loops p).out_stride_l1
      (pack_loops p).out_stride_l2 (pack_loops p).out_stride_l3 l0 l2 l1 l3 mem =
    if pack_i0 p l0 l2 ≥ p.in_size0 ∨ pack_i1 p l1 l3 ≥ p.in_size1 then
      iree_ukernel_memcpy
        (ptr_wrap (p.out_buffer + ssize_wrap (pack_out_offset p l0 l1 l2 l3 * es)))
        p.padding_value es mem
    else
      iree_ukernel_memcpy
        (ptr_wrap (p.out_buffer + ssize_wrap (pack_out_offset p l0 l1 l2 l3 * es)))
        (ptr_wrap (p.in_buffer + ssize_wrap (pack_in_offset p l0 l1 l2 l3 * es))) es mem :=
  rfl

/-- A copy changes no address other than `dst[i]`, `0 ≤ i < size`. -/
theorem iree_ukernel_memcpy_frame (dst src size a : Int) (m : Memory)
    (h : ∀ i : Int, 0 ≤ i → i < size → a ≠ ptr_wrap (dst + i)) :
    iree_ukernel_memcpy dst src size m a = m a := by
  unfold iree_ukernel_memcpy
  apply forLoop_frame
  intro i h0 hn t
  exact Function.update_noteq (h i h0 hn) _ _

/-- The loop body at the loop coordinates `(l0, l1, l2, l3)` changes no address other
than the addresses `pack_out_addr` of the bytes of its destination element. -/
theorem pack_loop_body_writes (p : iree_ukernel_pack_params_t) (es : Int)
    (l0 l1 l2 l3 a : Int) (mem : Memory)
    (h : ∀ k : Int, 0 ≤ k → k < es → a ≠ pack_out_addr p es l0 l1 l2 l3 k) :
    pack_loop_body p es (pack_loops p).lsize2 (pack_loops p).lsize3
      (pack_loops p).out_stride_l0 (pack_loops p).out_stride_l1
      (pack_loops p).out_stride_l2 (pack_loops p).out_stride_l3 l0 l2 l1 l3 mem a =
    mem a := by
  rw [pack_loop_body_offsets]
  split
  · exact iree_ukernel_memcpy_frame _ _ _ _ _ h
  · exact iree_ukernel_memcpy_frame _ _ _ _ _ h

/-- When the extent of the output buffer is below `2 ^ 63`, the offsets `out_offset`,
`i0` and `i1` of loop coordinates inside the loop bounds are computed without
overflow: `out_offset` is the offset of a physical position of the output buffer
(the coordinates, swapped as the flags say), `i0` and `i1` are not negative. -/
theorem pack_offsets_exact (p : iree_ukernel_pack_params_t)
    (hval : iree_ukernel_pack_validate p = iree_ukernel_status_t.ok)
    (hstride : p.out_stride0 ≥ p.out_size1 * p.out_size2 * p.out_size3)
    (hE : pack_out_extent p < 2 ^ 63)
    (l0 l1 l2 l3 : Int) (hl : PackLoopCoords p l0 l1 l2 l3) :
    pack_out_offset p l0 l1 l2 l3 =
      (if p.flags &&& IREE_UKERNEL_FLAG_PACK_TRANSPOSE_OUTER ≠ 0 then l1 else l0)
          * p.out_stride0 +
        (if p.flags &&& IREE_UKERNEL_FLAG_PACK_TRANSPOSE_OUTER ≠ 0 then l0 else l1)
          * (p.out_size3 * p.out_size2) +
        (if p.flags &&& IREE_UKERNEL_FLAG_PACK_TRANSPOSE_INNER ≠ 0 then l3 else l2)
          * p.out_size3 +
        (if p.flags &&& IREE_UKERNEL_FLAG_PACK_TRANSPOSE_INNER ≠ 0 then l2 else l3) ∧
    (0 ≤ (if p.flags &&& IREE_UKERNEL_FLAG_PACK_TRANSPOSE_OUTER ≠ 0 then l1 else l0) ∧
      (if p.flags &&& IREE_UKERNEL_FLAG_PACK_TRANSPOSE_OUTER ≠ 0 then l1 else l0)
        < p.out_size0 ∧
      0 ≤ (if p.flags &&& IREE_UKERNEL_FLAG_PACK_TRANSPOSE_OUTER ≠ 0 then l0 else l1) ∧
      (if p.flags &&& IREE_UKERNEL_FLAG_PACK_TRANSPOSE_OUTER ≠ 0 then l0 else l1)
        < p.out_size1 ∧
      0 ≤ (if p.flags &&& IREE_UKERNEL_FLAG_PACK_TRANSPOSE_INNER ≠ 0 then l3 else l2) ∧
      (if p.flags &&& IREE_UKERNEL_FLAG_PACK_TRANSPOSE_INNER ≠ 0 then l3 else l2)
        < p.out_size2 ∧
      0 ≤ (if p.flags &&& IREE_UKERNEL_FLAG_PACK_TRANSPOSE_INNER ≠ 0 then l2 else l3) ∧
      (if p.flags &&& IREE_UKERNEL_FLAG_PACK_TRANSPOSE_INNER ≠ 0 then l2 else l3)
        < p.out_size3) ∧
    0 ≤ pack_i0 p l0 l2 ∧ 0 ≤ pack_i1 p l1 l3 := by
  have hdims := pack_dims_of_valid p hval
  unfold PackDimsValid at hdims
  unfold pack_out_extent at hE
  have hpos : 1 ≤ p.out_size0 ∧ 1 ≤ p.out_size1 ∧ 1 ≤ p.out_size2 ∧ 1 ≤ p.out_size3 := by
    by_cases hO : p.flags &&& IREE_UKERNEL_FLAG_PACK_TRANSPOSE_OUTER ≠ 0 <;>
    by_cases hI : p.flags &&& IREE_UKERNEL_FLAG_PACK_TRANSPOSE_INNER ≠ 0
    · simp only [PackLoopCoords, pack_loops, iree_ukernel_ssize_swap, if_pos hO, if_pos hI]
        at hl
      omega
    · simp only [PackLoopCoords, pack_loops, iree_ukernel_ssize_swap, if_pos hO, if_neg hI]
        at hl
      omega
    · simp only [PackLoopCoords, pack_loops, iree_ukernel_ssize_swap, if_neg hO, if_pos hI]
        at hl
      omega
    · simp only [PackLoopCoords, pack_loops, iree_ukernel_ssize_swap, if_neg hO, if_neg hI]
        at hl
      omega
  have hprod := pack_products_fit p.out_stride0 p.out_size0 p.out_size1 p.out_size2
    p.out_size3 hpos.1 hpos.2.1 hpos.2.2.1 hpos.2.2.2 hstride hE
  have h32 : 0 ≤ p.out_size3 * p.out_size2 := Int.mul_nonneg (by omega) (by omega)
  have hw : ssize_wrap (p.out_size3 * p.out_size2) = p.out_size3 * p.out_size2 :=
    ssize_wrap_eq _ (by omega) hprod.2.2.2.2
  by_cases hO : p.flags &&& IREE_UKERNEL_FLAG_PACK_TRANSPOSE_OUTER ≠ 0 <;>
  by_cases hI : p.flags &&& IREE_UKERNEL_FLAG_PACK_TRANSPOSE_INNER ≠ 0
  · simp only [PackLoopCoords, pack_out_offset, pack_i0, pack_i1, pack_loops,
      iree_ukernel_ssize_swap, if_pos hO, if_pos hI, hw] at hl ⊢
    have B := phys_offset_bound p.out_stride0 p.out_size0 p.out_size1 p.out_size2
      p.out_size3 l1 l0 l3 l2 hstride (by omega) (by omega) (by omega) (by omega)
      (by omega) (by omega) (by omega) (by omega)
    have I0 := pack_index_bound p.out_size1 p.out_size3 l0 l2 (by omega) (by omega)
      (by omega) (by omega) hprod.2.1
    have I1 := pack_index_bound p.out_size0 p.out_size2 l1 l3 (by omega) (by omega)
      (by omega) (by omega) hprod.1
    rw [ssize_wrap_eq _ (by linarith [B.1]) (by linarith [B.2]),
      ssize_wrap_eq _ (by omega) I0.2, ssize_wrap_eq _ (by omega) I1.2]
    exact ⟨by ring, by omega, I0.1, I1.1⟩
  · simp only [PackLoopCoords, pack_out_offset, pack_i0, pack_i1, pack_loops,
      iree_ukernel_ssize_swap, if_pos hO, if_neg hI, hw] at hl ⊢
    have B := phys_offset_bound p.out_stride0 p.out_size0 p.out_size1 p.out_size2
      p.out_size3 l1 l0 l2 l3 hstride (by omega) (by omega) (by omega) (by omega)
      (by omega) (by omega) (by omega) (by omega)
    have I0 := pack_index_bound p.out_size1 p.out_size2 l0 l2 (by omega) (by omega)
      (by omega) (by omega) hprod.2.2.2.1
    have I1 := pack_index_bound p.out_size0 p.out_size3 l1 l3 (by omega) (by omega)
      (by omega) (by omega) hprod.2.2.1
    rw [ssize_wrap_eq _ (by linarith [B.1]) (by linarith [B.2]),
      ssize_wrap_eq _ (by omega) I0.2, ssize_wrap_eq _ (by omega) I1.2]
    exact ⟨by ring, by omega, I0.1, I1.1⟩
  · simp only [PackLoopCoords, pack_out_offset, pack_i0, pack_i1, pack_loops,
      iree_ukernel_ssize_swap, if_neg hO, if_pos hI, hw] at hl ⊢
    have B := phys_offset_bound p.out_stride0 p.out_size0 p.out_size1 p.out_size2
      p.out_size3 l0 l1 l3 l2 hstride (by omega) (by omega) (by omega) (by omega)
      (by omega) (by omega) (by omega) (by omega)
    have I0 := pack_index_bound p.out_size0 p.out_size3 l0 l2 (by omega) (by omega)
      (by omega) (by omega) hprod.2.2.1
    have I1 := pack_index_bound p.out_size1 p.out_size2 l1 l3 (by omega) (by omega)
      (by omega) (by omega) hprod.2.2.2.1
    rw [ssize_wrap_eq _ (by linarith [B.1]) (by linarith [B.2]),
      ssize_wrap_eq _ (by omega) I0.2, ssize_wrap_eq _ (by omega) I1.2]
    exact ⟨by ring, by omega, I0.1, I1.1⟩
  · simp only [PackLoopCoords, pack_out_offset, pack_i0, pack_i1, pack_loops,
      iree_ukernel_ssize_swap, if_neg hO, if_neg hI, hw] at hl ⊢
    have B := phys_offset_bound p.out_stride0 p.out_size0 p.out_size1 p.out_size2
      p.out_size3 l0 l1 l2 l3 hstride (by omega) (by omega) (by omega) (by omega)
      (by omega) (by omega) (by omega) (by omega)
    have I0 := pack_index_bound p.out_size0 p.out_size2 l0 l2 (by omega) (by omega)
      (by omega) (by omega) hprod.1
    have I1 := pack_index_bound p.out_size1 p.out_size3 l1 l3 (by omega) (by omega)
      (by omega) (by omega) hprod.2.1
    rw [ssize_wrap_eq _ (by linarith [B.1]) (by linarith [B.2]),
      ssize_wrap_eq _ (by omega) I0.2, ssize_wrap_eq _ (by omega) I1.2]
    exact ⟨by ring, by omega, I0.1, I1.1⟩

/-- When the extent of the output buffer is below `2 ^ 63`, two loop coordinates
inside the loop bounds with the same destination offset are equal. -/
theorem pack_out_offset_injective (p : iree_ukernel_pack_params_t)
    (hval : iree_ukernel_pack_validate p = iree_ukernel_status_t.ok)
    (hstride : p.out_stride0 ≥ p.out_size1 * p.out_size2 * p.out_size3)
    (hE : pack_out_extent p < 2 ^ 63) (l0 l1 l2 l3 m0 m1 m2 m3 : Int)
    (hl : PackLoopCoords p l0 l1 l2 l3) (hm : PackLoopCoords p m0 m1 m2 m3)
    (h : pack_out_offset p l0 l1 l2 l3 = pack_out_offset p m0 m1 m2 m3) :
    l0 = m0 ∧ l1 = m1 ∧ l2 = m2 ∧ l3 = m3 := by
  obtain ⟨el, bl, _, _⟩ := pack_offsets_exact p hval hstride hE l0 l1 l2 l3 hl
  obtain ⟨em, bm, _, _⟩ := pack_offsets_exact p hval hstride hE m0 m1 m2 m3 hm
  rw [el, em] at h
  have key := phys_offset_inj p.out_stride0 p.out_size1 p.out_size2 p.out_size3
    _ _ _ _ _ _ _ _ hstride bl.2.2.1 bl.2.2.2.1 bl.2.2.2.2.1 bl.2.2.2.2.2.1
    bl.2.2.2.2.2.2.1 bl.2.2.2.2.2.2.2 bm.2.2.1 bm.2.2.2.1 bm.2.2.2.2.1
    bm.2.2.2.2.2.1 bm.2.2.2.2.2.2.1 bm.2.2.2.2.2.2.2 h
  by_cases hO : p.flags &&& IREE_UKERNEL_FLAG_PACK_TRANSPOSE_OUTER ≠ 0 <;>
  by_cases hI : p.flags &&& IREE_UKERNEL_FLAG_PACK_TRANSPOSE_INNER ≠ 0
  · simp only [if_pos hO, if_pos hI] at key
    exact ⟨key.2.1, key.1, key.2.2.2, key.2.2.1⟩
  · simp only [if_pos hO, if_neg hI] at key
    exact ⟨key.2.1, key.1, key.2.2.1, key.2.2.2⟩
  · simp only [if_neg hO, if_pos hI] at key
    exact ⟨key.1, key.2.1, key.2.2.2, key.2.2.1⟩
  · simp only [if_neg hO, if_neg hI] at key
    exact key

/-- When no offset and no address overflows, the byte `k` that the loop body writes
at loop coordinates inside the loop bounds has the address
`out_buffer + out_offset * es + k`. -/
theorem pack_out_addr_exact (p : iree_ukernel_pack_params_t) (es : Int)
    (hval : iree_ukernel_pack_validate p = iree_ukernel_status_t.ok)
    (hstride : p.out_stride0 ≥ p.out_size1 * p.out_size2 * p.out_size3)
    (hes : 0 < es) (hfit : PackNoOverflow p es)
    (l0 l1 l2 l3 k : Int) (hl : PackLoopCoords p l0 l1 l2 l3) (hk0 : 0 ≤ k) (hk : k < es) :
    pack_out_addr p es l0 l1 l2 l3 k =
      p.out_buffer + pack_out_offset p l0 l1 l2 l3 * es + k := by
  obtain ⟨hEb, _, hob, hoe, _, _, _, _⟩ := hfit
  have hE : pack_out_extent p < 2 ^ 63 := lt_of_mul_lt _ _ _ hes (by norm_num) hEb
  obtain ⟨el, bl, _, _⟩ := pack_offsets_exact p hval hstride hE l0 l1 l2 l3 hl
  unfold pack_out_extent at hEb hoe
  have F := phys_offset_fits p.out_stride0 p.out_size0 p.out_size1 p.out_size2
    p.out_size3 es p.out_buffer _ _ _ _ hstride hes hEb hoe bl.1 bl.2.1 bl.2.2.1
    bl.2.2.2.1 bl.2.2.2.2.1 bl.2.2.2.2.2.1 bl.2.2.2.2.2.2.1 bl.2.2.2.2.2.2.2
  rw [← el] at F
  have hb0 : 0 ≤ pack_out_offset p l0 l1 l2 l3 * es := Int.mul_nonneg F.1 (by omega)
  unfold pack_out_addr
  rw [ssize_wrap_eq _ (by omega) F.2.2.1,
    ptr_wrap_eq (p.out_buffer + pack_out_offset p l0 l1 l2 l3 * es) (by omega) (by omega),
    ptr_wrap_eq _ (by omega) (by omega)]

/-- C23, as stated (without a bound on the sizes), fails. The parameters
`pack_huge_stride_params` (a 3x1 source with the row stride `2 ^ 62`, output sizes
(5, 1, 1, 1) with the outer stride `2 ^ 62`, both flags clear) pass validation and
satisfy the stride condition. The loop coordinates (0, 0, 0, 0) and (4, 0, 0, 0)
have the same destination offset 0, since `4 * 2 ^ 62` is `2 ^ 64`, that is 0 in 64
bits: the map is not injective. At the loop coordinates (2, 0, 0, 0) the
destination offset `2 * 2 ^ 62` is `-2 ^ 63` in 64 bits, below 0; the source is read
there (`i0 = 2 < in_size0`, `i1 = 0 < in_size1`) at the source offset `-2 ^ 63`,
below 0 as well. And distinct offsets do not keep a destination element from being
written twice: for `pack_overflow_params` (output sizes (2, 1, 1, 1), outer stride
`2 ^ 62`, elements of four bytes) both extents are below `2 ^ 63` and the offsets 0
and `2 ^ 62` of the two loop coordinates are distinct, yet their first bytes are
written at the same address, the byte offset `2 ^ 62 * 4` being 0 in 64 bits. -/
theorem iree_ukernel_pack_offsets_overflow_counterexample :
    iree_ukernel_pack_validate pack_huge_stride_params = iree_ukernel_status_t.ok ∧
    pack_huge_stride_params.out_stride0 ≥
      pack_huge_stride_params.out_size1 * pack_huge_stride_params.out_size2 *
        pack_huge_stride_params.out_size3 ∧
    pack_huge_stride_params.flags = 0 ∧
    PackLoopCoords pack_huge_stride_params 0 0 0 0 ∧
    PackLoopCoords pack_huge_stride_params 4 0 0 0 ∧
    pack_out_offset pack_huge_stride_params 0 0 0 0 =
      pack_out_offset pack_huge_stride_params 4 0 0 0 ∧
    PackLoopCoords pack_huge_stride_params 2 0 0 0 ∧
    pack_out_offset pack_huge_stride_params 2 0 0 0 = -2 ^ 63 ∧
    ¬ (pack_i0 pack_huge_stride_params 2 0 ≥ pack_huge_stride_params.in_size0 ∨
        pack_i1 pack_huge_stride_params 0 0 ≥ pack_huge_stride_params.in_size1) ∧
    pack_in_offset pack_huge_stride_params 2 0 0 0 = -2 ^ 63 ∧
    (PackOffsetsFit pack_overflow_params ∧
      PackLoopCoords pack_overflow_params 0 0 0 0 ∧
      PackLoopCoords pack_overflow_params 1 0 0 0 ∧
      pack_out_addr pack_overflow_params 4 0 0 0 0 0 =
        pack_out_addr pack_overflow_params 4 1 0 0 0 0) := by
  unfold PackLoopCoords PackOffsetsFit pack_out_extent pack_in_extent
  decide

/-- C23 (amended). For parameters that pass validation, with
`out_stride0 ≥ out_size1 * out_size2 * out_size3` and with the two extents
`(out_size0 - 1) * out_stride0 + out_size1 * out_size2 * out_size3` and
`(in_size0 - 1) * in_stride0 + in_size1` below `2 ^ 63` (`PackOffsetsFit`: no offset
overflows `iree_ukernel_ssize_t`), and whatever the two transpose flags are: two
loop coordinates with the same destination offset are equal (no destination element
is written twice); every destination offset is at least 0 and below
`(out_size0 - 1) * out_stride0 + out_size1 * out_size2 * out_size3`; and every
source offset that is read is at least 0 and below
`(in_size0 - 1) * in_stride0 + in_size1` (this holds for the four flag combinations,
so when both flags are clear). Moreover, for elements of `es > 0` bytes, when no byte
offset and no address overflows either (`PackNoOverflow`), two loop coordinates that
write a byte at the same address are equal: no destination element is written
twice. -/
theorem iree_ukernel_pack_offsets (p : iree_ukernel_pack_params_t)
    (hval : iree_ukernel_pack_validate p = iree_ukernel_status_t.ok)
    (hstride : p.out_stride0 ≥ p.out_size1 * p.out_size2 * p.out_size3)
    (hfit : PackOffsetsFit p) :
    (∀ l0 l1 l2 l3 m0 m1 m2 m3 : Int,
      PackLoopCoords p l0 l1 l2 l3 → PackLoopCoords p m0 m1 m2 m3 →
      pack_out_offset p l0 l1 l2 l3 = pack_out_offset p m0 m1 m2 m3 →
      l0 = m0 ∧ l1 = m1 ∧ l2 = m2 ∧ l3 = m3) ∧
    (∀ l0 l1 l2 l3 : Int, PackLoopCoords p l0 l1 l2 l3 →
      0 ≤ pack_out_offset p l0 l1 l2 l3 ∧
      pack_out_offset p l0 l1 l2 l3 <
        (p.out_size0 - 1) * p.out_stride0 + p.out_size1 * p.out_size2 * p.out_size3) ∧
    (∀ l0 l1 l2 l3 : Int, PackLoopCoords p l0 l1 l2 l3 →
      ¬ (pack_i0 p l0 l2 ≥ p.in_size0 ∨ pack_i1 p l1 l3 ≥ p.in_size1) →
      0 ≤ pack_in_offset p l0 l1 l2 l3 ∧
      pack_in_offset p l0 l1 l2 l3 < (p.in_size0 - 1) * p.in_stride0 + p.in_size1) ∧
    (∀ es : Int, 0 < es → PackNoOverflow p es →
      ∀ l0 l1 l2 l3 m0 m1 m2 m3 k k' : Int,
      PackLoopCoords p l0 l1 l2 l3 → PackLoopCoords p m0 m1 m2 m3 →
      0 ≤ k → k < es → 0 ≤ k' → k' < es →
      pack_out_addr p es l0 l1 l2 l3 k = pack_out_addr p es m0 m1 m2 m3 k' →
      l0 = m0 ∧ l1 = m1 ∧ l2 = m2 ∧ l3 = m3) := by
  have hdims := pack_dims_of_valid p hval
  unfold PackDimsValid at hdims
  obtain ⟨hE, hEin⟩ := hfit
  refine ⟨?_, ?_, ?_, ?_⟩
  · intro l0 l1 l2 l3 m0 m1 m2 m3 hl hm h
    exact pack_out_offset_injective p hval hstride hE l0 l1 l2 l3 m0 m1 m2 m3 hl hm h
  · intro l0 l1 l2 l3 hl
    obtain ⟨el, bl, _, _⟩ := pack_offsets_exact p hval hstride hE l0 l1 l2 l3 hl
    rw [el]
    exact phys_offset_bound p.out_stride0 p.out_size0 p.out_size1 p.out_size2
      p.out_size3 _ _ _ _ hstride bl.1 bl.2.1 bl.2.2.1 bl.2.2.2.1 bl.2.2.2.2.1
      bl.2.2.2.2.2.1 bl.2.2.2.2.2.2.1 bl.2.2.2.2.2.2.2
  · intro l0 l1 l2 l3 hl hread
    obtain ⟨_, _, hi0, hi1⟩ := pack_offsets_exact p hval hstride hE l0 l1 l2 l3 hl
    have hlt0 : pack_i0 p l0 l2 < p.in_size0 := by omega
    have hlt1 : pack_i1 p l1 l3 < p.in_size1 := by omega
    have h1 : 0 ≤ pack_i0 p l0 l2 * p.in_stride0 := Int.mul_nonneg hi0 hdims.1
    have h2 : pack_i0 p l0 l2 * p.in_stride0 ≤ (p.in_size0 - 1) * p.in_stride0 :=
      Int.mul_le_mul_of_nonneg_right (by omega) hdims.1
    unfold pack_in_extent at hEin
    unfold pack_in_offset
    rw [ssize_wrap_eq _ (by omega) (by omega)]
    constructor <;> omega
  · intro es hes hno l0 l1 l2 l3 m0 m1 m2 m3 k k' hl hm hk0 hk hk0' hk' h
    rw [pack_out_addr_exact p es hval hstride hes hno l0 l1 l2 l3 k hl hk0 hk,
      pack_out_addr_exact p es hval hstride hes hno m0 m1 m2 m3 k' hm hk0' hk'] at h
    have e := elem_addr_inj es (pack_out_offset p l0 l1 l2 l3)
      (pack_out_offset p m0 m1 m2 m3) k k' hk0 hk hk0' hk' (by linarith)
    exact pack_out_offset_injective p hval hstride hE l0 l1 l2 l3 m0 m1 m2 m3 hl hm e.1

theorem pack_example_offsets_fit : PackOffsetsFit pack_example_params := by
  unfold PackOffsetsFit pack_out_extent pack_in_extent
  decide

/-- Witness of C23 (amended): the example parameters (a 2x3 source packed into 2x3
tiles of 1x1, both flags clear) at the loop coordinates (1, 2, 0, 0), the last that
the loop nest goes through: the destination offset and the source offset are both 5,
below the bound 6. -/
theorem iree_ukernel_pack_offsets_witness :
    pack_out_offset pack_example_params 1 2 0 0 = 5 ∧
    pack_in_offset pack_example_params 1 2 0 0 = 5 ∧
    (0 ≤ pack_out_offset pack_example_params 1 2 0 0 ∧
      pack_out_offset pack_example_params 1 2 0 0 <
        (pack_example_params.out_size0 - 1) * pack_example_params.out_stride0 +
          pack_example_params.out_size1 * pack_example_params.out_size2 *
            pack_example_params.out_size3) ∧
    (0 ≤ pack_in_offset pack_example_params 1 2 0 0 ∧
      pack_in_offset pack_example_params 1 2 0 0 <
        (pack_example_params.in_size0 - 1) * pack_example_params.in_stride0 +
          pack_example_params.in_size1) :=
  ⟨by decide, by decide,
   (iree_ukernel_pack_offsets pack_example_params (by decide) (by decide)
     pack_example_offsets_fit).2.1 1 2 0 0 (by unfold PackLoopCoords; decide),
   (iree_ukernel_pack_offsets pack_example_params (by decide) (by decide)
     pack_example_offsets_fit).2.2.1 1 2 0 0 (by unfold PackLoopCoords; decide)
     (by decide)⟩

end Spec2Proof
